import Mathlib

/-!
# miniob: record codec and table mutation protocol

A shallow embedding of `Table::make_record` and of the mutation protocol of
`src/table.cpp`, together with the properties of the specification that were
checked against it.

Conventions of the embedding:
* a byte is a natural number; a buffer is a list of bytes;
* a C++ method that returns an `RC` and changes the objects it is given is a
  function returning the `RC` together with the new objects;
* `malloc` returns storage of indeterminate content, so each function that
  allocates takes the content of the fresh storage as an argument `junk`.
-/

namespace Miniob

/-! ## Return codes and attribute kinds -/

/-- Modelled from the spec: the enumeration `RC` of `common/rc.h`, which is
missing; these are the codes that `src/table.cpp` names, with `NOMEM` and
`RECORD_NOT_EXIST` for the failures of the heap accessor. -/
inductive RC where
  | SUCCESS
  | INVALID_ARGUMENT
  | UNIMPLENMENT
  | INTERNAL
  | NOMEM
  | RECORD_NOT_EXIST
  | RECORD_DUPLICATE_KEY
  | RECORD_INVALID_KEY
  | RECORD_EOF
  | SCHEMA_FIELD_MISSING
  | SCHEMA_FIELD_TYPE_MISMATCH
  | VARIABLE_NOT_VALID
  | FILE_NOT_EXIST
  | IOERR_OPEN
  | IOERR_WRITE
  deriving DecidableEq, Repr

/-- The enumeration `AttrType` of `src/value.h`. -/
inductive AttrType where
  | UNDEFINED
  | CHARS
  | TEXT
  | INTS
  | FLOATS
  | DATE
  | BOOLEANS
  deriving DecidableEq, Repr

/-- A byte (`char`), as its unsigned value. -/
abbrev Byte := Nat

/-! ## Values -/

/-- The class `Value` of `src/value.h`. The union `num_value_` (int, float,
date, bool over the same four bytes) is kept as the `int` that those four bytes
spell; a float is its bit pattern. `length_` is an `int` in the source that
holds a byte count. -/
structure Value where
  attr_type_ : AttrType := AttrType.UNDEFINED
  length_ : Nat := 0
  num_value_ : Int := 0
  str_value_ : List Byte := []
  is_null_ : Bool := false
  deriving DecidableEq, Repr

/-- The four bytes of a 32-bit `int`, least significant first. -/
def int_bytes (x : Int) : List Nat :=
  let u : Nat := (x % 4294967296).toNat
  [u % 256, u / 256 % 256, u / 65536 % 256, u / 16777216 % 256]

/-- The `int` spelled by the first four bytes of a buffer (`*(int *)data`). -/
def bytes_int (b : List Nat) : Int :=
  let u : Nat := b.getD 0 0 % 256 + 256 * (b.getD 1 0 % 256) + 65536 * (b.getD 2 0 % 256)
    + 16777216 * (b.getD 3 0 % 256)
  if u < 2147483648 then (u : Int) else (u : Int) - 4294967296

/-- The C function `strlen`: the number of bytes before the first NUL. -/
def strlen (s : List Byte) : Nat :=
  (s.takeWhile (fun b => b != 0)).length

/-- The method `std::string::c_str`: the bytes followed by a NUL. -/
def c_str (s : List Byte) : List Byte :=
  s ++ [0]

namespace Value

/-- The accessor `Value::attr_type` of `src/value.h`. -/
def attr_type (v : Value) : AttrType :=
  v.attr_type_

/-- The accessor `Value::length` of `src/value.h`. -/
def length (v : Value) : Nat :=
  v.length_

/-- Modelled from the spec: `Value::data` is declared in `src/value.h` and
defined in `value.cpp`, which is missing. It points at the stored bytes of the
value: the NUL-terminated string of a CHARS or TEXT value, the four bytes of
the number otherwise. -/
def data (v : Value) : List Byte :=
  match v.attr_type_ with
  | AttrType.CHARS => c_str v.str_value_
  | AttrType.TEXT => c_str v.str_value_
  | _ => int_bytes v.num_value_

/-- Modelled from the spec: `Value::get_string` is declared in `src/value.h` and
defined in `value.cpp`, which is missing. For a CHARS or TEXT value it is the
stored string; the conversion of the other kinds to text is not modelled (the
embedded code asks only TEXT values for their string). -/
def get_string (v : Value) : List Byte :=
  v.str_value_

/-- Modelled from the spec: `Value::get_date` is declared in `src/value.h` and
defined in `value.cpp`, which is missing. For a DATE value it is the stored
date; the conversion of the other kinds is not modelled (the embedded code asks
only DATE values for their date). -/
def get_date (v : Value) : Int :=
  v.num_value_

end Value

/-! ## Schema -/

/-- Modelled from the spec: `FieldMeta` (the spec's `FieldDescriptor`), whose
declaration is missing; the fields are the accessors `name()`, `type()`,
`offset()` and `len()` that `src/table.cpp` calls. -/
structure FieldMeta where
  name : String
  type : AttrType
  offset : Nat
  len : Nat
  deriving DecidableEq, Repr

/-- Modelled from the spec: `IndexMeta` (the spec's `IndexDescriptor`), whose
declaration is missing: a name, the names of the indexed fields and the
uniqueness flag. -/
structure IndexMeta where
  name : String
  fields : List String
  unique : Bool
  deriving DecidableEq, Repr

/-- Modelled from the spec: `TableMeta` (the spec's `SchemaDescriptor`), whose
declaration is missing; `field_num()` is the length of `fields`, the first
`sys_field_num` of which are system fields. -/
structure TableMeta where
  name : String
  sys_field_num : Nat
  fields : List FieldMeta
  record_size : Nat
  indexes : List IndexMeta
  deriving DecidableEq, Repr

namespace TableMeta

/-- The accessor `TableMeta::field_num`. -/
def field_num (m : TableMeta) : Nat :=
  m.fields.length

/-- The fields that `Table::make_record` pairs with the values: those from
index `sys_field_num` on. -/
def normal_fields (m : TableMeta) : List FieldMeta :=
  m.fields.drop m.sys_field_num

end TableMeta

/-! ## Records -/

/-- Modelled from the spec: `RID`, whose declaration is missing: the page number
and the slot number of a record in the heap file. -/
structure RID where
  page_num : Int
  slot_num : Int
  deriving DecidableEq, Repr

/-- Modelled from the spec: the class `Record`, whose declaration is missing: a
record identifier and the buffer of the record; `data()` of a record without
buffer is a null pointer, here `none`. -/
structure Record where
  rid : RID := RID.mk 0 0
  data : Option (List Byte) := none
  deriving DecidableEq, Repr

/-! ## The record codec: `Table::make_record` -/

/-- The libc function `islower` in the C locale. -/
def islower (b : Nat) : Bool :=
  decide (97 ≤ b) && decide (b ≤ 122)

/-- The byte stored for a TEXT byte (`src/table.cpp`, lines 405-409):
`value.data()[i] - 32` when `islower`, the byte itself otherwise. -/
def text_byte (b : Nat) : Nat :=
  if islower b then b - 32 else b

/-- The loop `for (i = 0; i < n; i++) buf[off + i] = g(src[i])`. With `g` the
identity it is `memcpy(buf + off, src, n)`; with `g = text_byte` it is the loop
of lines 404-410 of `src/table.cpp`. A read past the end of `src` yields 0 and a
write past the end of `buf` is dropped; both are undefined in C++, and the
theorems that depend on them assume a layout where neither happens. -/
def copy_bytes (g : Byte → Byte) (src : List Byte) (off : Nat) : Nat → List Byte → List Byte
  | 0, buf => buf
  | n + 1, buf => (copy_bytes g src off n buf).set (off + n) (g (src.getD n 0))

/-- The variable `copy_len` of `Table::make_record` (lines 387-396) when the
field is copied: the field length, lowered to `data_len + 1` for a CHARS or
TEXT field longer than the value. -/
def copy_len (field : FieldMeta) (value : Value) : Nat :=
  if field.type = AttrType.CHARS ∨ field.type = AttrType.TEXT then
    if field.len > value.length then value.length + 1 else field.len
  else field.len

/-- The body of the second loop of `Table::make_record` (lines 385-411) for one
field and its value, on the buffer `record_data`. -/
def make_record_field (field : FieldMeta) (value : Value) (record_data : List Byte) :
    Except RC (List Byte) :=
  if field.type = AttrType.TEXT ∧ strlen (c_str value.get_string) > 65535 then
    Except.error RC.VARIABLE_NOT_VALID
  else if field.type = AttrType.DATE ∧ value.get_date = -1 then
    Except.error RC.VARIABLE_NOT_VALID
  else if field.type ≠ AttrType.TEXT then
    Except.ok (copy_bytes id value.data field.offset (copy_len field value) record_data)
  else
    Except.ok (copy_bytes text_byte value.data field.offset (copy_len field value) record_data)

/-- The first loop of `Table::make_record` (lines 368-377): `true` when some
value has another kind than its field. -/
def type_mismatch : List FieldMeta → List Value → Bool
  | field :: fields, value :: values =>
    if field.type ≠ value.attr_type then true else type_mismatch fields values
  | _, _ => false

/-- The second loop of `Table::make_record` (lines 384-412). -/
def copy_fields : List FieldMeta → List Value → List Byte → Except RC (List Byte)
  | field :: fields, value :: values, record_data =>
    match make_record_field field value record_data with
    | Except.error rc => Except.error rc
    | Except.ok record_data1 => copy_fields fields values record_data1
  | _, _, record_data => Except.ok record_data

/-- The storage returned by `malloc(n)`: `n` bytes of indeterminate content. -/
def malloc (n : Nat) (junk : Nat → Byte) : List Byte :=
  (List.range n).map junk

/-- The function `Table::make_record` (`src/table.cpp`, lines 360-416).
`values` holds the `value_num` values; the result is the return code and the
record, which gets its data buffer on success only. -/
def make_record (table_meta_ : TableMeta) (values : List Value) (record : Record)
    (junk : Nat → Byte) : RC × Record :=
  if values.length + table_meta_.sys_field_num ≠ table_meta_.field_num then
    (RC.SCHEMA_FIELD_MISSING, record)
  else if type_mismatch table_meta_.normal_fields values then
    (RC.SCHEMA_FIELD_TYPE_MISMATCH, record)
  else
    match copy_fields table_meta_.normal_fields values (malloc table_meta_.record_size junk) with
    | Except.error rc => (rc, record)
    | Except.ok record_data => (RC.SUCCESS, { record with data := some record_data })

/-! ## Reading a field back -/

/-- The `len` bytes of a buffer from position `off` on. -/
def read_bytes (record_data : List Byte) (off len : Nat) : List Byte :=
  (List.range len).map (fun j => record_data.getD (off + j) 0)

/-- Modelled from the spec: the decoding of one field of a record
(`RowTuple::cell_at`, which calls `Value::set_data(data + offset, len)`; both
are in missing files). A CHARS or TEXT field is the string of the bytes before
the first NUL among the `len` bytes of the field (`strnlen`); a field of another
kind is the number spelled by its first four bytes. -/
def read_field (field : FieldMeta) (record_data : List Byte) : Value :=
  let bytes := read_bytes record_data field.offset field.len
  if field.type = AttrType.CHARS ∨ field.type = AttrType.TEXT then
    { attr_type_ := field.type, length_ := strlen bytes,
      str_value_ := bytes.takeWhile (fun b => b != 0) }
  else
    { attr_type_ := field.type, length_ := field.len, num_value_ := bytes_int bytes }

/-! ## Outcomes -/

/-- The outcome of a call: it returns a code and leaves a state, or the process
stops at a failed assertion or at the use of a null pointer, or the fuel of a
recursive call ran out. -/
inductive Outcome (σ : Type) where
  | ret (rc : RC) (state : σ)
  | abort
  | out_of_fuel

/-! ## The heap accessor -/

/-- Modelled from the spec: the heap accessor (`RecordFileHandler`, whose code
is missing). It holds the live records in scan order; `next_rid` is the slot
that the page layer hands out for the next insertion, `none` when it has no
room. -/
structure RecordFileHandler where
  records : List Record
  next_rid : List Record → Option RID

namespace RecordFileHandler

/-- The record identifiers that a full scan of the heap visits. -/
def rids (h : RecordFileHandler) : List RID :=
  h.records.map Record.rid

/-- The slot allocator never hands out the identifier of a live record. -/
def fresh (h : RecordFileHandler) : Prop :=
  ∀ (records : List Record) (rid : RID),
    h.next_rid records = some rid → rid ∉ records.map Record.rid

/-- Modelled from the spec: `insert(bytes, len) -> Result<Rid>`. The first
`record_size` bytes are stored under a fresh rid, which is written to `rid`. -/
def insert_record (h : RecordFileHandler) (data : List Byte) (record_size : Nat) (rid : RID) :
    RC × RecordFileHandler × RID :=
  match h.next_rid h.records with
  | none => (RC.NOMEM, h, rid)
  | some new_rid =>
    (RC.SUCCESS,
      { h with records := h.records ++ [{ rid := new_rid, data := some (data.take record_size) }] },
      new_rid)

/-- Modelled from the spec: `recover_insert(bytes, rid) -> Result<()>`. The
record is stored under the given rid, which must be free. -/
def recover_insert_record (h : RecordFileHandler) (data : List Byte) (record_size : Nat)
    (rid : RID) : RC × RecordFileHandler :=
  if rid ∈ h.rids then (RC.RECORD_DUPLICATE_KEY, h)
  else
    (RC.SUCCESS,
      { h with records := h.records ++ [{ rid := rid, data := some (data.take record_size) }] })

/-- Modelled from the spec: `delete(rid) -> Result<()>`. -/
def delete_record (h : RecordFileHandler) (rid : RID) : RC × RecordFileHandler :=
  if rid ∈ h.rids then
    (RC.SUCCESS, { h with records := h.records.filter (fun r => decide (r.rid ≠ rid)) })
  else (RC.RECORD_NOT_EXIST, h)

/-- Modelled from the spec: `update(old_rid, new_bytes) -> Result<()>`. The
bytes stored at the rid of the old record are overwritten. -/
def update_record (h : RecordFileHandler) (old_rid : RID) (new_data : List Byte) :
    RC × RecordFileHandler :=
  if old_rid ∈ h.rids then
    (RC.SUCCESS,
      { h with records :=
          h.records.map (fun r => if r.rid = old_rid then { r with data := some new_data } else r) })
  else (RC.RECORD_NOT_EXIST, h)

/-- Modelled from the spec: `visit(rid, readonly, f) -> Result<()>` with a
visitor that reads: the record stored at `rid`, if any. -/
def visit_record (h : RecordFileHandler) (rid : RID) : Option Record :=
  h.records.find? (fun r => decide (r.rid = rid))

end RecordFileHandler

/-! ## The index accessor -/

/-- Modelled from the spec: the index accessor (`BplusTreeIndex`, whose code is
missing): the descriptor, the indexed fields and the entries, each a key with
the rid it maps to. -/
structure Index where
  index_meta : IndexMeta
  field_metas : List FieldMeta
  entries : List (List Byte × RID)
  deriving DecidableEq, Repr

namespace Index

/-- The key of a record: the bytes of its indexed fields. -/
def key (index : Index) (record : List Byte) : List Byte :=
  (index.field_metas.map (fun f => read_bytes record f.offset f.len)).flatten

/-- The record identifiers that have an entry in the index. -/
def rids (index : Index) : List RID :=
  index.entries.map Prod.snd

/-- Modelled from the spec: `insert_entry(bytes, rid) -> Result<()>`. The entry
is refused as a duplicate when it is already there, or when the index is unique
and holds the key already. -/
def insert_entry (index : Index) (record : List Byte) (rid : RID) : RC × Index :=
  if (index.key record, rid) ∈ index.entries then (RC.RECORD_DUPLICATE_KEY, index)
  else if index.index_meta.unique = true ∧ index.key record ∈ index.entries.map Prod.fst then
    (RC.RECORD_DUPLICATE_KEY, index)
  else (RC.SUCCESS, { index with entries := index.entries ++ [(index.key record, rid)] })

/-- The entries without the first occurrence of the entry `e`. -/
def erase_entry (e : List Byte × RID) : List (List Byte × RID) → List (List Byte × RID)
  | [] => []
  | x :: rest => if x = e then rest else x :: erase_entry e rest

/-- Modelled from the spec: `delete_entry(bytes, rid) -> Result<()>`. The entry
of the record's key and rid is removed; it is an error when there is none. -/
def delete_entry (index : Index) (record : List Byte) (rid : RID) : RC × Index :=
  if (index.key record, rid) ∈ index.entries then
    (RC.SUCCESS, { index with entries := erase_entry (index.key record, rid) index.entries })
  else (RC.RECORD_INVALID_KEY, index)

end Index

/-! ## Tables, views and the database -/

/-- Modelled from the spec: the type of the member `meta_` of a view table (the
spec's `ViewInfo`), whose declaration is missing, with the members that
`src/table.cpp` uses: for each view column the base table (a `Table *`, here the
position of the table in the database) and the base field (a `const FieldMeta *`,
here the field it points at), the base rids that compose each view rid, and the
`updatable` flag. -/
structure ViewMeta where
  tables : List Nat := []
  fields : List FieldMeta := []
  rid_map : List (RID × List RID) := []
  updatable : Bool := false
  deriving DecidableEq, Repr

/-- Modelled from the spec: the class `Table`, whose declaration (`table.h`) is
missing, with the members that the functions of `src/table.cpp` use. -/
structure Table where
  table_meta_ : TableMeta
  base_dir_ : String := ""
  record_handler_ : RecordFileHandler
  indexes_ : List Index := []
  view_table_flag : Bool := false
  meta_ : ViewMeta := {}

/-- What a `PhysicalOperator *` of `view_rebuild_map` points at: a
`ProjectPhysicalOperator` (`src/project_physical_operator.h`) with its flag
`select_expr_flag_`, or an operator of another class. -/
inductive PhysicalOperator where
  | project (select_expr_flag_ : Bool)
  | other
  deriving DecidableEq, Repr

/-- The content of a file. -/
inductive FileData where
  | table_meta (table_meta : TableMeta)
  | torn
  | index_file
  | data_file
  deriving DecidableEq, Repr

/-- The files on disk, by path. -/
abbrev Disk := List (String × FileData)

/-- The state that the table functions run in: the tables, the global
`view_rebuild_map` of `src/table_view.h` and the files. -/
structure Db where
  tables : List Table := []
  view_rebuild_map : List (String × PhysicalOperator) := []
  files : Disk := []

namespace Disk

/-- The content of the file at `path`. -/
def read (files : Disk) (path : String) : Option FileData :=
  (files.find? (fun f => f.1 == path)).map Prod.snd

/-- Creates or overwrites the file at `path`. -/
def write (files : Disk) (path : String) (data : FileData) : Disk :=
  files.filter (fun f => f.1 != path) ++ [(path, data)]

/-- The system call `rename(from, to)` on an existing file. -/
def rename (files : Disk) (src dst : String) : Disk :=
  match read files src with
  | none => files
  | some data => write (files.filter (fun f => f.1 != src)) dst data

end Disk

namespace Table

/-- The method `Table::name`. -/
def name (t : Table) : String :=
  t.table_meta_.name

/-- The loop of `Table::insert_entry_of_indexes` (`src/table.cpp`, lines
582-591): the entry is inserted into the indexes in order, up to the first
failure. -/
def insert_entry_of_indexes : List Index → List Byte → RID → RC × List Index
  | [], _, _ => (RC.SUCCESS, [])
  | index :: rest, record, rid =>
    let r := index.insert_entry record rid
    if r.1 ≠ RC.SUCCESS then (r.1, r.2 :: rest)
    else
      let s := insert_entry_of_indexes rest record rid
      (s.1, r.2 :: s.2)

/-- The loop of `Table::delete_entry_of_indexes` (`src/table.cpp`, lines
593-604): `rc` is the code of the last deletion made (`RC::SUCCESS` before the
first); the loop stops at a failure unless it is `RC::RECORD_INVALID_KEY` and
`error_on_not_exists` is set. -/
def delete_entry_loop : List Index → List Byte → RID → Bool → RC → RC × List Index
  | [], _, _, _, rc => (rc, [])
  | index :: rest, record, rid, error_on_not_exists, _ =>
    let r := index.delete_entry record rid
    if r.1 ≠ RC.SUCCESS ∧ (r.1 ≠ RC.RECORD_INVALID_KEY ∨ error_on_not_exists = false) then
      (r.1, r.2 :: rest)
    else
      let s := delete_entry_loop rest record rid error_on_not_exists r.1
      (s.1, r.2 :: s.2)

/-- The function `Table::delete_entry_of_indexes` (`src/table.cpp`, lines
593-604). -/
def delete_entry_of_indexes (indexes_ : List Index) (record : List Byte) (rid : RID)
    (error_on_not_exists : Bool) : RC × List Index :=
  delete_entry_loop indexes_ record rid error_on_not_exists RC.SUCCESS

/-- The part of `Table::insert_record` that works on the table's own heap and
indexes (`src/table.cpp`, lines 235-256). `record.data()` of a record without a
buffer is a null pointer, whose use stops the process. -/
def insert_record_own (t : Table) (record : Record) : Outcome (Table × Record) :=
  match record.data with
  | none => Outcome.abort
  | some data =>
    let h := t.record_handler_.insert_record data t.table_meta_.record_size record.rid
    if h.1 ≠ RC.SUCCESS then Outcome.ret h.1 (t, record)
    else
      let record1 : Record := { record with rid := h.2.2 }
      let i := insert_entry_of_indexes t.indexes_ data record1.rid
      if i.1 ≠ RC.SUCCESS then
        let d := delete_entry_of_indexes i.2 data record1.rid false
        let h2 := h.2.1.delete_record record1.rid
        Outcome.ret i.1 ({ t with record_handler_ := h2.2, indexes_ := d.2 }, record1)
      else Outcome.ret i.1 ({ t with record_handler_ := h.2.1, indexes_ := i.2 }, record1)

/-- The loop of `Table::delete_record` over the indexes (`src/table.cpp`, lines
569-577): each deletion is asserted to succeed. -/
def delete_entries_asserted : List Index → List Byte → RID → Option (List Index)
  | [], _, _ => some []
  | index :: rest, record, rid =>
    let r := index.delete_entry record rid
    if r.1 ≠ RC.SUCCESS then none
    else (delete_entries_asserted rest record rid).map (fun rest1 => r.2 :: rest1)

/-- The part of `Table::delete_record` that works on the table's own heap and
indexes (`src/table.cpp`, lines 569-579). -/
def delete_record_own (t : Table) (record : Record) : Outcome Table :=
  match record.data with
  | none => if t.indexes_ = [] then
      let h := t.record_handler_.delete_record record.rid
      Outcome.ret h.1 { t with record_handler_ := h.2 }
    else Outcome.abort
  | some data =>
    match delete_entries_asserted t.indexes_ data record.rid with
    | none => Outcome.abort
    | some indexes1 =>
      let h := t.record_handler_.delete_record record.rid
      Outcome.ret h.1 { t with record_handler_ := h.2, indexes_ := indexes1 }

/-- The part of `Table::update_record` that works on the table's own heap and
indexes (`src/table.cpp`, lines 696-715). The bytes of the old record are used
by the index deletions and those of the new record by the index insertions and
by the heap; the use of a record without a buffer stops the process. -/
def update_record_own (t : Table) (old_record new_record : Record) : Outcome Table :=
  if old_record.rid ≠ new_record.rid then Outcome.abort
  else
    match t.indexes_, old_record.data with
    | _ :: _, none => Outcome.abort
    | indexes_, old_data =>
      let d := delete_entry_of_indexes indexes_ (old_data.getD []) old_record.rid false
      if d.1 ≠ RC.SUCCESS then Outcome.ret d.1 { t with indexes_ := d.2 }
      else
        match new_record.data with
        | none => Outcome.abort
        | some new_data =>
          let i := insert_entry_of_indexes d.2 new_data new_record.rid
          if i.1 ≠ RC.SUCCESS then Outcome.ret i.1 { t with indexes_ := i.2 }
          else
            let h := t.record_handler_.update_record old_record.rid new_data
            Outcome.ret h.1 { t with record_handler_ := h.2, indexes_ := i.2 }

/-- The function `Table::get_record` (`src/table.cpp`, lines 263-281): the
`record_size` bytes stored at `rid` are copied into a fresh buffer, which they
fill, and the record gets the rid and the buffer. -/
def get_record (t : Table) (rid : RID) (record : Record) : RC × Record :=
  match t.record_handler_.visit_record rid with
  | none => (RC.RECORD_NOT_EXIST, record)
  | some record_src =>
    (RC.SUCCESS,
      { rid := record_src.rid,
        data := some (read_bytes (record_src.data.getD []) 0 t.table_meta_.record_size) })

end Table

/-! ## Sparse encoding -/

namespace Value

/-- Modelled from the spec: `Value::set_int` (defined in `value.cpp`, which is
missing) makes the value an INT of four bytes. -/
def set_int (v : Value) (val : Int) : Value :=
  { v with attr_type_ := AttrType.INTS, num_value_ := val, length_ := 4 }

/-- Modelled from the spec: `Value::set_float` (defined in `value.cpp`, which is
missing) makes the value a FLOAT of four bytes; `bits` is the bit pattern of the
float. -/
def set_float (v : Value) (bits : Int) : Value :=
  { v with attr_type_ := AttrType.FLOATS, num_value_ := bits, length_ := 4 }

/-- Modelled from the spec: `Value::set_date` (defined in `value.cpp`, which is
missing) makes the value a DATE of four bytes. -/
def set_date (v : Value) (val : Int) : Value :=
  { v with attr_type_ := AttrType.DATE, num_value_ := val, length_ := 4 }

/-- Modelled from the spec: `Value::set_string` (defined in `value.cpp`, which
is missing) stores the C string `s`; the value becomes a CHARS value, as the
constructor `Value(const char *s, int len)` needs. -/
def set_string (v : Value) (s : List Byte) : Value :=
  { v with attr_type_ := AttrType.CHARS, str_value_ := s.takeWhile (fun b => b != 0),
           length_ := strlen s }

/-- The bit pattern of the float `114.514`. -/
def null_float_bits : Int := 1122305835

/-- The date that `set_date("9191-91-91")` stores: the one that
`Value::check_null` compares with. -/
def null_date : Int := 91919191

/-- The string `"xzhseh"`. -/
def null_chars : List Byte := [120, 122, 104, 115, 101, 104]

/-- The string `"boring is null"`. -/
def null_text : List Byte := [98, 111, 114, 105, 110, 103, 32, 105, 115, 32, 110, 117, 108, 108]

/-- The function `Value::set_null` (`src/value.h`, lines 66-88); `none` is the
failed `assert(false)` of the default case. -/
def set_null (v : Value) (field_type : AttrType) : Option Value :=
  match field_type with
  | AttrType.INTS => some (v.set_int 1919810)
  | AttrType.FLOATS => some (v.set_float null_float_bits)
  | AttrType.DATE => some (v.set_date null_date)
  | AttrType.CHARS => some (v.set_string null_chars)
  | AttrType.TEXT => some (v.set_string null_text)
  | _ => none

end Value

/-- Modelled from the spec: `RowTuple::cell_at` (in a missing file) on a tuple
whose schema is the field list `fields`: the cell `i` is the decoding of the
field `i` of the list. -/
def cell_at (fields : List FieldMeta) (record_data : List Byte) (i : Nat) : RC × Value :=
  match fields.get? i with
  | none => (RC.INVALID_ARGUMENT, {})
  | some field => (RC.SUCCESS, read_field field record_data)

namespace Table

/-- The function `Table::make_record` on a table: see `Miniob.make_record`. -/
def make_record (t : Table) (values : List Value) (record : Record) (junk : Nat → Byte) :
    RC × Record :=
  Miniob.make_record t.table_meta_ values record junk

/-- The loop of `Table::make_record_by_values` (`src/table.cpp`, lines 342-357):
for each field the first value paired with it, or the null of its kind; `none`
is the failed assertion of `Value::set_null`. -/
def values_or_null (vec : List (FieldMeta × Value)) : List FieldMeta → Option (List Value)
  | [] => some []
  | field :: fields =>
    match vec.find? (fun p => decide (field = p.1)) with
    | some p => (values_or_null vec fields).map (fun vals => p.2 :: vals)
    | none =>
      match Value.set_null {} field.type with
      | none => none
      | some val => (values_or_null vec fields).map (fun vals => val :: vals)

/-- The function `Table::make_record_by_values` (`src/table.cpp`, lines
340-359). -/
def make_record_by_values (t : Table) (vec : List (FieldMeta × Value)) (record : Record)
    (junk : Nat → Byte) : Outcome Record :=
  match values_or_null vec t.table_meta_.normal_fields with
  | none => Outcome.abort
  | some vals =>
    let r := t.make_record vals record junk
    Outcome.ret r.1 r.2

/-- The loop of `Table::make_record_update_new` (`src/table.cpp`, lines
318-336), at the position `j = i - sys_field_num` of the field: for each field
the first value paired with it, or the cell `j` of the tuple of the old record
(a tuple over all the fields of the table). `none` is the use of an old record
without buffer. -/
def values_or_old (vec : List (FieldMeta × Value)) (all_fields : List FieldMeta)
    (old_data : Option (List Byte)) : Nat → List FieldMeta → Option (RC × List Value)
  | _, [] => some (RC.SUCCESS, [])
  | j, field :: fields =>
    match vec.find? (fun p => decide (field = p.1)) with
    | some p =>
      (values_or_old vec all_fields old_data (j + 1) fields).map (fun r => (r.1, p.2 :: r.2))
    | none =>
      match old_data with
      | none => none
      | some data =>
        let c := cell_at all_fields data j
        if c.1 ≠ RC.SUCCESS then some (c.1, [])
        else (values_or_old vec all_fields old_data (j + 1) fields).map (fun r => (r.1, c.2 :: r.2))

/-- The function `Table::make_record_update_new` (`src/table.cpp`, lines
310-338). The result of `get_record` is not looked at. -/
def make_record_update_new (t : Table) (vec : List (FieldMeta × Value)) (record : Record)
    (rid : RID) (junk : Nat → Byte) : Outcome Record :=
  let old_record := (t.get_record rid {}).2
  match values_or_old vec t.table_meta_.fields old_record.data 0 t.table_meta_.normal_fields with
  | none => Outcome.abort
  | some (rc, vals) =>
    if rc ≠ RC.SUCCESS then Outcome.ret rc record
    else
      let r := t.make_record vals record junk
      Outcome.ret r.1 r.2

end Table

/-! ## Writes through a view -/

namespace Db

/-- The table that a `Table *` points at. -/
def table (db : Db) (self : Nat) : Option Table :=
  db.tables.get? self

/-- The database after the table at `self` has become `t`. -/
def set_table (db : Db) (self : Nat) (t : Table) : Db :=
  { db with tables := db.tables.set self t }

/-- The expression `dynamic_cast<ProjectPhysicalOperator *>(view_rebuild_map[name].get())`:
the flag `select_expr_flag_` of the projection registered under the name, `none`
for a null pointer. -/
def project_oper (db : Db) (name : String) : Option Bool :=
  match (db.view_rebuild_map.find? (fun e => e.1 == name)).map Prod.snd with
  | some (PhysicalOperator.project select_expr_flag_) => some select_expr_flag_
  | _ => none

end Db

/-- The statement `table_result_map[table].push_back(x)` on a
`std::unordered_map`, kept in the order in which its keys were first used. -/
def push_result {α : Type} (table_result_map : List (Nat × List α)) (table : Nat) (x : α) :
    List (Nat × List α) :=
  if table_result_map.any (fun e => e.1 == table) then
    table_result_map.map (fun e => if e.1 = table then (e.1, e.2 ++ [x]) else e)
  else table_result_map ++ [(table, [x])]

/-- The expression `rid_map[rid]` on a `std::unordered_map`: the stored vector,
and the map, which gets an empty vector for a key that it did not have. -/
def rid_map_at (rid_map : List (RID × List RID)) (rid : RID) :
    List RID × List (RID × List RID) :=
  match rid_map.find? (fun e => decide (e.1 = rid)) with
  | some e => (e.2, rid_map)
  | none => ([], rid_map ++ [(rid, [])])

namespace Table

/-- The first loop of `Table::insert_map_into_tables` (`src/table.cpp`, lines
204-211), from cell `i` on: the cells of the record grouped by the base table of
their column; `none` is an access past the end of `meta_.tables` or
`meta_.fields`. -/
def cells_by_table (t : Table) (record_data : List Byte) :
    List Nat → List (Nat × List (FieldMeta × Value)) → Option (List (Nat × List (FieldMeta × Value)))
  | [], table_result_map => some table_result_map
  | i :: rest, table_result_map =>
    match t.meta_.tables.get? i, t.meta_.fields.get? i with
    | some table, some field =>
      cells_by_table t record_data rest
        (push_result table_result_map table (field, (cell_at t.table_meta_.fields record_data i).2))
    | _, _ => none

/-- The second loop of `Table::insert_map_into_tables` (`src/table.cpp`, lines
212-222): a record is made for each base table and inserted into it; the codes
of both calls are logged and dropped. `insert` is `Table::insert_record`. -/
def insert_into_tables (insert : Db → Nat → Record → Outcome (Db × Record)) (junk : Nat → Byte) :
    List (Nat × List (FieldMeta × Value)) → Db → Outcome Db
  | [], db => Outcome.ret RC.SUCCESS db
  | (table, vec) :: rest, db =>
    match db.table table with
    | none => Outcome.abort
    | some base =>
      match base.make_record_by_values vec {} junk with
      | Outcome.ret _ record =>
        match insert db table record with
        | Outcome.ret _ (db1, _) => insert_into_tables insert junk rest db1
        | Outcome.abort => Outcome.abort
        | Outcome.out_of_fuel => Outcome.out_of_fuel
      | Outcome.abort => Outcome.abort
      | Outcome.out_of_fuel => Outcome.out_of_fuel

/-- The function `Table::insert_map_into_tables` (`src/table.cpp`, lines
195-223) of the view `t`. It returns nothing: the code of the outcome is
`RC::SUCCESS`. -/
def insert_map_into_tables (insert : Db → Nat → Record → Outcome (Db × Record))
    (junk : Nat → Byte) (db : Db) (t : Table) (record : Record) : Outcome Db :=
  match t.table_meta_.fields, record.data with
  | [], _ => Outcome.ret RC.SUCCESS db
  | _ :: _, none => Outcome.abort
  | fields, some data =>
    match cells_by_table t data (List.range fields.length) [] with
    | none => Outcome.abort
    | some table_result_map => insert_into_tables insert junk table_result_map db

/-- The body of `Table::insert_record` (`src/table.cpp`, lines 225-257) on the
table at `self`; `insert` is the function itself, for the calls on the base
tables of a view. -/
def insert_record_body (insert : Db → Nat → Record → Outcome (Db × Record)) (junk : Nat → Byte)
    (db : Db) (self : Nat) (record : Record) : Outcome (Db × Record) :=
  match db.table self with
  | none => Outcome.abort
  | some t =>
    let own (db1 : Db) : Outcome (Db × Record) :=
      match db1.table self with
      | none => Outcome.abort
      | some t1 =>
        match t1.insert_record_own record with
        | Outcome.ret rc (t2, record1) => Outcome.ret rc (db1.set_table self t2, record1)
        | Outcome.abort => Outcome.abort
        | Outcome.out_of_fuel => Outcome.out_of_fuel
    if t.view_table_flag then
      match db.project_oper t.name with
      | none => Outcome.abort
      | some select_expr_flag_ =>
        if select_expr_flag_ then Outcome.ret RC.FILE_NOT_EXIST (db, record)
        else
          match insert_map_into_tables insert junk db t record with
          | Outcome.ret _ db1 => own db1
          | Outcome.abort => Outcome.abort
          | Outcome.out_of_fuel => Outcome.out_of_fuel
    else own db

/-- The function `Table::insert_record` (`src/table.cpp`, lines 225-257) on the
table at `self`. The fuel bounds the depth of the calls from a view to its base
tables; a table that is not a view needs none. -/
def insert_record (junk : Nat → Byte) : Nat → Db → Nat → Record → Outcome (Db × Record)
  | 0 => insert_record_body (fun _ _ _ => Outcome.out_of_fuel) junk
  | fuel + 1 => insert_record_body (insert_record junk fuel) junk

/-- The loop of the view branch of `Table::delete_record` (`src/table.cpp`,
lines 552-567) from position `i` on, with the set `table_deleted`; `delete` is
`Table::delete_record`. -/
def delete_in_tables (delete : Db → Nat → Record → Outcome Db) (t : Table) (rid_vec : List RID) :
    List Nat → List Nat → Db → Outcome Db
  | [], _, db => Outcome.ret RC.SUCCESS db
  | i :: rest, table_deleted, db =>
    match t.meta_.tables.get? i, rid_vec.get? i with
    | some table, some rid =>
      if table ∈ table_deleted then delete_in_tables delete t rid_vec rest table_deleted db
      else
        match db.table table with
        | none => Outcome.abort
        | some base =>
          let g := base.get_record rid {}
          if g.1 ≠ RC.SUCCESS then Outcome.ret g.1 db
          else
            match delete db table g.2 with
            | Outcome.ret rc db1 =>
              if rc ≠ RC.SUCCESS then Outcome.ret rc db1
              else delete_in_tables delete t rid_vec rest (table :: table_deleted) db1
            | Outcome.abort => Outcome.abort
            | Outcome.out_of_fuel => Outcome.out_of_fuel
    | _, _ => Outcome.abort

/-- The body of `Table::delete_record` (`src/table.cpp`, lines 542-580) on the
table at `self`; `delete` is the function itself, for the calls on the base
tables of a view. -/
def delete_record_body (delete : Db → Nat → Record → Outcome Db) (db : Db) (self : Nat)
    (record : Record) : Outcome Db :=
  match db.table self with
  | none => Outcome.abort
  | some t =>
    let own (db1 : Db) : Outcome Db :=
      match db1.table self with
      | none => Outcome.abort
      | some t1 =>
        match t1.delete_record_own record with
        | Outcome.ret rc t2 => Outcome.ret rc (db1.set_table self t2)
        | Outcome.abort => Outcome.abort
        | Outcome.out_of_fuel => Outcome.out_of_fuel
    if t.view_table_flag then
      if t.meta_.updatable = false then Outcome.ret RC.UNIMPLENMENT db
      else
        match db.project_oper t.name with
        | none => Outcome.abort
        | some _ =>
          let m := rid_map_at t.meta_.rid_map record.rid
          let t0 : Table := { t with meta_ := { t.meta_ with rid_map := m.2 } }
          match delete_in_tables delete t0 m.1 (List.range m.1.length) [] (db.set_table self t0) with
          | Outcome.ret rc db1 => if rc ≠ RC.SUCCESS then Outcome.ret rc db1 else own db1
          | Outcome.abort => Outcome.abort
          | Outcome.out_of_fuel => Outcome.out_of_fuel
    else own db

/-- The function `Table::delete_record` (`src/table.cpp`, lines 542-580) on the
table at `self`, with the fuel of the calls from a view to its base tables. -/
def delete_record : Nat → Db → Nat → Record → Outcome Db
  | 0 => delete_record_body (fun _ _ _ => Outcome.out_of_fuel)
  | fuel + 1 => delete_record_body (delete_record fuel)

end Table

namespace Table

/-- The first loop of `Table::update_record_real_records` (`src/table.cpp`,
lines 649-660) from cell `i` on: the cells of the new record grouped by base
table, and for each base table the base rid recorded at the first of its
columns. `none` is an access past the end of `meta_.tables`, of `meta_.fields`
or of the vector `rid_map[old_rid]`. -/
def cells_and_rids (t : Table) (record_data : List Byte) (old_rid : RID) :
    List Nat → List (Nat × List (FieldMeta × Value)) → List (Nat × RID) →
      Option (List (Nat × List (FieldMeta × Value)) × List (Nat × RID))
  | [], table_result_map, table_rid_map => some (table_result_map, table_rid_map)
  | i :: rest, table_result_map, table_rid_map =>
    match t.meta_.tables.get? i, t.meta_.fields.get? i with
    | some table, some field =>
      let table_result_map1 :=
        push_result table_result_map table (field, (cell_at t.table_meta_.fields record_data i).2)
      if table_rid_map.any (fun e => e.1 == table) then
        cells_and_rids t record_data old_rid rest table_result_map1 table_rid_map
      else
        match (rid_map_at t.meta_.rid_map old_rid).1.get? i with
        | none => none
        | some rid =>
          cells_and_rids t record_data old_rid rest table_result_map1 (table_rid_map ++ [(table, rid)])
    | _, _ => none

/-- The second loop of `Table::update_record_real_records` (`src/table.cpp`,
lines 661-682); `update` is `Table::update_record`. -/
def update_in_tables (update : Db → Nat → Record → Record → Outcome Db) (junk : Nat → Byte)
    (table_rid_map : List (Nat × RID)) : List (Nat × List (FieldMeta × Value)) → Db → Outcome Db
  | [], db => Outcome.ret RC.SUCCESS db
  | (table, vec) :: rest, db =>
    match db.table table with
    | none => Outcome.abort
    | some base =>
      let rid := ((table_rid_map.find? (fun e => e.1 == table)).map Prod.snd).getD (RID.mk 0 0)
      match base.make_record_update_new vec {} rid junk with
      | Outcome.ret rc the_new_record =>
        if rc ≠ RC.SUCCESS then Outcome.ret rc db
        else
          let g := base.get_record rid {}
          if g.1 ≠ RC.SUCCESS then Outcome.ret g.1 db
          else
            match update db table g.2 { the_new_record with rid := g.2.rid } with
            | Outcome.ret rc1 db1 =>
              if rc1 ≠ RC.SUCCESS then Outcome.ret rc1 db1
              else update_in_tables update junk table_rid_map rest db1
            | Outcome.abort => Outcome.abort
            | Outcome.out_of_fuel => Outcome.out_of_fuel
      | Outcome.abort => Outcome.abort
      | Outcome.out_of_fuel => Outcome.out_of_fuel

/-- The function `Table::update_record_real_records` (`src/table.cpp`, lines
641-684) of the view `t`. -/
def update_record_real_records (update : Db → Nat → Record → Record → Outcome Db)
    (junk : Nat → Byte) (db : Db) (t : Table) (old_record new_record : Record) : Outcome Db :=
  match t.table_meta_.fields, new_record.data with
  | [], _ => Outcome.ret RC.SUCCESS db
  | _ :: _, none => Outcome.abort
  | fields, some data =>
    match cells_and_rids t data old_record.rid (List.range fields.length) [] [] with
    | none => Outcome.abort
    | some (table_result_map, table_rid_map) =>
      update_in_tables update junk table_rid_map table_result_map db

/-- The body of `Table::update_record` (`src/table.cpp`, lines 685-716) on the
table at `self`; `update` is the function itself, for the calls on the base
tables of a view. The code of `update_record_real_records` is overwritten
before it is read. -/
def update_record_body (update : Db → Nat → Record → Record → Outcome Db) (junk : Nat → Byte)
    (db : Db) (self : Nat) (old_record new_record : Record) : Outcome Db :=
  match db.table self with
  | none => Outcome.abort
  | some t =>
    let own (db1 : Db) : Outcome Db :=
      match db1.table self with
      | none => Outcome.abort
      | some t1 =>
        match t1.update_record_own old_record new_record with
        | Outcome.ret rc t2 => Outcome.ret rc (db1.set_table self t2)
        | Outcome.abort => Outcome.abort
        | Outcome.out_of_fuel => Outcome.out_of_fuel
    if t.view_table_flag then
      match db.project_oper t.name with
      | none => Outcome.abort
      | some _ =>
        if t.meta_.updatable = false then Outcome.ret RC.UNIMPLENMENT db
        else
          match update_record_real_records update junk db t old_record new_record with
          | Outcome.ret _ db1 => own db1
          | Outcome.abort => Outcome.abort
          | Outcome.out_of_fuel => Outcome.out_of_fuel
    else own db

/-- The function `Table::update_record` (`src/table.cpp`, lines 685-716) on the
table at `self`, with the fuel of the calls from a view to its base tables. -/
def update_record (junk : Nat → Byte) : Nat → Db → Nat → Record → Record → Outcome Db
  | 0 => update_record_body (fun _ _ _ _ => Outcome.out_of_fuel) junk
  | fuel + 1 => update_record_body (update_record junk fuel) junk

end Table

/-! ## Index creation -/

/-- The answers of the environment to the calls of one `Table::create_index`
that can fail for reasons outside the table: `IndexMeta::init`, the creation of
the index file, the opening of the scanner, each `scanner.next`,
`TableMeta::add_index`, the opening and the writing of the temporary file, and
`rename`. -/
structure CreateIndexIo where
  meta_init : RC := RC.SUCCESS
  index_create : RC := RC.SUCCESS
  open_scan : RC := RC.SUCCESS
  scan_next : Nat → RC := fun _ => RC.SUCCESS
  add_index : RC := RC.SUCCESS
  tmp_open : Bool := true
  serialize : Bool := true
  rename_ok : Bool := true

/-- Modelled from the spec: `common::is_blank` (in a missing file): the name is
empty or made of white space only. -/
def is_blank (s : String) : Bool :=
  s.toList.all Char.isWhitespace

/-- Modelled from the spec: `table_index_file` (in a missing file), the path of
an index file, named from the base directory, the table and the index. -/
def table_index_file (base_dir table_name index_name : String) : String :=
  base_dir ++ "/" ++ table_name ++ "-" ++ index_name ++ ".index"

/-- Modelled from the spec: `table_meta_file` (in a missing file), the path of
the schema file of a table. -/
def table_meta_file (base_dir table_name : String) : String :=
  base_dir ++ "/" ++ table_name ++ ".table"

namespace Table

/-- The scan loop of `Table::create_index` (`src/table.cpp`, lines 482-496), at
the record number `k` of the scan: each record is inserted into the new index;
the loop stops at the first failure of the scanner or of the index. -/
def index_records (scan_next : Nat → RC) : Nat → List Record → Index → RC × Index
  | _, [], index => (RC.SUCCESS, index)
  | k, record :: rest, index =>
    if scan_next k ≠ RC.SUCCESS then (scan_next k, index)
    else
      let r := index.insert_entry (record.data.getD []) record.rid
      if r.1 ≠ RC.SUCCESS then (r.1, r.2)
      else index_records scan_next (k + 1) rest r.2

/-- The function `Table::create_index` (`src/table.cpp`, lines 449-540): the
return code, the table and the files after the call. -/
def create_index (t : Table) (files : Disk) (io : CreateIndexIo) (field_meta : List FieldMeta)
    (index_name : String) (unique : Bool) : RC × Table × Disk :=
  if is_blank index_name ∨ field_meta.length = 0 then (RC.INVALID_ARGUMENT, t, files)
  else if io.meta_init ≠ RC.SUCCESS then (io.meta_init, t, files)
  else
    let new_index_meta : IndexMeta :=
      { name := index_name, fields := field_meta.map FieldMeta.name, unique := unique }
    let index_file := table_index_file t.base_dir_ t.name index_name
    if io.index_create ≠ RC.SUCCESS then (io.index_create, t, files)
    else
      let files1 := Disk.write files index_file FileData.index_file
      let index : Index := { index_meta := new_index_meta, field_metas := field_meta, entries := [] }
      if io.open_scan ≠ RC.SUCCESS then (io.open_scan, t, files1)
      else
        let s := index_records io.scan_next 0 t.record_handler_.records index
        if s.1 ≠ RC.SUCCESS then (s.1, t, files1)
        else
          let t1 : Table := { t with indexes_ := t.indexes_ ++ [s.2] }
          let new_table_meta : TableMeta :=
            { t.table_meta_ with indexes := t.table_meta_.indexes ++ [new_index_meta] }
          if io.add_index ≠ RC.SUCCESS then (io.add_index, t1, files1)
          else
            let tmp_file := table_meta_file t.base_dir_ t.name ++ ".tmp"
            if io.tmp_open = false then (RC.IOERR_OPEN, t1, files1)
            else if io.serialize = false then
              (RC.IOERR_WRITE, t1, Disk.write files1 tmp_file FileData.torn)
            else
              let files2 := Disk.write files1 tmp_file (FileData.table_meta new_table_meta)
              let meta_file := table_meta_file t.base_dir_ t.name
              if io.rename_ok = false then (RC.IOERR_WRITE, t1, files2)
              else
                (RC.SUCCESS, { t1 with table_meta_ := new_table_meta },
                  Disk.rename files2 tmp_file meta_file)

end Table

/-! ## Sequences of mutations -/

/-- A call of one of the four mutating functions of a table. -/
inductive Mutation where
  | insert_record (record : Record)
  | delete_record (record : Record)
  | update_record (old_record new_record : Record)
  | create_index (io : CreateIndexIo) (field_meta : List FieldMeta) (index_name : String)
      (unique : Bool)

namespace Db

/-- The call `m` on the table at `self`. -/
def apply (junk : Nat → Byte) (fuel : Nat) (db : Db) (self : Nat) : Mutation → Outcome Db
  | Mutation.insert_record record =>
    match Table.insert_record junk fuel db self record with
    | Outcome.ret rc (db1, _) => Outcome.ret rc db1
    | Outcome.abort => Outcome.abort
    | Outcome.out_of_fuel => Outcome.out_of_fuel
  | Mutation.delete_record record => Table.delete_record fuel db self record
  | Mutation.update_record old_record new_record =>
    Table.update_record junk fuel db self old_record new_record
  | Mutation.create_index io field_meta index_name unique =>
    match db.table self with
    | none => Outcome.abort
    | some t =>
      let r := t.create_index db.files io field_meta index_name unique
      Outcome.ret r.1 (set_table { db with files := r.2.2 } self r.2.1)

/-- The calls `ms` in order on the table at `self`, as long as each returns
`RC::SUCCESS`: the final state, or `none` when a call did not return success. -/
def run (junk : Nat → Byte) (fuel : Nat) (self : Nat) : Db → List Mutation → Option Db
  | db, [] => some db
  | db, m :: ms =>
    match apply junk fuel db self m with
    | Outcome.ret rc db1 => if rc = RC.SUCCESS then run junk fuel self db1 ms else none
    | _ => none

end Db

/-! ## Agreement of heap and indexes -/

namespace Table

/-- The heap and the indexes agree: the rids of the heap are the rids that have
an entry in each index of the index list. -/
def agree (t : Table) : Prop :=
  ∀ index ∈ t.indexes_,
    (∀ rid ∈ index.rids, rid ∈ t.record_handler_.rids) ∧
    (∀ rid ∈ t.record_handler_.rids, rid ∈ index.rids)

/-- A rid is live: it is in the heap and has an entry in every index. -/
def live (t : Table) (rid : RID) : Prop :=
  rid ∈ t.record_handler_.rids ∧ ∀ index ∈ t.indexes_, rid ∈ index.rids

/-- A rid is absent: it is neither in the heap nor in any index. -/
def absent (t : Table) (rid : RID) : Prop :=
  rid ∉ t.record_handler_.rids ∧ ∀ index ∈ t.indexes_, rid ∉ index.rids

/-- The heap has one record for each of its rids, and each index has one entry
for each rid of the heap and no other entry. -/
def one_entry_per_record (t : Table) : Prop :=
  t.record_handler_.rids.Nodup ∧
  ∀ index ∈ t.indexes_, index.rids.Perm t.record_handler_.rids

/-- The invariant of the successful mutations of a table that is not a view:
the allocator hands out fresh rids, the heap has one record per rid and each
index has exactly one entry for each rid of the heap. -/
def stable (t : Table) : Prop :=
  t.view_table_flag = false ∧ t.record_handler_.fresh ∧ t.one_entry_per_record

end Table

/-- A slot allocator: the slot after the highest slot in use, on page 1. -/
def next_slot (records : List Record) : Option RID :=
  some (RID.mk 1 ((records.map (fun r => r.rid.slot_num)).foldr max 0 + 1))

/-! ## Layouts and well-typed values -/

/-- The transformation of the bytes copied into a field: `text_byte` for a TEXT
field, none for the other kinds. -/
def field_byte (field : FieldMeta) : Byte → Byte :=
  if field.type = AttrType.TEXT then text_byte else id

/-- Two fields do not overlap in the record. -/
def disjoint_fields (f g : FieldMeta) : Prop :=
  f.offset + f.len ≤ g.offset ∨ g.offset + g.len ≤ f.offset

/-- The layout of the spec's `SchemaDescriptor`: the fields that take values
lie inside the record and do not overlap. -/
def TableMeta.layout_ok (m : TableMeta) : Prop :=
  (∀ f ∈ m.normal_fields, f.offset + f.len ≤ m.record_size) ∧
  m.normal_fields.Pairwise disjoint_fields

instance (f g : FieldMeta) : Decidable (disjoint_fields f g) := by
  unfold disjoint_fields
  infer_instance

instance (m : TableMeta) : Decidable m.layout_ok := by
  unfold TableMeta.layout_ok
  infer_instance

/-- The copy length in the words of the specification: the field capacity for a
fixed-width kind, `min(field_capacity, data_len + 1)` for CHARS and TEXT. -/
def spec_copy_len (field : FieldMeta) (value : Value) : Nat :=
  if field.type = AttrType.CHARS ∨ field.type = AttrType.TEXT then
    min field.len (value.length + 1)
  else field.len

/-- No pair of the lists writes the position `p`. -/
def untouched (fields : List FieldMeta) (values : List Value) (p : Nat) : Prop :=
  ∀ q ∈ List.zip fields values, ¬ (q.1.offset ≤ p ∧ p < q.1.offset + copy_len q.1 q.2)

/-- The value is refused by the second loop of `Table::make_record`: a TEXT
whose string is longer than 65535 bytes (line 388) or the invalid date (line
398). -/
def rejected (field : FieldMeta) (value : Value) : Prop :=
  (field.type = AttrType.TEXT ∧ 65535 < strlen (c_str value.get_string)) ∨
  (field.type = AttrType.DATE ∧ value.get_date = -1)

instance (field : FieldMeta) (value : Value) : Decidable (rejected field value) := by
  unfold rejected
  infer_instance

/-- The value is well typed and in bounds for the field: it has the kind of the
field, which is one of the six kinds; a string is stored with its length, has
no NUL and is shorter than the field, a TEXT has at most 65535 bytes; a number
is a 32-bit `int` in a field of four bytes, and a DATE is not the invalid date
`-1`. -/
def in_bounds (field : FieldMeta) (value : Value) : Prop :=
  field.type = value.attr_type_ ∧ field.type ≠ AttrType.UNDEFINED ∧
  if field.type = AttrType.CHARS ∨ field.type = AttrType.TEXT then
    value.length_ = value.str_value_.length ∧ 0 ∉ value.str_value_ ∧ value.length_ < field.len ∧
      (field.type = AttrType.TEXT → value.length_ ≤ 65535)
  else
    field.len = 4 ∧ -2147483648 ≤ value.num_value_ ∧ value.num_value_ < 2147483648 ∧
      (field.type = AttrType.DATE → value.num_value_ ≠ -1)

instance (field : FieldMeta) (value : Value) : Decidable (in_bounds field value) := by
  unfold in_bounds
  infer_instance

/-! ## Concrete tables -/

/-- The schema `t(id INT, name CHARS(4))` with a unique index on `id`. -/
def scenario_meta : TableMeta :=
  { name := "t", sys_field_num := 0,
    fields := [⟨"id", AttrType.INTS, 0, 4⟩, ⟨"name", AttrType.CHARS, 4, 4⟩],
    record_size := 8, indexes := [⟨"i_id", ["id"], true⟩] }

/-- The unique index on `id` holding the entry of the row `(1, "ab")`. -/
def scenario_index : Index :=
  { index_meta := ⟨"i_id", ["id"], true⟩, field_metas := [⟨"id", AttrType.INTS, 0, 4⟩],
    entries := [([1, 0, 0, 0], ⟨1, 1⟩)] }

/-- The table `t` holding the row `(1, "ab")`, with its unique index on `id`. -/
def scenario_table : Table :=
  { table_meta_ := scenario_meta,
    record_handler_ :=
      { records := [⟨⟨1, 1⟩, some [1, 0, 0, 0, 97, 98, 0, 0]⟩], next_rid := next_slot },
    indexes_ := [scenario_index] }

/-- A database with the table `t` only. -/
def scenario_db : Db :=
  { tables := [scenario_table] }

/-- The record of the row `(1, "cd")`. -/
def scenario_record : Record :=
  { data := some [1, 0, 0, 0, 99, 100, 0, 0] }

/-- The values `(1, "cd")`. -/
def scenario_values : List Value :=
  [{ attr_type_ := AttrType.INTS, length_ := 4, num_value_ := 1 },
   { attr_type_ := AttrType.CHARS, length_ := 2, str_value_ := [99, 100] }]

/-- The schema `memo(day DATE, body TEXT(8))`. -/
def memo_meta : TableMeta :=
  { name := "memo", sys_field_num := 0,
    fields := [⟨"day", AttrType.DATE, 0, 4⟩, ⟨"body", AttrType.TEXT, 4, 8⟩],
    record_size := 12, indexes := [] }

/-- The values `(20231019, "abcDEF")`. -/
def memo_values : List Value :=
  [{ attr_type_ := AttrType.DATE, length_ := 4, num_value_ := 20231019 },
   { attr_type_ := AttrType.TEXT, length_ := 6, str_value_ := [97, 98, 99, 68, 69, 70] }]

/-- The invalid date followed by a string where `memo` has a TEXT. -/
def memo_bad_values : List Value :=
  [{ attr_type_ := AttrType.DATE, length_ := 4, num_value_ := -1 },
   { attr_type_ := AttrType.CHARS, length_ := 2, str_value_ := [97, 98] }]

/-- The table `t` holding the row `(1, "ab")`, with a second entry for the rid
of that row in its index: the rids of the heap and of the index are the same
set, but the index has two entries for one record. -/
def double_entry_table : Table :=
  { table_meta_ := scenario_meta,
    record_handler_ :=
      { records := [⟨⟨1, 1⟩, some [1, 0, 0, 0, 97, 98, 0, 0]⟩], next_rid := next_slot },
    indexes_ := [{ scenario_index with
      entries := [([1, 0, 0, 0], ⟨1, 1⟩), ([2, 0, 0, 0], ⟨1, 1⟩)] }] }

/-- The table `t` holding the rows `(1, "ab")` and `(2, "cd")`, with its unique
index on `id`. -/
def two_row_table : Table :=
  { table_meta_ := scenario_meta,
    record_handler_ :=
      { records := [⟨⟨1, 1⟩, some [1, 0, 0, 0, 97, 98, 0, 0]⟩,
          ⟨⟨1, 2⟩, some [2, 0, 0, 0, 99, 100, 0, 0]⟩],
        next_rid := next_slot },
    indexes_ := [{ scenario_index with
      entries := [([1, 0, 0, 0], ⟨1, 1⟩), ([2, 0, 0, 0], ⟨1, 2⟩)] }] }

/-- The row `(2, "cd")` of `two_row_table`. -/
def row_two : Record :=
  { rid := ⟨1, 2⟩, data := some [2, 0, 0, 0, 99, 100, 0, 0] }

/-- The row `(1, "cd")` at the rid of `row_two`: the update `set id = 1`. -/
def row_two_as_one : Record :=
  { rid := ⟨1, 2⟩, data := some [1, 0, 0, 0, 99, 100, 0, 0] }

/-- A sequence of successful mutations of the table `t`: a row is inserted,
updated and deleted, and a second index is created. -/
def scenario_mutations : List Mutation :=
  [Mutation.insert_record { data := some [2, 0, 0, 0, 99, 100, 0, 0] },
   Mutation.update_record row_two { row_two with data := some [3, 0, 0, 0, 99, 100, 0, 0] },
   Mutation.create_index {} [⟨"name", AttrType.CHARS, 4, 4⟩] "i_name" false,
   Mutation.delete_record { rid := ⟨1, 1⟩, data := some [1, 0, 0, 0, 97, 98, 0, 0] }]

/-! ## Null values -/

/-- The value of a `float` with the bit pattern `bits`, multiplied by `2 ^ 149`
(the weight of the last bit of the smallest float), an integer; `none` for an
infinity or a NaN. -/
def float_scaled (bits : Int) : Option Int :=
  let u : Nat := (bits % 4294967296).toNat
  let sign : Int := if u / 2147483648 = 1 then -1 else 1
  let e : Nat := u / 8388608 % 256
  let mant : Nat := u % 8388608
  if e = 255 then none
  else if e = 0 then some (sign * mant)
  else some (sign * ((8388608 + mant) * 2 ^ (e - 1) : Nat))

/-- The test `std::abs(f - 114.514) < 1e-6` of `Value::check_null`, on the bit
pattern of the float `f`. The `double` constants are `8058206370761015 / 2 ^ 46`
and `4722366482869645 / 2 ^ 72`; the test is made on the exact values, which
gives the result of the `double` computation (the subtraction is exact for the
floats near the constant, and far from it both differences exceed the bound). -/
def float_near_null (bits : Int) : Bool :=
  match float_scaled bits with
  | none => false
  | some x =>
    decide (|x - 8058206370761015 * 2 ^ 103| < 4722366482869645 * 2 ^ 77)

/-- The test `strcmp(a, b) == 0` on two NUL-terminated strings. -/
def strcmp_eq (a b : List Byte) : Bool :=
  decide (a.takeWhile (fun c => c != 0) = b.takeWhile (fun c => c != 0))

namespace Value

/-- Modelled from the spec: `Value::get_int` is declared in `src/value.h` and
defined in `value.cpp`, which is missing. For an INT value it is the stored
number; the conversion of the other kinds is not modelled (the embedded code
asks only INT values for their number). -/
def get_int (v : Value) : Int :=
  v.num_value_

/-- Modelled from the spec: `Value::get_float` is declared in `src/value.h` and
defined in `value.cpp`, which is missing. For a FLOAT value it is the stored
float, here its bit pattern; the conversion of the other kinds is not modelled
(the embedded code asks only FLOAT values for their float). -/
def get_float (v : Value) : Int :=
  v.num_value_

/-- Modelled from the spec: the constructor `Value(int val)` is declared in
`src/value.h` and defined in `value.cpp`, which is missing: an INT value that
holds `val`. -/
def of_int (val : Int) : Value :=
  set_int {} val

/-- The method `Value::set_null()` of `src/value.h` (line 111): the null flag is
set. -/
def set_null_flag (v : Value) : Value :=
  { v with is_null_ := true }

/-- The method `Value::is_null` of `src/value.h` (line 113). -/
def is_null (v : Value) : Bool :=
  v.is_null_

/-- The function `Value::check_null` (`src/value.h`, lines 90-105); `none` is
the failed `assert(false)` of the default case. -/
def check_null (v : Value) : Option Bool :=
  match v.attr_type with
  | AttrType.INTS => some (decide (v.get_int = 1919810))
  | AttrType.FLOATS => some (float_near_null v.get_float)
  | AttrType.CHARS => some (strcmp_eq (c_str v.get_string) (c_str null_chars))
  | AttrType.DATE => some (decide (v.get_date = 91919191))
  | AttrType.TEXT => some (strcmp_eq (c_str v.get_string) (c_str null_text))
  | _ => none

end Value

/-- The field can hold the null of its kind as `Value::set_null` makes it and
`Value::check_null` finds it: a field of four bytes for INT, FLOAT and DATE, a
field of at least the six bytes of `"xzhseh"` for CHARS. -/
def holds_null (field : FieldMeta) : Prop :=
  ((field.type = AttrType.INTS ∨ field.type = AttrType.FLOATS ∨ field.type = AttrType.DATE) ∧
    field.len = 4) ∨
  (field.type = AttrType.CHARS ∧ 6 ≤ field.len)

instance (field : FieldMeta) : Decidable (holds_null field) := by
  unfold holds_null
  infer_instance

/-! ## Concrete tables for sparse encoding and views -/

/-- Two strings where the table `t` takes an INT and a string. -/
def mismatched_values : List Value :=
  [{ attr_type_ := AttrType.CHARS, length_ := 1, str_value_ := [49] },
   { attr_type_ := AttrType.CHARS, length_ := 2, str_value_ := [99, 100] }]

/-- A string paired with the INT field `id` of the table `t`. -/
def mismatched_pairs : List (FieldMeta × Value) :=
  [(⟨"id", AttrType.INTS, 0, 4⟩,
    { attr_type_ := AttrType.CHARS, length_ := 1, str_value_ := [49] })]

/-- The schema `people(id INT, name CHARS(8), age INT)`. -/
def people_meta : TableMeta :=
  { name := "people", sys_field_num := 0,
    fields := [⟨"id", AttrType.INTS, 0, 4⟩, ⟨"name", AttrType.CHARS, 4, 8⟩,
      ⟨"age", AttrType.INTS, 12, 4⟩],
    record_size := 16, indexes := [] }

/-- The empty table `people`. -/
def people_table : Table :=
  { table_meta_ := people_meta, record_handler_ := { records := [], next_rid := next_slot } }

/-- The values `5` for `id` and `"bob"` for `name` of `people`, the name first. -/
def people_pairs : List (FieldMeta × Value) :=
  [(⟨"name", AttrType.CHARS, 4, 8⟩,
    { attr_type_ := AttrType.CHARS, length_ := 3, str_value_ := [98, 111, 98] }),
   (⟨"id", AttrType.INTS, 0, 4⟩, { attr_type_ := AttrType.INTS, length_ := 4, num_value_ := 5 })]

/-- The empty table `t(id INT, name CHARS(4))`, without index. -/
def empty_t : Table :=
  { table_meta_ := { scenario_meta with indexes := [] },
    record_handler_ := { records := [], next_rid := next_slot } }

/-- The schema of a view with the columns `pid` and `tid`; `view_name` is the
name of the view. -/
def view_meta (view_name : String) : TableMeta :=
  { name := view_name, sys_field_num := 0,
    fields := [⟨"pid", AttrType.INTS, 0, 4⟩, ⟨"tid", AttrType.INTS, 4, 4⟩],
    record_size := 8, indexes := [] }

/-- An empty updatable view whose column `pid` is the column `id` of the table
at position 0 (`people`) and whose column `tid` is the column `id` of the table
at position 1 (`t`). -/
def view_table (view_name : String) : Table :=
  { table_meta_ := view_meta view_name,
    record_handler_ := { records := [], next_rid := next_slot },
    view_table_flag := true,
    meta_ := { tables := [0, 1],
               fields := [⟨"id", AttrType.INTS, 0, 4⟩, ⟨"id", AttrType.INTS, 0, 4⟩],
               rid_map := [], updatable := true } }

/-- A database with the tables `people` and `t` and two views over them: `v`,
defined by a projection of columns, and `w`, whose projection has an expression
that is not a column. -/
def view_db : Db :=
  { tables := [people_table, empty_t, view_table "v", view_table "w"],
    view_rebuild_map := [("v", PhysicalOperator.project false),
      ("w", PhysicalOperator.project true)] }

/-- The view row `(5, 9)`. -/
def view_record : Record :=
  { data := some [5, 0, 0, 0, 9, 0, 0, 0] }

/-- The database `view_db` after the row `(5, 9)` of the view `v` has reached
the tables `people` and `t`: `people` holds `(5, "xzhseh", 1919810)` and `t`
holds `(9, "xzhs")`. -/
def view_db_based : Db :=
  { view_db with
    tables :=
      [{ people_table with
          record_handler_ :=
            { records := [⟨⟨1, 1⟩,
                some [5, 0, 0, 0, 120, 122, 104, 115, 101, 104, 0, 0, 66, 75, 29, 0]⟩],
              next_rid := next_slot } },
       { empty_t with
          record_handler_ :=
            { records := [⟨⟨1, 1⟩, some [9, 0, 0, 0, 120, 122, 104, 115]⟩],
              next_rid := next_slot } },
       view_table "v", view_table "w"] }

/-- The schema `s(id INT, age INT)` behind one system field `__trx`. -/
def sys_meta : TableMeta :=
  { name := "s", sys_field_num := 1,
    fields := [⟨"__trx", AttrType.INTS, 0, 4⟩, ⟨"id", AttrType.INTS, 4, 4⟩,
      ⟨"age", AttrType.INTS, 8, 4⟩],
    record_size := 12, indexes := [] }

/-- The table `s` holding the row `(1, 20)`, whose system field holds `7`, at
the rid `(1, 1)`. -/
def sys_table : Table :=
  { table_meta_ := sys_meta,
    record_handler_ :=
      { records := [⟨⟨1, 1⟩, some [7, 0, 0, 0, 1, 0, 0, 0, 20, 0, 0, 0]⟩],
        next_rid := next_slot } }

/-- The value `30` for the field `age` of `s`. -/
def sys_pairs : List (FieldMeta × Value) :=
  [(⟨"age", AttrType.INTS, 8, 4⟩, { attr_type_ := AttrType.INTS, length_ := 4, num_value_ := 30 })]

/-- The value `1` for the field `id` of the table `t`. -/
def scenario_pairs : List (FieldMeta × Value) :=
  [(⟨"id", AttrType.INTS, 0, 4⟩, { attr_type_ := AttrType.INTS, length_ := 4, num_value_ := 1 })]

/-! ## The decomposition of a view row, in the words of the specification -/

/-- The vector stored under `table` in a `table_result_map`, empty when the map
has no such key. -/
def group_at {α : Type} (table_result_map : List (Nat × List α)) (table : Nat) : List α :=
  match table_result_map.find? (fun e => e.1 == table) with
  | some e => e.2
  | none => []

namespace Table

/-- The view columns owned by the base table `table`, in the words of the
specification: for each column of the view, in order, whose provenance names
`table`, the base field of the column paired with the cell of the column in the
view record. -/
def owned_cells (t : Table) (record_data : List Byte) (table : Nat) :
    List (FieldMeta × Value) :=
  (List.range t.table_meta_.fields.length).filterMap (fun i =>
    match t.meta_.tables.get? i, t.meta_.fields.get? i with
    | some table1, some field =>
      if table1 = table then some (field, (cell_at t.table_meta_.fields record_data i).2)
      else none
    | _, _ => none)

/-- One physical insert per distinct base table, in the words of the
specification: `db1` is `db` after, for each base table named in the column
provenance of the view `t`, one insertion into that table of the record built by
`make_record_by_values` from the view columns that the table owns; the other
tables are as they were. -/
def decomposed (t : Table) (junk : Nat → Byte) (record_data : List Byte) (db db1 : Db) : Prop :=
  (∀ k, k ∉ t.meta_.tables → db1.table k = db.table k) ∧
  ∀ k ∈ t.meta_.tables, ∃ base r rc base1 r1,
    db.table k = some base ∧
    base.make_record_by_values (t.owned_cells record_data k) {} junk = Outcome.ret RC.SUCCESS r ∧
    base.insert_record_own r = Outcome.ret rc (base1, r1) ∧
    db1.table k = some base1

end Table

/-! ## Replay of an insertion -/

namespace Table

/-- The function `Table::recover_insert_record` (`src/table.cpp`, lines
283-305). `record.data()` of a record without a buffer is a null pointer, whose
use stops the process. -/
def recover_insert_record (t : Table) (record : Record) : Outcome (Table × Record) :=
  match record.data with
  | none => Outcome.abort
  | some data =>
    let h := t.record_handler_.recover_insert_record data t.table_meta_.record_size record.rid
    if h.1 ≠ RC.SUCCESS then Outcome.ret h.1 (t, record)
    else
      let i := insert_entry_of_indexes t.indexes_ data record.rid
      if i.1 ≠ RC.SUCCESS then
        let d := delete_entry_of_indexes i.2 data record.rid false
        let h2 := h.2.delete_record record.rid
        Outcome.ret i.1 ({ t with record_handler_ := h2.2, indexes_ := d.2 }, record)
      else Outcome.ret i.1 ({ t with record_handler_ := h.2, indexes_ := i.2 }, record)

/-- The index-maintenance and rollback rules of an insertion, in the words of
the specification, after a heap step that has stored the bytes `data` under
`rid` and left the heap `heap`: the entry is inserted into each index in order;
on the first failure the entries of the record are deleted from the indexes,
then the heap record at `rid` is deleted, and the index error is returned. -/
def index_rules (t : Table) (heap : RecordFileHandler) (data : List Byte) (rid : RID)
    (record : Record) : Outcome (Table × Record) :=
  let i := insert_entry_of_indexes t.indexes_ data rid
  if i.1 ≠ RC.SUCCESS then
    Outcome.ret i.1
      ({ t with record_handler_ := (heap.delete_record rid).2,
                indexes_ := (delete_entry_of_indexes i.2 data rid false).2 }, record)
  else Outcome.ret RC.SUCCESS ({ t with record_handler_ := heap, indexes_ := i.2 }, record)

end Table

/-! ## Concrete views for the write gates -/

/-- The view `v` of `view_db` with its flag `updatable` cleared. -/
def readonly_view : Table :=
  { view_table "v" with meta_ := { (view_table "v").meta_ with updatable := false } }

/-- The database `view_db` with the view `v` not updatable. -/
def readonly_view_db : Db :=
  { view_db with tables := [people_table, empty_t, readonly_view, view_table "w"] }

/-- The view row `(5, 9)` at the rid `(1, 1)`. -/
def view_row : Record :=
  { rid := ⟨1, 1⟩, data := some [5, 0, 0, 0, 9, 0, 0, 0] }

/-- The database `view_db` after the insertion of the row `(5, 9)` through the
view `v`: the tables `people` and `t` hold their parts of the row and the heap
of `v` holds the row at the rid `(1, 1)`. The rid provenance of `v` is empty. -/
def view_db_row : Db :=
  { view_db_based with
    tables :=
      [{ people_table with
          record_handler_ :=
            { records := [⟨⟨1, 1⟩,
                some [5, 0, 0, 0, 120, 122, 104, 115, 101, 104, 0, 0, 66, 75, 29, 0]⟩],
              next_rid := next_slot } },
       { empty_t with
          record_handler_ :=
            { records := [⟨⟨1, 1⟩, some [9, 0, 0, 0, 120, 122, 104, 115]⟩],
              next_rid := next_slot } },
       { view_table "v" with
          record_handler_ := { records := [view_row], next_rid := next_slot } },
       view_table "w"] }

/-! ## The decomposition of a view deletion, in the words of the specification -/

/-- The base rows of a view row, in the words of the specification: for each
distinct base table among the columns that have a base rid, the base rid
recorded at the first column owned by that table, in the order of the first
columns. -/
def base_rows : List Nat → List RID → List (Nat × RID)
  | table :: tables, rid :: rid_vec =>
    (table, rid) :: (base_rows tables rid_vec).filter (fun e => decide (e.1 ≠ table))
  | _, _ => []

/-- The operation `decompose_delete` in the words of the specification: for each
base row in turn, the current row of the base table is read and deleted; the
first failure is returned. `delete` is `Table::delete_record`. -/
def delete_rows (delete : Db → Nat → Record → Outcome Db) : List (Nat × RID) → Db → Outcome Db
  | [], db => Outcome.ret RC.SUCCESS db
  | (table, rid) :: rest, db =>
    match db.table table with
    | none => Outcome.abort
    | some base =>
      let g := base.get_record rid {}
      if g.1 ≠ RC.SUCCESS then Outcome.ret g.1 db
      else
        match delete db table g.2 with
        | Outcome.ret rc db1 =>
          if rc ≠ RC.SUCCESS then Outcome.ret rc db1 else delete_rows delete rest db1
        | Outcome.abort => Outcome.abort
        | Outcome.out_of_fuel => Outcome.out_of_fuel

/-- The deletion of a view row in the words of the specification: the base rows
are deleted, then the index entries and the heap record of the view itself. -/
def delete_view_row (delete : Db → Nat → Record → Outcome Db) (rows : List (Nat × RID))
    (db : Db) (self : Nat) (record : Record) : Outcome Db :=
  match delete_rows delete rows db with
  | Outcome.ret rc db1 =>
    if rc ≠ RC.SUCCESS then Outcome.ret rc db1
    else
      match db1.table self with
      | none => Outcome.abort
      | some t1 =>
        match t1.delete_record_own record with
        | Outcome.ret rc1 t2 => Outcome.ret rc1 (db1.set_table self t2)
        | Outcome.abort => Outcome.abort
        | Outcome.out_of_fuel => Outcome.out_of_fuel
  | Outcome.abort => Outcome.abort
  | Outcome.out_of_fuel => Outcome.out_of_fuel

/-! ## Scenario B: a view over two tables -/

/-- The table `t1(a INT, b INT)` holding the row `(1, 2)` at the rid `(1, 1)`. -/
def t1_table : Table :=
  { table_meta_ :=
      { name := "t1", sys_field_num := 0,
        fields := [⟨"a", AttrType.INTS, 0, 4⟩, ⟨"b", AttrType.INTS, 4, 4⟩],
        record_size := 8, indexes := [] },
    record_handler_ :=
      { records := [⟨⟨1, 1⟩, some [1, 0, 0, 0, 2, 0, 0, 0]⟩], next_rid := next_slot } }

/-- The table `t2(c CHARS(4))` holding the row `("ab")` at the rid `(1, 1)`. -/
def t2_table : Table :=
  { table_meta_ :=
      { name := "t2", sys_field_num := 0, fields := [⟨"c", AttrType.CHARS, 0, 4⟩],
        record_size := 4, indexes := [] },
    record_handler_ := { records := [⟨⟨1, 1⟩, some [97, 98, 0, 0]⟩], next_rid := next_slot } }

/-- The updatable view `V(a, b, c)` over `t1` (position 0) and `t2` (position
1), holding the row `(1, 2, "ab")` at the rid `(1, 1)`, whose columns come from
the rows at `(1, 1)` of `t1`, of `t1` and of `t2`. -/
def scenario_view : Table :=
  { table_meta_ :=
      { name := "V", sys_field_num := 0,
        fields := [⟨"a", AttrType.INTS, 0, 4⟩, ⟨"b", AttrType.INTS, 4, 4⟩,
          ⟨"c", AttrType.CHARS, 8, 4⟩],
        record_size := 12, indexes := [] },
    record_handler_ :=
      { records := [⟨⟨1, 1⟩, some [1, 0, 0, 0, 2, 0, 0, 0, 97, 98, 0, 0]⟩],
        next_rid := next_slot },
    view_table_flag := true,
    meta_ := { tables := [0, 0, 1],
               fields := [⟨"a", AttrType.INTS, 0, 4⟩, ⟨"b", AttrType.INTS, 4, 4⟩,
                 ⟨"c", AttrType.CHARS, 0, 4⟩],
               rid_map := [(⟨1, 1⟩, [⟨1, 1⟩, ⟨1, 1⟩, ⟨1, 1⟩])],
               updatable := true } }

/-- The database of Scenario B: `t1`, `t2` and the view `V`, defined by a
projection of columns. -/
def scenario_b : Db :=
  { tables := [t1_table, t2_table, scenario_view],
    view_rebuild_map := [("V", PhysicalOperator.project false)] }

/-- The row `(1, 2, "ab")` of the view `V`. -/
def v_row : Record :=
  { rid := ⟨1, 1⟩, data := some [1, 0, 0, 0, 2, 0, 0, 0, 97, 98, 0, 0] }

/-- The row of the view `V` after `update V set a = 5`. -/
def v_row_five : Record :=
  { rid := ⟨1, 1⟩, data := some [5, 0, 0, 0, 2, 0, 0, 0, 97, 98, 0, 0] }

/-! ## Decoded values -/

/-- The value can be written into the field and read back: it has the kind of
the field; a string is stored with its length, has no NUL and is not longer than
the field; a number is a 32-bit `int` in a field of four bytes. -/
def encodable (field : FieldMeta) (value : Value) : Prop :=
  field.type = value.attr_type_ ∧
  if field.type = AttrType.CHARS ∨ field.type = AttrType.TEXT then
    value.length_ = value.str_value_.length ∧ 0 ∉ value.str_value_ ∧
      value.str_value_.length ≤ field.len
  else
    field.len = 4 ∧ -2147483648 ≤ value.num_value_ ∧ value.num_value_ < 2147483648

instance (field : FieldMeta) (value : Value) : Decidable (encodable field value) := by
  unfold encodable
  infer_instance

/-- The value `w` decoded from a field is the value `v` that was written into
it: the same kind; the same string for CHARS, the string with `a`..`z`
uppercased for TEXT, the same number for the other kinds. -/
def reads_as (field : FieldMeta) (w v : Value) : Prop :=
  w.attr_type_ = v.attr_type_ ∧
  (field.type = AttrType.CHARS →
    w.str_value_ = v.str_value_ ∧ w.length_ = v.length_) ∧
  (field.type = AttrType.TEXT →
    w.str_value_ = v.str_value_.map text_byte ∧ w.length_ = v.length_) ∧
  (field.type ≠ AttrType.CHARS → field.type ≠ AttrType.TEXT → w.num_value_ = v.num_value_)

instance (field : FieldMeta) (w v : Value) : Decidable (reads_as field w v) := by
  unfold reads_as
  infer_instance

/-- A schema without system fields, whose fields lie in the record without
overlap, with four bytes for each field of a fixed-width kind. -/
def TableMeta.plain (m : TableMeta) : Prop :=
  m.sys_field_num = 0 ∧ m.layout_ok ∧
  ∀ f ∈ m.fields, f.type ≠ AttrType.CHARS → f.type ≠ AttrType.TEXT → f.len = 4

instance (m : TableMeta) : Decidable m.plain := by
  unfold TableMeta.plain
  infer_instance

namespace Table

/-- The row at `rid` of the base table `table` of the view `t` has been
rewritten from the view row `new_data`, in the words of the specification:
`base1` has the heap records of `base`, the one at `rid` with new bytes; in the
new bytes each column that the view supplies holds the value of the view row
and each other column holds the value that `get_record` read there before. -/
def row_rewritten (t : Table) (new_data : List Byte) (table : Nat) (rid : RID)
    (base base1 : Table) : Prop :=
  ∃ old_data d, (base.get_record rid {}).2.data = some old_data ∧
    rid ∈ base.record_handler_.rids ∧
    base1.record_handler_.records = base.record_handler_.records.map (fun x =>
      if x.rid = rid then { x with data := some d } else x) ∧
    (∀ f ∈ base.table_meta_.fields,
      (∀ p, (t.owned_cells new_data table).find? (fun p => decide (f = p.1)) = some p →
        reads_as f (read_field f d) p.2) ∧
      ((∀ p ∈ t.owned_cells new_data table, p.1 ≠ f) →
        reads_as f (read_field f d) (read_field f old_data))) ∧
    ((∀ p ∈ t.owned_cells new_data table, p.2 = read_field p.1 old_data) →
      ∀ f ∈ base.table_meta_.fields, reads_as f (read_field f d) (read_field f old_data))

end Table

/-! ## The parts of an index creation -/

namespace Table

/-- The index that `Table::create_index` creates before its scan
(`src/table.cpp`, lines 455-470): the descriptor `new_index_meta`, the fields,
and no entry. -/
def created_index (field_meta : List FieldMeta) (index_name : String) (unique : Bool) : Index :=
  { index_meta := { name := index_name, fields := field_meta.map FieldMeta.name, unique := unique },
    field_metas := field_meta, entries := [] }

/-- The index that `Table::create_index` has after its scan (`src/table.cpp`,
lines 482-496), with the code of the scan. -/
def scanned_index (t : Table) (io : CreateIndexIo) (field_meta : List FieldMeta)
    (index_name : String) (unique : Bool) : RC × Index :=
  index_records io.scan_next 0 t.record_handler_.records
    (created_index field_meta index_name unique)

/-- The schema `new_table_meta` of `Table::create_index` (`src/table.cpp`, lines
503-504): the schema of the table with the descriptor of the new index
appended. -/
def schema_with_index (t : Table) (field_meta : List FieldMeta) (index_name : String)
    (unique : Bool) : TableMeta :=
  { t.table_meta_ with
    indexes := t.table_meta_.indexes ++
      [{ name := index_name, fields := field_meta.map FieldMeta.name, unique := unique }] }

end Table

/-! ## Concrete inputs of index creation -/

/-- The files of the table `t`: its schema file. -/
def scenario_files : Disk :=
  [("/t.table", FileData.table_meta scenario_meta)]

/-- The table `t` without index, holding the rows `(1, "ab")` and `(2, "ab")`. -/
def same_name_table : Table :=
  { table_meta_ := { scenario_meta with indexes := [] },
    record_handler_ :=
      { records := [⟨⟨1, 1⟩, some [1, 0, 0, 0, 97, 98, 0, 0]⟩,
          ⟨⟨1, 2⟩, some [2, 0, 0, 0, 97, 98, 0, 0]⟩],
        next_rid := next_slot } }

/-- An index creation whose last step, the rename of the schema file, fails. -/
def rename_fails : CreateIndexIo :=
  { rename_ok := false }

/-- The table `t` after the creation of an index on `name` that failed at the
rename, and after the insertion of the row `(2, "cd")` that followed. -/
def half_indexed_table : Table :=
  { table_meta_ := scenario_meta,
    record_handler_ :=
      { records := [⟨⟨1, 1⟩, some [1, 0, 0, 0, 97, 98, 0, 0]⟩,
          ⟨⟨1, 2⟩, some [2, 0, 0, 0, 99, 100, 0, 0]⟩],
        next_rid := next_slot },
    indexes_ :=
      [{ index_meta := ⟨"i_id", ["id"], true⟩,
          field_metas := [⟨"id", AttrType.INTS, 0, 4⟩],
          entries := [([1, 0, 0, 0], ⟨1, 1⟩), ([2, 0, 0, 0], ⟨1, 2⟩)] },
        { index_meta := ⟨"i_name", ["name"], false⟩,
          field_metas := [⟨"name", AttrType.CHARS, 4, 4⟩],
          entries := [([97, 98, 0, 0], ⟨1, 1⟩), ([99, 100, 0, 0], ⟨1, 2⟩)] }] }

/-! ## Concrete views whose base tables refuse a write -/

/-- The table `t1(a INT, b INT)` with a unique index on `a`, holding the rows
`(1, 2)` at the rid `(1, 1)` and `(5, 6)` at the rid `(1, 2)`. -/
def t1_taken : Table :=
  { table_meta_ :=
      { name := "t1", sys_field_num := 0,
        fields := [⟨"a", AttrType.INTS, 0, 4⟩, ⟨"b", AttrType.INTS, 4, 4⟩],
        record_size := 8, indexes := [⟨"i_a", ["a"], true⟩] },
    record_handler_ :=
      { records := [⟨⟨1, 1⟩, some [1, 0, 0, 0, 2, 0, 0, 0]⟩,
          ⟨⟨1, 2⟩, some [5, 0, 0, 0, 6, 0, 0, 0]⟩],
        next_rid := next_slot },
    indexes_ :=
      [{ index_meta := ⟨"i_a", ["a"], true⟩, field_metas := [⟨"a", AttrType.INTS, 0, 4⟩],
         entries := [([1, 0, 0, 0], ⟨1, 1⟩), ([5, 0, 0, 0], ⟨1, 2⟩)] }] }

/-- Scenario B with the table `t1_taken` in the place of `t1`: the value 5 of
the column `a` is taken. -/
def scenario_b_taken : Db :=
  { tables := [t1_taken, t2_table, scenario_view],
    view_rebuild_map := [("V", PhysicalOperator.project false)] }

/-- The database `scenario_b_taken` after the table `t1_taken` has refused the
value 5 for the column `a` of its row at `(1, 1)`: the index entry of that row
is gone. -/
def scenario_b_refused : Db :=
  { tables :=
      [{ t1_taken with
          indexes_ :=
            [{ index_meta := ⟨"i_a", ["a"], true⟩,
               field_metas := [⟨"a", AttrType.INTS, 0, 4⟩],
               entries := [([5, 0, 0, 0], ⟨1, 2⟩)] }] },
        t2_table, scenario_view],
    view_rebuild_map := [("V", PhysicalOperator.project false)] }

/-- The empty table `memo(day DATE, body TEXT(8))`. -/
def memo_table : Table :=
  { table_meta_ := memo_meta, record_handler_ := { records := [], next_rid := next_slot } }

/-- An empty updatable view `dv(day)` whose column is the column `day` of the
table at position 0 (`memo`); the column `body` of `memo` is not in the view. -/
def day_view : Table :=
  { table_meta_ :=
      { name := "dv", sys_field_num := 0, fields := [⟨"day", AttrType.DATE, 0, 4⟩],
        record_size := 4, indexes := [] },
    record_handler_ := { records := [], next_rid := next_slot },
    view_table_flag := true,
    meta_ := { tables := [0], fields := [⟨"day", AttrType.DATE, 0, 4⟩], rid_map := [],
               updatable := true } }

/-- A database with the table `memo` and the view `dv` over it, defined by a
projection of columns. -/
def memo_db : Db :=
  { tables := [memo_table, day_view],
    view_rebuild_map := [("dv", PhysicalOperator.project false)] }

/-- The view row `(20231019)`. -/
def day_record : Record :=
  { data := some [107, 179, 52, 1] }

/-- A database with the table `people`, the table `t` holding the row
`(1, "ab")` under its unique index on `id`, and the view `v` over them. -/
def view_db_taken : Db :=
  { tables := [people_table, scenario_table, view_table "v"],
    view_rebuild_map := [("v", PhysicalOperator.project false)] }

/-- The view row `(5, 1)`. -/
def view_record_taken : Record :=
  { data := some [5, 0, 0, 0, 1, 0, 0, 0] }

/-! ## The UPDATE operator -/

/-- Modelled from the spec: the class `UpdatePhysicalOperator`, whose
declaration (`update_physical_operator.h`) is missing, with the members that
`UpdatePhysicalOperator::next` uses: the table `table_` (a `Table *`, here the
position of the table in the database), the assigned values `values_` and their
fields `field_metas_`, and the child operator. `children_` is `none` for an
empty vector; otherwise it holds the current tuples of the calls of
`child->next()` that return `RC::SUCCESS`, in order, each the record of a row
tuple or `none` for a null `current_tuple()`; the call after them returns
another code. -/
structure UpdatePhysicalOperator where
  table_ : Nat
  values_ : List Value := []
  field_metas_ : List FieldMeta := []
  children_ : Option (List (Option Record)) := none

namespace UpdatePhysicalOperator

/-- The body of the loop over `values_` of `UpdatePhysicalOperator::next`
(`src/update_physical_operator.cpp`, lines 57-71), after the length check, for
one value and its field on the buffer `data`: the bytes of the value are copied
to the offset of the field, the bytes `a`..`z` of a TEXT value uppercased, and a
CHARS or TEXT value shorter than the field gets its terminator. -/
def assign_field (value : Value) (field_meta : FieldMeta) (data : List Byte) : List Byte :=
  let data1 :=
    if value.attr_type ≠ AttrType.TEXT then
      copy_bytes id value.data field_meta.offset value.length data
    else copy_bytes text_byte value.data field_meta.offset value.length data
  if (value.attr_type = AttrType.CHARS ∨ value.attr_type = AttrType.TEXT) ∧
      value.length < field_meta.len then
    data1.set (field_meta.offset + value.length) 0
  else data1

/-- The loop over `values_` of `UpdatePhysicalOperator::next`
(`src/update_physical_operator.cpp`, lines 48-72), from the value `i` on, with
the fields from `field_metas_[i]` on: the code is `RC::INVALID_ARGUMENT` at the
first value longer than its field; the use of `field_metas_[i]` past the end of
the vector stops the process. -/
def assign_fields : List Value → List FieldMeta → List Byte → Outcome (List Byte)
  | [], _, data => Outcome.ret RC.SUCCESS data
  | _ :: _, [], _ => Outcome.abort
  | value :: values, field_meta :: field_metas, data =>
    if value.length > field_meta.len then Outcome.ret RC.INVALID_ARGUMENT data
    else assign_fields values field_metas (assign_field value field_meta data)

/-- The loop `while (RC::SUCCESS == (rc = child->next()))` of
`UpdatePhysicalOperator::next` (`src/update_physical_operator.cpp`, lines
33-85) over the current tuples of the child that are left; `update` is
`Table::update_record` and `record_size` is `table_meta.record_size()`. The
record of the tuple is copied into a new buffer of `record_size` bytes, the
values are written over it and the table is asked to update the row. The use of
an old record without buffer stops the process. -/
def next_rows (update : Db → Nat → Record → Record → Outcome Db) (op : UpdatePhysicalOperator)
    (record_size : Nat) : List (Option Record) → Db → Outcome Db
  | [], db => Outcome.ret RC.RECORD_EOF db
  | none :: _, db => Outcome.ret RC.SUCCESS db
  | some old_record :: rest, db =>
    match old_record.data with
    | none => Outcome.abort
    | some old_data =>
      match assign_fields op.values_ op.field_metas_ (read_bytes old_data 0 record_size) with
      | Outcome.ret rc data =>
        if rc ≠ RC.SUCCESS then Outcome.ret rc db
        else
          match update db op.table_ old_record { rid := old_record.rid, data := some data } with
          | Outcome.ret rc1 db1 =>
            if rc1 ≠ RC.SUCCESS then Outcome.ret rc1 db1
            else next_rows update op record_size rest db1
          | Outcome.abort => Outcome.abort
          | Outcome.out_of_fuel => Outcome.out_of_fuel
      | Outcome.abort => Outcome.abort
      | Outcome.out_of_fuel => Outcome.out_of_fuel

/-- The function `UpdatePhysicalOperator::next`
(`src/update_physical_operator.cpp`, lines 24-86), with the fuel of the calls of
`Table::update_record`. -/
def next (junk : Nat → Byte) (fuel : Nat) (op : UpdatePhysicalOperator) (db : Db) : Outcome Db :=
  match op.children_ with
  | none => Outcome.ret RC.RECORD_EOF db
  | some rows =>
    match db.table op.table_ with
    | none => Outcome.abort
    | some t => next_rows (Table.update_record junk fuel) op t.table_meta_.record_size rows db

end UpdatePhysicalOperator

/-- The statement `update t set name = 'xy'` on the row `(2, "cd")` of
`two_row_table`. -/
def update_name : UpdatePhysicalOperator :=
  { table_ := 0,
    values_ := [{ attr_type_ := AttrType.CHARS, length_ := 2, str_value_ := [120, 121] }],
    field_metas_ := [⟨"name", AttrType.CHARS, 4, 4⟩],
    children_ := some [some row_two] }

/-- The statement `update t set name = 'abcde'` on the row `(2, "cd")` of
`two_row_table`: the value is longer than the field. -/
def update_long_name : UpdatePhysicalOperator :=
  { table_ := 0,
    values_ := [{ attr_type_ := AttrType.CHARS, length_ := 5,
                  str_value_ := [97, 98, 99, 100, 101] }],
    field_metas_ := [⟨"name", AttrType.CHARS, 4, 4⟩],
    children_ := some [some row_two] }

end Miniob

/-! ## Properties of the record codec -/

namespace Miniob


theorem length_copy_bytes (g : Byte → Byte) (src : List Byte) (off n : Nat) (buf : List Byte) :
    (copy_bytes g src off n buf).length = buf.length := by
  induction n with
  | zero => rfl
  | succ n ih => simp [copy_bytes, ih]

theorem getD_copy_bytes (g : Byte → Byte) (src : List Byte) (off n : Nat) (buf : List Byte)
    (p : Nat) (d : Byte) :
    (copy_bytes g src off n buf).getD p d =
      if off ≤ p ∧ p < off + n ∧ p < buf.length then g (src.getD (p - off) 0) else buf.getD p d := by
  induction n with
  | zero =>
    have : ¬ (off ≤ p ∧ p < off + 0 ∧ p < buf.length) := by omega
    rw [if_neg this]
    rfl
  | succ n ih =>
    simp only [copy_bytes]
    rw [List.getD_eq_getElem?_getD, List.getElem?_set]
    by_cases hp : off + n = p
    · subst hp
      simp [length_copy_bytes]
      by_cases hl : off + n < buf.length
      · simp [hl]
      · simp [hl]
        rw [List.getElem?_eq_none (by omega)]
        rfl
    · simp only [hp, if_false]
      rw [← List.getD_eq_getElem?_getD, ih]
      by_cases h1 : off ≤ p ∧ p < off + n ∧ p < buf.length
      · have h2 : off ≤ p ∧ p < off + (n + 1) ∧ p < buf.length := by omega
        simp [h1, h2]
      · have h2 : ¬ (off ≤ p ∧ p < off + (n + 1) ∧ p < buf.length) := by omega
        simp [h1, h2]

theorem copy_len_le (field : FieldMeta) (value : Value) : copy_len field value ≤ field.len := by
  unfold copy_len
  split_ifs <;> omega

theorem make_record_field_ok {field : FieldMeta} {value : Value} {buf buf1 : List Byte}
    (h : make_record_field field value buf = Except.ok buf1) :
    buf1 = copy_bytes (field_byte field) value.data field.offset (copy_len field value) buf := by
  unfold make_record_field at h
  unfold field_byte
  split_ifs at h with h1 h2 h3
  · simp only [Except.ok.injEq] at h
    rw [if_neg h3]; exact h.symm
  · simp only [Except.ok.injEq] at h
    have h4 : field.type = AttrType.TEXT := by simpa using h3
    rw [if_pos h4]; exact h.symm

theorem make_record_field_error {field : FieldMeta} {value : Value} {buf : List Byte} {rc : RC}
    (h : make_record_field field value buf = Except.error rc) : rc = RC.VARIABLE_NOT_VALID := by
  unfold make_record_field at h
  split_ifs at h <;> simp_all

theorem copy_fields_error {fields : List FieldMeta} {values : List Value} {buf : List Byte} {rc : RC}
    (h : copy_fields fields values buf = Except.error rc) : rc = RC.VARIABLE_NOT_VALID := by
  induction fields generalizing values buf with
  | nil => simp [copy_fields] at h
  | cons f fs ih =>
    cases values with
    | nil => simp [copy_fields] at h
    | cons v vs =>
      simp only [copy_fields] at h
      cases hs : make_record_field f v buf with
      | error rc1 =>
        rw [hs] at h
        simp only [Except.error.injEq] at h
        subst h
        exact make_record_field_error hs
      | ok buf1 =>
        rw [hs] at h
        exact ih h

theorem copy_fields_length {fields : List FieldMeta} {values : List Value} {buf buf1 : List Byte}
    (h : copy_fields fields values buf = Except.ok buf1) : buf1.length = buf.length := by
  induction fields generalizing values buf with
  | nil => simp [copy_fields] at h; subst h; rfl
  | cons f fs ih =>
    cases values with
    | nil => simp [copy_fields] at h; subst h; rfl
    | cons v vs =>
      simp only [copy_fields] at h
      cases hs : make_record_field f v buf with
      | error rc1 => rw [hs] at h; simp at h
      | ok buf2 =>
        rw [hs] at h
        rw [ih h, make_record_field_ok hs, length_copy_bytes]

theorem copy_fields_untouched {fields : List FieldMeta} {values : List Value} {buf buf1 : List Byte}
    (h : copy_fields fields values buf = Except.ok buf1) (p : Nat) (d : Byte)
    (hp : untouched fields values p) : buf1.getD p d = buf.getD p d := by
  induction fields generalizing values buf with
  | nil => simp [copy_fields] at h; subst h; rfl
  | cons f fs ih =>
    cases values with
    | nil => simp [copy_fields] at h; subst h; rfl
    | cons v vs =>
      simp only [copy_fields] at h
      cases hs : make_record_field f v buf with
      | error rc1 => rw [hs] at h; simp at h
      | ok buf2 =>
        rw [hs] at h
        have h1 : untouched fs vs p := fun q hq => hp q (by simp [List.zip_cons_cons, hq])
        rw [ih h h1, make_record_field_ok hs, getD_copy_bytes]
        have h2 := hp (f, v) (by simp [List.zip_cons_cons])
        have h3 : ¬ (f.offset ≤ p ∧ p < f.offset + copy_len f v ∧ p < buf.length) := by
          intro h4; exact h2 ⟨h4.1, h4.2.1⟩
        rw [if_neg h3]

theorem copy_fields_written {fields : List FieldMeta} {values : List Value} {buf buf1 : List Byte}
    (h : copy_fields fields values buf = Except.ok buf1)
    (hb : ∀ f ∈ fields, f.offset + f.len ≤ buf.length)
    (hd : fields.Pairwise disjoint_fields)
    (q : FieldMeta × Value) (hq : q ∈ List.zip fields values) (j : Nat) (hj : j < copy_len q.1 q.2)
    (d : Byte) :
    buf1.getD (q.1.offset + j) d = field_byte q.1 (q.2.data.getD j 0) := by
  induction fields generalizing values buf with
  | nil => simp at hq
  | cons f fs ih =>
    cases values with
    | nil => simp at hq
    | cons v vs =>
      simp only [copy_fields] at h
      cases hs : make_record_field f v buf with
      | error rc1 => rw [hs] at h; simp at h
      | ok buf2 =>
        rw [hs] at h
        have hlen : buf2.length = buf.length := by rw [make_record_field_ok hs, length_copy_bytes]
        rw [List.pairwise_cons] at hd
        simp only [List.zip_cons_cons, List.mem_cons] at hq
        rcases hq with hq | hq
        · subst hq
          have hu : untouched fs vs (f.offset + j) := by
            intro r hr
            have hr1 : r.1 ∈ fs := (List.of_mem_zip hr).1
            have h1 := hd.1 r.1 hr1
            have h2 := copy_len_le r.1 r.2
            have h3 := copy_len_le f v
            unfold disjoint_fields at h1
            simp only at hj
            omega
          rw [copy_fields_untouched h _ _ hu, make_record_field_ok hs, getD_copy_bytes]
          have h3 := copy_len_le f v
          have h4 := hb f (by simp)
          simp only at hj
          have h5 : f.offset ≤ f.offset + j ∧ f.offset + j < f.offset + copy_len f v ∧
              f.offset + j < buf.length := by omega
          rw [if_pos h5]
          simp
        · exact ih h (fun g hg => by rw [hlen]; exact hb g (by simp [hg])) hd.2 hq

theorem bytes_int_int_bytes (x : Int) (h1 : -2147483648 ≤ x) (h2 : x < 2147483648) :
    bytes_int (int_bytes x) = x := by
  unfold bytes_int int_bytes
  simp only [List.getD_cons_zero, List.getD_cons_succ]
  generalize hu : (x % 4294967296).toNat = u
  have hu1 : (u : Int) = x % 4294967296 := by
    rw [← hu]; exact Int.toNat_of_nonneg (Int.emod_nonneg _ (by norm_num))
  have hu2 : u < 4294967296 := by
    have := Int.emod_lt_of_pos x (show (0:Int) < 4294967296 by norm_num)
    omega
  have hu3 : u % 256 % 256 + 256 * (u / 256 % 256 % 256) + 65536 * (u / 65536 % 256 % 256)
      + 16777216 * (u / 16777216 % 256 % 256) = u := by
    simp only [Nat.mod_mod]
    omega
  rw [hu3]
  clear hu3
  split_ifs with h <;> omega

theorem takeWhile_eq_string (s l : List Byte) (h1 : ∀ j < s.length, l.getD j 0 = s.getD j 0)
    (h3 : l.getD s.length 0 = 0) (h4 : 0 ∉ s) :
    l.takeWhile (fun b => b != 0) = s := by
  induction s generalizing l with
  | nil =>
    cases l with
    | nil => rfl
    | cons a l1 =>
      simp only [List.length_nil, List.getD_cons_zero] at h3
      simp [List.takeWhile, h3]
  | cons b s1 ih =>
    cases l with
    | nil =>
      have := h1 0 (by simp)
      simp only [List.getD_nil, List.getD_cons_zero] at this
      exact absurd this.symm (by intro h; exact h4 (by simp [h]))
    | cons a l1 =>
      have h0 := h1 0 (by simp)
      simp only [List.getD_cons_zero] at h0
      subst h0
      have ha : a ≠ 0 := by intro h; exact h4 (by simp [h])
      have h5 : l1.takeWhile (fun b => b != 0) = s1 := by
        apply ih
        · intro j hj
          have := h1 (j + 1) (by simp; omega)
          simpa using this
        · simpa using h3
        · intro h; exact h4 (List.mem_cons_of_mem _ h)
      have hb : (a != 0) = true := by simpa using ha
      simp [List.takeWhile, hb, h5]

theorem getD_read_bytes (buf : List Byte) (off len j : Nat) (hj : j < len) :
    (read_bytes buf off len).getD j 0 = buf.getD (off + j) 0 := by
  unfold read_bytes
  rw [List.getD_eq_getElem?_getD, List.getElem?_map, List.getElem?_range hj]
  simp

theorem length_read_bytes (buf : List Byte) (off len : Nat) :
    (read_bytes buf off len).length = len := by
  simp [read_bytes]

theorem text_byte_ne_zero (b : Nat) (h : b ≠ 0) : text_byte b ≠ 0 := by
  unfold text_byte islower
  split_ifs with h1
  · simp only [Bool.and_eq_true, decide_eq_true_eq] at h1
    omega
  · exact h

theorem text_byte_zero : text_byte 0 = 0 := by
  decide

theorem make_record_field_isOk (field : FieldMeta) (value : Value) (buf : List Byte) :
    (∃ buf1, make_record_field field value buf = Except.ok buf1) ↔ ¬ rejected field value := by
  unfold make_record_field rejected
  split_ifs with h1 h2 h3
  · simp [h1]
  · simp [h2]
  · simp only [Except.ok.injEq, exists_eq', true_iff]
    rintro (h | h)
    · exact h1 ⟨h.1, h.2⟩
    · exact h2 h
  · simp only [Except.ok.injEq, exists_eq', true_iff]
    rintro (h | h)
    · exact h1 ⟨h.1, h.2⟩
    · exact h2 h

theorem copy_fields_isOk (fields : List FieldMeta) (values : List Value) (buf : List Byte) :
    (∃ buf1, copy_fields fields values buf = Except.ok buf1) ↔
      ∀ q ∈ List.zip fields values, ¬ rejected q.1 q.2 := by
  induction fields generalizing values buf with
  | nil => simp [copy_fields]
  | cons f fs ih =>
    cases values with
    | nil => simp [copy_fields]
    | cons v vs =>
      simp only [copy_fields, List.zip_cons_cons, List.mem_cons, forall_eq_or_imp]
      cases hs : make_record_field f v buf with
      | error rc1 =>
        have h1 : ¬ ∃ buf1, make_record_field f v buf = Except.ok buf1 := by simp [hs]
        rw [make_record_field_isOk] at h1
        simp only [not_not] at h1
        simp [h1]
      | ok buf2 =>
        have h1 : ∃ buf1, make_record_field f v buf = Except.ok buf1 := ⟨buf2, hs⟩
        rw [make_record_field_isOk] at h1
        simp only [h1, not_false_eq_true, true_and]
        exact ih vs buf2

theorem type_mismatch_iff (fields : List FieldMeta) (values : List Value) :
    type_mismatch fields values = true ↔
      ∃ q ∈ List.zip fields values, q.1.type ≠ q.2.attr_type := by
  induction fields generalizing values with
  | nil => simp [type_mismatch]
  | cons f fs ih =>
    cases values with
    | nil => simp [type_mismatch]
    | cons v vs =>
      simp only [type_mismatch, List.zip_cons_cons, List.mem_cons, exists_eq_or_imp]
      by_cases h : f.type = v.attr_type
      · simp [h, ih]
      · simp [h]

theorem make_record_rc (table_meta_ : TableMeta) (values : List Value) (record : Record)
    (junk : Nat → Byte) :
    (make_record table_meta_ values record junk).1 =
      if values.length + table_meta_.sys_field_num ≠ table_meta_.field_num then RC.SCHEMA_FIELD_MISSING
      else if type_mismatch table_meta_.normal_fields values then RC.SCHEMA_FIELD_TYPE_MISMATCH
      else if ∀ q ∈ List.zip table_meta_.normal_fields values, ¬ rejected q.1 q.2 then RC.SUCCESS
      else RC.VARIABLE_NOT_VALID := by
  unfold make_record
  split_ifs with h1 h2 h3
  · rfl
  · rfl
  · obtain ⟨buf1, hb⟩ := (copy_fields_isOk _ _ (malloc table_meta_.record_size junk)).mpr h3
    rw [hb]
  · cases hb : copy_fields table_meta_.normal_fields values (malloc table_meta_.record_size junk) with
    | error rc => simp only; exact copy_fields_error hb
    | ok buf1 => exact absurd ((copy_fields_isOk _ _ _).mp ⟨buf1, hb⟩) h3

/-- C8: `Table::make_record` returns `RC::SCHEMA_FIELD_MISSING` if and only if the
number of values differs from `field_num - sys_field_num`; and when it differs,
every value list of that length gets this code and the record is left as it
was, whatever the values are: the check comes before any value is looked at. -/
theorem make_record_field_count (table_meta_ : TableMeta) (values : List Value) (record : Record)
    (junk : Nat → Byte) :
    ((make_record table_meta_ values record junk).1 = RC.SCHEMA_FIELD_MISSING ↔
      (values.length : Int) ≠ (table_meta_.field_num : Int) - (table_meta_.sys_field_num : Int)) ∧
    ((values.length : Int) ≠ (table_meta_.field_num : Int) - (table_meta_.sys_field_num : Int) →
      ∀ values1 : List Value, values1.length = values.length →
        make_record table_meta_ values1 record junk = (RC.SCHEMA_FIELD_MISSING, record)) := by
  constructor
  · rw [make_record_rc]
    split_ifs with h1 h2 h3
    · simp only [true_iff]; omega
    · simp only [reduceCtorEq, false_iff, not_not]; omega
    · simp only [reduceCtorEq, false_iff, not_not]; omega
    · simp only [reduceCtorEq, false_iff, not_not]; omega
  · intro h values1 hl
    unfold make_record
    have h1 : values1.length + table_meta_.sys_field_num ≠ table_meta_.field_num := by omega
    rw [if_pos h1]

/-- C9: for a value list of the right length, `Table::make_record` returns
`RC::SCHEMA_FIELD_TYPE_MISMATCH` if and only if some value has another kind than
the non-system field at the same position. Nothing else about the values counts,
so a mismatch is reported also after an over-long TEXT or an invalid DATE. -/
theorem make_record_type_check (table_meta_ : TableMeta) (values : List Value) (record : Record)
    (junk : Nat → Byte)
    (hn : values.length + table_meta_.sys_field_num = table_meta_.field_num) :
    (make_record table_meta_ values record junk).1 = RC.SCHEMA_FIELD_TYPE_MISMATCH ↔
      ∃ q ∈ List.zip table_meta_.normal_fields values, q.1.type ≠ q.2.attr_type := by
  rw [make_record_rc, ← type_mismatch_iff]
  have h1 : ¬ (values.length + table_meta_.sys_field_num ≠ table_meta_.field_num) := by simpa using hn
  rw [if_neg h1]
  split_ifs with h2 h3
  · simp [h2]
  · simp [h2]
  · simp [h2]

/-- C10: for a well-typed value list, a TEXT value whose string is longer than
65535 bytes makes `Table::make_record` fail (with `RC::VARIABLE_NOT_VALID`); and
when every TEXT value has at most 65535 bytes, a failure can only come from an
invalid DATE, so a TEXT of 65535 bytes or fewer does not make it fail. -/
theorem make_record_text_limit (table_meta_ : TableMeta) (values : List Value) (record : Record)
    (junk : Nat → Byte)
    (hn : values.length + table_meta_.sys_field_num = table_meta_.field_num)
    (ht : ∀ q ∈ List.zip table_meta_.normal_fields values, q.1.type = q.2.attr_type) :
    ((∃ q ∈ List.zip table_meta_.normal_fields values,
        q.1.type = AttrType.TEXT ∧ 65535 < strlen (c_str q.2.get_string)) →
      (make_record table_meta_ values record junk).1 = RC.VARIABLE_NOT_VALID) ∧
    ((∀ q ∈ List.zip table_meta_.normal_fields values,
        q.1.type = AttrType.TEXT → strlen (c_str q.2.get_string) ≤ 65535) →
      (make_record table_meta_ values record junk).1 ≠ RC.SUCCESS →
      ∃ q ∈ List.zip table_meta_.normal_fields values,
        q.1.type = AttrType.DATE ∧ q.2.get_date = -1) := by
  have h1 : ¬ (values.length + table_meta_.sys_field_num ≠ table_meta_.field_num) := by simpa using hn
  have h2 : ¬ (type_mismatch table_meta_.normal_fields values = true) := by
    rw [type_mismatch_iff]
    rintro ⟨q, hq, hne⟩
    exact hne (ht q hq)
  rw [make_record_rc, if_neg h1, if_neg h2]
  constructor
  · rintro ⟨q, hq, h3⟩
    have h4 : ¬ ∀ q ∈ List.zip table_meta_.normal_fields values, ¬ rejected q.1 q.2 :=
      fun h => h q hq (Or.inl h3)
    rw [if_neg h4]
  · intro h3 h4
    split_ifs at h4 with h5
    · exact absurd rfl h4
    · simp only [not_forall, not_not] at h5
      obtain ⟨q, hq, h6⟩ := h5
      rcases h6 with h6 | h6
      · have := h3 q hq h6.1
        omega
      · exact ⟨q, hq, h6⟩

theorem make_record_success {m : TableMeta} {values : List Value} {record record1 : Record}
    {junk : Nat → Byte} (h : make_record m values record junk = (RC.SUCCESS, record1)) :
    ∃ record_data, record1 = { record with data := some record_data } ∧
      copy_fields m.normal_fields values (malloc m.record_size junk) = Except.ok record_data := by
  unfold make_record at h
  split_ifs at h with h1 h2
  · simp at h
  · simp at h
  · cases hc : copy_fields m.normal_fields values (malloc m.record_size junk) with
    | error rc =>
      rw [hc] at h
      simp only [Prod.mk.injEq] at h
      have := copy_fields_error hc
      rw [this] at h
      simp at h
    | ok record_data =>
      rw [hc] at h
      simp only [Prod.mk.injEq, true_and] at h
      exact ⟨record_data, h.symm, rfl⟩

theorem length_malloc (n : Nat) (junk : Nat → Byte) : (malloc n junk).length = n := by
  simp [malloc]

theorem getD_malloc (n : Nat) (junk : Nat → Byte) (p : Nat) (hp : p < n) :
    (malloc n junk).getD p 0 = junk p := by
  unfold malloc
  rw [List.getD_eq_getElem?_getD, List.getElem?_map, List.getElem?_range hp]
  simp

theorem copy_len_eq_spec (field : FieldMeta) (value : Value) :
    copy_len field value = spec_copy_len field value := by
  unfold copy_len spec_copy_len
  split_ifs with h1 h2
  · omega
  · omega
  · rfl

theorem zip_eq_or_disjoint {fields : List FieldMeta} {values : List Value}
    (hd : fields.Pairwise disjoint_fields) (r q : FieldMeta × Value)
    (hr : r ∈ List.zip fields values) (hq : q ∈ List.zip fields values) :
    r = q ∨ disjoint_fields r.1 q.1 := by
  induction fields generalizing values with
  | nil => simp at hr
  | cons f fs ih =>
    cases values with
    | nil => simp at hr
    | cons v vs =>
      rw [List.pairwise_cons] at hd
      simp only [List.zip_cons_cons, List.mem_cons] at hr hq
      rcases hr with hr | hr <;> rcases hq with hq | hq
      · left; rw [hr, hq]
      · right; subst hr; exact hd.1 q.1 (List.of_mem_zip hq).1
      · right; subst hq
        have := hd.1 r.1 (List.of_mem_zip hr).1
        unfold disjoint_fields at this ⊢
        simp only
        omega
      · exact ih hd.2 hr hq

/-- C7: after a successful `Table::make_record` on a schema whose fields lie in
the record without overlap, the number of bytes copied for a value is the field
length for a fixed-width kind and `min(len, length + 1)` for CHARS and TEXT;
these bytes stand at the field offset, the rest of the field still holds what
`malloc` returned, and so does every byte of the record outside the copied
ranges. -/
theorem make_record_copy_length (m : TableMeta) (values : List Value) (record record1 : Record)
    (junk : Nat → Byte) (hl : m.layout_ok)
    (h : make_record m values record junk = (RC.SUCCESS, record1)) :
    ∃ record_data, record1.data = some record_data ∧ record_data.length = m.record_size ∧
      (∀ q ∈ List.zip m.normal_fields values,
        copy_len q.1 q.2 = spec_copy_len q.1 q.2 ∧
        (∀ j < spec_copy_len q.1 q.2,
          record_data.getD (q.1.offset + j) 0 = field_byte q.1 (q.2.data.getD j 0)) ∧
        (∀ j, spec_copy_len q.1 q.2 ≤ j → j < q.1.len →
          record_data.getD (q.1.offset + j) 0 = junk (q.1.offset + j))) ∧
      (∀ p < m.record_size,
        (∀ q ∈ List.zip m.normal_fields values,
          ¬ (q.1.offset ≤ p ∧ p < q.1.offset + spec_copy_len q.1 q.2)) →
        record_data.getD p 0 = junk p) := by
  obtain ⟨record_data, h1, h2⟩ := make_record_success h
  have hb : ∀ f ∈ m.normal_fields, f.offset + f.len ≤ (malloc m.record_size junk).length := by
    intro f hf
    rw [length_malloc]
    exact hl.1 f hf
  have hout : ∀ p < m.record_size,
      (∀ q ∈ List.zip m.normal_fields values,
        ¬ (q.1.offset ≤ p ∧ p < q.1.offset + spec_copy_len q.1 q.2)) →
      record_data.getD p 0 = junk p := by
    intro p hp hq
    have hu : untouched m.normal_fields values p := by
      intro q hq1
      rw [copy_len_eq_spec]
      exact hq q hq1
    rw [copy_fields_untouched h2 p 0 hu, getD_malloc _ _ _ hp]
  refine ⟨record_data, by rw [h1], ?_, ?_, hout⟩
  · rw [copy_fields_length h2, length_malloc]
  · intro q hq
    refine ⟨copy_len_eq_spec _ _, ?_, ?_⟩
    · intro j hj
      rw [← copy_len_eq_spec] at hj
      exact copy_fields_written h2 hb hl.2 q hq j hj 0
    · intro j hj1 hj2
      have hq1 : q.1 ∈ m.normal_fields := (List.of_mem_zip hq).1
      have hin := hl.1 q.1 hq1
      apply hout (q.1.offset + j) (by omega)
      intro r hr
      rcases zip_eq_or_disjoint hl.2 r q hr hq with hrq | hrq
      · subst hrq
        omega
      · have h3 : spec_copy_len r.1 r.2 ≤ r.1.len := by
          rw [← copy_len_eq_spec]; exact copy_len_le _ _
        unfold disjoint_fields at hrq
        omega

theorem strlen_c_str (s : List Byte) (h : 0 ∉ s) : strlen (c_str s) = s.length := by
  unfold strlen c_str
  rw [takeWhile_eq_string s (s ++ [0]) _ _ h]
  · intro j hj
    rw [List.getD_eq_getElem?_getD, List.getD_eq_getElem?_getD, List.getElem?_append_left hj]
  · rw [List.getD_eq_getElem?_getD, List.getElem?_append_right (le_refl _)]
    simp

theorem bytes_int_congr (a b : List Nat) (h : ∀ j < 4, a.getD j 0 = b.getD j 0) :
    bytes_int a = bytes_int b := by
  unfold bytes_int
  rw [h 0 (by omega), h 1 (by omega), h 2 (by omega), h 3 (by omega)]

theorem field_byte_zero (field : FieldMeta) : field_byte field 0 = 0 := by
  unfold field_byte
  split_ifs
  · exact text_byte_zero
  · rfl

theorem field_byte_ne_zero (field : FieldMeta) (b : Nat) (h : b ≠ 0) : field_byte field b ≠ 0 := by
  unfold field_byte
  split_ifs
  · exact text_byte_ne_zero b h
  · exact h

theorem read_field_string {field : FieldMeta} {value : Value} {buf : List Byte}
    (hs : field.type = AttrType.CHARS ∨ field.type = AttrType.TEXT)
    (ht : field.type = value.attr_type_)
    (h0 : 0 ∉ value.str_value_) (hlen : value.str_value_.length < field.len)
    (hw : ∀ j < value.str_value_.length + 1,
      buf.getD (field.offset + j) 0 = field_byte field (value.data.getD j 0)) :
    read_field field buf =
      { attr_type_ := field.type, length_ := value.str_value_.length,
        str_value_ := value.str_value_.map (field_byte field) } := by
  have hdata : value.data = value.str_value_ ++ [0] := by
    unfold Value.data c_str
    rw [← ht]
    rcases hs with hs | hs <;> rw [hs]
  have htw : (read_bytes buf field.offset field.len).takeWhile (fun b => b != 0) =
      value.str_value_.map (field_byte field) := by
    apply takeWhile_eq_string
    · intro j hj
      rw [List.length_map] at hj
      rw [getD_read_bytes _ _ _ _ (by omega), hw j (by omega), hdata]
      rw [List.getD_eq_getElem?_getD, List.getD_eq_getElem?_getD, List.getElem?_append_left hj,
        List.getElem?_map, List.getElem?_eq_getElem hj]
      simp
    · rw [List.length_map, getD_read_bytes _ _ _ _ hlen, hw _ (by omega), hdata]
      rw [List.getD_eq_getElem?_getD, List.getElem?_append_right (le_refl _)]
      simp [field_byte_zero]
    · intro h
      rw [List.mem_map] at h
      obtain ⟨b, hb, hb0⟩ := h
      have hbn : b ≠ 0 := by intro hb1; rw [hb1] at hb; exact h0 hb
      exact field_byte_ne_zero field b hbn hb0
  unfold read_field
  simp only [hs, if_true]
  unfold strlen
  rw [htw, List.length_map]

theorem read_field_number {field : FieldMeta} {value : Value} {buf : List Byte}
    (hs : ¬ (field.type = AttrType.CHARS ∨ field.type = AttrType.TEXT))
    (ht : field.type = value.attr_type_) (h4 : field.len = 4)
    (h1 : -2147483648 ≤ value.num_value_) (h2 : value.num_value_ < 2147483648)
    (hw : ∀ j < 4, buf.getD (field.offset + j) 0 = field_byte field (value.data.getD j 0)) :
    read_field field buf =
      { attr_type_ := field.type, length_ := 4, num_value_ := value.num_value_ } := by
  have hdata : value.data = int_bytes value.num_value_ := by
    unfold Value.data
    rw [← ht]
    push_neg at hs
    cases hty : field.type <;> simp_all
  have hfb : field_byte field = id := by
    unfold field_byte
    rw [if_neg (fun h => hs (Or.inr h))]
  unfold read_field
  simp only [hs, if_false, h4]
  congr 1
  rw [← bytes_int_int_bytes value.num_value_ h1 h2]
  apply bytes_int_congr
  intro j hj
  rw [getD_read_bytes _ _ _ _ hj, hw j hj, hfb, hdata]
  rfl

/-- C5: for a schema whose fields lie in the record without overlap and a list
of values that is well typed and in bounds, `Table::make_record` succeeds, and
each field read back from the record has the kind of its value and the content
of its value: the same string for CHARS, the string with `a`..`z` uppercased for
TEXT, the same number for the other kinds. -/
theorem make_record_round_trip (m : TableMeta) (values : List Value) (record : Record)
    (junk : Nat → Byte) (hl : m.layout_ok)
    (hn : values.length + m.sys_field_num = m.field_num)
    (hb : ∀ q ∈ List.zip m.normal_fields values, in_bounds q.1 q.2) :
    ∃ record_data,
      make_record m values record junk = (RC.SUCCESS, { record with data := some record_data }) ∧
      ∀ q ∈ List.zip m.normal_fields values,
        (read_field q.1 record_data).attr_type_ = q.2.attr_type_ ∧
        (q.1.type = AttrType.CHARS →
          (read_field q.1 record_data).str_value_ = q.2.str_value_ ∧
          (read_field q.1 record_data).length_ = q.2.length_) ∧
        (q.1.type = AttrType.TEXT →
          (read_field q.1 record_data).str_value_ = q.2.str_value_.map text_byte ∧
          (read_field q.1 record_data).length_ = q.2.length_) ∧
        (q.1.type ≠ AttrType.CHARS → q.1.type ≠ AttrType.TEXT →
          (read_field q.1 record_data).num_value_ = q.2.num_value_) := by
  have h1 : ¬ (values.length + m.sys_field_num ≠ m.field_num) := by simpa using hn
  have h2 : ¬ (type_mismatch m.normal_fields values = true) := by
    rw [type_mismatch_iff]
    rintro ⟨q, hq, hne⟩
    exact hne (hb q hq).1
  have h3 : ∀ q ∈ List.zip m.normal_fields values, ¬ rejected q.1 q.2 := by
    intro q hq
    have hq1 := hb q hq
    unfold in_bounds at hq1
    unfold rejected
    rintro (⟨ht, hlen⟩ | ⟨ht, hdate⟩)
    · rw [if_pos (Or.inr ht)] at hq1
      rw [Value.get_string, strlen_c_str _ hq1.2.2.2.1] at hlen
      have := hq1.2.2.2.2.2 ht
      have := hq1.2.2.1
      omega
    · have hns : ¬ (q.1.type = AttrType.CHARS ∨ q.1.type = AttrType.TEXT) := by
        rw [ht]; simp
      rw [if_neg hns] at hq1
      exact hq1.2.2.2.2.2 ht hdate
  obtain ⟨record_data, hc⟩ := (copy_fields_isOk _ _ (malloc m.record_size junk)).mpr h3
  have hmk : make_record m values record junk = (RC.SUCCESS, { record with data := some record_data }) := by
    unfold make_record
    rw [if_neg h1, if_neg h2, hc]
  refine ⟨record_data, hmk, ?_⟩
  intro q hq
  have hbuf : ∀ f ∈ m.normal_fields, f.offset + f.len ≤ (malloc m.record_size junk).length := by
    intro f hf
    rw [length_malloc]
    exact hl.1 f hf
  have hw := fun j hj => copy_fields_written hc hbuf hl.2 q hq j hj 0
  have hq1 := hb q hq
  unfold in_bounds at hq1
  by_cases hs : q.1.type = AttrType.CHARS ∨ q.1.type = AttrType.TEXT
  · rw [if_pos hs] at hq1
    obtain ⟨ht, _, hlen, h0, hlt, _⟩ := hq1
    have hcl : copy_len q.1 q.2 = q.2.str_value_.length + 1 := by
      unfold copy_len Value.length
      rw [if_pos hs, if_pos (by omega), hlen]
    rw [hcl] at hw
    rw [read_field_string hs ht h0 (by omega) hw]
    refine ⟨ht, ?_, ?_, ?_⟩
    · intro hc1
      have : field_byte q.1 = id := by
        unfold field_byte
        rw [if_neg (by rw [hc1]; simp)]
      simp [this, hlen]
    · intro ht1
      have : field_byte q.1 = text_byte := by
        unfold field_byte
        rw [if_pos ht1]
      simp [this, hlen]
    · intro hc1 ht1
      exact absurd hs (by simp [hc1, ht1])
  · rw [if_neg hs] at hq1
    obtain ⟨ht, _, h4, hlo, hhi, _⟩ := hq1
    have hcl : copy_len q.1 q.2 = 4 := by
      unfold copy_len
      rw [if_neg hs, h4]
    rw [hcl] at hw
    rw [read_field_number hs ht h4 hlo hhi hw]
    refine ⟨ht, ?_, ?_, ?_⟩
    · intro hc1; exact absurd (Or.inl hc1) hs
    · intro ht1; exact absurd (Or.inr ht1) hs
    · intro _ _; rfl

theorem make_record_round_trip_witness :
    ∃ record_data,
      make_record memo_meta memo_values {} (fun _ => 0) =
        (RC.SUCCESS, { data := some record_data }) ∧
      (read_field ⟨"body", AttrType.TEXT, 4, 8⟩ record_data).str_value_ =
        [65, 66, 67, 68, 69, 70] := by
  obtain ⟨record_data, h1, h2⟩ :=
    make_record_round_trip memo_meta memo_values {} (fun _ => 0) (by decide) (by decide)
      (by decide)
  refine ⟨record_data, h1, ?_⟩
  exact ((h2 (⟨"body", AttrType.TEXT, 4, 8⟩,
    { attr_type_ := AttrType.TEXT, length_ := 6, str_value_ := [97, 98, 99, 68, 69, 70] })
    (by decide)).2.2.1 rfl).1

/-- C6: after a successful `Table::make_record` on a schema whose fields lie in
the record without overlap, each of the bytes written for a TEXT field, which
are `min(len, length + 1)` bytes at the offset of the field, is the byte of the
value with `a`..`z` (97..122) lowered by 32 and any other byte unchanged, and
each byte written for a field of another kind, CHARS included, is the byte of
the value. A TEXT value that is in bounds is read back from the record as its
string with `a`..`z` replaced by `A`..`Z` and the other bytes unchanged, and a
CHARS value that is in bounds as its own string. -/
theorem make_record_text_uppercase (m : TableMeta) (values : List Value) (record record1 : Record)
    (junk : Nat → Byte) (hl : m.layout_ok)
    (h : make_record m values record junk = (RC.SUCCESS, record1)) :
    ∃ record_data, record1.data = some record_data ∧
      (∀ q ∈ List.zip m.normal_fields values, ∀ j < spec_copy_len q.1 q.2,
        record_data.getD (q.1.offset + j) 0 =
          if q.1.type = AttrType.TEXT then
            if 97 ≤ q.2.data.getD j 0 ∧ q.2.data.getD j 0 ≤ 122 then q.2.data.getD j 0 - 32
            else q.2.data.getD j 0
          else q.2.data.getD j 0) ∧
      ∀ q ∈ List.zip m.normal_fields values, in_bounds q.1 q.2 →
        (q.1.type = AttrType.TEXT →
          (read_field q.1 record_data).str_value_ =
            q.2.str_value_.map (fun b => if 97 ≤ b ∧ b ≤ 122 then b - 32 else b)) ∧
        (q.1.type = AttrType.CHARS →
          (read_field q.1 record_data).str_value_ = q.2.str_value_) := by
  obtain ⟨record_data, h1, h2⟩ := make_record_success h
  have hb : ∀ f ∈ m.normal_fields, f.offset + f.len ≤ (malloc m.record_size junk).length := by
    intro f hf
    rw [length_malloc]
    exact hl.1 f hf
  have htb : ∀ b : Nat, text_byte b = if 97 ≤ b ∧ b ≤ 122 then b - 32 else b := by
    intro b
    unfold text_byte islower
    simp only [Bool.and_eq_true, decide_eq_true_eq]
  refine ⟨record_data, by rw [h1], ?_, ?_⟩
  · intro q hq j hj
    rw [← copy_len_eq_spec] at hj
    rw [copy_fields_written h2 hb hl.2 q hq j hj 0]
    unfold field_byte
    by_cases ht : q.1.type = AttrType.TEXT
    · rw [if_pos ht, if_pos ht, htb]
    · rw [if_neg ht, if_neg ht]
      rfl
  · intro q hq hq1
    have hw := fun j hj => copy_fields_written h2 hb hl.2 q hq j hj 0
    unfold in_bounds at hq1
    constructor
    · intro ht
      have hs : q.1.type = AttrType.CHARS ∨ q.1.type = AttrType.TEXT := Or.inr ht
      rw [if_pos hs] at hq1
      obtain ⟨hty, _, hlen, h0, hlt, _⟩ := hq1
      have hcl : copy_len q.1 q.2 = q.2.str_value_.length + 1 := by
        unfold copy_len Value.length
        rw [if_pos hs, if_pos (by omega), hlen]
      rw [hcl] at hw
      rw [read_field_string hs hty h0 (by omega) hw]
      have hfb : field_byte q.1 = text_byte := by
        unfold field_byte
        rw [if_pos ht]
      simp only [hfb]
      exact List.map_congr_left (fun b _ => htb b)
    · intro hc
      have hs : q.1.type = AttrType.CHARS ∨ q.1.type = AttrType.TEXT := Or.inl hc
      rw [if_pos hs] at hq1
      obtain ⟨hty, _, hlen, h0, hlt, _⟩ := hq1
      have hcl : copy_len q.1 q.2 = q.2.str_value_.length + 1 := by
        unfold copy_len Value.length
        rw [if_pos hs, if_pos (by omega), hlen]
      rw [hcl] at hw
      rw [read_field_string hs hty h0 (by omega) hw]
      have hfb : field_byte q.1 = id := by
        unfold field_byte
        rw [if_neg (by rw [hc]; simp)]
      simp only [hfb, List.map_id]

theorem make_record_text_uppercase_witness :
    make_record memo_meta memo_values {} (fun _ => 7) =
      (RC.SUCCESS, { data := some [107, 179, 52, 1, 65, 66, 67, 68, 69, 70, 0, 7] }) ∧
    (read_field ⟨"body", AttrType.TEXT, 4, 8⟩
      [107, 179, 52, 1, 65, 66, 67, 68, 69, 70, 0, 7]).str_value_ =
      [65, 66, 67, 68, 69, 70] := by
  obtain ⟨record_data, h1, _, h3⟩ :=
    make_record_text_uppercase memo_meta memo_values {}
      { data := some [107, 179, 52, 1, 65, 66, 67, 68, 69, 70, 0, 7] } (fun _ => 7)
      (by decide) rfl
  simp only [Option.some.injEq] at h1
  subst h1
  exact ⟨rfl, (h3 (⟨"body", AttrType.TEXT, 4, 8⟩,
    { attr_type_ := AttrType.TEXT, length_ := 6, str_value_ := [97, 98, 99, 68, 69, 70] })
    (by decide) (by decide)).1 rfl⟩

theorem make_record_copy_length_witness :
    ∃ record_data,
      (make_record scenario_meta scenario_values {} (fun _ => 7)).2.data = some record_data ∧
      record_data = [1, 0, 0, 0, 99, 100, 0, 7] := by
  obtain ⟨record_data, h1, _, _, _⟩ :=
    make_record_copy_length scenario_meta scenario_values {}
      { data := some [1, 0, 0, 0, 99, 100, 0, 7] } (fun _ => 7) (by decide) (by decide)
  exact ⟨record_data, h1, by simpa using h1.symm⟩

theorem make_record_field_count_witness :
    (make_record scenario_meta [] {} (fun _ => 0)).1 = RC.SCHEMA_FIELD_MISSING :=
  (make_record_field_count scenario_meta [] {} (fun _ => 0)).1.mpr (by decide)

theorem make_record_type_check_witness :
    (make_record memo_meta memo_bad_values {} (fun _ => 0)).1 = RC.SCHEMA_FIELD_TYPE_MISMATCH :=
  (make_record_type_check memo_meta memo_bad_values {} (fun _ => 0) (by decide)).mpr
    ⟨(⟨"body", AttrType.TEXT, 4, 8⟩,
      { attr_type_ := AttrType.CHARS, length_ := 2, str_value_ := [97, 98] }),
      by decide, by decide⟩

theorem make_record_text_limit_witness :
    (make_record memo_meta memo_values {} (fun _ => 0)).1 = RC.SUCCESS := by
  have h := (make_record_text_limit memo_meta memo_values {} (fun _ => 0) (by decide)
    (by decide)).2 (by decide)
  by_contra hne
  obtain ⟨q, hq, hd⟩ := h hne
  revert q
  decide

end Miniob

/-! ## Properties of the table mutation protocol -/

namespace Miniob

open Table

/-- The index after the entry of a record has been added. -/
theorem insert_entry_cases (index : Index) (record : List Byte) (rid : RID) :
    ((index.insert_entry record rid).1 = RC.SUCCESS ∧
      (index.insert_entry record rid).2 =
        { index with entries := index.entries ++ [(index.key record, rid)] }) ∨
    ((index.insert_entry record rid).1 = RC.RECORD_DUPLICATE_KEY ∧
      (index.insert_entry record rid).2 = index) := by
  unfold Index.insert_entry
  split_ifs <;> simp

theorem delete_entry_cases (index : Index) (record : List Byte) (rid : RID) :
    ((index.key record, rid) ∈ index.entries ∧
      (index.delete_entry record rid).1 = RC.SUCCESS ∧
      (index.delete_entry record rid).2 =
        { index with entries := Index.erase_entry (index.key record, rid) index.entries }) ∨
    ((index.key record, rid) ∉ index.entries ∧
      (index.delete_entry record rid).1 = RC.RECORD_INVALID_KEY ∧
      (index.delete_entry record rid).2 = index) := by
  unfold Index.delete_entry
  split_ifs with h <;> simp [h]

theorem not_mem_entries_of_not_mem_rids {index : Index} {rid : RID} (h : rid ∉ index.rids)
    (key : List Byte) : (key, rid) ∉ index.entries := by
  intro hm
  apply h
  unfold Index.rids
  exact List.mem_map.mpr ⟨(key, rid), hm, rfl⟩

theorem erase_append_singleton (l : List (List Byte × RID)) (a : List Byte × RID) (h : a ∉ l) :
    Index.erase_entry a (l ++ [a]) = l := by
  induction l with
  | nil => simp [Index.erase_entry]
  | cons x rest ih =>
    have hx : x ≠ a := fun hxa => h (by simp [hxa])
    have hr : a ∉ rest := fun hm => h (List.mem_cons_of_mem _ hm)
    rw [List.cons_append]
    unfold Index.erase_entry
    rw [if_neg hx, ih hr]

theorem perm_cons_erase_entry (l : List (List Byte × RID)) (a : List Byte × RID) (h : a ∈ l) :
    l.Perm (a :: Index.erase_entry a l) := by
  induction l with
  | nil => simp at h
  | cons x rest ih =>
    unfold Index.erase_entry
    by_cases hx : x = a
    · rw [if_pos hx, hx]
    · rw [if_neg hx]
      have hr : a ∈ rest := by
        rcases List.mem_cons.mp h with h1 | h1
        · exact absurd h1.symm hx
        · exact h1
      exact ((ih hr).cons x).trans (List.Perm.swap a x _)

/-- Rolling back a failed insertion restores the indexes. -/
theorem rollback_restores (indexes : List Index) (record : List Byte) (rid : RID) (rc0 : RC)
    (hfresh : ∀ index ∈ indexes, rid ∉ index.rids)
    (hfail : (insert_entry_of_indexes indexes record rid).1 ≠ RC.SUCCESS) :
    (delete_entry_loop (insert_entry_of_indexes indexes record rid).2 record rid false rc0).2
      = indexes := by
  induction indexes generalizing rc0 with
  | nil => simp [insert_entry_of_indexes] at hfail
  | cons index rest ih =>
    have hnot := not_mem_entries_of_not_mem_rids (hfresh index (by simp)) (index.key record)
    unfold insert_entry_of_indexes at hfail ⊢
    rcases insert_entry_cases index record rid with ⟨h1, h2⟩ | ⟨h1, h2⟩
    · simp only [h1, ne_eq, not_true_eq_false, if_false] at hfail ⊢
      rw [h2]
      unfold delete_entry_loop
      have hkey : (Index.key { index with entries := index.entries ++ [(index.key record, rid)] } record)
          = index.key record := rfl
      have hd : (Index.delete_entry
          { index with entries := index.entries ++ [(index.key record, rid)] } record rid)
          = (RC.SUCCESS, index) := by
        unfold Index.delete_entry
        rw [hkey]
        simp only [List.mem_append, List.mem_singleton, or_true, if_true]
        rw [erase_append_singleton _ _ hnot]
      rw [hd]
      simp only [ne_eq, not_true_eq_false, false_and, if_false]
      rw [ih RC.SUCCESS (fun ix hix => hfresh ix (by simp [hix])) hfail]
    · have hne : (index.insert_entry record rid).1 ≠ RC.SUCCESS := by rw [h1]; simp
      simp only [hne, ne_eq, not_false_eq_true, if_true]
      rw [h2]
      unfold delete_entry_loop
      rcases delete_entry_cases index record rid with ⟨h3, _⟩ | ⟨_, h4, h5⟩
      · exact absurd h3 hnot
      · simp [h4, h5]

theorem heap_insert_cases (h : RecordFileHandler) (data : List Byte) (n : Nat) (rid : RID) :
    (h.next_rid h.records = none ∧ h.insert_record data n rid = (RC.NOMEM, h, rid)) ∨
    (∃ new_rid, h.next_rid h.records = some new_rid ∧
      h.insert_record data n rid =
        (RC.SUCCESS,
          { h with records := h.records ++ [{ rid := new_rid, data := some (data.take n) }] },
          new_rid)) := by
  unfold RecordFileHandler.insert_record
  cases hn : h.next_rid h.records with
  | none => left; simp
  | some new_rid => right; exact ⟨new_rid, rfl, rfl⟩

theorem heap_delete_inserted (h : RecordFileHandler) (r : Record) (hr : r.rid ∉ h.rids) :
    (RecordFileHandler.delete_record { h with records := h.records ++ [r] } r.rid)
      = (RC.SUCCESS, h) := by
  unfold RecordFileHandler.delete_record RecordFileHandler.rids
  have hin : r.rid ∈ List.map Record.rid (h.records ++ [r]) := by simp
  simp only [hin, if_true]
  have hf : List.filter (fun r1 : Record => decide (r1.rid ≠ r.rid)) (h.records ++ [r]) = h.records := by
    rw [List.filter_append]
    have h1 : List.filter (fun r1 : Record => decide (r1.rid ≠ r.rid)) h.records = h.records := by
      rw [List.filter_eq_self]
      intro a ha
      simp only [ne_eq, decide_not, Bool.not_eq_true', decide_eq_false_iff_not]
      intro heq
      apply hr
      unfold RecordFileHandler.rids
      rw [← heq]
      exact List.mem_map_of_mem _ ha
    rw [h1]
    simp
  rw [hf]

theorem insert_record_own_failure (t : Table) (record record1 : Record) (rc : RC) (t1 : Table)
    (ha : ∀ index ∈ t.indexes_, ∀ rid ∈ index.rids, rid ∈ t.record_handler_.rids)
    (hf : t.record_handler_.fresh)
    (h : t.insert_record_own record = Outcome.ret rc (t1, record1)) (hrc : rc ≠ RC.SUCCESS) :
    t1 = t := by
  unfold insert_record_own at h
  cases hd : record.data with
  | none => rw [hd] at h; simp at h
  | some data =>
    rw [hd] at h
    simp only at h
    rcases heap_insert_cases t.record_handler_ data t.table_meta_.record_size record.rid with
      ⟨_, h2⟩ | ⟨new_rid, h1, h2⟩
    · rw [h2] at h
      simp only [ne_eq, reduceCtorEq, not_false_eq_true, if_true, Outcome.ret.injEq, Prod.mk.injEq] at h
      exact h.2.1.symm
    · rw [h2] at h
      rw [if_neg (by simp)] at h
      have hnew : new_rid ∉ t.record_handler_.rids := hf _ _ h1
      have hfresh : ∀ index ∈ t.indexes_, new_rid ∉ index.rids :=
        fun index hi hm => hnew (ha index hi new_rid hm)
      by_cases hi : (insert_entry_of_indexes t.indexes_ data new_rid).1 ≠ RC.SUCCESS
      · rw [if_pos hi] at h
        simp only [Outcome.ret.injEq, Prod.mk.injEq] at h
        obtain ⟨_, h3, _⟩ := h
        rw [← h3]
        have hroll := rollback_restores t.indexes_ data new_rid RC.SUCCESS hfresh hi
        unfold delete_entry_of_indexes
        rw [hroll]
        have hdel := heap_delete_inserted t.record_handler_
          { rid := new_rid, data := some (data.take t.table_meta_.record_size) } hnew
        simp only at hdel
        rw [hdel]
      · rw [if_neg hi] at h
        simp only [Outcome.ret.injEq, Prod.mk.injEq] at h
        exact absurd (h.1 ▸ (not_not.mp hi)) hrc

theorem table_set_table {db : Db} {self : Nat} {t : Table} (t2 : Table)
    (ht : db.table self = some t) : (db.set_table self t2).table self = some t2 := by
  unfold Db.table Db.set_table at *
  simp only [List.get?_eq_getElem?] at ht ⊢
  have hlt : self < db.tables.length := by
    by_contra hge
    rw [List.getElem?_eq_none (by omega)] at ht
    simp at ht
  rw [List.getElem?_set_self hlt]

theorem insert_record_not_view (junk : Nat → Byte) (fuel : Nat) {db : Db} {self : Nat} {t : Table}
    (record : Record) (ht : db.table self = some t) (hv : t.view_table_flag = false) :
    Table.insert_record junk fuel db self record =
      match t.insert_record_own record with
      | Outcome.ret rc (t2, record1) => Outcome.ret rc (db.set_table self t2, record1)
      | Outcome.abort => Outcome.abort
      | Outcome.out_of_fuel => Outcome.out_of_fuel := by
  cases fuel <;> simp [Table.insert_record, insert_record_body, ht, hv]

theorem insert_record_own_rid {t t1 : Table} {record record1 : Record} {rc : RC}
    (h : t.insert_record_own record = Outcome.ret rc (t1, record1)) :
    ∃ data, record.data = some data := by
  unfold insert_record_own at h
  cases hd : record.data with
  | none => rw [hd] at h; simp at h
  | some data => exact ⟨data, rfl⟩

/-- C1: failure atomicity of insert. On a table that is not a view, whose heap
and indexes agree and whose heap hands out fresh rids, a call of
`Table::insert_record` that returns an error (an index refused the entry as a
duplicate, or the heap had no room) leaves the heap with exactly the records it
held and every index with exactly the entries it held. -/
theorem insert_record_failure_atomic (junk : Nat → Byte) (fuel : Nat) (db db1 : Db) (self : Nat)
    (t : Table) (record record1 : Record) (rc : RC)
    (ht : db.table self = some t) (hv : t.view_table_flag = false) (ha : t.agree)
    (hf : t.record_handler_.fresh)
    (h : Table.insert_record junk fuel db self record = Outcome.ret rc (db1, record1))
    (hrc : rc ≠ RC.SUCCESS) :
    ∃ t1, db1.table self = some t1 ∧
      t1.record_handler_.records = t.record_handler_.records ∧
      t1.indexes_ = t.indexes_ := by
  rw [insert_record_not_view junk fuel record ht hv] at h
  cases ho : t.insert_record_own record with
  | abort => rw [ho] at h; simp at h
  | out_of_fuel => rw [ho] at h; simp at h
  | ret rc2 s =>
    obtain ⟨t2, record2⟩ := s
    rw [ho] at h
    simp only [Outcome.ret.injEq, Prod.mk.injEq] at h
    obtain ⟨h1, h2, _⟩ := h
    subst h1
    have hsame : t2 = t :=
      insert_record_own_failure t record record2 rc2 t2 (fun index hi => (ha index hi).1) hf ho hrc
    subst hsame
    exact ⟨t2, by rw [← h2]; exact table_set_table t2 ht, rfl, rfl⟩

theorem slot_le_max (records : List Record) (r : Record) (hr : r ∈ records) :
    r.rid.slot_num ≤ (records.map (fun r => r.rid.slot_num)).foldr max 0 := by
  induction records with
  | nil => simp at hr
  | cons a l ih =>
    simp only [List.map_cons, List.foldr_cons]
    rcases List.mem_cons.mp hr with h1 | h1
    · subst h1; exact le_max_left _ _
    · exact le_trans (ih h1) (le_max_right _ _)

theorem next_slot_fresh (records : List Record) (rid : RID) (h : next_slot records = some rid) :
    rid ∉ records.map Record.rid := by
  unfold next_slot at h
  simp only [Option.some.injEq] at h
  intro hm
  obtain ⟨r, hr, hrid⟩ := List.mem_map.mp hm
  have := slot_le_max records r hr
  rw [hrid, ← h] at this
  simp only at this
  omega

theorem scenario_fresh : scenario_table.record_handler_.fresh :=
  fun records rid h => next_slot_fresh records rid h

theorem insert_record_failure_atomic_witness :
    Table.insert_record (fun _ => 0) 0 scenario_db 0 scenario_record =
      Outcome.ret RC.RECORD_DUPLICATE_KEY (scenario_db, { scenario_record with rid := ⟨1, 2⟩ }) ∧
    ∃ t1, scenario_db.table 0 = some t1 ∧
      t1.record_handler_.records = [⟨⟨1, 1⟩, some [1, 0, 0, 0, 97, 98, 0, 0]⟩] ∧
      t1.indexes_ = [scenario_index] :=
  ⟨rfl, insert_record_failure_atomic (fun _ => 0) 0 scenario_db scenario_db 0 scenario_table
    scenario_record { scenario_record with rid := ⟨1, 2⟩ } RC.RECORD_DUPLICATE_KEY rfl rfl
    (by unfold Table.agree; decide) scenario_fresh rfl (by decide)⟩

theorem insert_entries_success (indexes : List Index) (record : List Byte) (rid : RID)
    (h : (insert_entry_of_indexes indexes record rid).1 = RC.SUCCESS) :
    (insert_entry_of_indexes indexes record rid).2 =
      indexes.map (fun index =>
        { index with entries := index.entries ++ [(index.key record, rid)] }) := by
  induction indexes with
  | nil => rfl
  | cons index rest ih =>
    unfold insert_entry_of_indexes at h ⊢
    rcases insert_entry_cases index record rid with ⟨h1, h2⟩ | ⟨h1, h2⟩
    · rw [if_neg (by rw [h1]; simp)] at h ⊢
      simp only [List.map_cons]
      rw [h2, ih h]
    · rw [if_pos (by rw [h1]; simp)] at h
      rw [h1] at h
      simp at h

theorem insert_record_own_success {t t1 : Table} {record record1 : Record}
    (h : t.insert_record_own record = Outcome.ret RC.SUCCESS (t1, record1)) :
    ∃ data, record.data = some data ∧
      t.record_handler_.next_rid t.record_handler_.records = some record1.rid ∧
      record1 = { record with rid := record1.rid } ∧
      t1 = { t with
        record_handler_ := { t.record_handler_ with
          records := t.record_handler_.records ++
            [{ rid := record1.rid, data := some (data.take t.table_meta_.record_size) }] },
        indexes_ := t.indexes_.map (fun index =>
          { index with entries := index.entries ++ [(index.key data, record1.rid)] }) } := by
  unfold insert_record_own at h
  cases hd : record.data with
  | none => rw [hd] at h; simp at h
  | some data =>
    rw [hd] at h
    simp only at h
    rcases heap_insert_cases t.record_handler_ data t.table_meta_.record_size record.rid with
      ⟨_, h2⟩ | ⟨new_rid, h1, h2⟩
    · rw [h2] at h
      rw [if_pos (by simp)] at h
      simp at h
    · rw [h2] at h
      rw [if_neg (by simp)] at h
      by_cases hi : (insert_entry_of_indexes t.indexes_ data new_rid).1 ≠ RC.SUCCESS
      · rw [if_pos hi] at h
        simp only [Outcome.ret.injEq, Prod.mk.injEq] at h
        exact absurd h.1 hi
      · rw [if_neg hi] at h
        simp only [Outcome.ret.injEq, Prod.mk.injEq] at h
        obtain ⟨_, h3, h4⟩ := h
        have hrid : record1.rid = new_rid := by rw [← h4]
        refine ⟨data, rfl, by rw [hrid]; exact h1, by rw [← h4], ?_⟩
        rw [← h3, hrid, insert_entries_success _ _ _ (not_not.mp hi)]

/-- C2: index consistency after insert. On a table that is not a view, whose heap
and indexes agree and whose heap hands out fresh rids, after a successful
`Table::insert_record` the record has the rid that the heap gave it, the heap
holds its bytes under that rid, and every index of the index list holds exactly
one entry for that rid, keyed on the bytes of the record. -/
theorem insert_record_index_consistency (junk : Nat → Byte) (fuel : Nat) (db db1 : Db)
    (self : Nat) (t : Table) (record record1 : Record)
    (ht : db.table self = some t) (hv : t.view_table_flag = false) (ha : t.agree)
    (hf : t.record_handler_.fresh)
    (h : Table.insert_record junk fuel db self record = Outcome.ret RC.SUCCESS (db1, record1)) :
    ∃ t1 data, db1.table self = some t1 ∧ record.data = some data ∧
      t.record_handler_.next_rid t.record_handler_.records = some record1.rid ∧
      t1.record_handler_.records = t.record_handler_.records ++
        [{ rid := record1.rid, data := some (data.take t.table_meta_.record_size) }] ∧
      t1.indexes_.length = t.indexes_.length ∧
      ∀ index ∈ t1.indexes_,
        index.entries.filter (fun e => decide (e.2 = record1.rid)) =
          [(index.key data, record1.rid)] := by
  rw [insert_record_not_view junk fuel record ht hv] at h
  cases ho : t.insert_record_own record with
  | abort => rw [ho] at h; simp at h
  | out_of_fuel => rw [ho] at h; simp at h
  | ret rc2 s =>
    obtain ⟨t2, record2⟩ := s
    rw [ho] at h
    simp only [Outcome.ret.injEq, Prod.mk.injEq] at h
    obtain ⟨h1, h2, h3⟩ := h
    subst h1 h3
    obtain ⟨data, hd, hn, _, ht2⟩ := insert_record_own_success ho
    have hnew : record2.rid ∉ t.record_handler_.rids := hf _ _ hn
    refine ⟨t2, data, by rw [← h2]; exact table_set_table t2 ht, hd, hn, ?_, ?_, ?_⟩
    · rw [ht2]
    · rw [ht2]; simp
    · intro index hi
      rw [ht2] at hi
      simp only [List.mem_map] at hi
      obtain ⟨index0, hi0, hi1⟩ := hi
      have hnone : index0.entries.filter (fun e => decide (e.2 = record2.rid)) = [] := by
        rw [List.filter_eq_nil_iff]
        intro e he
        simp only [decide_eq_true_eq]
        intro heq
        apply hnew
        apply (ha index0 hi0).1
        unfold Index.rids
        rw [← heq]
        exact List.mem_map_of_mem _ he
      rw [← hi1]
      simp only [List.filter_append, hnone, List.nil_append]
      simp [List.filter, Index.key]

theorem insert_record_index_consistency_witness :
    ∃ t1 data,
      (Db.set_table scenario_db 0
        { scenario_table with
          record_handler_ :=
            { records := [⟨⟨1, 1⟩, some [1, 0, 0, 0, 97, 98, 0, 0]⟩,
                ⟨⟨1, 2⟩, some [2, 0, 0, 0, 99, 100, 0, 0]⟩],
              next_rid := next_slot },
          indexes_ := [{ scenario_index with
            entries := [([1, 0, 0, 0], ⟨1, 1⟩), ([2, 0, 0, 0], ⟨1, 2⟩)] }] }).table 0 = some t1 ∧
      (some [2, 0, 0, 0, 99, 100, 0, 0] : Option (List Byte)) = some data ∧
      scenario_table.record_handler_.next_rid scenario_table.record_handler_.records =
        some ⟨1, 2⟩ ∧
      t1.record_handler_.records = scenario_table.record_handler_.records ++
        [{ rid := ⟨1, 2⟩, data := some (data.take scenario_table.table_meta_.record_size) }] ∧
      t1.indexes_.length = scenario_table.indexes_.length ∧
      ∀ index ∈ t1.indexes_,
        index.entries.filter (fun e => decide (e.2 = (⟨1, 2⟩ : RID))) =
          [(index.key data, ⟨1, 2⟩)] :=
  insert_record_index_consistency (fun _ => 0) 0 scenario_db _ 0 scenario_table
    { data := some [2, 0, 0, 0, 99, 100, 0, 0] }
    { rid := ⟨1, 2⟩, data := some [2, 0, 0, 0, 99, 100, 0, 0] } rfl rfl
    (by unfold Table.agree; decide) scenario_fresh rfl

theorem delete_loop_success (indexes indexes1 : List Index) (record : List Byte) (rid : RID)
    (rc0 : RC)
    (h : delete_entry_loop indexes record rid false rc0 = (RC.SUCCESS, indexes1)) :
    (∀ index ∈ indexes, (index.key record, rid) ∈ index.entries) ∧
    indexes1 = indexes.map (fun index =>
      { index with entries := Index.erase_entry (index.key record, rid) index.entries }) := by
  induction indexes generalizing rc0 indexes1 with
  | nil =>
    simp only [delete_entry_loop, Prod.mk.injEq] at h
    simp [← h.2]
  | cons index rest ih =>
    unfold delete_entry_loop at h
    rcases delete_entry_cases index record rid with ⟨h0, h1, h2⟩ | ⟨_, h1, _⟩
    · rw [if_neg (by rw [h1]; simp)] at h
      simp only [Prod.mk.injEq] at h
      obtain ⟨h3, h4⟩ := h
      have hrest := ih (delete_entry_loop rest record rid false (index.delete_entry record rid).1).2
        (index.delete_entry record rid).1 (Prod.ext h3 rfl)
      refine ⟨?_, ?_⟩
      · intro ix hix
        rcases List.mem_cons.mp hix with hx | hx
        · rw [hx]; exact h0
        · exact hrest.1 ix hx
      · rw [← h4, hrest.2, h2]
        rfl
    · rw [if_pos (by rw [h1]; simp)] at h
      rw [h1] at h
      simp at h

theorem delete_asserted_some (indexes indexes1 : List Index) (record : List Byte) (rid : RID)
    (h : delete_entries_asserted indexes record rid = some indexes1) :
    (∀ index ∈ indexes, (index.key record, rid) ∈ index.entries) ∧
    indexes1 = indexes.map (fun index =>
      { index with entries := Index.erase_entry (index.key record, rid) index.entries }) := by
  induction indexes generalizing indexes1 with
  | nil =>
    simp only [delete_entries_asserted, Option.some.injEq] at h
    simp [← h]
  | cons index rest ih =>
    unfold delete_entries_asserted at h
    rcases delete_entry_cases index record rid with ⟨h0, h1, h2⟩ | ⟨_, h1, _⟩
    · rw [if_neg (by rw [h1]; simp)] at h
      cases hr : delete_entries_asserted rest record rid with
      | none => rw [hr] at h; simp at h
      | some rest1 =>
        rw [hr] at h
        simp only [Option.map_some', Option.some.injEq] at h
        have hrest := ih rest1 hr
        refine ⟨?_, ?_⟩
        · intro ix hix
          rcases List.mem_cons.mp hix with hx | hx
          · rw [hx]; exact h0
          · exact hrest.1 ix hx
        · rw [← h, hrest.2, h2]
          rfl
    · rw [if_pos (by rw [h1]; simp)] at h
      simp at h

theorem index_records_success (scan_next : Nat → RC) (k : Nat) (records : List Record)
    (index index1 : Index) (h : index_records scan_next k records index = (RC.SUCCESS, index1)) :
    index1 = { index with
      entries := (index.entries ++ records.map (fun r => (index.key (r.data.getD []), r.rid))) } := by
  induction records generalizing k index with
  | nil =>
    simp only [index_records, Prod.mk.injEq, true_and] at h
    simp [← h]
  | cons r rest ih =>
    unfold index_records at h
    by_cases hs : scan_next k ≠ RC.SUCCESS
    · rw [if_pos hs] at h
      simp only [Prod.mk.injEq] at h
      exact absurd h.1 hs
    · rw [if_neg hs] at h
      simp only at h
      rcases insert_entry_cases index (r.data.getD []) r.rid with ⟨h1, h2⟩ | ⟨h1, h2⟩
      · rw [if_neg (by rw [h1]; simp)] at h
        have := ih (k + 1) _ h
        rw [this, h2]
        simp [Index.key]
      · rw [if_pos (by rw [h1]; simp)] at h
        rw [h1] at h
        simp at h

theorem heap_delete_success {h h1 : RecordFileHandler} {rid : RID}
    (hd : h.delete_record rid = (RC.SUCCESS, h1)) :
    rid ∈ h.rids ∧ h1.next_rid = h.next_rid ∧
      h1.rids = h.rids.filter (fun x => decide (x ≠ rid)) := by
  unfold RecordFileHandler.delete_record at hd
  by_cases hm : rid ∈ h.rids
  · rw [if_pos hm] at hd
    simp only [Prod.mk.injEq, true_and] at hd
    refine ⟨hm, by rw [← hd], ?_⟩
    rw [← hd]
    unfold RecordFileHandler.rids
    simp only [List.filter_map]
    rfl
  · rw [if_neg hm] at hd
    simp at hd

theorem heap_update_success {h h1 : RecordFileHandler} {rid : RID} {data : List Byte}
    (hd : h.update_record rid data = (RC.SUCCESS, h1)) :
    rid ∈ h.rids ∧ h1.next_rid = h.next_rid ∧ h1.rids = h.rids := by
  unfold RecordFileHandler.update_record at hd
  by_cases hm : rid ∈ h.rids
  · rw [if_pos hm] at hd
    simp only [Prod.mk.injEq, true_and] at hd
    refine ⟨hm, by rw [← hd], ?_⟩
    rw [← hd]
    unfold RecordFileHandler.rids
    simp only [List.map_map]
    apply List.map_congr_left
    intro r _
    simp only [Function.comp]
    split_ifs <;> rfl
  · rw [if_neg hm] at hd
    simp at hd

theorem perm_filter_ne {l : List RID} (hn : l.Nodup) {a : RID} (ha : a ∈ l) :
    l.Perm (a :: l.filter (fun x => decide (x ≠ a))) := by
  have h1 : l.erase a = l.filter (fun x => decide (x ≠ a)) := by
    rw [List.Nodup.erase_eq_filter hn]
    congr 1
    funext x
    simp [bne, beq_eq_decide]
  rw [← h1]
  exact List.perm_cons_erase ha

theorem rids_erase_perm {index : Index} {key : List Byte} {rid : RID}
    (h : (key, rid) ∈ index.entries) :
    index.rids.Perm (rid :: (Index.erase_entry (key, rid) index.entries).map Prod.snd) := by
  unfold Index.rids
  have := (perm_cons_erase_entry _ _ h).map Prod.snd
  simpa using this

theorem stable_insert {t t1 : Table} {record record1 : Record} (hs : stable t)
    (h : t.insert_record_own record = Outcome.ret RC.SUCCESS (t1, record1)) : stable t1 := by
  obtain ⟨hv, hf, hn, hp⟩ := hs
  obtain ⟨data, _, hnext, _, ht1⟩ := insert_record_own_success h
  have hnew : record1.rid ∉ t.record_handler_.rids := hf _ _ hnext
  rw [ht1]
  refine ⟨hv, hf, ?_, ?_⟩
  · unfold RecordFileHandler.rids at hn hnew ⊢
    simp only [List.map_append, List.map_cons, List.map_nil]
    rw [List.nodup_append]
    refine ⟨hn, by simp, ?_⟩
    intro a ha hb
    simp only [List.mem_singleton] at hb
    rw [hb] at ha
    exact hnew ha
  · intro index hi
    simp only [List.mem_map] at hi
    obtain ⟨index0, hi0, hi1⟩ := hi
    rw [← hi1]
    unfold Index.rids RecordFileHandler.rids
    simp only [List.map_append, List.map_cons, List.map_nil]
    exact (hp index0 hi0).append_right _

theorem stable_delete {t t1 : Table} {record : Record} (hs : stable t)
    (h : t.delete_record_own record = Outcome.ret RC.SUCCESS t1) : stable t1 := by
  obtain ⟨hv, hf, hn, hp⟩ := hs
  have key : ∀ (data : List Byte) (indexes1 : List Index) (h1 : RecordFileHandler),
      delete_entries_asserted t.indexes_ data record.rid = some indexes1 →
      t.record_handler_.delete_record record.rid = (RC.SUCCESS, h1) →
      stable { t with record_handler_ := h1, indexes_ := indexes1 } := by
    intro data indexes1 h1 hd hh
    obtain ⟨hin, hnext, hrids⟩ := heap_delete_success hh
    obtain ⟨hall, hmap⟩ := delete_asserted_some _ _ _ _ hd
    refine ⟨hv, ?_, ?_, ?_⟩
    · unfold RecordFileHandler.fresh at hf ⊢
      simp only
      rw [hnext]
      exact hf
    · simp only
      rw [hrids]
      exact hn.filter _
    · intro index hi
      simp only at hi ⊢
      rw [hmap] at hi
      simp only [List.mem_map] at hi
      obtain ⟨index0, hi0, hi1⟩ := hi
      rw [← hi1, hrids]
      have h2 := rids_erase_perm (hall index0 hi0)
      have h3 := perm_filter_ne hn hin
      have h4 := (h2.symm.trans (hp index0 hi0)).trans h3
      exact List.Perm.cons_inv h4
  unfold delete_record_own at h
  cases hd : record.data with
  | none =>
    rw [hd] at h
    simp only at h
    by_cases he : t.indexes_ = []
    · rw [if_pos he] at h
      simp only [Outcome.ret.injEq] at h
      have := key [] [] (t.record_handler_.delete_record record.rid).2
        (by rw [he]; rfl) (Prod.ext h.1 rfl)
      rw [← h.2]
      simp only [he]
      exact this
    · rw [if_neg he] at h
      simp at h
  | some data =>
    rw [hd] at h
    simp only at h
    cases ha : delete_entries_asserted t.indexes_ data record.rid with
    | none => rw [ha] at h; simp at h
    | some indexes1 =>
      rw [ha] at h
      simp only [Outcome.ret.injEq] at h
      rw [← h.2]
      exact key data indexes1 _ ha (Prod.ext h.1 rfl)

theorem stable_update {t t1 : Table} {old_record new_record : Record} (hs : stable t)
    (h : t.update_record_own old_record new_record = Outcome.ret RC.SUCCESS t1) : stable t1 := by
  obtain ⟨hv, hf, hn, hp⟩ := hs
  unfold update_record_own at h
  by_cases hr : old_record.rid ≠ new_record.rid
  · rw [if_pos hr] at h; simp at h
  · rw [if_neg hr] at h
    have hrid : new_record.rid = old_record.rid := (not_not.mp hr).symm
    have key : ∀ (old_data : List Byte),
        (let d := delete_entry_of_indexes t.indexes_ old_data old_record.rid false
        if d.1 ≠ RC.SUCCESS then Outcome.ret d.1 { t with indexes_ := d.2 }
        else
          match new_record.data with
          | none => Outcome.abort
          | some new_data =>
            let i := insert_entry_of_indexes d.2 new_data new_record.rid
            if i.1 ≠ RC.SUCCESS then Outcome.ret i.1 { t with indexes_ := i.2 }
            else
              let h := t.record_handler_.update_record old_record.rid new_data
              Outcome.ret h.1 { t with record_handler_ := h.2, indexes_ := i.2 })
          = Outcome.ret RC.SUCCESS t1 → stable t1 := by
      intro old_data h
      simp only at h
      by_cases hd : (delete_entry_of_indexes t.indexes_ old_data old_record.rid false).1 ≠ RC.SUCCESS
      · rw [if_pos hd] at h
        simp only [Outcome.ret.injEq] at h
        exact absurd h.1 hd
      · rw [if_neg hd] at h
        cases hnd : new_record.data with
        | none => rw [hnd] at h; simp at h
        | some new_data =>
          rw [hnd] at h
          simp only at h
          by_cases hi : (insert_entry_of_indexes
              (delete_entry_of_indexes t.indexes_ old_data old_record.rid false).2 new_data
              new_record.rid).1 ≠ RC.SUCCESS
          · rw [if_pos hi] at h
            simp only [Outcome.ret.injEq] at h
            exact absurd h.1 hi
          · rw [if_neg hi] at h
            simp only [Outcome.ret.injEq] at h
            obtain ⟨hh, ht1⟩ := h
            obtain ⟨hin, hnext, hrids⟩ :=
              heap_update_success (Prod.ext hh rfl :
                t.record_handler_.update_record old_record.rid new_data =
                  (RC.SUCCESS, (t.record_handler_.update_record old_record.rid new_data).2))
            obtain ⟨hall, hmap⟩ := delete_loop_success t.indexes_ _ old_data old_record.rid
              RC.SUCCESS (Prod.ext (not_not.mp hd) rfl :
                delete_entry_loop t.indexes_ old_data old_record.rid false RC.SUCCESS =
                  (RC.SUCCESS, (delete_entry_of_indexes t.indexes_ old_data old_record.rid false).2))
            have hins := insert_entries_success _ _ _ (not_not.mp hi)
            rw [← ht1]
            refine ⟨hv, ?_, ?_, ?_⟩
            · unfold RecordFileHandler.fresh at hf ⊢
              simp only
              rw [hnext]
              exact hf
            · simp only
              rw [hrids]
              exact hn
            · intro index hix
              simp only at hix ⊢
              rw [hins, hmap] at hix
              simp only [List.map_map, List.mem_map, Function.comp] at hix
              obtain ⟨index0, hi0, hi1⟩ := hix
              rw [← hi1, hrids, hrid]
              have h2 := rids_erase_perm (hall index0 hi0)
              unfold Index.rids
              simp only [List.map_append, List.map_cons, List.map_nil]
              have h3 : (List.map Prod.snd (Index.erase_entry (index0.key old_data, old_record.rid)
                  index0.entries) ++ [old_record.rid]).Perm
                  (old_record.rid :: List.map Prod.snd (Index.erase_entry
                    (index0.key old_data, old_record.rid) index0.entries)) :=
                List.perm_append_singleton _ _
              exact (h3.trans h2.symm).trans (hp index0 hi0)
    cases hi : t.indexes_ with
    | nil =>
      rw [hi] at h
      simp only at h
      have := key (old_record.data.getD [])
      rw [hi] at this
      exact this h
    | cons index rest =>
      rw [hi] at h
      cases ho : old_record.data with
      | none => rw [ho] at h; simp at h
      | some old_data =>
        rw [ho] at h
        simp only at h
        have := key old_data
        rw [hi] at this
        exact this h

theorem stable_create_index {t t1 : Table} {files files1 : Disk} {io : CreateIndexIo}
    {field_meta : List FieldMeta} {index_name : String} {unique : Bool} (hs : stable t)
    (h : t.create_index files io field_meta index_name unique = (RC.SUCCESS, t1, files1)) :
    stable t1 := by
  obtain ⟨hv, hf, hn, hp⟩ := hs
  unfold create_index at h
  by_cases h1 : is_blank index_name = true ∨ field_meta.length = 0
  · rw [if_pos h1] at h; simp at h
  rw [if_neg h1] at h
  by_cases h0 : io.meta_init ≠ RC.SUCCESS
  · rw [if_pos h0] at h
    simp only [Prod.mk.injEq] at h
    exact absurd h.1 h0
  rw [if_neg h0] at h
  dsimp only at h
  by_cases h2 : io.index_create ≠ RC.SUCCESS
  · rw [if_pos h2] at h
    simp only [Prod.mk.injEq] at h
    exact absurd h.1 h2
  rw [if_neg h2] at h
  by_cases h3 : io.open_scan ≠ RC.SUCCESS
  · rw [if_pos h3] at h
    simp only [Prod.mk.injEq] at h
    exact absurd h.1 h3
  rw [if_neg h3] at h
  by_cases h4 : (index_records io.scan_next 0 t.record_handler_.records
      { index_meta := { name := index_name, fields := field_meta.map FieldMeta.name,
                        unique := unique },
        field_metas := field_meta, entries := [] }).1 ≠ RC.SUCCESS
  · rw [if_pos h4] at h
    simp only [Prod.mk.injEq] at h
    exact absurd h.1 h4
  rw [if_neg h4] at h
  by_cases h5 : io.add_index ≠ RC.SUCCESS
  · rw [if_pos h5] at h
    simp only [Prod.mk.injEq] at h
    exact absurd h.1 h5
  rw [if_neg h5] at h
  by_cases h6 : io.tmp_open = false
  · rw [if_pos h6] at h; simp at h
  rw [if_neg h6] at h
  by_cases h7 : io.serialize = false
  · rw [if_pos h7] at h; simp at h
  rw [if_neg h7] at h
  by_cases h8 : io.rename_ok = false
  · rw [if_pos h8] at h; simp at h
  rw [if_neg h8] at h
  simp only [Prod.mk.injEq, true_and] at h
  obtain ⟨ht1, _⟩ := h
  have hidx : (index_records io.scan_next 0 t.record_handler_.records
      { index_meta := { name := index_name, fields := field_meta.map FieldMeta.name,
                        unique := unique },
        field_metas := field_meta, entries := [] }).2 = _ :=
    index_records_success io.scan_next 0 t.record_handler_.records _ _
      (Prod.ext (not_not.mp h4) rfl)
  rw [← ht1]
  refine ⟨hv, hf, hn, ?_⟩
  intro index hix
  simp only [List.mem_append, List.mem_singleton] at hix
  rcases hix with hix | hix
  · exact hp index hix
  · have hr : index.rids = t.record_handler_.rids := by
      rw [hix, hidx]
      unfold Index.rids RecordFileHandler.rids
      simp only [List.nil_append, List.map_map]
      rfl
    rw [hr]

theorem delete_record_not_view (fuel : Nat) {db : Db} {self : Nat} {t : Table}
    (record : Record) (ht : db.table self = some t) (hv : t.view_table_flag = false) :
    Table.delete_record fuel db self record =
      match t.delete_record_own record with
      | Outcome.ret rc t2 => Outcome.ret rc (db.set_table self t2)
      | Outcome.abort => Outcome.abort
      | Outcome.out_of_fuel => Outcome.out_of_fuel := by
  cases fuel <;> simp [Table.delete_record, delete_record_body, ht, hv]

theorem update_record_not_view (junk : Nat → Byte) (fuel : Nat) {db : Db} {self : Nat} {t : Table}
    (old_record new_record : Record) (ht : db.table self = some t)
    (hv : t.view_table_flag = false) :
    Table.update_record junk fuel db self old_record new_record =
      match t.update_record_own old_record new_record with
      | Outcome.ret rc t2 => Outcome.ret rc (db.set_table self t2)
      | Outcome.abort => Outcome.abort
      | Outcome.out_of_fuel => Outcome.out_of_fuel := by
  cases fuel <;> simp [Table.update_record, update_record_body, ht, hv]

theorem agree_of_one_entry {t : Table} (h : t.one_entry_per_record) : t.agree := by
  intro index hi
  have hp := h.2 index hi
  exact ⟨fun rid hr => hp.mem_iff.mp hr, fun rid hr => hp.mem_iff.mpr hr⟩

theorem apply_stable (junk : Nat → Byte) (fuel : Nat) (db db1 : Db) (self : Nat) (m : Mutation)
    (t : Table) (ht : db.table self = some t) (hs : stable t)
    (h : Db.apply junk fuel db self m = Outcome.ret RC.SUCCESS db1) :
    ∃ t1, db1.table self = some t1 ∧ stable t1 := by
  cases m with
  | insert_record record =>
    simp only [Db.apply] at h
    rw [insert_record_not_view junk fuel record ht hs.1] at h
    cases ho : t.insert_record_own record with
    | abort => rw [ho] at h; simp at h
    | out_of_fuel => rw [ho] at h; simp at h
    | ret rc s =>
      obtain ⟨t2, record2⟩ := s
      rw [ho] at h
      simp only [Outcome.ret.injEq] at h
      obtain ⟨h1, h2⟩ := h
      subst h1
      exact ⟨t2, by rw [← h2]; exact table_set_table t2 ht, stable_insert hs ho⟩
  | delete_record record =>
    simp only [Db.apply] at h
    rw [delete_record_not_view fuel record ht hs.1] at h
    cases ho : t.delete_record_own record with
    | abort => rw [ho] at h; simp at h
    | out_of_fuel => rw [ho] at h; simp at h
    | ret rc t2 =>
      rw [ho] at h
      simp only [Outcome.ret.injEq] at h
      obtain ⟨h1, h2⟩ := h
      subst h1
      exact ⟨t2, by rw [← h2]; exact table_set_table t2 ht, stable_delete hs ho⟩
  | update_record old_record new_record =>
    simp only [Db.apply] at h
    rw [update_record_not_view junk fuel old_record new_record ht hs.1] at h
    cases ho : t.update_record_own old_record new_record with
    | abort => rw [ho] at h; simp at h
    | out_of_fuel => rw [ho] at h; simp at h
    | ret rc t2 =>
      rw [ho] at h
      simp only [Outcome.ret.injEq] at h
      obtain ⟨h1, h2⟩ := h
      subst h1
      exact ⟨t2, by rw [← h2]; exact table_set_table t2 ht, stable_update hs ho⟩
  | create_index io field_meta index_name unique =>
    simp only [Db.apply] at h
    rw [ht] at h
    simp only [Outcome.ret.injEq] at h
    obtain ⟨h1, h2⟩ := h
    refine ⟨(t.create_index db.files io field_meta index_name unique).2.1, ?_, ?_⟩
    · rw [← h2]
      exact @table_set_table
        { db with files := (t.create_index db.files io field_meta index_name unique).2.2 } self t
        _ ht
    · exact stable_create_index hs (Prod.ext h1 rfl)

theorem run_stable (junk : Nat → Byte) (fuel : Nat) (self : Nat) (ms : List Mutation)
    (db db1 : Db) (t : Table) (ht : db.table self = some t) (hs : stable t)
    (h : Db.run junk fuel self db ms = some db1) :
    ∃ t1, db1.table self = some t1 ∧ stable t1 := by
  induction ms generalizing db t with
  | nil =>
    simp only [Db.run, Option.some.injEq] at h
    rw [← h]
    exact ⟨t, ht, hs⟩
  | cons m ms ih =>
    unfold Db.run at h
    cases ha : Db.apply junk fuel db self m with
    | abort => rw [ha] at h; simp at h
    | out_of_fuel => rw [ha] at h; simp at h
    | ret rc db2 =>
      rw [ha] at h
      simp only at h
      by_cases hrc : rc = RC.SUCCESS
      · rw [if_pos hrc] at h
        subst hrc
        obtain ⟨t2, ht2, hs2⟩ := apply_stable junk fuel db db2 self m t ht hs ha
        exact ih db2 t2 ht2 hs2 h
      · rw [if_neg hrc] at h
        simp at h

/-- C3, as amended: starting from a table that is not a view, whose heap hands out
fresh rids and holds one record per rid, and each of whose indexes holds exactly
one entry for each rid of the heap and no other entry, after any sequence of
calls of `insert_record`, `delete_record`, `update_record` and `create_index`
that all return success, the rids of the heap are the rids that have an entry in
each index of the index list (and the starting condition holds again). -/
theorem run_keeps_agreement (junk : Nat → Byte) (fuel : Nat) (self : Nat) (ms : List Mutation)
    (db db1 : Db) (t : Table) (ht : db.table self = some t) (hv : t.view_table_flag = false)
    (hf : t.record_handler_.fresh) (h1 : t.one_entry_per_record)
    (h : Db.run junk fuel self db ms = some db1) :
    ∃ t1, db1.table self = some t1 ∧ t1.agree ∧ t1.one_entry_per_record := by
  obtain ⟨t1, ht1, hs1⟩ := run_stable junk fuel self ms db db1 t ht ⟨hv, hf, h1⟩ h
  exact ⟨t1, ht1, agree_of_one_entry hs1.2.2, hs1.2.2⟩

theorem run_keeps_agreement_witness :
    ∃ db1, Db.run (fun _ => 0) 0 0 scenario_db scenario_mutations = some db1 ∧
      ∃ t1, db1.table 0 = some t1 ∧ t1.agree ∧ t1.one_entry_per_record :=
  ⟨_, rfl, run_keeps_agreement (fun _ => 0) 0 0 scenario_mutations scenario_db _ scenario_table
    rfl rfl scenario_fresh (by unfold Table.one_entry_per_record; decide) rfl⟩

/-- C3, as stated, fails: a table whose heap and index have the same set of rids,
the index holding two entries for the one record, loses the agreement by a
successful `delete_record`, which removes the entry of the record's key only. -/
theorem agreement_lost_after_delete :
    double_entry_table.view_table_flag = false ∧ double_entry_table.agree ∧
    double_entry_table.record_handler_.fresh ∧
    ∃ db1 t1,
      Db.run (fun _ => 0) 0 0 { tables := [double_entry_table] }
        [Mutation.delete_record { rid := ⟨1, 1⟩, data := some [1, 0, 0, 0, 97, 98, 0, 0] }]
          = some db1 ∧
      db1.table 0 = some t1 ∧ ¬ t1.agree := by
  refine ⟨rfl, by unfold Table.agree; decide, fun records rid h => next_slot_fresh records rid h,
    _, _, rfl, rfl, ?_⟩
  unfold Table.agree
  decide

theorem heap_delete_failure {h : RecordFileHandler} {rid : RID}
    (hd : (h.delete_record rid).1 ≠ RC.SUCCESS) :
    rid ∉ h.rids ∧ (h.delete_record rid).2 = h := by
  unfold RecordFileHandler.delete_record at hd ⊢
  by_cases hm : rid ∈ h.rids
  · rw [if_pos hm] at hd
    exact absurd rfl hd
  · rw [if_neg hm]
    exact ⟨hm, rfl⟩

/-- A failed `delete_record` on a table whose heap and indexes agree changes
nothing: the heap refuses the rid only when no index holds it. -/
theorem delete_record_own_failure (t t1 : Table) (record : Record) (rc : RC) (ha : t.agree)
    (h : t.delete_record_own record = Outcome.ret rc t1) (hrc : rc ≠ RC.SUCCESS) : t1 = t := by
  unfold delete_record_own at h
  cases hd : record.data with
  | none =>
    rw [hd] at h
    simp only at h
    by_cases he : t.indexes_ = []
    · rw [if_pos he] at h
      simp only [Outcome.ret.injEq] at h
      obtain ⟨h1, h2⟩ := h
      rw [← h1] at hrc
      rw [← h2, (heap_delete_failure hrc).2]
    · rw [if_neg he] at h
      simp at h
  | some data =>
    rw [hd] at h
    simp only at h
    cases hx : delete_entries_asserted t.indexes_ data record.rid with
    | none => rw [hx] at h; simp at h
    | some indexes1 =>
      rw [hx] at h
      simp only [Outcome.ret.injEq] at h
      obtain ⟨h1, h2⟩ := h
      rw [← h1] at hrc
      obtain ⟨hnot, hsame⟩ := heap_delete_failure hrc
      obtain ⟨hall, hmap⟩ := delete_asserted_some _ _ _ _ hx
      have hnil : t.indexes_ = [] := by
        cases hi : t.indexes_ with
        | nil => rfl
        | cons index rest =>
          exfalso
          have hin : index ∈ t.indexes_ := by rw [hi]; simp
          apply hnot
          apply (ha index hin).1
          unfold Index.rids
          exact List.mem_map.mpr ⟨_, hall index hin, rfl⟩
      rw [← h2, hsame, hmap, hnil]
      simp only [List.map_nil]
      cases t
      simp only at hnil
      rw [hnil]

/-- C4, the failing input: on a table whose heap and unique index agree, the
update of the row `(2, "cd")` to `(1, "cd")` returns `RC::RECORD_DUPLICATE_KEY`
after the old index entry was deleted, and leaves the rid of the row in the heap
without an entry in the index: neither live nor absent. -/
theorem update_record_failure_leaves_orphan :
    two_row_table.agree ∧
    ∃ db1 t1,
      Table.update_record (fun _ => 0) 0 { tables := [two_row_table] } 0 row_two row_two_as_one
        = Outcome.ret RC.RECORD_DUPLICATE_KEY db1 ∧
      db1.table 0 = some t1 ∧
      ¬ t1.live ⟨1, 2⟩ ∧ ¬ t1.absent ⟨1, 2⟩ := by
  refine ⟨by unfold Table.agree; decide, _, _, rfl, rfl, ?_, ?_⟩
  · unfold Table.live; decide
  · unfold Table.absent; decide

end Miniob

/-! ## Properties of sparse encoding and of writes through a view -/

namespace Miniob

open Table

/-- C11: for a well-typed value list, a DATE value that is the invalid date (`-1`)
makes `Table::make_record` fail (with `RC::VARIABLE_NOT_VALID`); and when no DATE
value is the invalid date, a failure can only come from a TEXT longer than 65535
bytes, so no other DATE value makes it fail. -/
theorem make_record_invalid_date (table_meta_ : TableMeta) (values : List Value)
    (record : Record) (junk : Nat → Byte)
    (hn : values.length + table_meta_.sys_field_num = table_meta_.field_num)
    (ht : ∀ q ∈ List.zip table_meta_.normal_fields values, q.1.type = q.2.attr_type) :
    ((∃ q ∈ List.zip table_meta_.normal_fields values,
        q.1.type = AttrType.DATE ∧ q.2.get_date = -1) →
      (make_record table_meta_ values record junk).1 = RC.VARIABLE_NOT_VALID) ∧
    ((∀ q ∈ List.zip table_meta_.normal_fields values,
        q.1.type = AttrType.DATE → q.2.get_date ≠ -1) →
      (make_record table_meta_ values record junk).1 ≠ RC.SUCCESS →
      ∃ q ∈ List.zip table_meta_.normal_fields values,
        q.1.type = AttrType.TEXT ∧ 65535 < strlen (c_str q.2.get_string)) := by
  have h1 : ¬ (values.length + table_meta_.sys_field_num ≠ table_meta_.field_num) := by
    simpa using hn
  have h2 : ¬ (type_mismatch table_meta_.normal_fields values = true) := by
    rw [type_mismatch_iff]
    rintro ⟨q, hq, hne⟩
    exact hne (ht q hq)
  rw [make_record_rc, if_neg h1, if_neg h2]
  constructor
  · rintro ⟨q, hq, h3⟩
    have h4 : ¬ ∀ q ∈ List.zip table_meta_.normal_fields values, ¬ rejected q.1 q.2 :=
      fun h => h q hq (Or.inr h3)
    rw [if_neg h4]
  · intro h3 h4
    by_cases h5 : ∀ q ∈ List.zip table_meta_.normal_fields values, ¬ rejected q.1 q.2
    · rw [if_pos h5] at h4
      exact absurd rfl h4
    · simp only [not_forall, not_not] at h5
      obtain ⟨q, hq, h6⟩ := h5
      rcases h6 with h6 | h6
      · exact ⟨q, hq, h6⟩
      · exact absurd h6.2 (h3 q hq h6.1)

theorem make_record_invalid_date_witness :
    (make_record memo_meta
      [{ attr_type_ := AttrType.DATE, length_ := 4, num_value_ := -1 },
       { attr_type_ := AttrType.TEXT, length_ := 2, str_value_ := [97, 98] }] {}
      (fun _ => 0)).1 = RC.VARIABLE_NOT_VALID :=
  (make_record_invalid_date memo_meta _ {} (fun _ => 0) (by decide) (by decide)).1
    ⟨(⟨"day", AttrType.DATE, 0, 4⟩,
      { attr_type_ := AttrType.DATE, length_ := 4, num_value_ := -1 }), by decide, by decide⟩

theorem make_record_error_record (m : TableMeta) (values : List Value) (record : Record)
    (junk : Nat → Byte) (h : (make_record m values record junk).1 ≠ RC.SUCCESS) :
    (make_record m values record junk).2 = record := by
  unfold make_record at h ⊢
  split_ifs with h1 h2
  · rfl
  · rfl
  · rw [if_neg h1, if_neg h2] at h
    cases hc : copy_fields m.normal_fields values (malloc m.record_size junk) with
    | error rc => rfl
    | ok record_data =>
      rw [hc] at h
      exact absurd rfl h

/-- C12: when `Table::make_record`, `Table::make_record_by_values` or
`Table::make_record_update_new` returns an error, the output record is the record
from before the call: no buffer was attached to it. The three functions read
the table (its schema, and the heap through a read-only visit) and have no
write to it: in the embedding they return the code and the record only. -/
theorem codec_error_keeps_record (t : Table) (values : List Value)
    (vec : List (FieldMeta × Value)) (record record1 : Record) (rid : RID) (junk : Nat → Byte)
    (rc : RC) (hrc : rc ≠ RC.SUCCESS) :
    (t.make_record values record junk = (rc, record1) → record1 = record) ∧
    (t.make_record_by_values vec record junk = Outcome.ret rc record1 → record1 = record) ∧
    (t.make_record_update_new vec record rid junk = Outcome.ret rc record1 →
      record1 = record) := by
  have hmk : ∀ vals : List Value, (t.make_record vals record junk).1 = rc →
      (t.make_record vals record junk).2 = record := by
    intro vals h
    unfold Table.make_record at h ⊢
    exact make_record_error_record _ _ _ _ (by rw [h]; exact hrc)
  refine ⟨?_, ?_, ?_⟩
  · intro h
    have := hmk values (by rw [h])
    rw [h] at this
    exact this
  · intro h
    unfold make_record_by_values at h
    cases hv : values_or_null vec t.table_meta_.normal_fields with
    | none => rw [hv] at h; simp at h
    | some vals =>
      rw [hv] at h
      simp only [Outcome.ret.injEq] at h
      rw [← h.2]
      exact hmk vals h.1
  · intro h
    unfold make_record_update_new at h
    simp only at h
    cases hv : values_or_old vec t.table_meta_.fields (t.get_record rid {}).2.data 0
        t.table_meta_.normal_fields with
    | none => rw [hv] at h; simp at h
    | some r =>
      obtain ⟨rc1, vals⟩ := r
      rw [hv] at h
      simp only at h
      by_cases h1 : rc1 ≠ RC.SUCCESS
      · rw [if_pos h1] at h
        simp only [Outcome.ret.injEq] at h
        exact h.2.symm
      · rw [if_neg h1] at h
        simp only [Outcome.ret.injEq] at h
        rw [← h.2]
        exact hmk vals h.1

theorem codec_error_keeps_record_witness :
    (scenario_table.make_record mismatched_values { rid := ⟨3, 4⟩ } (fun _ => 0) =
      (RC.SCHEMA_FIELD_TYPE_MISMATCH, { rid := ⟨3, 4⟩ }) ∧
    scenario_table.make_record_by_values mismatched_pairs { rid := ⟨3, 4⟩ } (fun _ => 0) =
      Outcome.ret RC.SCHEMA_FIELD_TYPE_MISMATCH { rid := ⟨3, 4⟩ } ∧
    scenario_table.make_record_update_new mismatched_pairs { rid := ⟨3, 4⟩ } ⟨1, 1⟩ (fun _ => 0) =
      Outcome.ret RC.SCHEMA_FIELD_TYPE_MISMATCH { rid := ⟨3, 4⟩ }) ∧
    ((scenario_table.make_record mismatched_values { rid := ⟨3, 4⟩ } (fun _ => 0) =
        (RC.SCHEMA_FIELD_TYPE_MISMATCH, { rid := ⟨3, 4⟩ }) →
      ({ rid := ⟨3, 4⟩ } : Record) = { rid := ⟨3, 4⟩ }) ∧
    (scenario_table.make_record_by_values mismatched_pairs { rid := ⟨3, 4⟩ } (fun _ => 0) =
        Outcome.ret RC.SCHEMA_FIELD_TYPE_MISMATCH { rid := ⟨3, 4⟩ } →
      ({ rid := ⟨3, 4⟩ } : Record) = { rid := ⟨3, 4⟩ }) ∧
    (scenario_table.make_record_update_new mismatched_pairs { rid := ⟨3, 4⟩ } ⟨1, 1⟩
        (fun _ => 0) = Outcome.ret RC.SCHEMA_FIELD_TYPE_MISMATCH { rid := ⟨3, 4⟩ } →
      ({ rid := ⟨3, 4⟩ } : Record) = { rid := ⟨3, 4⟩ })) :=
  ⟨⟨rfl, rfl, rfl⟩,
    codec_error_keeps_record scenario_table mismatched_values mismatched_pairs { rid := ⟨3, 4⟩ }
      { rid := ⟨3, 4⟩ } ⟨1, 1⟩ (fun _ => 0) RC.SCHEMA_FIELD_TYPE_MISMATCH (by decide)⟩

/-- The float `114.514` is a null for `Value::check_null`. -/
theorem check_null_float :
    Value.check_null (Value.set_float {} Value.null_float_bits) = some true := by
  decide

/-- C16 (the claim as stated fails): the null flag and the null sentinel do not
go together. The value of a `NULL` literal, `Value(0)` after `set_null()`, has
`is_null()` true and `Value::check_null` false; the value that
`Value::set_null(v, INTS)` makes of a fresh value has `Value::check_null` true
and `is_null()` false. -/
theorem null_flag_without_sentinel :
    (Value.set_null_flag (Value.of_int 0)).is_null = true ∧
    (Value.set_null_flag (Value.of_int 0)).check_null = some false ∧
    (Value.set_null {} AttrType.INTS).map Value.is_null = some false ∧
    (Value.set_null {} AttrType.INTS).bind Value.check_null = some true := by
  decide

/-- C16 (amended): the null flag and the null sentinel are independent.
`v.set_null()` makes `is_null()` true and leaves the result of
`Value::check_null` as it was; `Value::set_null(v, kind)`, for a kind among INT,
FLOAT, DATE and CHARS, makes a value on which `Value::check_null` is true and
leaves `is_null()` as it was. -/
theorem null_flag_and_sentinel (v : Value) (kind : AttrType)
    (hk : kind = AttrType.INTS ∨ kind = AttrType.FLOATS ∨ kind = AttrType.DATE ∨
      kind = AttrType.CHARS) :
    v.set_null_flag.is_null = true ∧ v.set_null_flag.check_null = v.check_null ∧
    ∃ w, Value.set_null v kind = some w ∧ w.check_null = some true ∧ w.is_null = v.is_null := by
  refine ⟨rfl, rfl, ?_⟩
  rcases hk with hk | hk | hk | hk <;> subst hk
  · exact ⟨_, rfl, rfl, rfl⟩
  · exact ⟨_, rfl, check_null_float, rfl⟩
  · exact ⟨_, rfl, rfl, rfl⟩
  · exact ⟨_, rfl, rfl, rfl⟩

theorem null_flag_and_sentinel_witness :
    (Value.of_int 7).set_null_flag.is_null = true ∧
    (Value.of_int 7).set_null_flag.check_null = (Value.of_int 7).check_null ∧
    ∃ w, Value.set_null (Value.of_int 7) AttrType.CHARS = some w ∧ w.check_null = some true ∧
      w.is_null = (Value.of_int 7).is_null :=
  null_flag_and_sentinel (Value.of_int 7) AttrType.CHARS (by decide)

theorem insert_entries_failure (indexes : List Index) (record : List Byte) (rid : RID)
    (h : (insert_entry_of_indexes indexes record rid).1 ≠ RC.SUCCESS) :
    ∃ pre index post, indexes = pre ++ index :: post ∧
      (∀ i ∈ pre, (i.insert_entry record rid).1 = RC.SUCCESS) ∧
      (index.insert_entry record rid).1 ≠ RC.SUCCESS ∧
      (insert_entry_of_indexes indexes record rid).1 = (index.insert_entry record rid).1 := by
  induction indexes with
  | nil => exact absurd rfl h
  | cons index rest ih =>
    unfold insert_entry_of_indexes at h ⊢
    by_cases h1 : (index.insert_entry record rid).1 ≠ RC.SUCCESS
    · refine ⟨[], index, rest, rfl, ?_, h1, ?_⟩
      · intro i hi
        cases hi
      · simp only [if_pos h1]
    · simp only [if_neg h1] at h ⊢
      obtain ⟨pre, index1, post, he, hpre, hf, hrc⟩ := ih h
      refine ⟨index :: pre, index1, post, by rw [he]; rfl, ?_, hf, hrc⟩
      intro i hi
      rcases List.mem_cons.mp hi with hi | hi
      · rw [hi]
        exact not_not.mp h1
      · exact hpre i hi

/-- C17: on a table that is not a view, when the heap has stored the record and
the insertion of its index entries fails, `Table::insert_record` returns the
code of the first index that refused the entry. Nothing is assumed about the
deletions that follow (the codes of `delete_entry_of_indexes` and of the heap
deletion are logged and dropped). -/
theorem insert_record_reports_index_error (junk : Nat → Byte) (fuel : Nat) (db : Db) (self : Nat)
    (t : Table) (record : Record) (data : List Byte) (new_rid : RID)
    (ht : db.table self = some t) (hv : t.view_table_flag = false)
    (hd : record.data = some data)
    (hr : t.record_handler_.next_rid t.record_handler_.records = some new_rid)
    (hi : (insert_entry_of_indexes t.indexes_ data new_rid).1 ≠ RC.SUCCESS) :
    ∃ pre index post db1 record1, t.indexes_ = pre ++ index :: post ∧
      (∀ i ∈ pre, (i.insert_entry data new_rid).1 = RC.SUCCESS) ∧
      (index.insert_entry data new_rid).1 ≠ RC.SUCCESS ∧
      Table.insert_record junk fuel db self record =
        Outcome.ret (index.insert_entry data new_rid).1 (db1, record1) := by
  obtain ⟨pre, index, post, he, hpre, hf, hrc⟩ := insert_entries_failure _ _ _ hi
  rw [insert_record_not_view junk fuel record ht hv]
  unfold insert_record_own
  have hh : t.record_handler_.insert_record data t.table_meta_.record_size record.rid =
      (RC.SUCCESS,
        { t.record_handler_ with records := t.record_handler_.records ++
            [{ rid := new_rid, data := some (data.take t.table_meta_.record_size) }] },
        new_rid) := by
    unfold RecordFileHandler.insert_record
    rw [hr]
  simp only [hd, hh, ne_eq, not_true_eq_false, if_false, hi, not_false_eq_true, if_true]
  exact ⟨pre, index, post, _, _, he, hpre, hf, by rw [hrc]⟩

theorem insert_record_reports_index_error_witness :
    (delete_entry_of_indexes
      (insert_entry_of_indexes scenario_table.indexes_ [1, 0, 0, 0, 99, 100, 0, 0] ⟨1, 2⟩).2
      [1, 0, 0, 0, 99, 100, 0, 0] ⟨1, 2⟩ false).1 = RC.RECORD_INVALID_KEY ∧
    ∃ pre index post db1 record1, scenario_table.indexes_ = pre ++ index :: post ∧
      (∀ i ∈ pre, (i.insert_entry [1, 0, 0, 0, 99, 100, 0, 0] ⟨1, 2⟩).1 = RC.SUCCESS) ∧
      (index.insert_entry [1, 0, 0, 0, 99, 100, 0, 0] ⟨1, 2⟩).1 ≠ RC.SUCCESS ∧
      Table.insert_record (fun _ => 0) 0 scenario_db 0 scenario_record =
        Outcome.ret (index.insert_entry [1, 0, 0, 0, 99, 100, 0, 0] ⟨1, 2⟩).1 (db1, record1) :=
  ⟨by decide, insert_record_reports_index_error (fun _ => 0) 0 scenario_db 0 scenario_table
    scenario_record [1, 0, 0, 0, 99, 100, 0, 0] ⟨1, 2⟩ rfl rfl rfl rfl (by decide)⟩

/-- C18: on a view whose projection has an expression that is not a column
(`select_expr_flag_` is set), `Table::insert_record` returns the error
`RC::FILE_NOT_EXIST` and the database (the heap and the indexes of the view and
of every other table) and the record are as they were, whatever the depth of
calls allowed. -/
theorem insert_record_view_free_expression (junk : Nat → Byte) (fuel : Nat) (db : Db) (self : Nat)
    (t : Table) (record : Record)
    (ht : db.table self = some t) (hv : t.view_table_flag = true)
    (hp : db.project_oper t.name = some true) :
    Table.insert_record junk fuel db self record = Outcome.ret RC.FILE_NOT_EXIST (db, record) ∧
    RC.FILE_NOT_EXIST ≠ RC.SUCCESS := by
  refine ⟨?_, by decide⟩
  cases fuel <;> simp [Table.insert_record, insert_record_body, ht, hv, hp]

theorem insert_record_view_free_expression_witness :
    Table.insert_record (fun _ => 0) 1 view_db 3 view_record =
      Outcome.ret RC.FILE_NOT_EXIST (view_db, view_record) ∧
    RC.FILE_NOT_EXIST ≠ RC.SUCCESS :=
  insert_record_view_free_expression (fun _ => 0) 1 view_db 3 (view_table "w") view_record
    rfl rfl (by decide)

theorem insert_record_own_stored {t : Table} {record : Record} {data : List Byte} {new_rid : RID}
    (hd : record.data = some data)
    (hr : t.record_handler_.next_rid t.record_handler_.records = some new_rid)
    (hi : (insert_entry_of_indexes t.indexes_ data new_rid).1 = RC.SUCCESS) :
    t.insert_record_own record =
      Outcome.ret RC.SUCCESS
        ({ t with
            record_handler_ := { t.record_handler_ with
              records := t.record_handler_.records ++
                [{ rid := new_rid, data := some (data.take t.table_meta_.record_size) }] },
            indexes_ := t.indexes_.map (fun index =>
              { index with entries := index.entries ++ [(index.key data, new_rid)] }) },
          { record with rid := new_rid }) := by
  unfold insert_record_own
  have hh : t.record_handler_.insert_record data t.table_meta_.record_size record.rid =
      (RC.SUCCESS,
        { t.record_handler_ with records := t.record_handler_.records ++
            [{ rid := new_rid, data := some (data.take t.table_meta_.record_size) }] },
        new_rid) := by
    unfold RecordFileHandler.insert_record
    rw [hr]
  simp only [hd, hh, ne_eq, not_true_eq_false, if_false, hi]
  rw [insert_entries_success _ _ _ hi]

/-- C19 (the claim as stated fails): the insertion of the row `(5, 9)` into the
view `v`, which starts with an empty heap, succeeds, and afterwards the heap of
the view itself holds the row. -/
theorem view_insert_reaches_own_heap :
    (view_table "v").record_handler_.records = [] ∧
    ∃ db1 record1 v1,
      Table.insert_record (fun _ => 0) 1 view_db 2 view_record =
        Outcome.ret RC.SUCCESS (db1, record1) ∧
      db1.table 2 = some v1 ∧
      v1.record_handler_.records = [⟨⟨1, 1⟩, some [5, 0, 0, 0, 9, 0, 0, 0]⟩] :=
  ⟨rfl, _, _, _, rfl, rfl, rfl⟩

/-- C19 (amended): on a view without a free expression, `Table::insert_record`
performs the per-base-table inserts of the decomposition and then goes on as on
a table that is not a view. When the decomposition has returned, and the heap of
the view then has a slot and the indexes of the view take the entry, the call
returns success, the heap of the view holds the record under the new rid and
each index of the view holds its entry. -/
theorem insert_record_view_then_own (junk : Nat → Byte) (fuel : Nat) (db db1 : Db) (self : Nat)
    (t t1 : Table) (record : Record) (data : List Byte) (new_rid : RID) (rc0 : RC)
    (ht : db.table self = some t) (hv : t.view_table_flag = true)
    (hp : db.project_oper t.name = some false)
    (hm : insert_map_into_tables (Table.insert_record junk fuel) junk db t record =
      Outcome.ret rc0 db1)
    (ht1 : db1.table self = some t1) (hd : record.data = some data)
    (hr : t1.record_handler_.next_rid t1.record_handler_.records = some new_rid)
    (hi : (insert_entry_of_indexes t1.indexes_ data new_rid).1 = RC.SUCCESS) :
    Table.insert_record junk (fuel + 1) db self record =
      Outcome.ret RC.SUCCESS
        (db1.set_table self
          { t1 with
            record_handler_ := { t1.record_handler_ with
              records := t1.record_handler_.records ++
                [{ rid := new_rid, data := some (data.take t1.table_meta_.record_size) }] },
            indexes_ := t1.indexes_.map (fun index =>
              { index with entries := index.entries ++ [(index.key data, new_rid)] }) },
          { record with rid := new_rid }) := by
  simp only [Table.insert_record, insert_record_body, ht, hv, hp, hm, ht1, if_true,
    Bool.false_eq_true, if_false, insert_record_own_stored hd hr hi]

theorem insert_record_view_then_own_witness :
    Table.insert_record (fun _ => 0) 1 view_db 2 view_record =
      Outcome.ret RC.SUCCESS
        (view_db_based.set_table 2
          { view_table "v" with
            record_handler_ := { (view_table "v").record_handler_ with
              records := (view_table "v").record_handler_.records ++
                [{ rid := ⟨1, 1⟩,
                   data := some (List.take (view_table "v").table_meta_.record_size
                     [5, 0, 0, 0, 9, 0, 0, 0]) }] },
            indexes_ := (view_table "v").indexes_.map (fun index =>
              { index with
                entries := index.entries ++ [(index.key [5, 0, 0, 0, 9, 0, 0, 0], ⟨1, 1⟩)] }) },
          { view_record with rid := ⟨1, 1⟩ }) :=
  insert_record_view_then_own (fun _ => 0) 0 view_db view_db_based 2 (view_table "v")
    (view_table "v") view_record [5, 0, 0, 0, 9, 0, 0, 0] ⟨1, 1⟩ RC.SUCCESS rfl rfl (by decide)
    rfl rfl rfl rfl rfl

theorem values_or_null_spec {vec : List (FieldMeta × Value)} {fields : List FieldMeta}
    {vals : List Value} (h : values_or_null vec fields = some vals) :
    List.Forall₂ (fun f v =>
      (∃ p, vec.find? (fun p => decide (f = p.1)) = some p ∧ v = p.2) ∨
      (vec.find? (fun p => decide (f = p.1)) = none ∧ Value.set_null {} f.type = some v))
      fields vals := by
  induction fields generalizing vals with
  | nil =>
    simp only [values_or_null, Option.some.injEq] at h
    subst h
    exact List.Forall₂.nil
  | cons f fs ih =>
    unfold values_or_null at h
    cases hf : vec.find? (fun p => decide (f = p.1)) with
    | some p =>
      rw [hf] at h
      simp only [Option.map_eq_some'] at h
      obtain ⟨vals1, h1, h2⟩ := h
      subst h2
      exact List.Forall₂.cons (Or.inl ⟨p, hf, rfl⟩) (ih h1)
    | none =>
      rw [hf] at h
      cases hn : Value.set_null {} f.type with
      | none => rw [hn] at h; simp at h
      | some w =>
        rw [hn] at h
        simp only [Option.map_eq_some'] at h
        obtain ⟨vals1, h1, h2⟩ := h
        subst h2
        exact List.Forall₂.cons (Or.inr ⟨hf, hn⟩) (ih h1)

theorem values_or_null_isSome (vec : List (FieldMeta × Value)) (fields : List FieldMeta)
    (h : ∀ f ∈ fields, vec.find? (fun p => decide (f = p.1)) = none →
      ∃ w, Value.set_null {} f.type = some w) :
    ∃ vals, values_or_null vec fields = some vals := by
  induction fields with
  | nil => exact ⟨[], rfl⟩
  | cons f fs ih =>
    obtain ⟨vals1, h1⟩ := ih (fun g hg => h g (List.mem_cons_of_mem _ hg))
    unfold values_or_null
    cases hf : vec.find? (fun p => decide (f = p.1)) with
    | some p => exact ⟨p.2 :: vals1, by simp [h1]⟩
    | none =>
      obtain ⟨w, hw⟩ := h f (List.mem_cons_self _ _) hf
      exact ⟨w :: vals1, by simp [hw, h1]⟩

theorem mem_zip_of_mem {fields : List FieldMeta} {vals : List Value}
    (hlen : fields.length = vals.length) {f : FieldMeta} (hf : f ∈ fields) :
    ∃ v, (f, v) ∈ List.zip fields vals := by
  induction fields generalizing vals with
  | nil => cases hf
  | cons g gs ih =>
    cases vals with
    | nil => simp at hlen
    | cons v vs =>
      rcases List.mem_cons.mp hf with hf | hf
      · exact ⟨v, by rw [hf]; exact List.mem_cons_self _ _⟩
      · obtain ⟨w, hw⟩ := ih (by simpa using hlen) hf
        exact ⟨w, List.mem_cons_of_mem _ hw⟩

theorem find_none_iff (vec : List (FieldMeta × Value)) (f : FieldMeta) :
    vec.find? (fun p => decide (f = p.1)) = none ↔ ∀ p ∈ vec, p.1 ≠ f := by
  rw [List.find?_eq_none]
  constructor
  · intro h p hp heq
    exact h p hp (by simp [heq])
  · intro h p hp
    simp only [decide_eq_true_eq]
    intro heq
    exact h p hp heq.symm

theorem find_some_mem {vec : List (FieldMeta × Value)} {f : FieldMeta} {p : FieldMeta × Value}
    (h : vec.find? (fun p => decide (f = p.1)) = some p) : p ∈ vec ∧ p.1 = f := by
  refine ⟨List.mem_of_find?_eq_some h, ?_⟩
  have := List.find?_some h
  simp only [decide_eq_true_eq] at this
  exact this.symm

theorem read_field_chars {field : FieldMeta} {value : Value} {buf : List Byte}
    (hs : field.type = AttrType.CHARS ∨ field.type = AttrType.TEXT)
    (ht : field.type = value.attr_type_)
    (h0 : 0 ∉ value.str_value_) (hlen : value.str_value_.length ≤ field.len)
    (hvl : value.length_ = value.str_value_.length)
    (hw : ∀ j < copy_len field value,
      buf.getD (field.offset + j) 0 = field_byte field (value.data.getD j 0)) :
    read_field field buf =
      { attr_type_ := field.type, length_ := value.str_value_.length,
        str_value_ := value.str_value_.map (field_byte field) } := by
  have hdata : value.data = value.str_value_ ++ [0] := by
    unfold Value.data c_str
    rw [← ht]
    rcases hs with hs | hs <;> rw [hs]
  have hcl : copy_len field value =
      if field.len > value.str_value_.length then value.str_value_.length + 1 else field.len := by
    unfold copy_len Value.length
    rw [if_pos hs, hvl]
  have htw : (read_bytes buf field.offset field.len).takeWhile (fun b => b != 0) =
      value.str_value_.map (field_byte field) := by
    apply takeWhile_eq_string
    · intro j hj
      rw [List.length_map] at hj
      have hjc : j < copy_len field value := by
        rw [hcl]
        split_ifs <;> omega
      rw [getD_read_bytes _ _ _ _ (by omega), hw j hjc, hdata]
      rw [List.getD_eq_getElem?_getD, List.getD_eq_getElem?_getD, List.getElem?_append_left hj,
        List.getElem?_map, List.getElem?_eq_getElem hj]
      simp
    · rw [List.length_map]
      by_cases hlt : value.str_value_.length < field.len
      · have hjc : value.str_value_.length < copy_len field value := by
          rw [hcl, if_pos hlt]
          omega
        rw [getD_read_bytes _ _ _ _ hlt, hw _ hjc, hdata]
        rw [List.getD_eq_getElem?_getD, List.getElem?_append_right (le_refl _)]
        simp [field_byte_zero]
      · rw [List.getD_eq_getElem?_getD, List.getElem?_eq_none]
        · rfl
        · rw [length_read_bytes]
          omega
    · intro h
      rw [List.mem_map] at h
      obtain ⟨b, hb, hb0⟩ := h
      have hbn : b ≠ 0 := by intro hb1; rw [hb1] at hb; exact h0 hb
      exact field_byte_ne_zero field b hbn hb0
  unfold read_field
  simp only [hs, if_true]
  unfold strlen
  rw [htw, List.length_map]

theorem read_back_in_bounds {field : FieldMeta} {value : Value} {buf : List Byte}
    (hb : in_bounds field value)
    (hw : ∀ j < copy_len field value,
      buf.getD (field.offset + j) 0 = field_byte field (value.data.getD j 0)) :
    (read_field field buf).attr_type_ = value.attr_type_ ∧
    (field.type = AttrType.CHARS →
      (read_field field buf).str_value_ = value.str_value_ ∧
      (read_field field buf).length_ = value.length_) ∧
    (field.type = AttrType.TEXT →
      (read_field field buf).str_value_ = value.str_value_.map text_byte ∧
      (read_field field buf).length_ = value.length_) ∧
    (field.type ≠ AttrType.CHARS → field.type ≠ AttrType.TEXT →
      (read_field field buf).num_value_ = value.num_value_) := by
  unfold in_bounds at hb
  by_cases hs : field.type = AttrType.CHARS ∨ field.type = AttrType.TEXT
  · rw [if_pos hs] at hb
    obtain ⟨ht, _, hlen, h0, hlt, _⟩ := hb
    rw [read_field_chars hs ht h0 (by omega) hlen hw]
    refine ⟨ht, ?_, ?_, ?_⟩
    · intro hc1
      have : field_byte field = id := by
        unfold field_byte
        rw [if_neg (by rw [hc1]; simp)]
      simp [this, hlen]
    · intro ht1
      have : field_byte field = text_byte := by
        unfold field_byte
        rw [if_pos ht1]
      simp [this, hlen]
    · intro hc1 ht1
      exact absurd hs (by simp [hc1, ht1])
  · rw [if_neg hs] at hb
    obtain ⟨ht, _, h4, hlo, hhi, _⟩ := hb
    have hcl : copy_len field value = 4 := by
      unfold copy_len
      rw [if_neg hs, h4]
    rw [hcl] at hw
    rw [read_field_number hs ht h4 hlo hhi hw]
    refine ⟨ht, ?_, ?_, ?_⟩
    · intro hc1; exact absurd (Or.inl hc1) hs
    · intro ht1; exact absurd (Or.inr ht1) hs
    · intro _ _; rfl

theorem in_bounds_not_rejected {field : FieldMeta} {value : Value} (hb : in_bounds field value) :
    ¬ rejected field value := by
  unfold in_bounds at hb
  unfold rejected
  rintro (⟨ht, hlen⟩ | ⟨ht, hdate⟩)
  · rw [if_pos (Or.inr ht)] at hb
    rw [Value.get_string, strlen_c_str _ hb.2.2.2.1] at hlen
    have := hb.2.2.2.2.2 ht
    have := hb.2.2.1
    omega
  · have hns : ¬ (field.type = AttrType.CHARS ∨ field.type = AttrType.TEXT) := by
      rw [ht]; simp
    rw [if_neg hns] at hb
    exact hb.2.2.2.2.2 ht hdate

theorem null_value_props {field : FieldMeta} {w : Value} (hh : holds_null field)
    (hw : Value.set_null {} field.type = some w) :
    field.type = w.attr_type_ ∧ ¬ rejected field w ∧ w.check_null = some true ∧
    ∀ buf : List Byte,
      (∀ j < copy_len field w,
        buf.getD (field.offset + j) 0 = field_byte field (w.data.getD j 0)) →
      read_field field buf = w := by
  rcases hh with ⟨hk, h4⟩ | ⟨hk, h6⟩
  · have hs : ¬ (field.type = AttrType.CHARS ∨ field.type = AttrType.TEXT) := by
      rcases hk with hk | hk | hk <;> rw [hk] <;> simp
    have hcl : copy_len field w = 4 := by
      unfold copy_len
      rw [if_neg hs, h4]
    rcases hk with hk | hk | hk
    · rw [hk] at hw
      simp only [Value.set_null, Option.some.injEq] at hw
      subst hw
      refine ⟨hk, ?_, rfl, ?_⟩
      · unfold rejected
        rw [hk]
        simp
      · intro buf hb
        rw [hcl] at hb
        rw [read_field_number hs hk h4 (by decide) (by decide) hb, hk]
        rfl
    · rw [hk] at hw
      simp only [Value.set_null, Option.some.injEq] at hw
      subst hw
      refine ⟨hk, ?_, check_null_float, ?_⟩
      · unfold rejected
        rw [hk]
        simp
      · intro buf hb
        rw [hcl] at hb
        rw [read_field_number hs hk h4 (by decide) (by decide) hb, hk]
        rfl
    · rw [hk] at hw
      simp only [Value.set_null, Option.some.injEq] at hw
      subst hw
      refine ⟨hk, ?_, rfl, ?_⟩
      · unfold rejected
        rw [hk]
        simp only [reduceCtorEq, false_and, true_and, false_or]
        decide
      · intro buf hb
        rw [hcl] at hb
        rw [read_field_number hs hk h4 (by decide) (by decide) hb, hk]
        rfl
  · rw [hk] at hw
    simp only [Value.set_null, Option.some.injEq] at hw
    subst hw
    refine ⟨hk, ?_, rfl, ?_⟩
    · unfold rejected
      rw [hk]
      simp
    · intro buf hb
      rw [read_field_chars (Or.inl hk) hk (by decide) (by exact h6) rfl hb, hk]
      have : field_byte field = id := by
        unfold field_byte
        rw [if_neg (by rw [hk]; simp)]
      rw [this]
      rfl

theorem holds_null_set_null {field : FieldMeta} (hh : holds_null field) :
    ∃ w, Value.set_null {} field.type = some w := by
  rcases hh with ⟨hk | hk | hk, _⟩ | ⟨hk, _⟩ <;> rw [hk] <;> exact ⟨_, rfl⟩

/-- C13 (the claim as stated fails): on the table `t(id INT, name CHARS(4))`,
`Table::make_record_by_values` with a value for `id` only succeeds, and the
field `name`, absent from the pairs, then holds `"xzhs"`, the first four bytes
of the CHARS null `"xzhseh"`: `Value::check_null` on the decoded field is
false. -/
theorem sparse_null_cut_short :
    ∃ record_data,
      scenario_table.make_record_by_values scenario_pairs {} (fun _ => 0) =
        Outcome.ret RC.SUCCESS { data := some record_data } ∧
      (read_field ⟨"name", AttrType.CHARS, 4, 4⟩ record_data).str_value_ = [120, 122, 104, 115] ∧
      (read_field ⟨"name", AttrType.CHARS, 4, 4⟩ record_data).check_null = some false :=
  ⟨[1, 0, 0, 0, 120, 122, 104, 115], rfl, by decide, by decide⟩

/-- C13 (amended): for a schema whose fields lie in the record without overlap
and a list of (field, value) pairs with well-typed, in-bounds values, such that
each non-system field absent from the pairs can hold the null of its kind (an
INT, FLOAT or DATE field of four bytes, or a CHARS field of at least six bytes),
`Table::make_record_by_values` succeeds; each field that has a pair reads back
with the kind and content of the value of its first pair (TEXT uppercased), and
each non-system field absent from the pairs reads back as the null that
`Value::set_null` makes for its kind, on which `Value::check_null` is true. -/
theorem make_record_by_values_fills_null (t : Table) (vec : List (FieldMeta × Value))
    (record : Record) (junk : Nat → Byte) (hl : t.table_meta_.layout_ok)
    (hs : t.table_meta_.sys_field_num ≤ t.table_meta_.field_num)
    (hv : ∀ p ∈ vec, in_bounds p.1 p.2)
    (ha : ∀ f ∈ t.table_meta_.normal_fields, (∀ p ∈ vec, p.1 ≠ f) → holds_null f) :
    ∃ record_data,
      t.make_record_by_values vec record junk =
        Outcome.ret RC.SUCCESS { record with data := some record_data } ∧
      ∀ f ∈ t.table_meta_.normal_fields,
        (∀ p, vec.find? (fun p => decide (f = p.1)) = some p →
          (read_field f record_data).attr_type_ = p.2.attr_type_ ∧
          (f.type = AttrType.CHARS →
            (read_field f record_data).str_value_ = p.2.str_value_ ∧
            (read_field f record_data).length_ = p.2.length_) ∧
          (f.type = AttrType.TEXT →
            (read_field f record_data).str_value_ = p.2.str_value_.map text_byte ∧
            (read_field f record_data).length_ = p.2.length_) ∧
          (f.type ≠ AttrType.CHARS → f.type ≠ AttrType.TEXT →
            (read_field f record_data).num_value_ = p.2.num_value_)) ∧
        ((∀ p ∈ vec, p.1 ≠ f) →
          ∃ w, Value.set_null {} f.type = some w ∧ read_field f record_data = w ∧
            w.check_null = some true) := by
  obtain ⟨vals, hvals⟩ := values_or_null_isSome vec t.table_meta_.normal_fields
    (fun f hf hnone => holds_null_set_null (ha f hf ((find_none_iff vec f).mp hnone)))
  have hF := values_or_null_spec hvals
  have hlen : t.table_meta_.normal_fields.length = vals.length := hF.length_eq
  have hzip : ∀ (a : FieldMeta) (b : Value), (a, b) ∈ List.zip t.table_meta_.normal_fields vals →
      (∃ p, vec.find? (fun p => decide (a = p.1)) = some p ∧ b = p.2) ∨
      (vec.find? (fun p => decide (a = p.1)) = none ∧ Value.set_null {} a.type = some b) :=
    fun a b h => (List.forall₂_iff_zip.mp hF).2 h
  have hgood : ∀ q ∈ List.zip t.table_meta_.normal_fields vals,
      q.1.type = q.2.attr_type_ ∧ ¬ rejected q.1 q.2 := by
    intro q hq
    rcases hzip q.1 q.2 hq with ⟨p, hp, hqp⟩ | ⟨hnone, hw⟩
    · obtain ⟨hpm, hpf⟩ := find_some_mem hp
      have hb := hv p hpm
      rw [hpf, ← hqp] at hb
      exact ⟨hb.1, in_bounds_not_rejected hb⟩
    · have hh := ha q.1 (List.of_mem_zip hq).1 ((find_none_iff vec q.1).mp hnone)
      have := null_value_props hh hw
      exact ⟨this.1, this.2.1⟩
  have h1 : ¬ (vals.length + t.table_meta_.sys_field_num ≠ t.table_meta_.field_num) := by
    rw [← hlen]
    unfold TableMeta.normal_fields TableMeta.field_num at *
    rw [List.length_drop]
    omega
  have h2 : ¬ (type_mismatch t.table_meta_.normal_fields vals = true) := by
    rw [type_mismatch_iff]
    rintro ⟨q, hq, hne⟩
    exact hne (hgood q hq).1
  obtain ⟨record_data, hc⟩ :=
    (copy_fields_isOk _ _ (malloc t.table_meta_.record_size junk)).mpr
      (fun q hq => (hgood q hq).2)
  have hmk : Miniob.make_record t.table_meta_ vals record junk =
      (RC.SUCCESS, { record with data := some record_data }) := by
    unfold Miniob.make_record
    rw [if_neg h1, if_neg h2, hc]
  refine ⟨record_data, ?_, ?_⟩
  · unfold make_record_by_values Table.make_record
    rw [hvals]
    simp only [hmk]
  intro f hf
  obtain ⟨v, hq⟩ := mem_zip_of_mem hlen hf
  have hbuf : ∀ g ∈ t.table_meta_.normal_fields,
      g.offset + g.len ≤ (malloc t.table_meta_.record_size junk).length := by
    intro g hg
    rw [length_malloc]
    exact hl.1 g hg
  have hw := fun j hj => copy_fields_written hc hbuf hl.2 (f, v) hq j hj 0
  constructor
  · intro p hp
    rcases hzip f v hq with ⟨p1, hp1, hqp⟩ | ⟨hnone, _⟩
    · rw [hp] at hp1
      simp only [Option.some.injEq] at hp1
      subst hp1
      obtain ⟨hpm, hpf⟩ := find_some_mem hp
      have hb := hv p hpm
      rw [hpf] at hb
      rw [hqp] at hw
      exact read_back_in_bounds hb hw
    · rw [hp] at hnone
      simp at hnone
  · intro hno
    have hnone := (find_none_iff vec f).mpr hno
    rcases hzip f v hq with ⟨p1, hp1, _⟩ | ⟨_, hsn⟩
    · rw [hnone] at hp1
      simp at hp1
    · have hp := null_value_props (ha f hf hno) hsn
      exact ⟨v, hsn, hp.2.2.2 record_data hw, hp.2.2.1⟩

theorem make_record_by_values_fills_null_witness :
    (people_table.make_record_by_values people_pairs {} (fun _ => 0) =
        Outcome.ret RC.SUCCESS
          { data := some [5, 0, 0, 0, 98, 111, 98, 0, 0, 0, 0, 0, 66, 75, 29, 0] } ∧
      (read_field ⟨"age", AttrType.INTS, 12, 4⟩
        [5, 0, 0, 0, 98, 111, 98, 0, 0, 0, 0, 0, 66, 75, 29, 0]).num_value_ = 1919810) ∧
    ∃ record_data,
      people_table.make_record_by_values people_pairs {} (fun _ => 0) =
        Outcome.ret RC.SUCCESS { data := some record_data } ∧
      ∀ f ∈ people_table.table_meta_.normal_fields,
        (∀ p, people_pairs.find? (fun p => decide (f = p.1)) = some p →
          (read_field f record_data).attr_type_ = p.2.attr_type_ ∧
          (f.type = AttrType.CHARS →
            (read_field f record_data).str_value_ = p.2.str_value_ ∧
            (read_field f record_data).length_ = p.2.length_) ∧
          (f.type = AttrType.TEXT →
            (read_field f record_data).str_value_ = p.2.str_value_.map text_byte ∧
            (read_field f record_data).length_ = p.2.length_) ∧
          (f.type ≠ AttrType.CHARS → f.type ≠ AttrType.TEXT →
            (read_field f record_data).num_value_ = p.2.num_value_)) ∧
        ((∀ p ∈ people_pairs, p.1 ≠ f) →
          ∃ w, Value.set_null {} f.type = some w ∧ read_field f record_data = w ∧
            w.check_null = some true) :=
  ⟨⟨rfl, by decide⟩,
    make_record_by_values_fills_null people_table people_pairs {} (fun _ => 0) (by decide)
      (by decide) (by decide) (by decide)⟩

/-- C15 (failing input): on the table `s(id INT, age INT)` with one system field,
whose record at rid `(1, 1)` stores `7` in the system field, `1` in `id` and `20`
in `age`, `Table::make_record_update_new` with the value `30` for `age` makes a
record whose field `id`, absent from the pairs, holds `7`, the stored content of
the system field, and not the `1` stored for `id`. -/
theorem make_record_update_new_shifted_cell :
    (sys_table.get_record ⟨1, 1⟩ {}).2.data = some [7, 0, 0, 0, 1, 0, 0, 0, 20, 0, 0, 0] ∧
    (read_field ⟨"id", AttrType.INTS, 4, 4⟩ [7, 0, 0, 0, 1, 0, 0, 0, 20, 0, 0, 0]).num_value_ = 1 ∧
    ∃ record_data,
      sys_table.make_record_update_new sys_pairs {} ⟨1, 1⟩ (fun _ => 0) =
        Outcome.ret RC.SUCCESS { data := some record_data } ∧
      (read_field ⟨"id", AttrType.INTS, 4, 4⟩ record_data).num_value_ = 7 ∧
      (read_field ⟨"age", AttrType.INTS, 8, 4⟩ record_data).num_value_ = 30 :=
  ⟨by decide, by decide, [0, 0, 0, 0, 7, 0, 0, 0, 30, 0, 0, 0], rfl, by decide, by decide⟩

theorem find_perm {vec1 vec2 : List (FieldMeta × Value)} (hp : vec1.Perm vec2)
    (hn : (vec1.map Prod.fst).Nodup) (f : FieldMeta) :
    vec1.find? (fun p => decide (f = p.1)) = vec2.find? (fun p => decide (f = p.1)) := by
  cases h1 : vec1.find? (fun p => decide (f = p.1)) with
  | none =>
    have h := (find_none_iff vec1 f).mp h1
    exact ((find_none_iff vec2 f).mpr (fun p hp2 => h p (hp.mem_iff.mpr hp2))).symm
  | some p =>
    obtain ⟨hpm, hpf⟩ := find_some_mem h1
    cases h2 : vec2.find? (fun p => decide (f = p.1)) with
    | none =>
      exact absurd hpf ((find_none_iff vec2 f).mp h2 p (hp.mem_iff.mp hpm))
    | some q =>
      obtain ⟨hqm, hqf⟩ := find_some_mem h2
      have hq1 : q ∈ vec1 := hp.mem_iff.mpr hqm
      have := List.inj_on_of_nodup_map hn hpm hq1 (by rw [hpf, hqf])
      rw [this]

theorem values_or_null_perm {vec1 vec2 : List (FieldMeta × Value)} (hp : vec1.Perm vec2)
    (hn : (vec1.map Prod.fst).Nodup) (fields : List FieldMeta) :
    values_or_null vec1 fields = values_or_null vec2 fields := by
  induction fields with
  | nil => rfl
  | cons f fs ih =>
    unfold values_or_null
    rw [find_perm hp hn f, ih]

theorem getD_set_byte (l : List Byte) (i p : Nat) (a : Byte) :
    (l.set i a).getD p 0 = if i = p ∧ i < l.length then a else l.getD p 0 := by
  rw [List.getD_eq_getElem?_getD, List.getD_eq_getElem?_getD, List.getElem?_set]
  by_cases h : i = p
  · subst h
    by_cases hl : i < l.length
    · simp [hl]
    · simp [hl, List.getElem?_eq_none (not_lt.mp hl)]
  · simp [h]

theorem copy_bytes_agree (g : Byte → Byte) (src : List Byte) (off n : Nat) (buf1 buf2 : List Byte)
    (hlen : buf1.length = buf2.length) (p : Nat) (h : buf1.getD p 0 = buf2.getD p 0) :
    (copy_bytes g src off n buf1).getD p 0 = (copy_bytes g src off n buf2).getD p 0 := by
  induction n with
  | zero => exact h
  | succ n ih =>
    unfold copy_bytes
    rw [getD_set_byte, getD_set_byte, length_copy_bytes, length_copy_bytes, hlen, ih]

theorem make_record_field_agree (field : FieldMeta) (value : Value) (buf1 buf2 : List Byte)
    (hlen : buf1.length = buf2.length) :
    (∃ rc, make_record_field field value buf1 = Except.error rc ∧
      make_record_field field value buf2 = Except.error rc) ∨
    (∃ b1 b2, make_record_field field value buf1 = Except.ok b1 ∧
      make_record_field field value buf2 = Except.ok b2 ∧ b1.length = b2.length ∧
      ∀ p, buf1.getD p 0 = buf2.getD p 0 → b1.getD p 0 = b2.getD p 0) := by
  unfold make_record_field
  split_ifs
  · exact Or.inl ⟨_, rfl, rfl⟩
  · exact Or.inl ⟨_, rfl, rfl⟩
  · exact Or.inr ⟨_, _, rfl, rfl, by rw [length_copy_bytes, length_copy_bytes, hlen],
      fun p h => copy_bytes_agree _ _ _ _ _ _ hlen p h⟩
  · exact Or.inr ⟨_, _, rfl, rfl, by rw [length_copy_bytes, length_copy_bytes, hlen],
      fun p h => copy_bytes_agree _ _ _ _ _ _ hlen p h⟩

theorem copy_fields_agree (fields : List FieldMeta) (values : List Value) (buf1 buf2 : List Byte)
    (hlen : buf1.length = buf2.length) :
    (∃ rc, copy_fields fields values buf1 = Except.error rc ∧
      copy_fields fields values buf2 = Except.error rc) ∨
    (∃ b1 b2, copy_fields fields values buf1 = Except.ok b1 ∧
      copy_fields fields values buf2 = Except.ok b2 ∧ b1.length = b2.length ∧
      ∀ p, buf1.getD p 0 = buf2.getD p 0 → b1.getD p 0 = b2.getD p 0) := by
  induction fields generalizing values buf1 buf2 with
  | nil => exact Or.inr ⟨buf1, buf2, by simp [copy_fields], by simp [copy_fields], hlen, fun _ h => h⟩
  | cons f fs ih =>
    cases values with
    | nil => exact Or.inr ⟨buf1, buf2, by simp [copy_fields], by simp [copy_fields], hlen, fun _ h => h⟩
    | cons v vs =>
      unfold copy_fields
      rcases make_record_field_agree f v buf1 buf2 hlen with ⟨rc, h1, h2⟩ | ⟨b1, b2, h1, h2, hl, hp⟩
      · rw [h1, h2]
        exact Or.inl ⟨rc, rfl, rfl⟩
      · rw [h1, h2]
        rcases ih vs b1 b2 hl with ⟨rc, h3, h4⟩ | ⟨c1, c2, h3, h4, hl2, hp2⟩
        · exact Or.inl ⟨rc, h3, h4⟩
        · exact Or.inr ⟨c1, c2, h3, h4, hl2, fun p h => hp2 p (hp p h)⟩

theorem getD_malloc_agree (n : Nat) (junk1 junk2 : Nat → Byte) (p : Nat)
    (h : junk1 p = junk2 p) : (malloc n junk1).getD p 0 = (malloc n junk2).getD p 0 := by
  by_cases hp : p < n
  · rw [getD_malloc n junk1 p hp, getD_malloc n junk2 p hp, h]
  · rw [List.getD_eq_getElem?_getD, List.getD_eq_getElem?_getD,
      List.getElem?_eq_none (by rw [length_malloc]; omega),
      List.getElem?_eq_none (by rw [length_malloc]; omega)]

theorem make_record_agree (m : TableMeta) (values : List Value) (record : Record)
    (junk1 junk2 : Nat → Byte) :
    (make_record m values record junk1).1 = (make_record m values record junk2).1 ∧
    ((make_record m values record junk1).1 = RC.SUCCESS →
      ∃ d1 d2, (make_record m values record junk1).2 = { record with data := some d1 } ∧
        (make_record m values record junk2).2 = { record with data := some d2 } ∧
        d1.length = d2.length ∧ ∀ p, junk1 p = junk2 p → d1.getD p 0 = d2.getD p 0) := by
  unfold make_record
  split_ifs with h1 h2
  · exact ⟨rfl, fun h => by cases h⟩
  · exact ⟨rfl, fun h => by cases h⟩
  · rcases copy_fields_agree m.normal_fields values (malloc m.record_size junk1)
      (malloc m.record_size junk2) (by rw [length_malloc, length_malloc]) with
      ⟨rc, h3, h4⟩ | ⟨b1, b2, h3, h4, hl, hp⟩
    · rw [h3, h4]
      refine ⟨rfl, fun h => ?_⟩
      have hrc := copy_fields_error h3
      subst hrc
      cases h
    · rw [h3, h4]
      exact ⟨rfl, fun _ => ⟨b1, b2, rfl, rfl, hl,
        fun p h => hp p (getD_malloc_agree _ _ _ p h)⟩⟩

/-- C14: for two lists of (field, value) pairs that are permutations of each
other and whose fields are pairwise distinct, `Table::make_record_by_values`
has the same outcome: the same return code and, on success, the same record,
byte for byte, in every field. The order of the pairs has no part in the
result: were the two calls to get fresh buffers of different content, the
return codes would still be the same and the records would have the same length
and the same byte at every position where the two buffers had the same byte,
which covers every byte that the call writes. -/
theorem make_record_by_values_perm (t : Table) (vec1 vec2 : List (FieldMeta × Value))
    (record : Record) (hp : vec1.Perm vec2) (hn : (vec1.map Prod.fst).Nodup) :
    (∀ junk : Nat → Byte,
      t.make_record_by_values vec1 record junk = t.make_record_by_values vec2 record junk) ∧
    ∀ (junk1 junk2 : Nat → Byte) (rc1 rc2 : RC) (r1 r2 : Record),
      t.make_record_by_values vec1 record junk1 = Outcome.ret rc1 r1 →
      t.make_record_by_values vec2 record junk2 = Outcome.ret rc2 r2 →
      rc1 = rc2 ∧
      (rc1 = RC.SUCCESS →
        ∃ d1 d2, r1 = { record with data := some d1 } ∧ r2 = { record with data := some d2 } ∧
          d1.length = d2.length ∧ ∀ p, junk1 p = junk2 p → d1.getD p 0 = d2.getD p 0) := by
  have hv := values_or_null_perm hp hn t.table_meta_.normal_fields
  constructor
  · intro junk
    unfold make_record_by_values
    rw [hv]
  · intro junk1 junk2 rc1 rc2 r1 r2 h1 h2
    unfold make_record_by_values at h1 h2
    rw [hv] at h1
    cases hvals : values_or_null vec2 t.table_meta_.normal_fields with
    | none => rw [hvals] at h1; simp at h1
    | some vals =>
      rw [hvals] at h1 h2
      simp only [Outcome.ret.injEq] at h1 h2
      obtain ⟨ha, hb⟩ := make_record_agree t.table_meta_ vals record junk1 junk2
      unfold Table.make_record at h1 h2
      rw [← h1.1, ← h2.1, ← h1.2, ← h2.2]
      exact ⟨ha, hb⟩

theorem make_record_by_values_perm_witness :
    people_table.make_record_by_values people_pairs.reverse {} (fun _ => 0) =
      Outcome.ret RC.SUCCESS
        { data := some [5, 0, 0, 0, 98, 111, 98, 0, 0, 0, 0, 0, 66, 75, 29, 0] } ∧
    ((∀ junk : Nat → Byte,
      people_table.make_record_by_values people_pairs {} junk =
        people_table.make_record_by_values people_pairs.reverse {} junk) ∧
    ∀ (junk1 junk2 : Nat → Byte) (rc1 rc2 : RC) (r1 r2 : Record),
      people_table.make_record_by_values people_pairs {} junk1 = Outcome.ret rc1 r1 →
      people_table.make_record_by_values people_pairs.reverse {} junk2 = Outcome.ret rc2 r2 →
      rc1 = rc2 ∧
      (rc1 = RC.SUCCESS →
        ∃ d1 d2, r1 = { ({} : Record) with data := some d1 } ∧
          r2 = { ({} : Record) with data := some d2 } ∧
          d1.length = d2.length ∧ ∀ p, junk1 p = junk2 p → d1.getD p 0 = d2.getD p 0)) :=
  ⟨rfl,
    make_record_by_values_perm people_table people_pairs people_pairs.reverse {}
      (List.reverse_perm _).symm (by decide)⟩

theorem keys_push_result {α : Type} (m : List (Nat × List α)) (k : Nat) (x : α) :
    (push_result m k x).map Prod.fst =
      if k ∈ m.map Prod.fst then m.map Prod.fst else m.map Prod.fst ++ [k] := by
  unfold push_result
  have hany : (m.any (fun e => e.1 == k)) = true ↔ k ∈ m.map Prod.fst := by
    simp only [List.any_eq_true, beq_iff_eq, List.mem_map]
  by_cases h : k ∈ m.map Prod.fst
  · rw [if_pos (hany.mpr h), if_pos h, List.map_map]
    apply List.map_congr_left
    intro e _
    by_cases he : e.1 = k <;> simp [he]
  · rw [if_neg (fun h1 => h (hany.mp h1)), if_neg h]
    simp

theorem group_at_push_result {α : Type} (m : List (Nat × List α)) (k : Nat) (x : α) (k1 : Nat) :
    group_at (push_result m k x) k1 = if k1 = k then group_at m k ++ [x] else group_at m k1 := by
  unfold push_result
  by_cases hany : (m.any (fun e => e.1 == k)) = true
  · rw [if_pos hany]
    unfold group_at
    rw [List.find?_map]
    have hcomp : ((fun e : Nat × List α => e.1 == k1) ∘
        (fun e : Nat × List α => if e.1 = k then (e.1, e.2 ++ [x]) else e)) =
        (fun e => e.1 == k1) := by
      funext e
      simp only [Function.comp]
      split_ifs <;> rfl
    rw [hcomp]
    by_cases hk : k1 = k
    · subst hk
      rw [if_pos rfl]
      cases hf : m.find? (fun e => e.1 == k1) with
      | none =>
        rw [List.find?_eq_none] at hf
        simp only [List.any_eq_true] at hany
        obtain ⟨e, he, hek⟩ := hany
        exact absurd hek (hf e he)
      | some e =>
        have := List.find?_some hf
        simp only [beq_iff_eq] at this
        simp [this]
    · rw [if_neg hk]
      cases hf : m.find? (fun e => e.1 == k1) with
      | none => rfl
      | some e =>
        have := List.find?_some hf
        simp only [beq_iff_eq] at this
        have hne : ¬ e.1 = k := by rw [this]; exact hk
        simp [hne]
  · rw [if_neg hany]
    unfold group_at
    rw [List.find?_append]
    simp only [Bool.not_eq_true, List.any_eq_false, beq_iff_eq] at hany
    by_cases hk : k1 = k
    · subst hk
      rw [if_pos rfl]
      have hf : m.find? (fun e => e.1 == k1) = none := by
        rw [List.find?_eq_none]
        intro e he
        simpa using hany e he
      rw [hf]
      simp
    · rw [if_neg hk]
      cases hf : m.find? (fun e => e.1 == k1) with
      | none =>
        have hb : (k == k1) = false := by
          rw [beq_eq_false_iff_ne]
          exact fun h => hk h.symm
        simp [List.find?, hb]
      | some e => simp

theorem group_at_of_mem {α : Type} {m : List (Nat × List α)} (hn : (m.map Prod.fst).Nodup)
    {g : Nat × List α} (hg : g ∈ m) : group_at m g.1 = g.2 := by
  unfold group_at
  cases hf : m.find? (fun e => e.1 == g.1) with
  | none =>
    rw [List.find?_eq_none] at hf
    exact absurd (by simp) (hf g hg)
  | some e =>
    have h1 := List.find?_some hf
    simp only [beq_iff_eq] at h1
    have h2 := List.mem_of_find?_eq_some hf
    rw [List.inj_on_of_nodup_map hn h2 hg h1]

/-- The first loop of `Table::insert_map_into_tables` from a map with distinct
keys: the result has distinct keys, those of the map and the base tables of the
columns visited, and under each key the vector of the map followed by the cells
of the columns of that base table, in column order. -/
theorem cells_by_table_spec (t : Table) (record_data : List Byte) (is : List Nat)
    (acc : List (Nat × List (FieldMeta × Value)))
    (hi : ∀ i ∈ is, i < t.meta_.tables.length ∧ i < t.meta_.fields.length)
    (hn : (acc.map Prod.fst).Nodup) :
    ∃ res, cells_by_table t record_data is acc = some res ∧ (res.map Prod.fst).Nodup ∧
      (∀ k, k ∈ res.map Prod.fst ↔
        k ∈ acc.map Prod.fst ∨ ∃ i ∈ is, t.meta_.tables.get? i = some k) ∧
      ∀ k, group_at res k = group_at acc k ++ is.filterMap (fun i =>
        match t.meta_.tables.get? i, t.meta_.fields.get? i with
        | some table1, some field =>
          if table1 = k then some (field, (cell_at t.table_meta_.fields record_data i).2)
          else none
        | _, _ => none) := by
  induction is generalizing acc with
  | nil =>
    exact ⟨acc, rfl, hn, fun k => by simp, fun k => by simp⟩
  | cons i rest ih =>
    obtain ⟨h1, h2⟩ := hi i (List.mem_cons_self _ _)
    obtain ⟨table, htab⟩ : ∃ table, t.meta_.tables.get? i = some table :=
      ⟨_, List.get?_eq_get h1⟩
    obtain ⟨field, hfld⟩ : ∃ field, t.meta_.fields.get? i = some field :=
      ⟨_, List.get?_eq_get h2⟩
    have hn1 : ((push_result acc table
        (field, (cell_at t.table_meta_.fields record_data i).2)).map Prod.fst).Nodup := by
      rw [keys_push_result]
      split_ifs with hk
      · exact hn
      · exact List.Nodup.append hn (List.nodup_singleton _) (by simpa using hk)
    obtain ⟨res, hres, hnd, hkeys, hgrp⟩ :=
      ih (push_result acc table (field, (cell_at t.table_meta_.fields record_data i).2))
        (fun j hj => hi j (List.mem_cons_of_mem _ hj)) hn1
    refine ⟨res, ?_, hnd, ?_, ?_⟩
    · unfold cells_by_table
      rw [htab, hfld]
      exact hres
    · intro k
      rw [hkeys k, keys_push_result]
      constructor
      · rintro (hk | ⟨j, hj, hjk⟩)
        · split_ifs at hk with hm
          · exact Or.inl hk
          · rcases List.mem_append.mp hk with hk | hk
            · exact Or.inl hk
            · simp only [List.mem_singleton] at hk
              exact Or.inr ⟨i, List.mem_cons_self _ _, by rw [htab, hk]⟩
        · exact Or.inr ⟨j, List.mem_cons_of_mem _ hj, hjk⟩
      · rintro (hk | ⟨j, hj, hjk⟩)
        · left
          split_ifs
          · exact hk
          · exact List.mem_append_left _ hk
        · rcases List.mem_cons.mp hj with hj | hj
          · left
            rw [hj, htab] at hjk
            simp only [Option.some.injEq] at hjk
            subst hjk
            split_ifs with hm
            · exact hm
            · exact List.mem_append_right _ (List.mem_singleton_self _)
          · exact Or.inr ⟨j, hj, hjk⟩
    · intro k
      rw [hgrp k, group_at_push_result, List.filterMap_cons, htab, hfld]
      by_cases hk : k = table
      · subst hk
        simp
      · have hk2 : ¬ table = k := fun h => hk h.symm
        simp [hk, hk2]

theorem table_set_table_ne (db : Db) {k k1 : Nat} (t : Table) (h : k1 ≠ k) :
    (db.set_table k t).table k1 = db.table k1 := by
  unfold Db.table Db.set_table
  simp only [List.get?_eq_getElem?]
  rw [List.getElem?_set_ne (fun h1 => h h1.symm)]

theorem insert_record_own_returns (t : Table) {record : Record} {data : List Byte}
    (hd : record.data = some data) :
    ∃ rc t1 record1, t.insert_record_own record = Outcome.ret rc (t1, record1) := by
  unfold insert_record_own
  rw [hd]
  simp only
  split_ifs
  · exact ⟨_, _, _, rfl⟩
  · exact ⟨_, _, _, rfl⟩
  · exact ⟨_, _, _, rfl⟩

theorem make_record_by_values_success {t : Table} {vec : List (FieldMeta × Value)}
    {record record1 : Record} {junk : Nat → Byte}
    (h : t.make_record_by_values vec record junk = Outcome.ret RC.SUCCESS record1) :
    ∃ vals record_data, values_or_null vec t.table_meta_.normal_fields = some vals ∧
      record1 = { record with data := some record_data } ∧
      copy_fields t.table_meta_.normal_fields vals (malloc t.table_meta_.record_size junk) =
        Except.ok record_data := by
  unfold make_record_by_values at h
  cases hv : values_or_null vec t.table_meta_.normal_fields with
  | none => rw [hv] at h; simp at h
  | some vals =>
    rw [hv] at h
    simp only [Outcome.ret.injEq] at h
    have hm : Miniob.make_record t.table_meta_ vals record junk = (RC.SUCCESS, record1) :=
      Prod.ext h.1 h.2
    obtain ⟨record_data, h1, h2⟩ := make_record_success hm
    exact ⟨vals, record_data, rfl, h1, h2⟩

theorem make_record_by_values_absent_null {t : Table} {vec : List (FieldMeta × Value)}
    {record record1 : Record} {junk : Nat → Byte} (hl : t.table_meta_.layout_ok)
    (h : t.make_record_by_values vec record junk = Outcome.ret RC.SUCCESS record1) :
    ∃ record_data, record1 = { record with data := some record_data } ∧
      ∀ f ∈ t.table_meta_.normal_fields, (∀ p ∈ vec, p.1 ≠ f) → holds_null f →
        ∃ w, Value.set_null {} f.type = some w ∧ read_field f record_data = w ∧
          w.check_null = some true := by
  obtain ⟨vals, record_data, hvals, hr, hc⟩ := make_record_by_values_success h
  refine ⟨record_data, hr, ?_⟩
  intro f hf hno hh
  have hF := values_or_null_spec hvals
  obtain ⟨v, hq⟩ := mem_zip_of_mem hF.length_eq hf
  have hbuf : ∀ g ∈ t.table_meta_.normal_fields,
      g.offset + g.len ≤ (malloc t.table_meta_.record_size junk).length := by
    intro g hg
    rw [length_malloc]
    exact hl.1 g hg
  have hw := fun j hj => copy_fields_written hc hbuf hl.2 (f, v) hq j hj 0
  have hnone := (find_none_iff vec f).mpr hno
  rcases (List.forall₂_iff_zip.mp hF).2 hq with ⟨p1, hp1, _⟩ | ⟨_, hsn⟩
  · rw [hnone] at hp1
    simp at hp1
  · have hp := null_value_props hh hsn
    exact ⟨v, hsn, hp.2.2.2 record_data hw, hp.2.2.1⟩

theorem insert_into_tables_effect (junk : Nat → Byte) (fuel : Nat)
    (groups : List (Nat × List (FieldMeta × Value))) (db : Db)
    (hn : (groups.map Prod.fst).Nodup)
    (hb : ∀ g ∈ groups, ∃ base r, db.table g.1 = some base ∧ base.view_table_flag = false ∧
      base.make_record_by_values g.2 {} junk = Outcome.ret RC.SUCCESS r) :
    ∃ db1, insert_into_tables (Table.insert_record junk fuel) junk groups db =
        Outcome.ret RC.SUCCESS db1 ∧
      (∀ k, k ∉ groups.map Prod.fst → db1.table k = db.table k) ∧
      ∀ g ∈ groups, ∃ base r rc base1 r1, db.table g.1 = some base ∧
        base.make_record_by_values g.2 {} junk = Outcome.ret RC.SUCCESS r ∧
        base.insert_record_own r = Outcome.ret rc (base1, r1) ∧ db1.table g.1 = some base1 := by
  induction groups generalizing db with
  | nil => exact ⟨db, rfl, fun _ _ => rfl, fun g hg => by cases hg⟩
  | cons g rest ih =>
    obtain ⟨k, vec⟩ := g
    simp only [List.map_cons, List.nodup_cons] at hn
    obtain ⟨hk, hn1⟩ := hn
    obtain ⟨base, r, hbase, hview, hmk⟩ := hb (k, vec) (List.mem_cons_self _ _)
    obtain ⟨vals, d, _, hr, _⟩ := make_record_by_values_success hmk
    obtain ⟨rc, base1, r1, hown⟩ := insert_record_own_returns base (by rw [hr] : r.data = some d)
    have hrest : ∀ g ∈ rest, g.1 ≠ k := by
      intro g hg heq
      exact hk (by rw [← heq]; exact List.mem_map_of_mem _ hg)
    obtain ⟨db1, hdb1, hother, hgroups⟩ := ih (db.set_table k base1) hn1 (by
      intro g hg
      rw [table_set_table_ne db base1 (hrest g hg)]
      exact hb g (List.mem_cons_of_mem _ hg))
    refine ⟨db1, ?_, ?_, ?_⟩
    · unfold insert_into_tables
      simp only [hbase, hmk, insert_record_not_view junk fuel r hbase hview, hown]
      exact hdb1
    · intro k1 hk1
      simp only [List.map_cons, List.mem_cons, not_or] at hk1
      rw [hother k1 hk1.2, table_set_table_ne db base1 hk1.1]
    · intro g hg
      rcases List.mem_cons.mp hg with hg | hg
      · subst hg
        refine ⟨base, r, rc, base1, r1, hbase, hmk, hown, ?_⟩
        rw [hother k hk]
        exact table_set_table base1 hbase
      · obtain ⟨b, r2, rc2, b1, r3, h1, h2, h3, h4⟩ := hgroups g hg
        rw [table_set_table_ne db base1 (hrest g hg)] at h1
        exact ⟨b, r2, rc2, b1, r3, h1, h2, h3, h4⟩

theorem mem_tables_iff (t : Table) (k : Nat)
    (hc1 : t.meta_.tables.length = t.table_meta_.fields.length) :
    (∃ i ∈ List.range t.table_meta_.fields.length, t.meta_.tables.get? i = some k) ↔
      k ∈ t.meta_.tables := by
  constructor
  · rintro ⟨i, _, hi⟩
    exact List.get?_mem hi
  · intro hk
    obtain ⟨i, hi, hik⟩ := List.getElem_of_mem hk
    refine ⟨i, by rw [List.mem_range]; omega, ?_⟩
    rw [List.get?_eq_getElem?, List.getElem?_eq_getElem hi, hik]

/-- C20 (the claim as stated fails): the row `(5, 9)` of the view `v` is
decomposed with one insertion into `people` and one into `t`, and the record
that reaches `t(id INT, name CHARS(4))` holds `"xzhs"` in the column `name`,
which the view does not supply: `Value::check_null` on the decoded column is
false. -/
theorem view_insert_null_cut_short :
    insert_map_into_tables (Table.insert_record (fun _ => 0) 0) (fun _ => 0) view_db
      (view_table "v") view_record = Outcome.ret RC.SUCCESS view_db_based ∧
    (view_db_based.table 1).map (fun base => base.record_handler_.records) =
      some [⟨⟨1, 1⟩, some [9, 0, 0, 0, 120, 122, 104, 115]⟩] ∧
    (read_field ⟨"name", AttrType.CHARS, 4, 4⟩ [9, 0, 0, 0, 120, 122, 104, 115]).check_null =
      some false :=
  ⟨rfl, rfl, by decide⟩

/-- C20 (amended): for a view with one (table, field) provenance entry per
column and a view record, when every base table named in the provenance is a
table of the database that is not a view and `make_record_by_values` succeeds on
the view columns that it owns, `Table::insert_map_into_tables` returns and the
database is then `decomposed`: each distinct base table has received exactly one
insertion, of the record built from exactly the view columns that it owns, and
the other tables are as they were. The map of the function has one key per
distinct base table, each with exactly the columns owned by that table, and the
result is the same in whatever order the map is visited. In each record built,
every base column that the view does not supply and that can hold the null of
its kind (INT, FLOAT or DATE of four bytes, CHARS of at least six bytes) holds
that null: `Value::check_null` on the decoded column is true. -/
theorem insert_map_into_tables_decomposes (junk : Nat → Byte) (fuel : Nat) (db : Db) (t : Table)
    (record : Record) (data : List Byte)
    (hc1 : t.meta_.tables.length = t.table_meta_.fields.length)
    (hc2 : t.meta_.fields.length = t.table_meta_.fields.length)
    (hd : record.data = some data)
    (hb : ∀ k ∈ t.meta_.tables, ∃ base r, db.table k = some base ∧
      base.view_table_flag = false ∧
      base.make_record_by_values (t.owned_cells data k) {} junk = Outcome.ret RC.SUCCESS r) :
    (∃ db1, insert_map_into_tables (Table.insert_record junk fuel) junk db t record =
        Outcome.ret RC.SUCCESS db1 ∧ t.decomposed junk data db db1) ∧
    (∃ groups, cells_by_table t data (List.range t.table_meta_.fields.length) [] = some groups ∧
      (groups.map Prod.fst).Nodup ∧ (∀ k, k ∈ groups.map Prod.fst ↔ k ∈ t.meta_.tables) ∧
      (∀ g ∈ groups, g.2 = t.owned_cells data g.1) ∧
      ∀ order : List (Nat × List (FieldMeta × Value)), order.Perm groups →
        ∃ db1, insert_into_tables (Table.insert_record junk fuel) junk order db =
          Outcome.ret RC.SUCCESS db1 ∧ t.decomposed junk data db db1) ∧
    ∀ k ∈ t.meta_.tables, ∀ (base : Table) (r : Record), db.table k = some base →
      base.make_record_by_values (t.owned_cells data k) {} junk = Outcome.ret RC.SUCCESS r →
      base.table_meta_.layout_ok →
      ∃ d, r.data = some d ∧
        ∀ f ∈ base.table_meta_.normal_fields, (∀ p ∈ t.owned_cells data k, p.1 ≠ f) →
          holds_null f → (read_field f d).check_null = some true := by
  obtain ⟨groups, hgroups, hnd, hkeys, hgrp⟩ :=
    cells_by_table_spec t data (List.range t.table_meta_.fields.length) []
      (fun i hi => by rw [List.mem_range] at hi; omega) List.nodup_nil
  have hkeys1 : ∀ k, k ∈ groups.map Prod.fst ↔ k ∈ t.meta_.tables := by
    intro k
    rw [hkeys k, mem_tables_iff t k hc1]
    simp
  have hcells : ∀ g ∈ groups, g.2 = t.owned_cells data g.1 := by
    intro g hg
    rw [← group_at_of_mem hnd hg, hgrp g.1]
    rfl
  have horder : ∀ order : List (Nat × List (FieldMeta × Value)), order.Perm groups →
      ∃ db1, insert_into_tables (Table.insert_record junk fuel) junk order db =
        Outcome.ret RC.SUCCESS db1 ∧ t.decomposed junk data db db1 := by
    intro order hperm
    have hmem : ∀ g, g ∈ order ↔ g ∈ groups := fun g => hperm.mem_iff
    have hnd1 : (order.map Prod.fst).Nodup := (hperm.map Prod.fst).nodup_iff.mpr hnd
    have hkeys2 : ∀ k, k ∈ order.map Prod.fst ↔ k ∈ t.meta_.tables := by
      intro k
      rw [← hkeys1 k]
      exact (hperm.map Prod.fst).mem_iff
    obtain ⟨db1, hdb1, hother, heff⟩ := insert_into_tables_effect junk fuel order db hnd1 (by
      intro g hg
      have hg1 := (hmem g).mp hg
      rw [hcells g hg1]
      exact hb g.1 ((hkeys1 g.1).mp (List.mem_map_of_mem _ hg1)))
    refine ⟨db1, hdb1, ?_, ?_⟩
    · intro k hk
      exact hother k (fun h => hk ((hkeys2 k).mp h))
    · intro k hk
      obtain ⟨g, hg, hgk⟩ := List.mem_map.mp ((hkeys2 k).mpr hk)
      obtain ⟨base, r, rc, base1, r1, h1, h2, h3, h4⟩ := heff g hg
      rw [hcells g ((hmem g).mp hg), hgk] at h2
      rw [hgk] at h1 h4
      exact ⟨base, r, rc, base1, r1, h1, h2, h3, h4⟩
  refine ⟨?_, ⟨groups, hgroups, hnd, hkeys1, hcells, horder⟩, ?_⟩
  · obtain ⟨db1, hdb1, hdec⟩ := horder groups (List.Perm.refl _)
    refine ⟨db1, ?_, hdec⟩
    unfold insert_map_into_tables
    cases hf : t.table_meta_.fields with
    | nil =>
      rw [hf] at hgroups
      simp only [List.length_nil, List.range_zero, cells_by_table, Option.some.injEq] at hgroups
      rw [← hgroups] at hdb1
      simp only [insert_into_tables] at hdb1
      simp only
      exact hdb1
    | cons f0 fs =>
      rw [hf] at hgroups
      simp only [hd, hgroups]
      exact hdb1
  · intro k hk base r hbase hmk hl
    obtain ⟨d, hr, hnull⟩ := make_record_by_values_absent_null hl hmk
    refine ⟨d, by rw [hr], ?_⟩
    intro f hf hno hh
    obtain ⟨w, _, hrd, hcn⟩ := hnull f hf hno hh
    rw [hrd]
    exact hcn

theorem insert_map_into_tables_decomposes_witness :
    (∃ db1, insert_map_into_tables (Table.insert_record (fun _ => 0) 0) (fun _ => 0) view_db
        (view_table "v") view_record = Outcome.ret RC.SUCCESS db1 ∧
      (view_table "v").decomposed (fun _ => 0) [5, 0, 0, 0, 9, 0, 0, 0] view_db db1) ∧
    (∃ groups, cells_by_table (view_table "v") [5, 0, 0, 0, 9, 0, 0, 0]
        (List.range (view_table "v").table_meta_.fields.length) [] = some groups ∧
      (groups.map Prod.fst).Nodup ∧
      (∀ k, k ∈ groups.map Prod.fst ↔ k ∈ (view_table "v").meta_.tables) ∧
      (∀ g ∈ groups, g.2 = (view_table "v").owned_cells [5, 0, 0, 0, 9, 0, 0, 0] g.1) ∧
      ∀ order : List (Nat × List (FieldMeta × Value)), order.Perm groups →
        ∃ db1, insert_into_tables (Table.insert_record (fun _ => 0) 0) (fun _ => 0) order
            view_db = Outcome.ret RC.SUCCESS db1 ∧
          (view_table "v").decomposed (fun _ => 0) [5, 0, 0, 0, 9, 0, 0, 0] view_db db1) ∧
    ∀ k ∈ (view_table "v").meta_.tables, ∀ (base : Table) (r : Record),
      view_db.table k = some base →
      base.make_record_by_values ((view_table "v").owned_cells [5, 0, 0, 0, 9, 0, 0, 0] k) {}
        (fun _ => 0) = Outcome.ret RC.SUCCESS r →
      base.table_meta_.layout_ok →
      ∃ d, r.data = some d ∧
        ∀ f ∈ base.table_meta_.normal_fields,
          (∀ p ∈ (view_table "v").owned_cells [5, 0, 0, 0, 9, 0, 0, 0] k, p.1 ≠ f) →
          holds_null f → (read_field f d).check_null = some true :=
  insert_map_into_tables_decomposes (fun _ => 0) 0 view_db (view_table "v") view_record
    [5, 0, 0, 0, 9, 0, 0, 0] rfl rfl rfl (fun k hk => by
      have hk1 : k = 0 ∨ k = 1 := by simpa [view_table] using hk
      rcases hk1 with hk1 | hk1
      · subst hk1
        exact ⟨people_table,
          { data := some [5, 0, 0, 0, 120, 122, 104, 115, 101, 104, 0, 0, 66, 75, 29, 0] },
          rfl, rfl, rfl⟩
      · subst hk1
        exact ⟨empty_t, { data := some [9, 0, 0, 0, 120, 122, 104, 115] }, rfl, rfl, rfl⟩)

end Miniob

/-! ## Properties of the write gates of a view, of update, delete and replay -/

namespace Miniob

open Table

/-- C21 (failing input): the view `v` over `people` and `t`, with its flag
`updatable` cleared and a projection of plain columns, takes the insertion of
the row `(5, 9)`: `Table::insert_record` returns success, `people`, which was
empty, holds a row, and the heap of the view holds the row. -/
theorem insert_into_readonly_view :
    readonly_view.view_table_flag = true ∧ readonly_view.meta_.updatable = false ∧
    readonly_view_db.table 2 = some readonly_view ∧
    (readonly_view_db.table 0).map (fun base => base.record_handler_.records) = some [] ∧
    ∃ db1 record1,
      Table.insert_record (fun _ => 0) 1 readonly_view_db 2 view_record =
        Outcome.ret RC.SUCCESS (db1, record1) ∧
      (db1.table 0).map (fun base => base.record_handler_.records) =
        some [⟨⟨1, 1⟩, some [5, 0, 0, 0, 120, 122, 104, 115, 101, 104, 0, 0, 66, 75, 29, 0]⟩] ∧
      (db1.table 2).map (fun v => v.record_handler_.records) =
        some [⟨⟨1, 1⟩, some [5, 0, 0, 0, 9, 0, 0, 0]⟩] :=
  ⟨rfl, rfl, rfl, rfl, _, _, rfl, rfl, rfl⟩

/-- C22: on a view whose flag `updatable` is false, `Table::delete_record`
returns `RC::UNIMPLENMENT` and the database is as it was; so does
`Table::update_record` on such a view whose projection is registered in
`view_rebuild_map` (the assertion that precedes the test of the flag). No heap
record, index entry or base table has changed, at every depth of calls. -/
theorem view_not_updatable_rejects (junk : Nat → Byte) (fuel : Nat) (db : Db) (self : Nat)
    (t : Table) (record old_record new_record : Record) (select_expr_flag_ : Bool)
    (ht : db.table self = some t) (hv : t.view_table_flag = true)
    (hu : t.meta_.updatable = false)
    (hp : db.project_oper t.name = some select_expr_flag_) :
    Table.delete_record fuel db self record = Outcome.ret RC.UNIMPLENMENT db ∧
    Table.update_record junk fuel db self old_record new_record =
      Outcome.ret RC.UNIMPLENMENT db ∧
    RC.UNIMPLENMENT ≠ RC.SUCCESS := by
  refine ⟨?_, ?_, by decide⟩
  · cases fuel <;> simp [Table.delete_record, delete_record_body, ht, hv, hu]
  · cases fuel <;> simp [Table.update_record, update_record_body, ht, hv, hu, hp]

theorem view_not_updatable_rejects_witness :
    Table.delete_record 1 readonly_view_db 2 view_row =
      Outcome.ret RC.UNIMPLENMENT readonly_view_db ∧
    Table.update_record (fun _ => 0) 1 readonly_view_db 2 view_row
      { view_row with data := some [6, 0, 0, 0, 9, 0, 0, 0] } =
      Outcome.ret RC.UNIMPLENMENT readonly_view_db ∧
    RC.UNIMPLENMENT ≠ RC.SUCCESS :=
  view_not_updatable_rejects (fun _ => 0) 1 readonly_view_db 2 readonly_view view_row view_row
    { view_row with data := some [6, 0, 0, 0, 9, 0, 0, 0] } false rfl rfl rfl (by decide)

/-- C25 (failing input): the view `v` holds the row `(5, 9)` at the rid `(1, 1)`,
for which its rid provenance, which is empty, has no entry.
`Table::delete_record` of that row returns success and the rid provenance of the
view then has the key `(1, 1)`, with an empty list of base rids. -/
theorem view_delete_adds_provenance_key :
    (view_db_row.table 2).map (fun v => v.meta_.rid_map) = some [] ∧
    ∃ db1, Table.delete_record 1 view_db_row 2 view_row = Outcome.ret RC.SUCCESS db1 ∧
      (db1.table 2).map (fun v => v.meta_.rid_map) = some [(⟨1, 1⟩, [])] :=
  ⟨rfl, _, rfl, rfl⟩

/-- C26: on a table that is not a view, with `old.rid == new.rid`, when the
deletion of the old index entries fails, or it succeeds and the insertion of the
new index entries fails, `Table::update_record` returns the code of the failed
step, an error, and the heap of the table is the heap from before the call: the
heap update is not reached. -/
theorem update_record_index_failure_keeps_heap (junk : Nat → Byte) (fuel : Nat) (db : Db)
    (self : Nat) (t : Table) (old_record new_record : Record) (old_data new_data : List Byte)
    (ht : db.table self = some t) (hv : t.view_table_flag = false)
    (hrid : old_record.rid = new_record.rid)
    (hod : old_record.data = some old_data) (hnd : new_record.data = some new_data)
    (hf : (delete_entry_of_indexes t.indexes_ old_data old_record.rid false).1 ≠ RC.SUCCESS ∨
      (insert_entry_of_indexes (delete_entry_of_indexes t.indexes_ old_data old_record.rid false).2
        new_data new_record.rid).1 ≠ RC.SUCCESS) :
    ∃ rc t1, rc ≠ RC.SUCCESS ∧
      rc = (if (delete_entry_of_indexes t.indexes_ old_data old_record.rid false).1 ≠ RC.SUCCESS
        then (delete_entry_of_indexes t.indexes_ old_data old_record.rid false).1
        else (insert_entry_of_indexes
          (delete_entry_of_indexes t.indexes_ old_data old_record.rid false).2
          new_data new_record.rid).1) ∧
      Table.update_record junk fuel db self old_record new_record =
        Outcome.ret rc (db.set_table self t1) ∧
      (db.set_table self t1).table self = some t1 ∧
      t1.record_handler_ = t.record_handler_ := by
  rw [update_record_not_view junk fuel old_record new_record ht hv]
  have hown : t.update_record_own old_record new_record =
      (let d := delete_entry_of_indexes t.indexes_ old_data old_record.rid false
      if d.1 ≠ RC.SUCCESS then Outcome.ret d.1 { t with indexes_ := d.2 }
      else
        let i := insert_entry_of_indexes d.2 new_data new_record.rid
        if i.1 ≠ RC.SUCCESS then Outcome.ret i.1 { t with indexes_ := i.2 }
        else
          let h := t.record_handler_.update_record old_record.rid new_data
          Outcome.ret h.1 { t with record_handler_ := h.2, indexes_ := i.2 }) := by
    unfold update_record_own
    rw [if_neg (by simpa using hrid), hod, hnd]
    cases t.indexes_ <;> rfl
  rw [hown]
  by_cases hd : (delete_entry_of_indexes t.indexes_ old_data old_record.rid false).1 ≠ RC.SUCCESS
  · simp only [if_pos hd]
    exact ⟨_, _, hd, rfl, rfl, table_set_table _ ht, rfl⟩
  · have hi := hf.resolve_left hd
    simp only [if_neg hd, if_pos hi]
    exact ⟨_, _, hi, rfl, rfl, table_set_table _ ht, rfl⟩

theorem update_record_index_failure_keeps_heap_witness :
    ∃ rc t1, rc ≠ RC.SUCCESS ∧
      rc = (if (delete_entry_of_indexes two_row_table.indexes_ [2, 0, 0, 0, 99, 100, 0, 0]
          row_two.rid false).1 ≠ RC.SUCCESS
        then (delete_entry_of_indexes two_row_table.indexes_ [2, 0, 0, 0, 99, 100, 0, 0]
          row_two.rid false).1
        else (insert_entry_of_indexes
          (delete_entry_of_indexes two_row_table.indexes_ [2, 0, 0, 0, 99, 100, 0, 0]
            row_two.rid false).2
          [1, 0, 0, 0, 99, 100, 0, 0] row_two_as_one.rid).1) ∧
      Table.update_record (fun _ => 0) 0 { tables := [two_row_table] } 0 row_two row_two_as_one =
        Outcome.ret rc (Db.set_table { tables := [two_row_table] } 0 t1) ∧
      (Db.set_table { tables := [two_row_table] } 0 t1).table 0 = some t1 ∧
      t1.record_handler_ = two_row_table.record_handler_ :=
  update_record_index_failure_keeps_heap (fun _ => 0) 0 { tables := [two_row_table] } 0
    two_row_table row_two row_two_as_one [2, 0, 0, 0, 99, 100, 0, 0] [1, 0, 0, 0, 99, 100, 0, 0]
    rfl rfl rfl rfl rfl (Or.inr (by decide))

theorem read_bytes_take (data : List Byte) (n : Nat) (h : n ≤ data.length) :
    read_bytes (data.take n) 0 n = data.take n := by
  unfold read_bytes
  apply List.ext_getElem
  · simp [List.length_take, h]
  · intro j h1 h2
    simp only [List.length_map, List.length_range] at h1
    simp only [List.getElem_map, List.getElem_range, Nat.zero_add]
    rw [List.getD_eq_getElem?_getD, List.getElem?_eq_getElem h2]
    rfl

theorem find_append_fresh (records : List Record) (r : Record)
    (h : r.rid ∉ records.map Record.rid) :
    (records ++ [r]).find? (fun x => decide (x.rid = r.rid)) = some r := by
  rw [List.find?_append]
  have hn : records.find? (fun x => decide (x.rid = r.rid)) = none := by
    rw [List.find?_eq_none]
    intro x hx
    simp only [decide_eq_true_eq]
    intro hxr
    exact h (by rw [← hxr]; exact List.mem_map_of_mem _ hx)
  rw [hn]
  simp

/-- C29: when the heap resolves `rid` to a stored record, `Table::get_record`
returns success with a record that has the rid `rid` and, as data, a copy of the
`record_size` bytes stored at `rid`; when the heap does not resolve `rid` it
returns the error of the heap (`RC::RECORD_NOT_EXIST`) and the output record is
the record passed in, without data attached. The function returns a code and a
record only: the table, its heap and its indexes are not changed. After a
successful `insert_record` of a record of at least `record_size` bytes into a
heap that hands out fresh rids, `get_record` at the rid of the record returns
the first `record_size` bytes of the record. -/
theorem get_record_copies (t : Table) (rid : RID) (record : Record) :
    (∀ record_src, t.record_handler_.visit_record rid = some record_src →
      record_src.rid = rid ∧
      t.get_record rid record =
        (RC.SUCCESS,
          { rid := rid,
            data := some (read_bytes (record_src.data.getD []) 0 t.table_meta_.record_size) })) ∧
    (t.record_handler_.visit_record rid = none →
      t.get_record rid record = (RC.RECORD_NOT_EXIST, record)) ∧
    (∀ (r r1 : Record) (t1 : Table) (data : List Byte),
      t.record_handler_.fresh → r.data = some data → t.table_meta_.record_size ≤ data.length →
      t.insert_record_own r = Outcome.ret RC.SUCCESS (t1, r1) →
      t1.get_record r1.rid record =
        (RC.SUCCESS, { rid := r1.rid, data := some (data.take t.table_meta_.record_size) })) := by
  refine ⟨?_, ?_, ?_⟩
  · intro record_src h
    have hr : record_src.rid = rid := by
      have := List.find?_some h
      simpa using this
    refine ⟨hr, ?_⟩
    unfold get_record
    rw [h]
    simp only [hr]
  · intro h
    unfold get_record
    rw [h]
  · intro r r1 t1 data hf hd hlen h
    obtain ⟨data1, hd1, hn, _, ht1⟩ := insert_record_own_success h
    rw [hd] at hd1
    simp only [Option.some.injEq] at hd1
    subst hd1
    have hfresh : r1.rid ∉ t.record_handler_.records.map Record.rid := hf _ _ hn
    have hfind : t1.record_handler_.visit_record r1.rid =
        some { rid := r1.rid, data := some (data.take t.table_meta_.record_size) } := by
      rw [ht1]
      unfold RecordFileHandler.visit_record
      exact find_append_fresh _ { rid := r1.rid, data := some (data.take t.table_meta_.record_size) }
        hfresh
    unfold get_record
    rw [hfind]
    simp only [Option.getD_some]
    rw [ht1]
    simp only
    rw [read_bytes_take data _ hlen]

theorem get_record_copies_witness :
    scenario_table.get_record ⟨1, 1⟩ {} =
      (RC.SUCCESS,
        { rid := ⟨1, 1⟩,
          data := some (read_bytes [1, 0, 0, 0, 97, 98, 0, 0] 0
            scenario_table.table_meta_.record_size) }) ∧
    scenario_table.get_record ⟨9, 9⟩ { rid := ⟨3, 4⟩ } = (RC.RECORD_NOT_EXIST, { rid := ⟨3, 4⟩ }) ∧
    ∃ t1 r1,
      scenario_table.insert_record_own { data := some [2, 0, 0, 0, 99, 100, 0, 0] } =
        Outcome.ret RC.SUCCESS (t1, r1) ∧
      t1.get_record r1.rid {} =
        (RC.SUCCESS,
          { rid := r1.rid,
            data := some (List.take scenario_table.table_meta_.record_size
              [2, 0, 0, 0, 99, 100, 0, 0]) }) :=
  ⟨((get_record_copies scenario_table ⟨1, 1⟩ {}).1
      ⟨⟨1, 1⟩, some [1, 0, 0, 0, 97, 98, 0, 0]⟩ rfl).2,
    (get_record_copies scenario_table ⟨9, 9⟩ { rid := ⟨3, 4⟩ }).2.1 rfl,
    _, _, rfl,
    (get_record_copies scenario_table ⟨1, 1⟩ {}).2.2 { data := some [2, 0, 0, 0, 99, 100, 0, 0] }
      _ _ [2, 0, 0, 0, 99, 100, 0, 0] scenario_fresh rfl (by decide) rfl⟩

/-- C30: `Table::recover_insert_record` and, on a table that is not a view,
`Table::insert_record` are the same function of their heap step: each stores
the record with its heap step (the recover-insert at `record.rid` for the one,
the insert that hands out a rid for the other), returns the error of a failed
heap step at once, and otherwise follows `index_rules` with the rid of the heap
step: the same indexes in the same order, the same compensation after an index
failure, the same code returned. When the heap would hand out the rid of the
record and that rid is free, the two calls have the same outcome. -/
theorem recover_insert_follows_insert (t : Table) (record : Record) (data : List Byte)
    (hd : record.data = some data) :
    t.recover_insert_record record =
      (if (t.record_handler_.recover_insert_record data t.table_meta_.record_size
          record.rid).1 ≠ RC.SUCCESS then
        Outcome.ret (t.record_handler_.recover_insert_record data t.table_meta_.record_size
          record.rid).1 (t, record)
      else
        t.index_rules (t.record_handler_.recover_insert_record data t.table_meta_.record_size
          record.rid).2 data record.rid record) ∧
    t.insert_record_own record =
      (if (t.record_handler_.insert_record data t.table_meta_.record_size
          record.rid).1 ≠ RC.SUCCESS then
        Outcome.ret (t.record_handler_.insert_record data t.table_meta_.record_size
          record.rid).1 (t, record)
      else
        t.index_rules (t.record_handler_.insert_record data t.table_meta_.record_size
          record.rid).2.1 data
          (t.record_handler_.insert_record data t.table_meta_.record_size record.rid).2.2
          { record with
            rid := (t.record_handler_.insert_record data t.table_meta_.record_size
              record.rid).2.2 }) ∧
    (t.record_handler_.next_rid t.record_handler_.records = some record.rid →
      record.rid ∉ t.record_handler_.rids →
      t.recover_insert_record record = t.insert_record_own record) := by
  refine ⟨?_, ?_, ?_⟩
  · unfold recover_insert_record index_rules
    rw [hd]
    simp only
    split_ifs with h1 h2
    · rfl
    · rfl
    · rw [not_not.mp h2]
  · unfold insert_record_own index_rules
    rw [hd]
    simp only
    split_ifs with h1 h2
    · rfl
    · rfl
    · rw [not_not.mp h2]
  · intro hn hfree
    obtain ⟨rid0, d0⟩ := record
    simp only at hd hn hfree
    subst hd
    unfold recover_insert_record insert_record_own
    simp only
    have h1 : t.record_handler_.recover_insert_record data t.table_meta_.record_size rid0 =
        (RC.SUCCESS,
          { t.record_handler_ with records := t.record_handler_.records ++
            [{ rid := rid0, data := some (data.take t.table_meta_.record_size) }] }) := by
      unfold RecordFileHandler.recover_insert_record
      rw [if_neg hfree]
    have h2 : t.record_handler_.insert_record data t.table_meta_.record_size rid0 =
        (RC.SUCCESS,
          { t.record_handler_ with records := t.record_handler_.records ++
            [{ rid := rid0, data := some (data.take t.table_meta_.record_size) }] },
          rid0) := by
      unfold RecordFileHandler.insert_record
      rw [hn]
    simp only [h1, h2]

theorem recover_insert_follows_insert_witness :
    (scenario_table.recover_insert_record { rid := ⟨1, 2⟩, data := some [1, 0, 0, 0, 99, 100, 0, 0] } =
      Outcome.ret RC.RECORD_DUPLICATE_KEY
        (scenario_table, { rid := ⟨1, 2⟩, data := some [1, 0, 0, 0, 99, 100, 0, 0] }) ∧
     scenario_table.recover_insert_record { rid := ⟨1, 1⟩, data := some [2, 0, 0, 0, 99, 100, 0, 0] } =
      Outcome.ret RC.RECORD_DUPLICATE_KEY
        (scenario_table, { rid := ⟨1, 1⟩, data := some [2, 0, 0, 0, 99, 100, 0, 0] })) ∧
    scenario_table.recover_insert_record { rid := ⟨1, 2⟩, data := some [2, 0, 0, 0, 99, 100, 0, 0] } =
      scenario_table.insert_record_own { rid := ⟨1, 2⟩, data := some [2, 0, 0, 0, 99, 100, 0, 0] } :=
  ⟨⟨rfl, rfl⟩,
    (recover_insert_follows_insert scenario_table
      { rid := ⟨1, 2⟩, data := some [2, 0, 0, 0, 99, 100, 0, 0] } [2, 0, 0, 0, 99, 100, 0, 0]
      rfl).2.2 rfl (by decide)⟩

theorem erase_entry_eq_filter (entries : List (List Byte × RID)) (key : List Byte) (rid : RID)
    (hn : (entries.map Prod.snd).Nodup) (h : (key, rid) ∈ entries) :
    Index.erase_entry (key, rid) entries = entries.filter (fun e => decide (e.2 ≠ rid)) := by
  induction entries with
  | nil => cases h
  | cons x rest ih =>
    simp only [List.map_cons, List.nodup_cons] at hn
    unfold Index.erase_entry
    by_cases hx : x = (key, rid)
    · rw [if_pos hx]
      have hx2 : x.2 = rid := by rw [hx]
      have hnot : ∀ e ∈ rest, e.2 ≠ rid := by
        intro e he heq
        apply hn.1
        rw [hx2, ← heq]
        exact List.mem_map_of_mem _ he
      rw [List.filter_cons_of_neg (by simp [hx2])]
      symm
      rw [List.filter_eq_self]
      intro e he
      simpa using hnot e he
    · rw [if_neg hx]
      have hmem : (key, rid) ∈ rest := by
        rcases List.mem_cons.mp h with h1 | h1
        · exact absurd h1.symm hx
        · exact h1
      have hx2 : x.2 ≠ rid := by
        intro heq
        apply hn.1
        rw [heq]
        exact List.mem_map_of_mem Prod.snd hmem
      rw [List.filter_cons_of_pos (by simpa using hx2), ih hn.2 hmem]

theorem index_rids_nodup {t : Table} (h : t.one_entry_per_record) {index : Index}
    (hi : index ∈ t.indexes_) : (index.entries.map Prod.snd).Nodup :=
  (h.2 index hi).nodup_iff.mpr h.1

theorem delete_asserted_of_mem (indexes : List Index) (record : List Byte) (rid : RID)
    (h : ∀ index ∈ indexes, (index.key record, rid) ∈ index.entries) :
    delete_entries_asserted indexes record rid =
      some (indexes.map (fun index =>
        { index with entries := Index.erase_entry (index.key record, rid) index.entries })) := by
  induction indexes with
  | nil => rfl
  | cons index rest ih =>
    unfold delete_entries_asserted
    rcases delete_entry_cases index record rid with ⟨_, h1, h2⟩ | ⟨h0, _, _⟩
    · simp only [h1, ne_eq, not_true_eq_false, if_false, h2,
        ih (fun i hi => h i (List.mem_cons_of_mem _ hi)), Option.map_some', List.map_cons]
    · exact absurd (h index (List.mem_cons_self _ _)) h0

/-- C28: on a table that is not a view, whose heap and indexes agree (each index
holds exactly one entry for each record of the heap and no other entry), for a
record that is live (its rid is in the heap and every index holds the entry of
its key and rid), `Table::delete_record` passes each of its assertions and
returns success; afterwards the heap holds the records it held except those of
the rid, and each index holds the entries it held except those of the rid: the
rid is absent from the heap and from every index, and every other heap record
and index entry is unchanged. -/
theorem delete_record_live (fuel : Nat) (db : Db) (self : Nat) (t : Table) (record : Record)
    (data : List Byte)
    (ht : db.table self = some t) (hv : t.view_table_flag = false)
    (ha : t.one_entry_per_record) (hd : record.data = some data)
    (hh : record.rid ∈ t.record_handler_.rids)
    (hi : ∀ index ∈ t.indexes_, (index.key data, record.rid) ∈ index.entries) :
    ∃ t1, Table.delete_record fuel db self record = Outcome.ret RC.SUCCESS (db.set_table self t1) ∧
      (db.set_table self t1).table self = some t1 ∧
      t1.record_handler_.records =
        t.record_handler_.records.filter (fun r => decide (r.rid ≠ record.rid)) ∧
      t1.indexes_ = t.indexes_.map (fun index =>
        { index with entries := index.entries.filter (fun e => decide (e.2 ≠ record.rid)) }) ∧
      record.rid ∉ t1.record_handler_.rids ∧
      ∀ index ∈ t1.indexes_, record.rid ∉ index.rids := by
  have hmap : t.indexes_.map (fun index =>
        { index with entries := Index.erase_entry (index.key data, record.rid) index.entries }) =
      t.indexes_.map (fun index =>
        { index with entries := index.entries.filter (fun e => decide (e.2 ≠ record.rid)) }) := by
    apply List.map_congr_left
    intro index hix
    rw [erase_entry_eq_filter _ _ _ (index_rids_nodup ha hix) (hi index hix)]
  have hown : t.delete_record_own record =
      Outcome.ret RC.SUCCESS
        { t with
          record_handler_ := { t.record_handler_ with
            records := t.record_handler_.records.filter (fun r => decide (r.rid ≠ record.rid)) },
          indexes_ := t.indexes_.map (fun index =>
            { index with entries := index.entries.filter (fun e => decide (e.2 ≠ record.rid)) }) } := by
    unfold delete_record_own
    rw [hd]
    simp only [delete_asserted_of_mem _ _ _ hi, hmap]
    unfold RecordFileHandler.delete_record
    rw [if_pos hh]
  rw [delete_record_not_view fuel record ht hv, hown]
  refine ⟨_, rfl, table_set_table _ ht, rfl, rfl, ?_, ?_⟩
  · unfold RecordFileHandler.rids
    simp only [List.mem_map, List.mem_filter, decide_eq_true_eq, not_exists, not_and]
    intro r hr heq
    exact hr.2 heq
  · intro index hix
    simp only [List.mem_map] at hix
    obtain ⟨index0, _, h0⟩ := hix
    rw [← h0]
    unfold Index.rids
    simp only [List.mem_map, List.mem_filter, decide_eq_true_eq, not_exists, not_and]
    intro e he heq
    exact he.2 heq

theorem delete_record_live_witness :
    ∃ t1, Table.delete_record 0 { tables := [two_row_table] } 0 row_two =
        Outcome.ret RC.SUCCESS (Db.set_table { tables := [two_row_table] } 0 t1) ∧
      (Db.set_table { tables := [two_row_table] } 0 t1).table 0 = some t1 ∧
      t1.record_handler_.records =
        two_row_table.record_handler_.records.filter (fun r => decide (r.rid ≠ row_two.rid)) ∧
      t1.indexes_ = two_row_table.indexes_.map (fun index =>
        { index with entries := index.entries.filter (fun e => decide (e.2 ≠ row_two.rid)) }) ∧
      row_two.rid ∉ t1.record_handler_.rids ∧
      ∀ index ∈ t1.indexes_, row_two.rid ∉ index.rids :=
  delete_record_live 0 { tables := [two_row_table] } 0 two_row_table row_two
    [2, 0, 0, 0, 99, 100, 0, 0] rfl rfl (by unfold Table.one_entry_per_record; decide) rfl
    (by decide) (by decide)

theorem update_record_own_success {t t1 : Table} {old_record new_record : Record}
    (h : t.update_record_own old_record new_record = Outcome.ret RC.SUCCESS t1) :
    ∃ new_data, new_record.data = some new_data ∧ old_record.rid = new_record.rid ∧
      old_record.rid ∈ t.record_handler_.rids ∧
      (∀ index ∈ t.indexes_,
        (index.key (old_record.data.getD []), old_record.rid) ∈ index.entries) ∧
      t1 = { t with
        record_handler_ := { t.record_handler_ with
          records := t.record_handler_.records.map (fun r =>
            if r.rid = old_record.rid then { r with data := some new_data } else r) },
        indexes_ := t.indexes_.map (fun index =>
          { index with
            entries := Index.erase_entry (index.key (old_record.data.getD []), old_record.rid)
              index.entries ++ [(index.key new_data, old_record.rid)] }) } := by
  unfold update_record_own at h
  by_cases hr : old_record.rid ≠ new_record.rid
  · rw [if_pos hr] at h; simp at h
  · rw [if_neg hr] at h
    have hrid : old_record.rid = new_record.rid := not_not.mp hr
    have key : ∀ (old_data : List Byte), old_data = old_record.data.getD [] →
        (let d := delete_entry_of_indexes t.indexes_ old_data old_record.rid false
        if d.1 ≠ RC.SUCCESS then Outcome.ret d.1 { t with indexes_ := d.2 }
        else
          match new_record.data with
          | none => Outcome.abort
          | some new_data =>
            let i := insert_entry_of_indexes d.2 new_data new_record.rid
            if i.1 ≠ RC.SUCCESS then Outcome.ret i.1 { t with indexes_ := i.2 }
            else
              let h := t.record_handler_.update_record old_record.rid new_data
              Outcome.ret h.1 { t with record_handler_ := h.2, indexes_ := i.2 })
          = Outcome.ret RC.SUCCESS t1 →
        ∃ new_data, new_record.data = some new_data ∧ old_record.rid = new_record.rid ∧
          old_record.rid ∈ t.record_handler_.rids ∧
          (∀ index ∈ t.indexes_,
            (index.key (old_record.data.getD []), old_record.rid) ∈ index.entries) ∧
          t1 = { t with
            record_handler_ := { t.record_handler_ with
              records := t.record_handler_.records.map (fun r =>
                if r.rid = old_record.rid then { r with data := some new_data } else r) },
            indexes_ := t.indexes_.map (fun index =>
              { index with
                entries := Index.erase_entry (index.key (old_record.data.getD []), old_record.rid)
                  index.entries ++ [(index.key new_data, old_record.rid)] }) } := by
      intro old_data hod h
      simp only at h
      by_cases hd : (delete_entry_of_indexes t.indexes_ old_data old_record.rid false).1 ≠ RC.SUCCESS
      · rw [if_pos hd] at h
        simp only [Outcome.ret.injEq] at h
        exact absurd h.1 hd
      · rw [if_neg hd] at h
        cases hnd : new_record.data with
        | none => rw [hnd] at h; simp at h
        | some new_data =>
          rw [hnd] at h
          simp only at h
          by_cases hi : (insert_entry_of_indexes
              (delete_entry_of_indexes t.indexes_ old_data old_record.rid false).2 new_data
              new_record.rid).1 ≠ RC.SUCCESS
          · rw [if_pos hi] at h
            simp only [Outcome.ret.injEq] at h
            exact absurd h.1 hi
          · rw [if_neg hi] at h
            simp only [Outcome.ret.injEq] at h
            obtain ⟨hh, ht1⟩ := h
            obtain ⟨hall, hmap⟩ := delete_loop_success t.indexes_ _ old_data old_record.rid
              RC.SUCCESS (Prod.ext (not_not.mp hd) rfl :
                delete_entry_loop t.indexes_ old_data old_record.rid false RC.SUCCESS =
                  (RC.SUCCESS, (delete_entry_of_indexes t.indexes_ old_data old_record.rid false).2))
            have hins := insert_entries_success _ _ _ (not_not.mp hi)
            have hin : old_record.rid ∈ t.record_handler_.rids := by
              by_contra hno
              unfold RecordFileHandler.update_record at hh
              rw [if_neg hno] at hh
              simp at hh
            refine ⟨new_data, rfl, hrid, hin, ?_, ?_⟩
            · rw [← hod]
              exact hall
            · rw [← ht1, hins, hmap, ← hrid, ← hod]
              unfold RecordFileHandler.update_record
              rw [if_pos hin]
              simp only [List.map_map]
              rfl
    cases hi : t.indexes_ with
    | nil =>
      rw [hi] at h
      simp only at h
      have := key (old_record.data.getD []) rfl
      rw [hi] at this
      exact this h
    | cons index rest =>
      rw [hi] at h
      cases ho : old_record.data with
      | none => rw [ho] at h; simp at h
      | some old_data =>
        rw [ho] at h
        simp only at h
        have := key old_data (by rw [ho]; rfl)
        rw [hi, ho] at this
        exact this h

/-- C27: on a table that is not a view, whose heap and indexes agree (each index
holds exactly one entry for each record of the heap and no other entry), when
`Table::update_record` returns success (which needs `old.rid == new.rid`, an
assertion of the function) the heap
record at the rid holds the bytes of `new`, the heap has the rids it had and
every other heap record is as it was, and every index holds for the rid exactly
one entry, keyed on the bytes of `new`, while its entries of the other rids are
as they were. The old record was live: its rid was in the heap and every index
held the entry of its key. -/
theorem update_record_in_place (junk : Nat → Byte) (fuel : Nat) (db db1 : Db) (self : Nat)
    (t : Table) (old_record new_record : Record)
    (ht : db.table self = some t) (hv : t.view_table_flag = false)
    (ha : t.one_entry_per_record)
    (h : Table.update_record junk fuel db self old_record new_record =
      Outcome.ret RC.SUCCESS db1) :
    ∃ t1 new_data, db1.table self = some t1 ∧ new_record.data = some new_data ∧
      old_record.rid ∈ t.record_handler_.rids ∧
      (∀ index ∈ t.indexes_,
        (index.key (old_record.data.getD []), old_record.rid) ∈ index.entries) ∧
      t1.record_handler_.records = t.record_handler_.records.map (fun r =>
        if r.rid = old_record.rid then { r with data := some new_data } else r) ∧
      t1.record_handler_.rids = t.record_handler_.rids ∧
      t1.indexes_ = t.indexes_.map (fun index =>
        { index with
          entries := index.entries.filter (fun e => decide (e.2 ≠ old_record.rid)) ++
            [(index.key new_data, old_record.rid)] }) := by
  rw [update_record_not_view junk fuel old_record new_record ht hv] at h
  cases ho : t.update_record_own old_record new_record with
  | abort => rw [ho] at h; simp at h
  | out_of_fuel => rw [ho] at h; simp at h
  | ret rc t2 =>
    rw [ho] at h
    simp only [Outcome.ret.injEq] at h
    obtain ⟨h1, h2⟩ := h
    subst h1
    obtain ⟨new_data, hnd, _, hin, hall, ht2⟩ := update_record_own_success ho
    refine ⟨t2, new_data, by rw [← h2]; exact table_set_table t2 ht, hnd, hin, hall, ?_, ?_, ?_⟩
    · rw [ht2]
    · rw [ht2]
      unfold RecordFileHandler.rids
      simp only [List.map_map]
      apply List.map_congr_left
      intro r _
      simp only [Function.comp]
      split_ifs <;> rfl
    · rw [ht2]
      simp only
      apply List.map_congr_left
      intro index hix
      rw [erase_entry_eq_filter _ _ _ (index_rids_nodup ha hix) (hall index hix)]

theorem update_record_in_place_witness :
    ∃ t1 new_data,
      (Db.set_table { tables := [two_row_table] } 0
        { two_row_table with
          record_handler_ :=
            { records := [⟨⟨1, 1⟩, some [1, 0, 0, 0, 97, 98, 0, 0]⟩,
                ⟨⟨1, 2⟩, some [3, 0, 0, 0, 99, 100, 0, 0]⟩],
              next_rid := next_slot },
          indexes_ := [{ scenario_index with
            entries := [([1, 0, 0, 0], ⟨1, 1⟩), ([3, 0, 0, 0], ⟨1, 2⟩)] }] }).table 0 = some t1 ∧
      ({ row_two with data := some [3, 0, 0, 0, 99, 100, 0, 0] } : Record).data = some new_data ∧
      row_two.rid ∈ two_row_table.record_handler_.rids ∧
      (∀ index ∈ two_row_table.indexes_,
        (index.key (row_two.data.getD []), row_two.rid) ∈ index.entries) ∧
      t1.record_handler_.records = two_row_table.record_handler_.records.map (fun r =>
        if r.rid = row_two.rid then { r with data := some new_data } else r) ∧
      t1.record_handler_.rids = two_row_table.record_handler_.rids ∧
      t1.indexes_ = two_row_table.indexes_.map (fun index =>
        { index with
          entries := index.entries.filter (fun e => decide (e.2 ≠ row_two.rid)) ++
            [(index.key new_data, row_two.rid)] }) :=
  update_record_in_place (fun _ => 0) 0 { tables := [two_row_table] } _ 0 two_row_table row_two
    { row_two with data := some [3, 0, 0, 0, 99, 100, 0, 0] } rfl rfl
    (by unfold Table.one_entry_per_record; decide) rfl

theorem set_table_self {db : Db} {self : Nat} {t : Table} (ht : db.table self = some t) :
    db.set_table self t = db := by
  unfold Db.table at ht
  unfold Db.set_table
  rw [List.get?_eq_getElem?] at ht
  have hlt : self < db.tables.length := by
    by_contra hge
    rw [List.getElem?_eq_none (by omega)] at ht
    simp at ht
  rw [List.getElem?_eq_getElem hlt] at ht
  simp only [Option.some.injEq] at ht
  have : db.tables.set self t = db.tables := by
    apply List.ext_getElem?
    intro j
    by_cases hj : self = j
    · subst hj
      rw [List.getElem?_set_self hlt, List.getElem?_eq_getElem hlt, ht]
    · rw [List.getElem?_set_ne hj]
  rw [this]

theorem rid_map_at_of_find {rid_map : List (RID × List RID)} {rid : RID} {e : RID × List RID}
    (h : rid_map.find? (fun e => decide (e.1 = rid)) = some e) :
    rid_map_at rid_map rid = (e.2, rid_map) := by
  unfold rid_map_at
  rw [h]

theorem filter_filter_ne (rows : List (Nat × RID)) (table : Nat) (del : List Nat) :
    (rows.filter (fun e => decide (e.1 ≠ table))).filter (fun e => decide (e.1 ∉ del)) =
      rows.filter (fun e => decide (e.1 ∉ table :: del)) := by
  rw [List.filter_filter]
  congr 1
  funext e
  simp only [List.mem_cons, not_or, Bool.decide_and, Bool.and_comm]

theorem filter_ne_of_mem (rows : List (Nat × RID)) (table : Nat) (del : List Nat)
    (h : table ∈ del) :
    (rows.filter (fun e => decide (e.1 ≠ table))).filter (fun e => decide (e.1 ∉ del)) =
      rows.filter (fun e => decide (e.1 ∉ del)) := by
  rw [List.filter_filter]
  apply List.filter_congr
  intro e _
  by_cases he : e.1 ∈ del
  · simp [he]
  · have : e.1 ≠ table := fun h1 => he (h1 ▸ h)
    simp [he, this]

theorem delete_in_tables_eq (delete : Db → Nat → Record → Outcome Db) (t : Table)
    (rid_vec : List RID) (m k : Nat) (del : List Nat) (db : Db)
    (hk : k + m = rid_vec.length) (hlen : rid_vec.length ≤ t.meta_.tables.length) :
    delete_in_tables delete t rid_vec (List.range' k m) del db =
      delete_rows delete
        ((base_rows (t.meta_.tables.drop k) (rid_vec.drop k)).filter
          (fun e => decide (e.1 ∉ del))) db := by
  induction m generalizing k del db with
  | zero =>
    have hdrop : rid_vec.drop k = [] := List.drop_eq_nil_of_le (by omega)
    rw [hdrop]
    cases t.meta_.tables.drop k <;> simp [base_rows, delete_in_tables, delete_rows]
  | succ m ih =>
    have hk1 : k < rid_vec.length := by omega
    have hk2 : k < t.meta_.tables.length := by omega
    have htab : t.meta_.tables.drop k = t.meta_.tables[k] :: t.meta_.tables.drop (k + 1) :=
      List.drop_eq_getElem_cons hk2
    have hrid : rid_vec.drop k = rid_vec[k] :: rid_vec.drop (k + 1) :=
      List.drop_eq_getElem_cons hk1
    rw [htab, hrid, List.range'_succ]
    unfold delete_in_tables base_rows
    rw [List.get?_eq_getElem?, List.get?_eq_getElem?, List.getElem?_eq_getElem hk2,
      List.getElem?_eq_getElem hk1]
    simp only
    by_cases hd : t.meta_.tables[k] ∈ del
    · rw [if_pos hd, List.filter_cons_of_neg (by simpa using hd), filter_ne_of_mem _ _ _ hd]
      exact ih (k + 1) del db (by omega)
    · rw [if_neg hd, List.filter_cons_of_pos (by simpa using hd), filter_filter_ne]
      unfold delete_rows
      cases db.table t.meta_.tables[k] with
      | none => rfl
      | some base =>
        simp only
        split_ifs with hg
        · rfl
        · cases hdel : delete db t.meta_.tables[k] (base.get_record rid_vec[k] {}).2 with
          | abort => rfl
          | out_of_fuel => rfl
          | ret rc db1 =>
            simp only
            split_ifs with hrc
            · rfl
            · exact ih (k + 1) (t.meta_.tables[k] :: del) db1 (by omega)

theorem base_rows_keys (tables : List Nat) (rid_vec : List RID) :
    ((base_rows tables rid_vec).map Prod.fst).Nodup ∧
    ∀ k, k ∈ (base_rows tables rid_vec).map Prod.fst ↔ k ∈ tables.take rid_vec.length := by
  induction tables generalizing rid_vec with
  | nil => simp [base_rows]
  | cons table tables ih =>
    cases rid_vec with
    | nil => simp [base_rows]
    | cons rid rid_vec =>
      obtain ⟨hn, hk⟩ := ih rid_vec
      unfold base_rows
      constructor
      · simp only [List.map_cons, List.nodup_cons]
        constructor
        · simp only [List.mem_map, List.mem_filter, decide_eq_true_eq, not_exists, not_and]
          intro e he heq
          exact he.2 heq
        · exact hn.sublist ((List.filter_sublist _).map Prod.fst)
      · intro k
        simp only [List.map_cons, List.mem_cons, List.length_cons, List.take_succ_cons]
        constructor
        · rintro (h | h)
          · exact Or.inl h
          · right
            rw [← hk k]
            simp only [List.mem_map, List.mem_filter] at h ⊢
            obtain ⟨e, ⟨he, _⟩, hek⟩ := h
            exact ⟨e, he, hek⟩
        · rintro (h | h)
          · exact Or.inl h
          · by_cases hkt : k = table
            · exact Or.inl hkt
            · right
              have := (hk k).mpr h
              simp only [List.mem_map, List.mem_filter] at this ⊢
              obtain ⟨e, he, hek⟩ := this
              exact ⟨e, ⟨he, by simpa [hek] using hkt⟩, hek⟩

theorem base_rows_first (tables : List Nat) (rid_vec : List RID) (k : Nat) (rid : RID) :
    (k, rid) ∈ base_rows tables rid_vec ↔
      ∃ i, tables.get? i = some k ∧ rid_vec.get? i = some rid ∧
        ∀ j < i, tables.get? j ≠ some k := by
  induction tables generalizing rid_vec with
  | nil => simp [base_rows]
  | cons table tables ih =>
    cases rid_vec with
    | nil => simp [base_rows]
    | cons rid0 rid_vec =>
      unfold base_rows
      simp only [List.mem_cons, Prod.mk.injEq, List.mem_filter, decide_eq_true_eq]
      constructor
      · rintro (⟨h1, h2⟩ | ⟨h, hne⟩)
        · exact ⟨0, by simp [h1], by simp [h2], fun j hj => by omega⟩
        · obtain ⟨i, h1, h2, h3⟩ := (ih rid_vec).mp h
          refine ⟨i + 1, by simpa using h1, by simpa using h2, ?_⟩
          intro j hj
          cases j with
          | zero =>
            simp only [List.get?_cons_zero, ne_eq, Option.some.injEq]
            exact fun h => hne h.symm
          | succ j =>
            simp only [List.get?_cons_succ]
            exact h3 j (by omega)
      · rintro ⟨i, h1, h2, h3⟩
        cases i with
        | zero =>
          simp only [List.get?_cons_zero, Option.some.injEq] at h1 h2
          exact Or.inl ⟨h1.symm, h2.symm⟩
        | succ i =>
          right
          simp only [List.get?_cons_succ] at h1 h2
          have h0 := h3 0 (by omega)
          simp only [List.get?_cons_zero, ne_eq, Option.some.injEq] at h0
          refine ⟨(ih rid_vec).mpr ⟨i, h1, h2, ?_⟩, fun h => h0 h.symm⟩
          intro j hj
          have := h3 (j + 1) (by omega)
          simpa using this

/-- C23: on an updatable view whose projection is registered, for a record whose
rid has an entry in the rid provenance with at most one base rid per view
column, `Table::delete_record` is `delete_view_row` on `base_rows`: it reads and
deletes one row in each distinct base table among the columns of the entry, the
row at the base rid recorded for the first view column owned by that table (the
base tables of `base_rows` are pairwise distinct, so no base table is deleted
from twice), stops at the first of these steps that fails, and otherwise goes on
to delete the index entries and the heap record of the view itself. -/
theorem view_delete_deduplicated (fuel : Nat) (db : Db) (self : Nat) (t : Table)
    (record : Record) (e : RID × List RID) (select_expr_flag_ : Bool)
    (ht : db.table self = some t) (hv : t.view_table_flag = true)
    (hu : t.meta_.updatable = true)
    (hp : db.project_oper t.name = some select_expr_flag_)
    (hm : t.meta_.rid_map.find? (fun e => decide (e.1 = record.rid)) = some e)
    (hlen : e.2.length ≤ t.meta_.tables.length) :
    Table.delete_record (fuel + 1) db self record =
      delete_view_row (Table.delete_record fuel) (base_rows t.meta_.tables e.2) db self record ∧
    ((base_rows t.meta_.tables e.2).map Prod.fst).Nodup ∧
    (∀ k, k ∈ (base_rows t.meta_.tables e.2).map Prod.fst ↔
      k ∈ t.meta_.tables.take e.2.length) ∧
    ∀ k rid, (k, rid) ∈ base_rows t.meta_.tables e.2 ↔
      ∃ i, t.meta_.tables.get? i = some k ∧ e.2.get? i = some rid ∧
        ∀ j < i, t.meta_.tables.get? j ≠ some k := by
  refine ⟨?_, (base_rows_keys _ _).1, (base_rows_keys _ _).2, base_rows_first _ _⟩
  have hloop := delete_in_tables_eq (Table.delete_record fuel) t e.2 e.2.length 0 [] db
    (by omega) hlen
  simp only [List.drop_zero, List.not_mem_nil, not_false_eq_true, decide_True,
    List.filter_true] at hloop
  have ht0 : ({ t with meta_ := { t.meta_ with rid_map := t.meta_.rid_map } } : Table) = t := rfl
  show delete_record_body (Table.delete_record fuel) db self record = _
  unfold delete_record_body delete_view_row
  rw [ht]
  simp only []
  rw [if_pos hv, if_neg (by rw [hu]; simp), hp]
  simp only []
  rw [rid_map_at_of_find hm]
  simp only []
  rw [ht0, set_table_self ht, List.range_eq_range', hloop]

theorem view_delete_deduplicated_witness :
    (base_rows scenario_view.meta_.tables [⟨1, 1⟩, ⟨1, 1⟩, ⟨1, 1⟩] = [(0, ⟨1, 1⟩), (1, ⟨1, 1⟩)] ∧
      ∃ db1, Table.delete_record 1 scenario_b 2 v_row = Outcome.ret RC.SUCCESS db1 ∧
        db1.tables.map (fun (t : Table) => t.record_handler_.records) = [[], [], []]) ∧
    (Table.delete_record (0 + 1) scenario_b 2 v_row =
      delete_view_row (Table.delete_record 0)
        (base_rows scenario_view.meta_.tables
          ((⟨1, 1⟩, [⟨1, 1⟩, ⟨1, 1⟩, ⟨1, 1⟩]) : RID × List RID).2) scenario_b 2 v_row ∧
    ((base_rows scenario_view.meta_.tables
      ((⟨1, 1⟩, [⟨1, 1⟩, ⟨1, 1⟩, ⟨1, 1⟩]) : RID × List RID).2).map Prod.fst).Nodup ∧
    (∀ k, k ∈ (base_rows scenario_view.meta_.tables
        ((⟨1, 1⟩, [⟨1, 1⟩, ⟨1, 1⟩, ⟨1, 1⟩]) : RID × List RID).2).map Prod.fst ↔
      k ∈ scenario_view.meta_.tables.take
        ((⟨1, 1⟩, [⟨1, 1⟩, ⟨1, 1⟩, ⟨1, 1⟩]) : RID × List RID).2.length) ∧
    ∀ k rid, (k, rid) ∈ base_rows scenario_view.meta_.tables
        ((⟨1, 1⟩, [⟨1, 1⟩, ⟨1, 1⟩, ⟨1, 1⟩]) : RID × List RID).2 ↔
      ∃ i, scenario_view.meta_.tables.get? i = some k ∧
        (((⟨1, 1⟩, [⟨1, 1⟩, ⟨1, 1⟩, ⟨1, 1⟩]) : RID × List RID).2).get? i = some rid ∧
        ∀ j < i, scenario_view.meta_.tables.get? j ≠ some k) :=
  ⟨⟨by decide, _, rfl, rfl⟩,
    view_delete_deduplicated 0 scenario_b 2 scenario_view v_row
      (⟨1, 1⟩, [⟨1, 1⟩, ⟨1, 1⟩, ⟨1, 1⟩]) false rfl rfl rfl (by decide) rfl (by decide)⟩

theorem read_back_encodable {field : FieldMeta} {value : Value} {buf : List Byte}
    (hb : encodable field value)
    (hw : ∀ j < copy_len field value,
      buf.getD (field.offset + j) 0 = field_byte field (value.data.getD j 0)) :
    reads_as field (read_field field buf) value := by
  unfold encodable at hb
  unfold reads_as
  by_cases hs : field.type = AttrType.CHARS ∨ field.type = AttrType.TEXT
  · rw [if_pos hs] at hb
    obtain ⟨ht, hlen, h0, hle⟩ := hb
    rw [read_field_chars hs ht h0 hle hlen hw]
    refine ⟨ht, ?_, ?_, ?_⟩
    · intro hc1
      have : field_byte field = id := by
        unfold field_byte
        rw [if_neg (by rw [hc1]; simp)]
      simp [this, hlen]
    · intro ht1
      have : field_byte field = text_byte := by
        unfold field_byte
        rw [if_pos ht1]
      simp [this, hlen]
    · intro hc1 ht1
      exact absurd hs (by simp [hc1, ht1])
  · rw [if_neg hs] at hb
    obtain ⟨ht, h4, hlo, hhi⟩ := hb
    have hcl : copy_len field value = 4 := by
      unfold copy_len
      rw [if_neg hs, h4]
    rw [hcl] at hw
    rw [read_field_number hs ht h4 hlo hhi hw]
    refine ⟨ht, ?_, ?_, ?_⟩
    · intro hc1; exact absurd (Or.inl hc1) hs
    · intro ht1; exact absurd (Or.inr ht1) hs
    · intro _ _; rfl

theorem bytes_int_range (b : List Nat) : -2147483648 ≤ bytes_int b ∧ bytes_int b < 2147483648 := by
  unfold bytes_int
  simp only
  split_ifs with h <;> constructor <;> omega

theorem takeWhile_no_zero (l : List Byte) : 0 ∉ l.takeWhile (fun b => b != 0) := by
  intro h
  have := List.mem_takeWhile_imp h
  simp at this

theorem length_takeWhile_le_length (p : Byte → Bool) (l : List Byte) :
    (l.takeWhile p).length ≤ l.length := by
  induction l with
  | nil => simp
  | cons a l ih =>
    simp only [List.takeWhile_cons]
    split_ifs
    · simp only [List.length_cons]
      omega
    · simp

theorem decoded_encodable (field g : FieldMeta) (data : List Byte)
    (ht : g.type = field.type) (hlen : g.len ≤ field.len)
    (h4 : field.type ≠ AttrType.CHARS → field.type ≠ AttrType.TEXT → field.len = 4) :
    encodable field (read_field g data) := by
  unfold encodable read_field
  by_cases hs : field.type = AttrType.CHARS ∨ field.type = AttrType.TEXT
  · have hs1 : g.type = AttrType.CHARS ∨ g.type = AttrType.TEXT := by rw [ht]; exact hs
    simp only [hs, hs1, if_true]
    refine ⟨ht.symm, rfl, takeWhile_no_zero _, ?_⟩
    have h1 := length_takeWhile_le_length (fun b => b != 0) (read_bytes data g.offset g.len)
    rw [length_read_bytes] at h1
    omega
  · have hs1 : ¬ (g.type = AttrType.CHARS ∨ g.type = AttrType.TEXT) := by rw [ht]; exact hs
    simp only [hs, hs1, if_false]
    push_neg at hs
    exact ⟨ht.symm, h4 hs.1 hs.2, (bytes_int_range _).1, (bytes_int_range _).2⟩

theorem values_or_old_cons (vec : List (FieldMeta × Value)) (all_fields : List FieldMeta)
    (old_data : Option (List Byte)) (j : Nat) (field : FieldMeta) (fields : List FieldMeta) :
    values_or_old vec all_fields old_data j (field :: fields) =
      match vec.find? (fun p => decide (field = p.1)) with
      | some p =>
        (values_or_old vec all_fields old_data (j + 1) fields).map (fun r => (r.1, p.2 :: r.2))
      | none =>
        match old_data with
        | none => none
        | some data =>
          let c := cell_at all_fields data j
          if c.1 ≠ RC.SUCCESS then some (c.1, [])
          else (values_or_old vec all_fields old_data (j + 1) fields).map
            (fun r => (r.1, c.2 :: r.2)) :=
  rfl

theorem values_or_old_spec (vec : List (FieldMeta × Value)) (all_fields : List FieldMeta)
    (data : List Byte) (fields : List FieldMeta) (j : Nat) (hf : all_fields.drop j = fields)
    (r : RC × List Value)
    (h : values_or_old vec all_fields (some data) j fields = some r) :
    r.1 = RC.SUCCESS ∧
    List.Forall₂ (fun f v =>
      (∃ p, vec.find? (fun p => decide (f = p.1)) = some p ∧ v = p.2) ∨
      (vec.find? (fun p => decide (f = p.1)) = none ∧ v = read_field f data)) fields r.2 := by
  induction fields generalizing j r with
  | nil =>
    have h0 : values_or_old vec all_fields (some data) j [] = some (RC.SUCCESS, []) := rfl
    rw [h0] at h
    simp only [Option.some.injEq] at h
    rw [← h]
    exact ⟨rfl, List.Forall₂.nil⟩
  | cons f fs ih =>
    have hj : j < all_fields.length := by
      by_contra hge
      rw [List.drop_eq_nil_of_le (by omega)] at hf
      cases hf
    have hfj : all_fields[j] = f ∧ all_fields.drop (j + 1) = fs := by
      rw [List.drop_eq_getElem_cons hj] at hf
      simp only [List.cons.injEq] at hf
      exact hf
    rw [values_or_old_cons] at h
    cases hfind : vec.find? (fun p => decide (f = p.1)) with
    | some p =>
      rw [hfind] at h
      simp only [Option.map_eq_some'] at h
      obtain ⟨r1, h1, h2⟩ := h
      obtain ⟨hrc, hall⟩ := ih (j + 1) hfj.2 r1 h1
      rw [← h2]
      exact ⟨hrc, List.Forall₂.cons (Or.inl ⟨p, hfind, rfl⟩) hall⟩
    | none =>
      rw [hfind] at h
      have hcell : cell_at all_fields data j = (RC.SUCCESS, read_field f data) := by
        unfold cell_at
        rw [List.get?_eq_getElem?, List.getElem?_eq_getElem hj, hfj.1]
      simp only [hcell, ne_eq, not_true_eq_false, if_false, Option.map_eq_some'] at h
      obtain ⟨r1, h1, h2⟩ := h
      obtain ⟨hrc, hall⟩ := ih (j + 1) hfj.2 r1 h1
      rw [← h2]
      exact ⟨hrc, List.Forall₂.cons (Or.inr ⟨hfind, rfl⟩) hall⟩

theorem make_record_update_new_reads {t : Table} {vec : List (FieldMeta × Value)}
    {record r : Record} {rid : RID} {junk : Nat → Byte} {old_data : List Byte}
    (hp : t.table_meta_.plain)
    (hg : (t.get_record rid {}).2.data = some old_data)
    (he : ∀ p ∈ vec, encodable p.1 p.2)
    (h : t.make_record_update_new vec record rid junk = Outcome.ret RC.SUCCESS r) :
    ∃ d, r = { record with data := some d } ∧ d.length = t.table_meta_.record_size ∧
      ∀ f ∈ t.table_meta_.fields,
        (∀ p, vec.find? (fun p => decide (f = p.1)) = some p →
          reads_as f (read_field f d) p.2) ∧
        ((∀ p ∈ vec, p.1 ≠ f) → reads_as f (read_field f d) (read_field f old_data)) := by
  obtain ⟨hs, hl, h4⟩ := hp
  have hnf : t.table_meta_.normal_fields = t.table_meta_.fields := by
    unfold TableMeta.normal_fields
    rw [hs, List.drop_zero]
  unfold make_record_update_new at h
  simp only [] at h
  rw [hg, hnf] at h
  cases hv : values_or_old vec t.table_meta_.fields (some old_data) 0 t.table_meta_.fields with
  | none => rw [hv] at h; simp at h
  | some rv =>
    obtain ⟨rc, vals⟩ := rv
    rw [hv] at h
    obtain ⟨hrc, hF⟩ := values_or_old_spec vec _ old_data _ 0 (List.drop_zero _) _ hv
    simp only at hrc hF h
    rw [if_neg (by rw [hrc]; simp)] at h
    simp only [Outcome.ret.injEq] at h
    have hm : Miniob.make_record t.table_meta_ vals record junk = (RC.SUCCESS, r) :=
      Prod.ext h.1 h.2
    obtain ⟨d, hr, hc⟩ := make_record_success hm
    rw [hnf] at hc
    have hdl : d.length = t.table_meta_.record_size := by
      rw [copy_fields_length hc, length_malloc]
    refine ⟨d, hr, hdl, ?_⟩
    intro f hf
    obtain ⟨v, hq⟩ := mem_zip_of_mem hF.length_eq hf
    have hbuf : ∀ g ∈ t.table_meta_.fields,
        g.offset + g.len ≤ (malloc t.table_meta_.record_size junk).length := by
      intro g hg1
      rw [length_malloc]
      exact hl.1 g (by rw [hnf]; exact hg1)
    have hw := fun j hj => copy_fields_written hc hbuf (by rw [← hnf]; exact hl.2) (f, v) hq j hj 0
    have hcase := (List.forall₂_iff_zip.mp hF).2 hq
    constructor
    · intro p hp
      rcases hcase with ⟨p1, hp1, hqp⟩ | ⟨hnone, _⟩
      · rw [hp] at hp1
        simp only [Option.some.injEq] at hp1
        subst hp1
        obtain ⟨hpm, hpf⟩ := find_some_mem hp
        have hb := he p hpm
        rw [hpf] at hb
        rw [hqp] at hw
        exact read_back_encodable hb hw
      · rw [hp] at hnone
        simp at hnone
    · intro hno
      have hnone := (find_none_iff vec f).mpr hno
      rcases hcase with ⟨p1, hp1, _⟩ | ⟨_, hv1⟩
      · rw [hnone] at hp1
        simp at hp1
      · rw [hv1] at hw
        exact read_back_encodable (decoded_encodable f f old_data rfl (le_refl _) (h4 f hf)) hw

theorem cells_by_table_cons (t : Table) (record_data : List Byte) (i : Nat) (rest : List Nat)
    (acc : List (Nat × List (FieldMeta × Value))) :
    cells_by_table t record_data (i :: rest) acc =
      match t.meta_.tables.get? i, t.meta_.fields.get? i with
      | some table, some field =>
        cells_by_table t record_data rest
          (push_result acc table (field, (cell_at t.table_meta_.fields record_data i).2))
      | _, _ => none :=
  rfl

theorem cells_and_rids_cons (t : Table) (record_data : List Byte) (old_rid : RID) (i : Nat)
    (rest : List Nat) (acc : List (Nat × List (FieldMeta × Value))) (racc : List (Nat × RID)) :
    cells_and_rids t record_data old_rid (i :: rest) acc racc =
      match t.meta_.tables.get? i, t.meta_.fields.get? i with
      | some table, some field =>
        let acc1 :=
          push_result acc table (field, (cell_at t.table_meta_.fields record_data i).2)
        if racc.any (fun e => e.1 == table) then
          cells_and_rids t record_data old_rid rest acc1 racc
        else
          match (rid_map_at t.meta_.rid_map old_rid).1.get? i with
          | none => none
          | some rid =>
            cells_and_rids t record_data old_rid rest acc1 (racc ++ [(table, rid)])
      | _, _ => none :=
  rfl

theorem filter_keys_of_mem (rows : List (Nat × RID)) (table : Nat) (racc : List (Nat × RID))
    (h : table ∈ racc.map Prod.fst) :
    (rows.filter (fun e => decide (e.1 ≠ table))).filter
        (fun e => decide (e.1 ∉ racc.map Prod.fst)) =
      rows.filter (fun e => decide (e.1 ∉ racc.map Prod.fst)) :=
  filter_ne_of_mem rows table (racc.map Prod.fst) h

theorem filter_keys_append (rows : List (Nat × RID)) (table : Nat) (rid : RID)
    (racc : List (Nat × RID)) :
    (rows.filter (fun e => decide (e.1 ≠ table))).filter
        (fun e => decide (e.1 ∉ racc.map Prod.fst)) =
      rows.filter (fun e => decide (e.1 ∉ (racc ++ [(table, rid)]).map Prod.fst)) := by
  rw [List.filter_filter]
  apply List.filter_congr
  intro e _
  simp only [List.map_append, List.map_cons, List.map_nil, List.mem_append, List.mem_singleton,
    not_or, Bool.decide_and, Bool.and_comm]

theorem cells_and_rids_eq (t : Table) (record_data : List Byte) (old_rid : RID) (m k : Nat)
    (acc : List (Nat × List (FieldMeta × Value))) (racc : List (Nat × RID))
    (hk : k + m = t.meta_.tables.length)
    (hlen : t.meta_.tables.length ≤ (rid_map_at t.meta_.rid_map old_rid).1.length) :
    cells_and_rids t record_data old_rid (List.range' k m) acc racc =
      (cells_by_table t record_data (List.range' k m) acc).map (fun res =>
        (res, racc ++ (base_rows (t.meta_.tables.drop k)
          ((rid_map_at t.meta_.rid_map old_rid).1.drop k)).filter
            (fun e => decide (e.1 ∉ racc.map Prod.fst)))) := by
  induction m generalizing k acc racc with
  | zero =>
    have hdrop : t.meta_.tables.drop k = [] := List.drop_eq_nil_of_le (by omega)
    rw [hdrop]
    simp [base_rows, cells_and_rids, cells_by_table]
  | succ m ih =>
    have hk2 : k < t.meta_.tables.length := by omega
    have hk1 : k < (rid_map_at t.meta_.rid_map old_rid).1.length := by omega
    have htab : t.meta_.tables.drop k = t.meta_.tables[k] :: t.meta_.tables.drop (k + 1) :=
      List.drop_eq_getElem_cons hk2
    have hrid : (rid_map_at t.meta_.rid_map old_rid).1.drop k =
        (rid_map_at t.meta_.rid_map old_rid).1[k] ::
          (rid_map_at t.meta_.rid_map old_rid).1.drop (k + 1) :=
      List.drop_eq_getElem_cons hk1
    rw [htab, hrid, List.range'_succ, cells_and_rids_cons, cells_by_table_cons]
    rw [List.get?_eq_getElem?, List.getElem?_eq_getElem hk2]
    cases hfld : t.meta_.fields.get? k with
    | none => rfl
    | some field =>
      simp only
      have hany : (racc.any (fun e => e.1 == t.meta_.tables[k])) = true ↔
          t.meta_.tables[k] ∈ racc.map Prod.fst := by
        simp only [List.any_eq_true, beq_iff_eq, List.mem_map]
      unfold base_rows
      by_cases hd : t.meta_.tables[k] ∈ racc.map Prod.fst
      · rw [if_pos (hany.mpr hd), List.filter_cons_of_neg (by simpa using hd),
          filter_keys_of_mem _ _ _ hd]
        exact ih (k + 1) _ racc (by omega)
      · rw [if_neg (fun h => hd (hany.mp h)), List.get?_eq_getElem?,
          List.getElem?_eq_getElem hk1]
        simp only
        rw [List.filter_cons_of_pos (by simpa using hd),
          filter_keys_append _ _ (rid_map_at t.meta_.rid_map old_rid).1[k]]
        rw [ih (k + 1) _ (racc ++ [(t.meta_.tables[k], (rid_map_at t.meta_.rid_map old_rid).1[k])])
          (by omega)]
        simp only [List.append_assoc, List.singleton_append]

theorem lookup_of_mem {rows : List (Nat × RID)} (hn : (rows.map Prod.fst).Nodup) {k : Nat}
    {rid : RID} (h : (k, rid) ∈ rows) :
    ((rows.find? (fun e => e.1 == k)).map Prod.snd).getD (RID.mk 0 0) = rid := by
  cases hf : rows.find? (fun e => e.1 == k) with
  | none =>
    rw [List.find?_eq_none] at hf
    exact absurd (by simp) (hf (k, rid) h)
  | some e =>
    have h1 := List.find?_some hf
    simp only [beq_iff_eq] at h1
    have h2 := List.mem_of_find?_eq_some hf
    have := List.inj_on_of_nodup_map hn h2 h h1
    rw [this]
    rfl

theorem get_record_success {t : Table} {rid : RID} {record old : Record}
    (h : t.get_record rid record = (RC.SUCCESS, old)) :
    old.rid = rid ∧ ∃ data, old.data = some data := by
  unfold get_record at h
  cases hv : t.record_handler_.visit_record rid with
  | none => rw [hv] at h; simp at h
  | some src =>
    rw [hv] at h
    simp only [Prod.mk.injEq, true_and] at h
    have hr : src.rid = rid := by
      have := List.find?_some hv
      simpa using this
    rw [← h]
    exact ⟨hr, _, rfl⟩

theorem update_in_tables_effect (junk : Nat → Byte) (fuel : Nat) (table_rid_map : List (Nat × RID))
    (groups : List (Nat × List (FieldMeta × Value))) (db : Db)
    (hn : (groups.map Prod.fst).Nodup)
    (hb : ∀ g ∈ groups, ∃ base r old base1, db.table g.1 = some base ∧
      base.view_table_flag = false ∧
      base.make_record_update_new g.2 {}
        (((table_rid_map.find? (fun e => e.1 == g.1)).map Prod.snd).getD (RID.mk 0 0)) junk =
        Outcome.ret RC.SUCCESS r ∧
      base.get_record
        (((table_rid_map.find? (fun e => e.1 == g.1)).map Prod.snd).getD (RID.mk 0 0)) {} =
        (RC.SUCCESS, old) ∧
      base.update_record_own old { r with rid := old.rid } = Outcome.ret RC.SUCCESS base1) :
    ∃ db1, update_in_tables (Table.update_record junk fuel) junk table_rid_map groups db =
        Outcome.ret RC.SUCCESS db1 ∧
      (∀ k, k ∉ groups.map Prod.fst → db1.table k = db.table k) ∧
      ∀ g ∈ groups, ∃ base r old base1, db.table g.1 = some base ∧
        base.make_record_update_new g.2 {}
          (((table_rid_map.find? (fun e => e.1 == g.1)).map Prod.snd).getD (RID.mk 0 0)) junk =
          Outcome.ret RC.SUCCESS r ∧
        base.get_record
          (((table_rid_map.find? (fun e => e.1 == g.1)).map Prod.snd).getD (RID.mk 0 0)) {} =
          (RC.SUCCESS, old) ∧
        base.update_record_own old { r with rid := old.rid } = Outcome.ret RC.SUCCESS base1 ∧
        db1.table g.1 = some base1 := by
  induction groups generalizing db with
  | nil => exact ⟨db, rfl, fun _ _ => rfl, fun g hg => by cases hg⟩
  | cons g rest ih =>
    obtain ⟨k, vec⟩ := g
    simp only [List.map_cons, List.nodup_cons] at hn
    obtain ⟨hk, hn1⟩ := hn
    obtain ⟨base, r, old, base1, hbase, hview, hmk, hget, hown⟩ :=
      hb (k, vec) (List.mem_cons_self _ _)
    have hrest : ∀ g ∈ rest, g.1 ≠ k := by
      intro g hg heq
      exact hk (by rw [← heq]; exact List.mem_map_of_mem _ hg)
    obtain ⟨db1, hdb1, hother, hgroups⟩ := ih (db.set_table k base1) hn1 (by
      intro g hg
      rw [table_set_table_ne db base1 (hrest g hg)]
      exact hb g (List.mem_cons_of_mem _ hg))
    refine ⟨db1, ?_, ?_, ?_⟩
    · unfold update_in_tables
      simp only at hmk hget
      simp only [hbase, hmk, hget, ne_eq, not_true_eq_false, if_false,
        update_record_not_view junk fuel _ _ hbase hview, hown]
      exact hdb1
    · intro k1 hk1
      simp only [List.map_cons, List.mem_cons, not_or] at hk1
      rw [hother k1 hk1.2, table_set_table_ne db base1 hk1.1]
    · intro g hg
      rcases List.mem_cons.mp hg with hg | hg
      · subst hg
        refine ⟨base, r, old, base1, hbase, hmk, hget, hown, ?_⟩
        rw [hother k hk]
        exact table_set_table base1 hbase
      · obtain ⟨b, r2, o2, b1, h1, h2, h3, h4, h5⟩ := hgroups g hg
        rw [table_set_table_ne db base1 (hrest g hg)] at h1
        exact ⟨b, r2, o2, b1, h1, h2, h3, h4, h5⟩

/-- C24 (the claim as stated fails): in Scenario B the view `V` over `t1(a, b)`
and `t2(c CHARS(4))` stores the row `(1, 2, "ab")`, which agrees with the rows
`(1, 2)` of `t1` and `("ab")` of `t2`. `update V set a = 5`, with fresh buffers
full of nines, returns success and puts `5` into the column `a` of the row of
`t1`; the row of `t2`, whose column the update does not change, is rewritten:
its bytes were `"ab"` followed by two NULs and are then `"ab"`, a NUL and a
nine. -/
theorem view_update_rewrites_other_row :
    (List.range 3).map (fun i =>
        (cell_at scenario_view.table_meta_.fields [1, 0, 0, 0, 2, 0, 0, 0, 97, 98, 0, 0] i).2) =
      [read_field ⟨"a", AttrType.INTS, 0, 4⟩ [1, 0, 0, 0, 2, 0, 0, 0],
       read_field ⟨"b", AttrType.INTS, 4, 4⟩ [1, 0, 0, 0, 2, 0, 0, 0],
       read_field ⟨"c", AttrType.CHARS, 0, 4⟩ [97, 98, 0, 0]] ∧
    read_bytes [1, 0, 0, 0, 2, 0, 0, 0, 97, 98, 0, 0] 4 8 =
      read_bytes [5, 0, 0, 0, 2, 0, 0, 0, 97, 98, 0, 0] 4 8 ∧
    (scenario_b.table 1).map (fun base => base.record_handler_.records) =
      some [⟨⟨1, 1⟩, some [97, 98, 0, 0]⟩] ∧
    ∃ db1, Table.update_record (fun _ => 9) 1 scenario_b 2 v_row v_row_five =
        Outcome.ret RC.SUCCESS db1 ∧
      (db1.table 0).map (fun base => base.record_handler_.records) =
        some [⟨⟨1, 1⟩, some [5, 0, 0, 0, 2, 0, 0, 0]⟩] ∧
      (db1.table 1).map (fun base => base.record_handler_.records) =
        some [⟨⟨1, 1⟩, some [97, 98, 0, 9]⟩] :=
  ⟨by decide, by decide, rfl, _, rfl, rfl, rfl⟩

/-- C24 (amended): for an updatable view with one provenance entry per column,
whose projection is registered, and a view row whose rid has an entry with a
base rid for each column: when each base table of the view is a plain table
that is not a view, the values of the new view row fit its columns, and the
three steps on it succeed (`make_record_update_new` on the columns that it
owns, `get_record` of its row, `update_record`), then
`update_record_real_records` returns success, `Table::update_record` goes on to
update the heap and the indexes of the view itself, the tables that are not base
tables of the view are as they were, and in each base table the row at the base
rid recorded for its first column is rewritten (`row_rewritten`): the other rows
are as they were, each column supplied by the view holds the value of the new
view row, and each other column holds its old value; in a base table whose
columns in the new view row equal the stored values, every column of the row
holds the same value as before. -/
theorem view_update_rewrites_rows (junk : Nat → Byte) (fuel : Nat) (db : Db) (self : Nat)
    (t : Table) (old_record new_record : Record) (new_data : List Byte) (e : RID × List RID)
    (select_expr_flag_ : Bool)
    (ht : db.table self = some t) (hv : t.view_table_flag = true)
    (hu : t.meta_.updatable = true)
    (hp : db.project_oper t.name = some select_expr_flag_)
    (hc1 : t.meta_.tables.length = t.table_meta_.fields.length)
    (hc2 : t.meta_.fields.length = t.table_meta_.fields.length)
    (hnd : new_record.data = some new_data)
    (hm : t.meta_.rid_map.find? (fun e => decide (e.1 = old_record.rid)) = some e)
    (hlen : t.meta_.tables.length ≤ e.2.length)
    (hb : ∀ k rid, (k, rid) ∈ base_rows t.meta_.tables e.2 → ∃ base r old base1,
      db.table k = some base ∧ base.view_table_flag = false ∧ base.table_meta_.plain ∧
      (∀ p ∈ t.owned_cells new_data k, encodable p.1 p.2) ∧
      base.make_record_update_new (t.owned_cells new_data k) {} rid junk =
        Outcome.ret RC.SUCCESS r ∧
      base.get_record rid {} = (RC.SUCCESS, old) ∧
      base.update_record_own old { r with rid := old.rid } = Outcome.ret RC.SUCCESS base1) :
    ∃ db1, update_record_real_records (Table.update_record junk fuel) junk db t old_record
        new_record = Outcome.ret RC.SUCCESS db1 ∧
      db1.table self = some t ∧
      Table.update_record junk (fuel + 1) db self old_record new_record =
        (match t.update_record_own old_record new_record with
        | Outcome.ret rc t2 => Outcome.ret rc (db1.set_table self t2)
        | Outcome.abort => Outcome.abort
        | Outcome.out_of_fuel => Outcome.out_of_fuel) ∧
      (∀ k, k ∉ t.meta_.tables → db1.table k = db.table k) ∧
      ∀ k rid, (k, rid) ∈ base_rows t.meta_.tables e.2 →
        ∃ base base1, db.table k = some base ∧ db1.table k = some base1 ∧
          t.row_rewritten new_data k rid base base1 := by
  have hrm : rid_map_at t.meta_.rid_map old_record.rid = (e.2, t.meta_.rid_map) :=
    rid_map_at_of_find hm
  have hrows := base_rows_keys t.meta_.tables e.2
  have htake : t.meta_.tables.take e.2.length = t.meta_.tables := List.take_of_length_le hlen
  rw [htake] at hrows
  obtain ⟨groups, hgroups, hnd1, hkeys, hgrp⟩ :=
    cells_by_table_spec t new_data (List.range t.table_meta_.fields.length) []
      (fun i hi => by rw [List.mem_range] at hi; omega) List.nodup_nil
  have hkeys1 : ∀ k, k ∈ groups.map Prod.fst ↔ k ∈ t.meta_.tables := by
    intro k
    rw [hkeys k, mem_tables_iff t k hc1]
    simp
  have hcells : ∀ g ∈ groups, g.2 = t.owned_cells new_data g.1 := by
    intro g hg
    rw [← group_at_of_mem hnd1 hg, hgrp g.1]
    rfl
  have hcr : cells_and_rids t new_data old_record.rid (List.range t.table_meta_.fields.length)
      [] [] = some (groups, base_rows t.meta_.tables e.2) := by
    have := cells_and_rids_eq t new_data old_record.rid t.meta_.tables.length 0 [] []
      (by omega) (by rw [hrm]; exact hlen)
    rw [List.range_eq_range', ← hc1, this, ← List.range_eq_range', hc1, hgroups, hrm]
    simp
  have hrid_of : ∀ g ∈ groups, ∃ rid, (g.1, rid) ∈ base_rows t.meta_.tables e.2 ∧
      (((base_rows t.meta_.tables e.2).find? (fun x => x.1 == g.1)).map Prod.snd).getD
        (RID.mk 0 0) = rid := by
    intro g hg
    have hk : g.1 ∈ (base_rows t.meta_.tables e.2).map Prod.fst :=
      (hrows.2 g.1).mpr ((hkeys1 g.1).mp (List.mem_map_of_mem _ hg))
    obtain ⟨x, hx, hxk⟩ := List.mem_map.mp hk
    refine ⟨x.2, by rw [← hxk]; exact hx, ?_⟩
    exact lookup_of_mem hrows.1 (by rw [← hxk]; exact hx)
  obtain ⟨db1, hdb1, hother, heff⟩ := update_in_tables_effect junk fuel
    (base_rows t.meta_.tables e.2) groups db hnd1 (by
      intro g hg
      obtain ⟨rid, hmem, hlook⟩ := hrid_of g hg
      obtain ⟨base, r, old, base1, h1, h2, _, _, h5, h6, h7⟩ := hb g.1 rid hmem
      rw [hlook, hcells g hg]
      exact ⟨base, r, old, base1, h1, h2, h5, h6, h7⟩)
  have hself : self ∉ t.meta_.tables := by
    intro hs
    obtain ⟨x, hx, hxk⟩ := List.mem_map.mp ((hrows.2 self).mpr hs)
    obtain ⟨base, _, _, _, h1, h2, _⟩ := hb self x.2 (by rw [← hxk]; exact hx)
    rw [ht] at h1
    simp only [Option.some.injEq] at h1
    rw [← h1, hv] at h2
    cases h2
  have hreal : update_record_real_records (Table.update_record junk fuel) junk db t old_record
      new_record = Outcome.ret RC.SUCCESS db1 := by
    unfold update_record_real_records
    cases hf : t.table_meta_.fields with
    | nil =>
      rw [hf] at hgroups
      simp only [List.length_nil, List.range_zero, cells_by_table, Option.some.injEq] at hgroups
      rw [← hgroups] at hdb1
      simp only [update_in_tables, Outcome.ret.injEq, true_and] at hdb1
      simp only
      rw [hdb1]
    | cons f0 fs =>
      rw [hf] at hcr
      simp only [hnd, hcr]
      exact hdb1
  have hself1 : db1.table self = some t := by
    rw [hother self (fun h => hself ((hkeys1 self).mp h)), ht]
  refine ⟨db1, hreal, hself1, ?_, ?_, ?_⟩
  · simp only [Table.update_record, update_record_body, ht, hv, hu, hp, hreal, hself1, if_true,
      Bool.true_eq_false, if_false]
  · intro k hk
    exact hother k (fun h => hk ((hkeys1 k).mp h))
  · intro k rid hmem
    have hk : k ∈ groups.map Prod.fst :=
      (hkeys1 k).mpr ((hrows.2 k).mp (List.mem_map_of_mem Prod.fst hmem))
    obtain ⟨g, hg, hgk⟩ := List.mem_map.mp hk
    obtain ⟨base, r, old, base1, h1, h2, h3, h4, h5⟩ := heff g hg
    have hlook := lookup_of_mem hrows.1 hmem
    rw [hgk] at h1 h2 h3 h5
    rw [hcells g hg, hgk] at h2
    rw [hlook] at h2 h3
    obtain ⟨base0, _, _, _, h10, _, hplain, henc, _⟩ := hb k rid hmem
    rw [h1] at h10
    simp only [Option.some.injEq] at h10
    subst h10
    obtain ⟨hrid, old_data, hod⟩ := get_record_success h3
    have hgd : (base.get_record rid {}).2.data = some old_data := by rw [h3]; exact hod
    obtain ⟨d, hr, _, hread⟩ := make_record_update_new_reads hplain hgd henc h2
    obtain ⟨nd, hnd2, _, hin, _, hb1⟩ := update_record_own_success h4
    simp only [hr, Option.some.injEq] at hnd2
    subst hnd2
    refine ⟨base, base1, h1, h5, old_data, d, hgd, by rw [← hrid]; exact hin, ?_, hread, ?_⟩
    · rw [hb1, hrid]
    · intro hsame f hf
      by_cases hfind : ∃ p, (t.owned_cells new_data k).find? (fun p => decide (f = p.1)) = some p
      · obtain ⟨p, hp1⟩ := hfind
        obtain ⟨hpm, hpf⟩ := find_some_mem hp1
        have := (hread f hf).1 p hp1
        rw [hsame p hpm, hpf] at this
        exact this
      · have hnone : (t.owned_cells new_data k).find? (fun p => decide (f = p.1)) = none := by
          cases hc : (t.owned_cells new_data k).find? (fun p => decide (f = p.1)) with
          | none => rfl
          | some p => exact absurd ⟨p, hc⟩ hfind
        exact (hread f hf).2 ((find_none_iff _ f).mp hnone)

theorem view_update_rewrites_rows_witness :
    (reads_as ⟨"a", AttrType.INTS, 0, 4⟩
        (read_field ⟨"a", AttrType.INTS, 0, 4⟩ [5, 0, 0, 0, 2, 0, 0, 0])
        { attr_type_ := AttrType.INTS, length_ := 4, num_value_ := 5 } ∧
      read_field ⟨"c", AttrType.CHARS, 0, 4⟩ [97, 98, 0, 9] =
        read_field ⟨"c", AttrType.CHARS, 0, 4⟩ [97, 98, 0, 0]) ∧
    ∃ db1, update_record_real_records (Table.update_record (fun _ => 9) 0) (fun _ => 9) scenario_b
        scenario_view v_row v_row_five = Outcome.ret RC.SUCCESS db1 ∧
      db1.table 2 = some scenario_view ∧
      Table.update_record (fun _ => 9) (0 + 1) scenario_b 2 v_row v_row_five =
        (match scenario_view.update_record_own v_row v_row_five with
        | Outcome.ret rc t2 => Outcome.ret rc (db1.set_table 2 t2)
        | Outcome.abort => Outcome.abort
        | Outcome.out_of_fuel => Outcome.out_of_fuel) ∧
      (∀ k, k ∉ scenario_view.meta_.tables → db1.table k = scenario_b.table k) ∧
      ∀ k rid, (k, rid) ∈ base_rows scenario_view.meta_.tables
          ((⟨1, 1⟩, [⟨1, 1⟩, ⟨1, 1⟩, ⟨1, 1⟩]) : RID × List RID).2 →
        ∃ base base1, scenario_b.table k = some base ∧ db1.table k = some base1 ∧
          scenario_view.row_rewritten [5, 0, 0, 0, 2, 0, 0, 0, 97, 98, 0, 0] k rid base base1 :=
  ⟨⟨by decide, by decide⟩,
    view_update_rewrites_rows (fun _ => 9) 0 scenario_b 2 scenario_view v_row v_row_five
      [5, 0, 0, 0, 2, 0, 0, 0, 97, 98, 0, 0] (⟨1, 1⟩, [⟨1, 1⟩, ⟨1, 1⟩, ⟨1, 1⟩]) false
      rfl rfl rfl (by decide) rfl rfl rfl rfl (by decide) (fun k rid hmem => by
        have hrows : base_rows scenario_view.meta_.tables
            ((⟨1, 1⟩, [⟨1, 1⟩, ⟨1, 1⟩, ⟨1, 1⟩]) : RID × List RID).2 =
            [(0, ⟨1, 1⟩), (1, ⟨1, 1⟩)] := by decide
        rw [hrows] at hmem
        simp only [List.mem_cons, Prod.mk.injEq, List.mem_singleton, List.not_mem_nil,
          or_false] at hmem
        rcases hmem with ⟨hk, hr⟩ | ⟨hk, hr⟩
        · subst hk hr
          exact ⟨t1_table, { data := some [5, 0, 0, 0, 2, 0, 0, 0] },
            { rid := ⟨1, 1⟩, data := some [1, 0, 0, 0, 2, 0, 0, 0] },
            { t1_table with
              record_handler_ :=
                { records := [⟨⟨1, 1⟩, some [5, 0, 0, 0, 2, 0, 0, 0]⟩], next_rid := next_slot } },
            rfl, rfl, by decide, by decide, rfl, rfl, rfl⟩
        · subst hk hr
          exact ⟨t2_table, { data := some [97, 98, 0, 9] },
            { rid := ⟨1, 1⟩, data := some [97, 98, 0, 0] },
            { t2_table with
              record_handler_ :=
                { records := [⟨⟨1, 1⟩, some [97, 98, 0, 9]⟩], next_rid := next_slot } },
            rfl, rfl, by decide, by decide, rfl, rfl, rfl⟩)⟩

end Miniob

/-! ## Properties of index creation -/

namespace Miniob

open Table

theorem create_index_steps (t : Table) (files : Disk) (io : CreateIndexIo)
    (field_meta : List FieldMeta) (index_name : String) (unique : Bool) :
    t.create_index files io field_meta index_name unique =
      if is_blank index_name ∨ field_meta.length = 0 then (RC.INVALID_ARGUMENT, t, files)
      else if io.meta_init ≠ RC.SUCCESS then (io.meta_init, t, files)
      else if io.index_create ≠ RC.SUCCESS then (io.index_create, t, files)
      else if io.open_scan ≠ RC.SUCCESS then
        (io.open_scan, t,
          Disk.write files (table_index_file t.base_dir_ t.name index_name) FileData.index_file)
      else if (t.scanned_index io field_meta index_name unique).1 ≠ RC.SUCCESS then
        ((t.scanned_index io field_meta index_name unique).1, t,
          Disk.write files (table_index_file t.base_dir_ t.name index_name) FileData.index_file)
      else if io.add_index ≠ RC.SUCCESS then
        (io.add_index,
          { t with indexes_ := t.indexes_ ++ [(t.scanned_index io field_meta index_name unique).2] },
          Disk.write files (table_index_file t.base_dir_ t.name index_name) FileData.index_file)
      else if io.tmp_open = false then
        (RC.IOERR_OPEN,
          { t with indexes_ := t.indexes_ ++ [(t.scanned_index io field_meta index_name unique).2] },
          Disk.write files (table_index_file t.base_dir_ t.name index_name) FileData.index_file)
      else if io.serialize = false then
        (RC.IOERR_WRITE,
          { t with indexes_ := t.indexes_ ++ [(t.scanned_index io field_meta index_name unique).2] },
          Disk.write
            (Disk.write files (table_index_file t.base_dir_ t.name index_name) FileData.index_file)
            (table_meta_file t.base_dir_ t.name ++ ".tmp") FileData.torn)
      else if io.rename_ok = false then
        (RC.IOERR_WRITE,
          { t with indexes_ := t.indexes_ ++ [(t.scanned_index io field_meta index_name unique).2] },
          Disk.write
            (Disk.write files (table_index_file t.base_dir_ t.name index_name) FileData.index_file)
            (table_meta_file t.base_dir_ t.name ++ ".tmp")
            (FileData.table_meta (t.schema_with_index field_meta index_name unique)))
      else
        (RC.SUCCESS,
          { t with
            indexes_ := t.indexes_ ++ [(t.scanned_index io field_meta index_name unique).2],
            table_meta_ := t.schema_with_index field_meta index_name unique },
          Disk.rename
            (Disk.write
              (Disk.write files (table_index_file t.base_dir_ t.name index_name)
                FileData.index_file)
              (table_meta_file t.base_dir_ t.name ++ ".tmp")
              (FileData.table_meta (t.schema_with_index field_meta index_name unique)))
            (table_meta_file t.base_dir_ t.name ++ ".tmp") (table_meta_file t.base_dir_ t.name)) := by
  unfold create_index scanned_index schema_with_index created_index
  rfl

theorem read_write_ne (files : Disk) (p q : String) (d : FileData) (h : p ≠ q) :
    Disk.read (Disk.write files p d) q = Disk.read files q := by
  unfold Disk.read Disk.write
  rw [List.find?_append]
  have h1 : ((p, d).1 == q) = false := by
    simp only [beq_eq_false_iff_ne, ne_eq]
    exact h
  have h2 : List.find? (fun f => f.1 == q) (List.filter (fun f => f.1 != p) files) =
      List.find? (fun f => f.1 == q) files := by
    induction files with
    | nil => rfl
    | cons x rest ih =>
      by_cases hx : x.1 = p
      · have hxq : (x.1 == q) = false := by
          simp only [beq_eq_false_iff_ne, ne_eq]
          rw [hx]
          exact h
        rw [List.filter_cons_of_neg (by simp [hx]), List.find?_cons, hxq]
        exact ih
      · rw [List.filter_cons_of_pos (by simpa using hx), List.find?_cons, List.find?_cons, ih]
  rw [h2]
  cases List.find? (fun f => f.1 == q) files with
  | none => simp [List.find?, h1]
  | some x => simp

theorem read_write_self (files : Disk) (p : String) (d : FileData) :
    Disk.read (Disk.write files p d) p = some d := by
  unfold Disk.read Disk.write
  rw [List.find?_append]
  have h2 : List.find? (fun f => f.1 == p) (List.filter (fun f => f.1 != p) files) = none := by
    rw [List.find?_eq_none]
    intro x hx
    have := (List.mem_filter.mp hx).2
    simpa using this
  rw [h2]
  simp [List.find?]

theorem tmp_ne_meta (m : String) : m ++ ".tmp" ≠ m := by
  intro h
  have := congrArg String.length h
  simp [String.length_append] at this
  have h4 : (".tmp" : String).length = 4 := by decide
  omega

theorem index_file_ne_meta_file (base_dir table_name index_name : String) :
    table_index_file base_dir table_name index_name ≠ table_meta_file base_dir table_name := by
  intro h
  unfold table_index_file table_meta_file at h
  have h1 := congrArg (fun s : String => s.data.getLast?) h
  simp only [String.data_append, List.getLast?_append] at h1
  have h2 : (['.', 'i', 'n', 'd', 'e', 'x'] : List Char).getLast? = some 'x' := rfl
  have h3 : (['.', 't', 'a', 'b', 'l', 'e'] : List Char).getLast? = some 'e' := rfl
  have h6 : ∀ (a : Char) (o : Option Char), (some a).or o = some a := fun _ _ => rfl
  simp only [h2, h3, h6, Option.some.injEq] at h1
  revert h1
  decide

theorem index_records_cons (scan_next : Nat → RC) (k : Nat) (record : Record)
    (rest : List Record) (index : Index) :
    index_records scan_next k (record :: rest) index =
      if scan_next k ≠ RC.SUCCESS then (scan_next k, index)
      else if (index.insert_entry (record.data.getD []) record.rid).1 ≠ RC.SUCCESS then
        ((index.insert_entry (record.data.getD []) record.rid).1,
          (index.insert_entry (record.data.getD []) record.rid).2)
      else index_records scan_next (k + 1) rest
        (index.insert_entry (record.data.getD []) record.rid).2 := rfl

theorem index_records_append (scan_next : Nat → RC) (k : Nat) (pre rest : List Record)
    (index : Index) :
    index_records scan_next k (pre ++ rest) index =
      if (index_records scan_next k pre index).1 ≠ RC.SUCCESS then
        index_records scan_next k pre index
      else
        index_records scan_next (k + pre.length) rest (index_records scan_next k pre index).2 := by
  induction pre generalizing k index with
  | nil => simp [index_records]
  | cons r pre ih =>
    simp only [List.cons_append, List.length_cons]
    rw [index_records_cons, index_records_cons]
    by_cases hs : scan_next k ≠ RC.SUCCESS
    · simp only [if_pos hs]
    · simp only [if_neg hs]
      by_cases hi : (index.insert_entry (r.data.getD []) r.rid).1 ≠ RC.SUCCESS
      · simp only [if_pos hi]
      · simp only [if_neg hi]
        rw [ih (k + 1)]
        have : k + 1 + pre.length = k + (pre.length + 1) := by omega
        rw [this]

/-- The steps of a successful `Table::create_index`. -/
theorem create_index_success_steps (t : Table) (files : Disk) (io : CreateIndexIo)
    (field_meta : List FieldMeta) (index_name : String) (unique : Bool)
    (h : (t.create_index files io field_meta index_name unique).1 = RC.SUCCESS) :
    ¬ (is_blank index_name = true ∨ field_meta.length = 0) ∧ io.meta_init = RC.SUCCESS ∧
      io.index_create = RC.SUCCESS ∧ io.open_scan = RC.SUCCESS ∧
      (t.scanned_index io field_meta index_name unique).1 = RC.SUCCESS ∧
      io.add_index = RC.SUCCESS ∧ io.tmp_open = true ∧ io.serialize = true ∧
      io.rename_ok = true := by
  rw [create_index_steps] at h
  by_cases h1 : is_blank index_name = true ∨ field_meta.length = 0
  · rw [if_pos h1] at h
    cases h
  rw [if_neg h1] at h
  by_cases h2 : io.meta_init ≠ RC.SUCCESS
  · rw [if_pos h2] at h
    exact absurd h h2
  rw [if_neg h2] at h
  by_cases h3 : io.index_create ≠ RC.SUCCESS
  · rw [if_pos h3] at h
    exact absurd h h3
  rw [if_neg h3] at h
  by_cases h4 : io.open_scan ≠ RC.SUCCESS
  · rw [if_pos h4] at h
    exact absurd h h4
  rw [if_neg h4] at h
  by_cases h5 : (t.scanned_index io field_meta index_name unique).1 ≠ RC.SUCCESS
  · rw [if_pos h5] at h
    exact absurd h h5
  rw [if_neg h5] at h
  by_cases h6 : io.add_index ≠ RC.SUCCESS
  · rw [if_pos h6] at h
    exact absurd h h6
  rw [if_neg h6] at h
  by_cases h7 : io.tmp_open = false
  · rw [if_pos h7] at h
    cases h
  rw [if_neg h7] at h
  by_cases h8 : io.serialize = false
  · rw [if_pos h8] at h
    cases h
  rw [if_neg h8] at h
  by_cases h9 : io.rename_ok = false
  · rw [if_pos h9] at h
    cases h
  exact ⟨h1, not_not.mp h2, not_not.mp h3, not_not.mp h4, not_not.mp h5, not_not.mp h6,
    by simpa using h7, by simpa using h8, by simpa using h9⟩

/-- The result of `Table::create_index` when the scan has succeeded. -/
theorem create_index_after_scan (t : Table) (files : Disk) (io : CreateIndexIo)
    (field_meta : List FieldMeta) (index_name : String) (unique : Bool)
    (h1 : ¬ (is_blank index_name = true ∨ field_meta.length = 0))
    (h2 : io.meta_init = RC.SUCCESS) (h3 : io.index_create = RC.SUCCESS)
    (h4 : io.open_scan = RC.SUCCESS)
    (h5 : (t.scanned_index io field_meta index_name unique).1 = RC.SUCCESS) :
    t.create_index files io field_meta index_name unique =
      if io.add_index ≠ RC.SUCCESS then
        (io.add_index,
          { t with indexes_ := t.indexes_ ++ [(t.scanned_index io field_meta index_name unique).2] },
          Disk.write files (table_index_file t.base_dir_ t.name index_name) FileData.index_file)
      else if io.tmp_open = false then
        (RC.IOERR_OPEN,
          { t with indexes_ := t.indexes_ ++ [(t.scanned_index io field_meta index_name unique).2] },
          Disk.write files (table_index_file t.base_dir_ t.name index_name) FileData.index_file)
      else if io.serialize = false then
        (RC.IOERR_WRITE,
          { t with indexes_ := t.indexes_ ++ [(t.scanned_index io field_meta index_name unique).2] },
          Disk.write
            (Disk.write files (table_index_file t.base_dir_ t.name index_name) FileData.index_file)
            (table_meta_file t.base_dir_ t.name ++ ".tmp") FileData.torn)
      else if io.rename_ok = false then
        (RC.IOERR_WRITE,
          { t with indexes_ := t.indexes_ ++ [(t.scanned_index io field_meta index_name unique).2] },
          Disk.write
            (Disk.write files (table_index_file t.base_dir_ t.name index_name) FileData.index_file)
            (table_meta_file t.base_dir_ t.name ++ ".tmp")
            (FileData.table_meta (t.schema_with_index field_meta index_name unique)))
      else
        (RC.SUCCESS,
          { t with
            indexes_ := t.indexes_ ++ [(t.scanned_index io field_meta index_name unique).2],
            table_meta_ := t.schema_with_index field_meta index_name unique },
          Disk.rename
            (Disk.write
              (Disk.write files (table_index_file t.base_dir_ t.name index_name)
                FileData.index_file)
              (table_meta_file t.base_dir_ t.name ++ ".tmp")
              (FileData.table_meta (t.schema_with_index field_meta index_name unique)))
            (table_meta_file t.base_dir_ t.name ++ ".tmp") (table_meta_file t.base_dir_ t.name)) := by
  rw [create_index_steps, if_neg h1, if_neg (by rw [h2]; exact fun h => h rfl),
    if_neg (by rw [h3]; exact fun h => h rfl), if_neg (by rw [h4]; exact fun h => h rfl),
    if_neg (by rw [h5]; exact fun h => h rfl)]

/-- A failed `Table::create_index` leaves the schema in memory and the schema
file as they were. -/
theorem create_index_failure_schema (t : Table) (files : Disk) (io : CreateIndexIo)
    (field_meta : List FieldMeta) (index_name : String) (unique : Bool)
    (h : (t.create_index files io field_meta index_name unique).1 ≠ RC.SUCCESS) :
    (t.create_index files io field_meta index_name unique).2.1.table_meta_ = t.table_meta_ ∧
    Disk.read (t.create_index files io field_meta index_name unique).2.2
        (table_meta_file t.base_dir_ t.name) =
      Disk.read files (table_meta_file t.base_dir_ t.name) := by
  have hi := index_file_ne_meta_file t.base_dir_ t.name index_name
  have ht := tmp_ne_meta (table_meta_file t.base_dir_ t.name)
  rw [create_index_steps] at h ⊢
  by_cases h1 : is_blank index_name = true ∨ field_meta.length = 0
  · rw [if_pos h1]
    exact ⟨rfl, rfl⟩
  rw [if_neg h1] at h ⊢
  by_cases h2 : io.meta_init ≠ RC.SUCCESS
  · rw [if_pos h2]
    exact ⟨rfl, rfl⟩
  rw [if_neg h2] at h ⊢
  by_cases h3 : io.index_create ≠ RC.SUCCESS
  · rw [if_pos h3]
    exact ⟨rfl, rfl⟩
  rw [if_neg h3] at h ⊢
  by_cases h4 : io.open_scan ≠ RC.SUCCESS
  · rw [if_pos h4]
    exact ⟨rfl, read_write_ne _ _ _ _ hi⟩
  rw [if_neg h4] at h ⊢
  by_cases h5 : (t.scanned_index io field_meta index_name unique).1 ≠ RC.SUCCESS
  · rw [if_pos h5]
    exact ⟨rfl, read_write_ne _ _ _ _ hi⟩
  rw [if_neg h5] at h ⊢
  by_cases h6 : io.add_index ≠ RC.SUCCESS
  · rw [if_pos h6]
    exact ⟨rfl, read_write_ne _ _ _ _ hi⟩
  rw [if_neg h6] at h ⊢
  by_cases h7 : io.tmp_open = false
  · rw [if_pos h7]
    exact ⟨rfl, read_write_ne _ _ _ _ hi⟩
  rw [if_neg h7] at h ⊢
  by_cases h8 : io.serialize = false
  · rw [if_pos h8]
    refine ⟨rfl, ?_⟩
    show Disk.read (Disk.write _ _ _) _ = _
    rw [read_write_ne _ _ _ _ ht, read_write_ne _ _ _ _ hi]
  rw [if_neg h8] at h ⊢
  by_cases h9 : io.rename_ok = false
  · rw [if_pos h9]
    refine ⟨rfl, ?_⟩
    show Disk.read (Disk.write _ _ _) _ = _
    rw [read_write_ne _ _ _ _ ht, read_write_ne _ _ _ _ hi]
  rw [if_neg h9] at h
  exact absurd rfl h

theorem read_rename_written (files : Disk) (p q : String) (d : FileData) :
    Disk.read (Disk.rename (Disk.write files p d) p q) q = some d := by
  unfold Disk.rename
  rw [read_write_self]
  exact read_write_self _ _ _

/-- C31: `Table::create_index` with a blank index name or with an empty field
list returns `RC::INVALID_ARGUMENT`, and the table (its index list and its
schema) and the files (the schema file and the index files) are as they were. -/
theorem create_index_invalid_argument (t : Table) (files : Disk) (io : CreateIndexIo)
    (field_meta : List FieldMeta) (index_name : String) (unique : Bool)
    (h : is_blank index_name = true ∨ field_meta = []) :
    t.create_index files io field_meta index_name unique = (RC.INVALID_ARGUMENT, t, files) := by
  rw [create_index_steps, if_pos]
  rcases h with h | h
  · exact Or.inl h
  · exact Or.inr (by rw [h]; rfl)

theorem create_index_invalid_argument_witness :
    scenario_table.create_index scenario_files {} [⟨"name", AttrType.CHARS, 4, 4⟩] "  " false =
      (RC.INVALID_ARGUMENT, scenario_table, scenario_files) ∧
    scenario_table.create_index scenario_files {} [] "i_name" false =
      (RC.INVALID_ARGUMENT, scenario_table, scenario_files) :=
  ⟨create_index_invalid_argument scenario_table scenario_files {}
      [⟨"name", AttrType.CHARS, 4, 4⟩] "  " false (Or.inl (by decide)),
    create_index_invalid_argument scenario_table scenario_files {} [] "i_name" false
      (Or.inr rfl)⟩

/-- C32: when `Table::create_index` returns an error, at whichever step (the
argument check, `IndexMeta::init`, the creation of the index file, the scan, an
index insertion, `add_index`, the opening or the writing of the temporary file,
the rename), the schema file of the table has the content that it had before
the call. -/
theorem create_index_schema_file_kept (t : Table) (files : Disk) (io : CreateIndexIo)
    (field_meta : List FieldMeta) (index_name : String) (unique : Bool)
    (h : (t.create_index files io field_meta index_name unique).1 ≠ RC.SUCCESS) :
    Disk.read (t.create_index files io field_meta index_name unique).2.2
        (table_meta_file t.base_dir_ t.name) =
      Disk.read files (table_meta_file t.base_dir_ t.name) :=
  (create_index_failure_schema t files io field_meta index_name unique h).2

theorem create_index_schema_file_kept_witness :
    (scenario_table.create_index scenario_files { rename_ok := false }
        [⟨"name", AttrType.CHARS, 4, 4⟩] "i_name" false).1 = RC.IOERR_WRITE ∧
    Disk.read (scenario_table.create_index scenario_files { rename_ok := false }
        [⟨"name", AttrType.CHARS, 4, 4⟩] "i_name" false).2.2
        (table_meta_file scenario_table.base_dir_ scenario_table.name) =
      Disk.read scenario_files (table_meta_file scenario_table.base_dir_ scenario_table.name) :=
  ⟨rfl, create_index_schema_file_kept scenario_table scenario_files { rename_ok := false }
    [⟨"name", AttrType.CHARS, 4, 4⟩] "i_name" false (by
      have h : (scenario_table.create_index scenario_files { rename_ok := false }
        [⟨"name", AttrType.CHARS, 4, 4⟩] "i_name" false).1 = RC.IOERR_WRITE := rfl
      rw [h]
      decide)⟩

/-- C33: when `Table::create_index` returns success, the new index, the last of
the index list, holds one entry for each record of the heap scan, in scan order,
keyed on the bytes of the record, and no other entry. When the records before
some record of the scan have been inserted, the scanner yields that record as
well and the insertion of that record is refused, `Table::create_index` returns
the code of that insertion; the table (its index list and its schema) is as it
was. -/
theorem create_index_populates (t : Table) (files : Disk) (io : CreateIndexIo)
    (field_meta : List FieldMeta) (index_name : String) (unique : Bool) :
    ((t.create_index files io field_meta index_name unique).1 = RC.SUCCESS →
      (t.create_index files io field_meta index_name unique).2.1.indexes_ =
        t.indexes_ ++
          [{ created_index field_meta index_name unique with
            entries := t.record_handler_.records.map (fun r =>
              ((created_index field_meta index_name unique).key (r.data.getD []), r.rid)) }]) ∧
    ∀ (pre post : List Record) (r : Record) (index1 : Index),
      t.record_handler_.records = pre ++ r :: post →
      ¬ (is_blank index_name = true ∨ field_meta.length = 0) →
      io.meta_init = RC.SUCCESS → io.index_create = RC.SUCCESS → io.open_scan = RC.SUCCESS →
      index_records io.scan_next 0 pre (created_index field_meta index_name unique) =
        (RC.SUCCESS, index1) →
      io.scan_next pre.length = RC.SUCCESS →
      (index1.insert_entry (r.data.getD []) r.rid).1 ≠ RC.SUCCESS →
      (t.create_index files io field_meta index_name unique).1 =
        (index1.insert_entry (r.data.getD []) r.rid).1 ∧
      (t.create_index files io field_meta index_name unique).2.1 = t := by
  constructor
  · intro h
    obtain ⟨h1, h2, h3, h4, h5, h6, h7, h8, h9⟩ :=
      create_index_success_steps t files io field_meta index_name unique h
    rw [create_index_after_scan t files io field_meta index_name unique h1 h2 h3 h4 h5,
      if_neg (by rw [h6]; exact fun h => h rfl), if_neg (by rw [h7]; exact Bool.noConfusion),
      if_neg (by rw [h8]; exact Bool.noConfusion), if_neg (by rw [h9]; exact Bool.noConfusion)]
    have hs : t.scanned_index io field_meta index_name unique =
        (RC.SUCCESS, (t.scanned_index io field_meta index_name unique).2) :=
      Prod.ext h5 rfl
    have hs2 := hs
    unfold scanned_index at hs2
    have := index_records_success _ _ _ _ _ hs2
    show t.indexes_ ++ [(t.scanned_index io field_meta index_name unique).2] = _
    unfold scanned_index
    rw [this]
    simp [created_index, Index.key]
  · intro pre post r index1 hrec hargs hinit hcreate hopen hpre hscan hins
    have hs : t.scanned_index io field_meta index_name unique =
        ((index1.insert_entry (r.data.getD []) r.rid).1,
          (index1.insert_entry (r.data.getD []) r.rid).2) := by
      unfold scanned_index
      rw [hrec, index_records_append, hpre]
      rw [if_neg (fun h => h rfl), index_records_cons, Nat.zero_add,
        if_neg (by rw [hscan]; exact fun h => h rfl), if_pos hins]
    rw [create_index_steps, if_neg hargs, if_neg (by rw [hinit]; exact fun h => h rfl),
      if_neg (by rw [hcreate]; exact fun h => h rfl),
      if_neg (by rw [hopen]; exact fun h => h rfl), if_pos (by rw [hs]; exact hins)]
    rw [hs]
    exact ⟨rfl, rfl⟩

theorem create_index_populates_witness :
    (scenario_table.create_index scenario_files {} [⟨"name", AttrType.CHARS, 4, 4⟩] "i_name"
        false).2.1.indexes_ =
      scenario_table.indexes_ ++
        [{ created_index [⟨"name", AttrType.CHARS, 4, 4⟩] "i_name" false with
          entries := scenario_table.record_handler_.records.map (fun r =>
            ((created_index [⟨"name", AttrType.CHARS, 4, 4⟩] "i_name" false).key (r.data.getD []),
              r.rid)) }] ∧
    (same_name_table.create_index [] {} [⟨"name", AttrType.CHARS, 4, 4⟩] "i_name" true).1 =
      RC.RECORD_DUPLICATE_KEY ∧
    (same_name_table.create_index [] {} [⟨"name", AttrType.CHARS, 4, 4⟩] "i_name" true).2.1 =
      same_name_table :=
  ⟨(create_index_populates scenario_table scenario_files {} [⟨"name", AttrType.CHARS, 4, 4⟩]
      "i_name" false).1 rfl,
    (create_index_populates same_name_table [] {} [⟨"name", AttrType.CHARS, 4, 4⟩] "i_name"
      true).2 [⟨⟨1, 1⟩, some [1, 0, 0, 0, 97, 98, 0, 0]⟩] []
      ⟨⟨1, 2⟩, some [2, 0, 0, 0, 97, 98, 0, 0]⟩
      { created_index [⟨"name", AttrType.CHARS, 4, 4⟩] "i_name" true with
        entries := [([97, 98, 0, 0], ⟨1, 1⟩)] }
      rfl (by decide) rfl rfl rfl rfl rfl (by decide)⟩

/-- C34: when `Table::create_index` returns success, the index list of the
table is the old list with the new index, which carries the new descriptor,
appended last; the schema of the table is the old schema with the new descriptor
appended to its indexes; the schema file holds the serialization of that schema;
and the rename has succeeded. When the rename fails, the schema of the table is
the old one. -/
theorem create_index_publishes (t : Table) (files : Disk) (io : CreateIndexIo)
    (field_meta : List FieldMeta) (index_name : String) (unique : Bool) :
    ((t.create_index files io field_meta index_name unique).1 = RC.SUCCESS →
      (t.create_index files io field_meta index_name unique).2.1.indexes_ =
        t.indexes_ ++ [(t.scanned_index io field_meta index_name unique).2] ∧
      (t.scanned_index io field_meta index_name unique).2.index_meta =
        { name := index_name, fields := field_meta.map FieldMeta.name, unique := unique } ∧
      (t.create_index files io field_meta index_name unique).2.1.table_meta_ =
        { t.table_meta_ with indexes := t.table_meta_.indexes ++
          [{ name := index_name, fields := field_meta.map FieldMeta.name, unique := unique }] } ∧
      Disk.read (t.create_index files io field_meta index_name unique).2.2
          (table_meta_file t.base_dir_ t.name) =
        some (FileData.table_meta
          (t.create_index files io field_meta index_name unique).2.1.table_meta_) ∧
      io.rename_ok = true) ∧
    (io.rename_ok = false →
      (t.create_index files io field_meta index_name unique).1 ≠ RC.SUCCESS ∧
      (t.create_index files io field_meta index_name unique).2.1.table_meta_ = t.table_meta_) := by
  constructor
  · intro h
    obtain ⟨h1, h2, h3, h4, h5, h6, h7, h8, h9⟩ :=
      create_index_success_steps t files io field_meta index_name unique h
    rw [create_index_after_scan t files io field_meta index_name unique h1 h2 h3 h4 h5,
      if_neg (by rw [h6]; exact fun h => h rfl), if_neg (by rw [h7]; exact Bool.noConfusion),
      if_neg (by rw [h8]; exact Bool.noConfusion), if_neg (by rw [h9]; exact Bool.noConfusion)]
    refine ⟨rfl, ?_, rfl, read_rename_written _ _ _ _, h9⟩
    have hs : t.scanned_index io field_meta index_name unique =
        (RC.SUCCESS, (t.scanned_index io field_meta index_name unique).2) :=
      Prod.ext h5 rfl
    have hs2 := hs
    unfold scanned_index at hs2
    have := index_records_success _ _ _ _ _ hs2
    unfold scanned_index
    rw [this]
    rfl
  · intro h
    have hne : (t.create_index files io field_meta index_name unique).1 ≠ RC.SUCCESS := by
      intro hs
      have := (create_index_success_steps t files io field_meta index_name unique hs).2.2.2.2.2.2.2.2
      rw [h] at this
      cases this
    exact ⟨hne, (create_index_failure_schema t files io field_meta index_name unique hne).1⟩

theorem create_index_publishes_witness :
    ((scenario_table.create_index scenario_files {} [⟨"name", AttrType.CHARS, 4, 4⟩] "i_name"
        false).2.1.indexes_ =
      [scenario_index,
        { index_meta := ⟨"i_name", ["name"], false⟩,
          field_metas := [⟨"name", AttrType.CHARS, 4, 4⟩],
          entries := [([97, 98, 0, 0], ⟨1, 1⟩)] }] ∧
    Disk.read (scenario_table.create_index scenario_files {} [⟨"name", AttrType.CHARS, 4, 4⟩]
        "i_name" false).2.2 "/t.table" =
      some (FileData.table_meta { scenario_meta with
        indexes := [⟨"i_id", ["id"], true⟩, ⟨"i_name", ["name"], false⟩] })) ∧
    (scenario_table.create_index scenario_files { rename_ok := false }
        [⟨"name", AttrType.CHARS, 4, 4⟩] "i_name" false).2.1.table_meta_ = scenario_meta :=
  ⟨⟨((create_index_publishes scenario_table scenario_files {}
      [⟨"name", AttrType.CHARS, 4, 4⟩] "i_name" false).1 rfl).1,
    ((create_index_publishes scenario_table scenario_files {}
      [⟨"name", AttrType.CHARS, 4, 4⟩] "i_name" false).1 rfl).2.2.2.1⟩,
    ((create_index_publishes scenario_table scenario_files { rename_ok := false }
      [⟨"name", AttrType.CHARS, 4, 4⟩] "i_name" false).2 rfl).2⟩

/-- C35: when `Table::create_index` fails after the heap scan has finished
(`add_index`, the opening or the writing of the temporary file, or the rename
fails), it returns an error, the new index is the last of the index list of the
table, and the schema of the table and the schema file are as before the call:
neither lists the new index, so an index list as long as the index descriptors
of the schema is one longer than them after the call. A later successful
`insert_record` on the table adds the entry of the new record to that index. -/
theorem create_index_late_failure_keeps_handle (t : Table) (files : Disk) (io : CreateIndexIo)
    (field_meta : List FieldMeta) (index_name : String) (unique : Bool)
    (h1 : ¬ (is_blank index_name = true ∨ field_meta.length = 0))
    (h2 : io.meta_init = RC.SUCCESS) (h3 : io.index_create = RC.SUCCESS)
    (h4 : io.open_scan = RC.SUCCESS)
    (h5 : (t.scanned_index io field_meta index_name unique).1 = RC.SUCCESS)
    (hfail : io.add_index ≠ RC.SUCCESS ∨ io.tmp_open = false ∨ io.serialize = false ∨
      io.rename_ok = false) :
    (t.create_index files io field_meta index_name unique).1 ≠ RC.SUCCESS ∧
    (t.create_index files io field_meta index_name unique).2.1.indexes_ =
      t.indexes_ ++ [(t.scanned_index io field_meta index_name unique).2] ∧
    (t.create_index files io field_meta index_name unique).2.1.table_meta_ = t.table_meta_ ∧
    Disk.read (t.create_index files io field_meta index_name unique).2.2
        (table_meta_file t.base_dir_ t.name) =
      Disk.read files (table_meta_file t.base_dir_ t.name) ∧
    (t.indexes_.length = t.table_meta_.indexes.length →
      (t.create_index files io field_meta index_name unique).2.1.indexes_.length =
        (t.create_index files io field_meta index_name unique).2.1.table_meta_.indexes.length
          + 1) ∧
    ∀ (record record1 : Record) (t2 : Table),
      (t.create_index files io field_meta index_name unique).2.1.insert_record_own record =
        Outcome.ret RC.SUCCESS (t2, record1) →
      ∃ data, record.data = some data ∧ t2.table_meta_ = t.table_meta_ ∧
        t2.indexes_.getLast? =
          some { (t.scanned_index io field_meta index_name unique).2 with
            entries := (t.scanned_index io field_meta index_name unique).2.entries ++
              [((t.scanned_index io field_meta index_name unique).2.key data, record1.rid)] } := by
  have hne : (t.create_index files io field_meta index_name unique).1 ≠ RC.SUCCESS := by
    intro hs
    obtain ⟨_, _, _, _, _, h6, h7, h8, h9⟩ :=
      create_index_success_steps t files io field_meta index_name unique hs
    rcases hfail with hf | hf | hf | hf
    · exact hf h6
    · rw [h7] at hf; cases hf
    · rw [h8] at hf; cases hf
    · rw [h9] at hf; cases hf
  have hfs := create_index_failure_schema t files io field_meta index_name unique hne
  have hidx : (t.create_index files io field_meta index_name unique).2.1.indexes_ =
      t.indexes_ ++ [(t.scanned_index io field_meta index_name unique).2] := by
    have hc := create_index_after_scan t files io field_meta index_name unique h1 h2 h3 h4 h5
    rw [hc] at hne ⊢
    by_cases h6 : io.add_index ≠ RC.SUCCESS
    · rw [if_pos h6]
    rw [if_neg h6] at hne ⊢
    by_cases h7 : io.tmp_open = false
    · rw [if_pos h7]
    rw [if_neg h7] at hne ⊢
    by_cases h8 : io.serialize = false
    · rw [if_pos h8]
    rw [if_neg h8] at hne ⊢
    by_cases h9 : io.rename_ok = false
    · rw [if_pos h9]
    rw [if_neg h9] at hne
    exact absurd rfl hne
  refine ⟨hne, hidx, hfs.1, hfs.2, ?_, ?_⟩
  · intro hl
    rw [hidx, hfs.1, List.length_append, hl]
    rfl
  · intro record record1 t2 hins
    obtain ⟨data, hd, _, _, ht2⟩ := insert_record_own_success hins
    refine ⟨data, hd, ?_, ?_⟩
    · rw [ht2]
      exact hfs.1
    · rw [ht2]
      simp only
      rw [hidx, List.map_append, List.map_cons, List.map_nil, List.getLast?_append]
      rfl

theorem create_index_late_failure_keeps_handle_witness :
    ((scenario_table.create_index scenario_files rename_fails
        [⟨"name", AttrType.CHARS, 4, 4⟩] "i_name" false).1 = RC.IOERR_WRITE ∧
      (scenario_table.create_index scenario_files rename_fails
        [⟨"name", AttrType.CHARS, 4, 4⟩] "i_name" false).2.1.indexes_.length = 2 ∧
      (scenario_table.create_index scenario_files rename_fails
        [⟨"name", AttrType.CHARS, 4, 4⟩] "i_name" false).2.1.table_meta_.indexes.length = 1 ∧
      (scenario_table.create_index scenario_files rename_fails
        [⟨"name", AttrType.CHARS, 4, 4⟩] "i_name" false).2.1.insert_record_own
          ⟨⟨0, 0⟩, some [2, 0, 0, 0, 99, 100, 0, 0]⟩ =
        Outcome.ret RC.SUCCESS
          (half_indexed_table, ⟨⟨1, 2⟩, some [2, 0, 0, 0, 99, 100, 0, 0]⟩)) ∧
    (scenario_table.create_index scenario_files rename_fails
        [⟨"name", AttrType.CHARS, 4, 4⟩] "i_name" false).2.1.indexes_ =
      scenario_table.indexes_ ++
        [(scenario_table.scanned_index rename_fails [⟨"name", AttrType.CHARS, 4, 4⟩] "i_name"
          false).2] ∧
    (scenario_table.create_index scenario_files rename_fails
        [⟨"name", AttrType.CHARS, 4, 4⟩] "i_name" false).2.1.table_meta_ =
      scenario_table.table_meta_ :=
  ⟨⟨rfl, rfl, rfl, rfl⟩,
    (create_index_late_failure_keeps_handle scenario_table scenario_files rename_fails
      [⟨"name", AttrType.CHARS, 4, 4⟩] "i_name" false (by decide) rfl rfl rfl rfl
      (Or.inr (Or.inr (Or.inr rfl)))).2.1,
    (create_index_late_failure_keeps_handle scenario_table scenario_files rename_fails
      [⟨"name", AttrType.CHARS, 4, 4⟩] "i_name" false (by decide) rfl rfl rfl rfl
      (Or.inr (Or.inr (Or.inr rfl)))).2.2.1⟩

end Miniob

/-! ## Properties of the null sentinel, of self-updates, of view writes and of UPDATE -/

namespace Miniob

open Table

theorem set_same (l : List Value) (i : Nat) (v : Value) (h : l.get? i = some v) :
    l.set i v = l := by
  apply List.ext_getElem?
  intro j
  by_cases hj : i = j
  · subst hj
    have hi : i < l.length := by
      rcases Nat.lt_or_ge i l.length with h1 | h1
      · exact h1
      · rw [List.get?_eq_none.mpr h1] at h
        cases h
    rw [List.getElem?_set_self hi, ← List.get?_eq_getElem?, h]
  · rw [List.getElem?_set_ne hj]

theorem forall₂_get? {α β : Type} {R : α → β → Prop} {l1 : List α} {l2 : List β}
    (h : List.Forall₂ R l1 l2) (i : Nat) (a : α) (ha : l1.get? i = some a) :
    ∃ b, l2.get? i = some b ∧ R a b := by
  induction h generalizing i with
  | nil => cases ha
  | cons hab _ ih =>
    cases i with
    | zero =>
      simp only [List.get?_cons_zero, Option.some.injEq] at ha
      subst ha
      exact ⟨_, rfl, hab⟩
    | succ i => exact ih i ha

/-- C39: `Value::check_null` answers true for the INT value 1919810 that
`Value::set_int` made, the null flag never set. When the field number `i`, an
INT field, has no value among the pairs handed to `Table::make_record_by_values`,
the call gives the return code and the record, byte for byte, that
`Table::make_record` gives for the same values with the genuine INT 1919810 as
value number `i`; and `Value::check_null` answers true for the decoding of that
field of a record that `Table::make_record` made of the genuine value. -/
theorem null_sentinel_collides (t : Table) (vec : List (FieldMeta × Value)) (vals : List Value)
    (i : Nat) (f : FieldMeta) (record : Record) (junk : Nat → Byte)
    (hv : values_or_null vec t.table_meta_.normal_fields = some vals)
    (hi : t.table_meta_.normal_fields.get? i = some f) (hf : f.type = AttrType.INTS)
    (hno : ∀ p ∈ vec, p.1 ≠ f) :
    (∀ v : Value, (v.set_int 1919810).is_null = v.is_null ∧
      (v.set_int 1919810).check_null = some true) ∧
    t.make_record_by_values vec record junk =
      Outcome.ret (t.make_record (vals.set i (Value.of_int 1919810)) record junk).1
        (t.make_record (vals.set i (Value.of_int 1919810)) record junk).2 ∧
    (t.table_meta_.layout_ok → f.len = 4 →
      ∀ record1, t.make_record (vals.set i (Value.of_int 1919810)) record junk =
          (RC.SUCCESS, record1) →
        ∃ data, record1.data = some data ∧ (read_field f data).check_null = some true) := by
  have hset : vals.set i (Value.of_int 1919810) = vals := by
    apply set_same
    obtain ⟨w, hw, hR⟩ := forall₂_get? (values_or_null_spec hv) i f hi
    rw [hw]
    rcases hR with ⟨p, hp, _⟩ | ⟨_, hsn⟩
    · have := (find_none_iff vec f).mpr hno
      rw [this] at hp
      cases hp
    · rw [hf] at hsn
      simp only [Value.set_null, Option.some.injEq] at hsn
      rw [← hsn]
      rfl
  have hcall : t.make_record_by_values vec record junk =
      Outcome.ret (t.make_record vals record junk).1 (t.make_record vals record junk).2 := by
    unfold make_record_by_values
    rw [hv]
  refine ⟨fun v => ⟨rfl, ?_⟩, ?_, ?_⟩
  · simp [Value.check_null, Value.set_int, Value.attr_type, Value.get_int]
  · rw [hset]
    exact hcall
  · intro hl h4 record1 hm
    rw [hset] at hm
    have hr : t.make_record_by_values vec record junk = Outcome.ret RC.SUCCESS record1 := by
      rw [hcall, hm]
    obtain ⟨record_data, hrd, hall⟩ := make_record_by_values_absent_null hl hr
    have hmem : f ∈ t.table_meta_.normal_fields := List.get?_mem hi
    obtain ⟨w, _, hread, hcheck⟩ := hall f hmem hno (Or.inl ⟨Or.inl hf, h4⟩)
    refine ⟨record_data, ?_, ?_⟩
    · rw [hrd]
    · rw [hread]
      exact hcheck

theorem null_sentinel_collides_witness :
    (Value.of_int 1919810).is_null = false ∧
    (Value.of_int 1919810).check_null = some true ∧
    scenario_table.make_record_by_values
        [(⟨"name", AttrType.CHARS, 4, 4⟩,
          { attr_type_ := AttrType.CHARS, length_ := 2, str_value_ := [99, 100] })] {}
        (fun _ => 0) =
      Outcome.ret RC.SUCCESS { data := some [66, 75, 29, 0, 99, 100, 0, 0] } ∧
    scenario_table.make_record
        [Value.of_int 1919810,
          { attr_type_ := AttrType.CHARS, length_ := 2, str_value_ := [99, 100] }] {}
        (fun _ => 0) =
      (RC.SUCCESS, { data := some [66, 75, 29, 0, 99, 100, 0, 0] }) ∧
    scenario_table.make_record_by_values
        [(⟨"name", AttrType.CHARS, 4, 4⟩,
          { attr_type_ := AttrType.CHARS, length_ := 2, str_value_ := [99, 100] })] {}
        (fun _ => 0) =
      Outcome.ret
        (scenario_table.make_record
          ([Value.of_int 1919810,
            { attr_type_ := AttrType.CHARS, length_ := 2, str_value_ := [99, 100] }].set 0
              (Value.of_int 1919810)) {} (fun _ => 0)).1
        (scenario_table.make_record
          ([Value.of_int 1919810,
            { attr_type_ := AttrType.CHARS, length_ := 2, str_value_ := [99, 100] }].set 0
              (Value.of_int 1919810)) {} (fun _ => 0)).2 :=
  ⟨rfl, rfl, rfl, rfl,
    (null_sentinel_collides scenario_table
      [(⟨"name", AttrType.CHARS, 4, 4⟩,
        { attr_type_ := AttrType.CHARS, length_ := 2, str_value_ := [99, 100] })]
      [Value.of_int 1919810,
        { attr_type_ := AttrType.CHARS, length_ := 2, str_value_ := [99, 100] }]
      0 ⟨"id", AttrType.INTS, 0, 4⟩ {} (fun _ => 0) rfl rfl rfl (by decide)).2.1⟩

theorem delete_loop_of_mem (indexes : List Index) (record : List Byte) (rid : RID) (b : Bool)
    (h : ∀ index ∈ indexes, (index.key record, rid) ∈ index.entries) :
    delete_entry_loop indexes record rid b RC.SUCCESS =
      (RC.SUCCESS, indexes.map (fun index =>
        { index with entries := Index.erase_entry (index.key record, rid) index.entries })) := by
  induction indexes with
  | nil => rfl
  | cons index rest ih =>
    unfold delete_entry_loop
    rcases delete_entry_cases index record rid with ⟨_, h1, h2⟩ | ⟨h0, _, _⟩
    · simp only [h1, h2, ne_eq, not_true_eq_false, false_and, if_false]
      rw [ih (fun i hi => h i (List.mem_cons_of_mem _ hi))]
      rfl
    · exact absurd (h index (List.mem_cons_self _ _)) h0

theorem insert_entries_of_free (indexes : List Index) (record : List Byte) (rid : RID)
    (h : ∀ index ∈ indexes, (index.insert_entry record rid).1 = RC.SUCCESS) :
    insert_entry_of_indexes indexes record rid =
      (RC.SUCCESS, indexes.map (fun index =>
        { index with entries := index.entries ++ [(index.key record, rid)] })) := by
  induction indexes with
  | nil => rfl
  | cons index rest ih =>
    unfold insert_entry_of_indexes
    have h1 := h index (List.mem_cons_self _ _)
    rcases insert_entry_cases index record rid with ⟨_, h2⟩ | ⟨h3, _⟩
    · simp only [h1, h2, ne_eq, not_true_eq_false, if_false]
      rw [ih (fun i hi => h i (List.mem_cons_of_mem _ hi))]
      rfl
    · rw [h1] at h3
      cases h3

theorem key_not_mem_erase (l : List (List Byte × RID)) (e : List Byte × RID)
    (hn : (l.map Prod.fst).Nodup) (he : e ∈ l) :
    e.1 ∉ (Index.erase_entry e l).map Prod.fst := by
  induction l with
  | nil => cases he
  | cons x rest ih =>
    simp only [List.map_cons, List.nodup_cons] at hn
    unfold Index.erase_entry
    by_cases hx : x = e
    · rw [if_pos hx, ← hx]
      exact hn.1
    · rw [if_neg hx]
      have her : e ∈ rest := by
        rcases List.mem_cons.mp he with h | h
        · exact absurd h.symm hx
        · exact h
      simp only [List.map_cons, List.mem_cons, not_or]
      refine ⟨?_, ih hn.2 her⟩
      intro h1
      exact hn.1 (by rw [← h1]; exact List.mem_map_of_mem _ her)

theorem insert_after_erase (index : Index) (record : List Byte) (rid : RID)
    (hn : (index.entries.map Prod.snd).Nodup)
    (hu : index.index_meta.unique = true → (index.entries.map Prod.fst).Nodup)
    (he : (index.key record, rid) ∈ index.entries) :
    (Index.insert_entry
      { index with entries := Index.erase_entry (index.key record, rid) index.entries }
      record rid).1 = RC.SUCCESS := by
  unfold Index.insert_entry
  have hk : Index.key
      { index with entries := Index.erase_entry (index.key record, rid) index.entries } record =
      index.key record := rfl
  rw [hk]
  simp only
  have h1 : (index.key record, rid) ∉ Index.erase_entry (index.key record, rid) index.entries := by
    rw [erase_entry_eq_filter _ _ _ hn he]
    simp
  rw [if_neg h1]
  have h2 : ¬ (index.index_meta.unique = true ∧
      index.key record ∈
        (Index.erase_entry (index.key record, rid) index.entries).map Prod.fst) := by
    rintro ⟨hq, hm⟩
    exact key_not_mem_erase _ _ (hu hq) he hm
  rw [if_neg h2]

theorem map_self_update (records : List Record) (r : Record) (data : List Byte)
    (hn : (records.map Record.rid).Nodup) (hr : r ∈ records) (hd : r.data = some data) :
    records.map (fun x => if x.rid = r.rid then { x with data := some data } else x) =
      records := by
  induction records with
  | nil => rfl
  | cons x rest ih =>
    simp only [List.map_cons, List.nodup_cons] at hn
    rw [List.map_cons]
    rcases List.mem_cons.mp hr with h | h
    · subst h
      have hrest : rest.map (fun x => if x.rid = r.rid then { x with data := some data } else x) =
          rest := by
        conv_rhs => rw [← List.map_id rest]
        apply List.map_congr_left
        intro y hy
        have : y.rid ≠ r.rid := fun hq => hn.1 (by rw [← hq]; exact List.mem_map_of_mem _ hy)
        rw [if_neg this]
        rfl
      rw [hrest, if_pos rfl]
      obtain ⟨rid0, d0⟩ := r
      simp only at hd
      rw [hd]
    · have : x.rid ≠ r.rid := fun hq => hn.1 (by rw [hq]; exact List.mem_map_of_mem _ h)
      rw [if_neg this, ih hn.2 h]

theorem forall₂_map_self {α : Type} (R : α → α → Prop) (f : α → α) (l : List α)
    (h : ∀ x ∈ l, R (f x) x) : List.Forall₂ R (l.map f) l := by
  induction l with
  | nil => exact List.Forall₂.nil
  | cons x rest ih =>
    exact List.Forall₂.cons (h x (List.mem_cons_self _ _))
      (ih (fun y hy => h y (List.mem_cons_of_mem _ hy)))

/-- C38: on a table that is not a view, whose heap and indexes agree (the heap
has one record for each rid, each index holds exactly one entry for each record
of the heap and no other entry, the entry of the record `r` is keyed on the
bytes of `r`, and no key occurs twice in a unique index), for a record `r` of
the heap `Table::update_record(r, r)` returns success; after it the heap of the
table is the heap that it was, the schema of the table is as it was, and each
index has the descriptor, the fields and, the order of the list apart, the
entries that it had. -/
theorem update_record_self (junk : Nat → Byte) (fuel : Nat) (db : Db) (self : Nat) (t : Table)
    (r : Record) (data : List Byte)
    (ht : db.table self = some t) (hv : t.view_table_flag = false)
    (ha : t.one_entry_per_record)
    (hu : ∀ index ∈ t.indexes_, index.index_meta.unique = true →
      (index.entries.map Prod.fst).Nodup)
    (hr : r ∈ t.record_handler_.records) (hd : r.data = some data)
    (hk : ∀ index ∈ t.indexes_, (index.key data, r.rid) ∈ index.entries) :
    ∃ t1, Table.update_record junk fuel db self r r =
        Outcome.ret RC.SUCCESS (db.set_table self t1) ∧
      t1.record_handler_ = t.record_handler_ ∧ t1.table_meta_ = t.table_meta_ ∧
      List.Forall₂ (fun i1 i => i1.index_meta = i.index_meta ∧ i1.field_metas = i.field_metas ∧
        i1.entries.Perm i.entries) t1.indexes_ t.indexes_ := by
  have hrid : r.rid ∈ t.record_handler_.rids := List.mem_map_of_mem _ hr
  have hown : t.update_record_own r r =
      Outcome.ret RC.SUCCESS
        { t with
          indexes_ := (t.indexes_.map (fun index =>
            { index with
              entries := Index.erase_entry (index.key data, r.rid) index.entries })).map
            (fun index => { index with entries := index.entries ++ [(index.key data, r.rid)] }) } := by
    unfold update_record_own
    rw [if_neg (fun h => h rfl), hd]
    split
    · rename_i h0
      cases h0
    simp only [Option.getD_some]
    unfold delete_entry_of_indexes
    rw [delete_loop_of_mem _ _ _ _ hk]
    simp only [ne_eq, not_true_eq_false, if_false]
    rw [insert_entries_of_free]
    · simp only [ne_eq, not_true_eq_false, if_false]
      unfold RecordFileHandler.update_record
      rw [if_pos hrid]
      simp only
      rw [map_self_update _ r data ha.1 hr hd]
    · intro index hix
      obtain ⟨i0, hi0, rfl⟩ := List.mem_map.mp hix
      exact insert_after_erase i0 data r.rid (index_rids_nodup ha hi0) (hu i0 hi0) (hk i0 hi0)
  refine ⟨{ t with
      indexes_ := (t.indexes_.map (fun index =>
        { index with
          entries := Index.erase_entry (index.key data, r.rid) index.entries })).map
        (fun index => { index with entries := index.entries ++ [(index.key data, r.rid)] }) },
    ?_, rfl, rfl, ?_⟩
  · rw [update_record_not_view junk fuel r r ht hv, hown]
  · simp only [List.map_map]
    apply forall₂_map_self
    intro x hx
    refine ⟨rfl, rfl, ?_⟩
    simp only [Function.comp]
    exact (List.perm_append_singleton _ _).trans
      (perm_cons_erase_entry x.entries (x.key data, r.rid) (hk x hx)).symm

theorem update_record_self_witness :
    ∃ t1, Table.update_record (fun _ => 0) 0 { tables := [two_row_table] } 0 row_two row_two =
        Outcome.ret RC.SUCCESS (Db.set_table { tables := [two_row_table] } 0 t1) ∧
      t1.record_handler_ = two_row_table.record_handler_ ∧
      t1.table_meta_ = two_row_table.table_meta_ ∧
      List.Forall₂ (fun i1 i => i1.index_meta = i.index_meta ∧ i1.field_metas = i.field_metas ∧
        i1.entries.Perm i.entries) t1.indexes_ two_row_table.indexes_ :=
  update_record_self (fun _ => 0) 0 { tables := [two_row_table] } 0 two_row_table row_two
    [2, 0, 0, 0, 99, 100, 0, 0] rfl rfl (by unfold Table.one_entry_per_record; decide)
    (by decide) (by decide) rfl (by decide)

/-- C36: on an updatable view with a registered projection, when
`update_record_real_records` has returned, whatever its code (the error of a
base-table read, encoding or update included), `Table::update_record` goes on
with the view's own index entries and heap record and returns what those steps
return: the code of the decomposition is not part of the result. -/
theorem update_record_view_discards_decomposition (junk : Nat → Byte) (fuel : Nat)
    (db db1 : Db) (self : Nat) (t t1 : Table) (p : Bool)
    (old_record new_record : Record) (rc0 : RC)
    (ht : db.table self = some t) (hv : t.view_table_flag = true)
    (hp : db.project_oper t.name = some p) (hu : t.meta_.updatable = true)
    (hd : update_record_real_records (Table.update_record junk fuel) junk db t old_record
      new_record = Outcome.ret rc0 db1)
    (ht1 : db1.table self = some t1) :
    Table.update_record junk (fuel + 1) db self old_record new_record =
      match t1.update_record_own old_record new_record with
      | Outcome.ret rc t2 => Outcome.ret rc (db1.set_table self t2)
      | Outcome.abort => Outcome.abort
      | Outcome.out_of_fuel => Outcome.out_of_fuel := by
  show update_record_body (Table.update_record junk fuel) junk db self old_record new_record = _
  unfold update_record_body
  rw [ht]
  simp only []
  rw [if_pos hv, hp]
  simp only []
  rw [if_neg (by rw [hu]; exact Bool.noConfusion), hd]
  simp only []
  rw [ht1]

theorem update_record_view_discards_decomposition_witness :
    update_record_real_records (Table.update_record (fun _ => 0) 0) (fun _ => 0)
        scenario_b_taken scenario_view v_row v_row_five =
      Outcome.ret RC.RECORD_DUPLICATE_KEY scenario_b_refused ∧
    Table.update_record (fun _ => 0) 1 scenario_b_taken 2 v_row v_row_five =
      Outcome.ret RC.SUCCESS
        (scenario_b_refused.set_table 2
          { scenario_view with
            record_handler_ := { records := [v_row_five], next_rid := next_slot } }) :=
  ⟨rfl,
    update_record_view_discards_decomposition (fun _ => 0) 0 scenario_b_taken scenario_b_refused
      2 scenario_view scenario_view false v_row v_row_five
      RC.RECORD_DUPLICATE_KEY rfl rfl rfl rfl rfl rfl⟩

/-- The decomposition of a view row returns once every base table has encoded
its part of the row: the database is then `decomposed`. -/
theorem insert_map_into_tables_returns (junk : Nat → Byte) (fuel : Nat) (db : Db) (t : Table)
    (record : Record) (data : List Byte)
    (hc1 : t.meta_.tables.length = t.table_meta_.fields.length)
    (hc2 : t.meta_.fields.length = t.table_meta_.fields.length)
    (hd : record.data = some data)
    (hb : ∀ k ∈ t.meta_.tables, ∃ base r, db.table k = some base ∧
      base.view_table_flag = false ∧
      base.make_record_by_values (t.owned_cells data k) {} junk = Outcome.ret RC.SUCCESS r) :
    ∃ db1, insert_map_into_tables (Table.insert_record junk fuel) junk db t record =
        Outcome.ret RC.SUCCESS db1 ∧ t.decomposed junk data db db1 := by
  obtain ⟨groups, hgroups, hnd, hkeys, hgrp⟩ :=
    cells_by_table_spec t data (List.range t.table_meta_.fields.length) []
      (fun i hi => by rw [List.mem_range] at hi; omega) List.nodup_nil
  have hkeys1 : ∀ k, k ∈ groups.map Prod.fst ↔ k ∈ t.meta_.tables := by
    intro k
    rw [hkeys k, mem_tables_iff t k hc1]
    simp
  have hcells : ∀ g ∈ groups, g.2 = t.owned_cells data g.1 := by
    intro g hg
    rw [← group_at_of_mem hnd hg, hgrp g.1]
    rfl
  obtain ⟨db1, hdb1, hother, heff⟩ := insert_into_tables_effect junk fuel groups db hnd (by
    intro g hg
    rw [hcells g hg]
    exact hb g.1 ((hkeys1 g.1).mp (List.mem_map_of_mem _ hg)))
  refine ⟨db1, ?_, ?_, ?_⟩
  · unfold insert_map_into_tables
    cases hf : t.table_meta_.fields with
    | nil =>
      rw [hf] at hgroups
      simp only [List.length_nil, List.range_zero, cells_by_table, Option.some.injEq] at hgroups
      rw [← hgroups] at hdb1
      simp only [insert_into_tables] at hdb1
      simp only
      exact hdb1
    | cons f0 fs =>
      rw [hf] at hgroups
      simp only [hd, hgroups]
      exact hdb1
  · intro k hk
    exact hother k (fun h => hk ((hkeys1 k).mp h))
  · intro k hk
    obtain ⟨g, hg, hgk⟩ := List.mem_map.mp ((hkeys1 k).mpr hk)
    obtain ⟨base, r, rc, base1, r1, h1, h2, h3, h4⟩ := heff g hg
    rw [hcells g hg, hgk] at h2
    rw [hgk] at h1 h4
    exact ⟨base, r, rc, base1, r1, h1, h2, h3, h4⟩

/-- C37 (the claim as stated fails): the view `dv` shows the column `day` of
`memo(day DATE, body TEXT(8))`. For the view row `(20231019)`
`make_record_by_values` fails on `memo` with `RC::SCHEMA_FIELD_TYPE_MISMATCH`
(the null of the absent TEXT column is a CHARS value) and leaves the record
without buffer; the insertion of the row into the heap of the view alone returns
success, but `Table::insert_record` on the view does not return: the call of
`insert_record` on `memo` uses the buffer of that record, a null pointer. -/
theorem view_insert_stops_at_failed_encoding :
    memo_table.make_record_by_values
        [(⟨"day", AttrType.DATE, 0, 4⟩,
          { attr_type_ := AttrType.DATE, length_ := 4, num_value_ := 20231019 })] {}
        (fun _ => 0) =
      Outcome.ret RC.SCHEMA_FIELD_TYPE_MISMATCH {} ∧
    day_view.insert_record_own day_record =
      Outcome.ret RC.SUCCESS
        ({ day_view with
            record_handler_ :=
              { records := [⟨⟨1, 1⟩, some [107, 179, 52, 1]⟩], next_rid := next_slot } },
          ⟨⟨1, 1⟩, some [107, 179, 52, 1]⟩) ∧
    Table.insert_record (fun _ => 0) 1 memo_db 1 day_record = Outcome.abort :=
  ⟨rfl, rfl, rfl⟩

/-- C37 (amended): on a view without a free expression, with one (table, field)
provenance entry per column, when every base table named in the provenance is a
table that is not a view and `make_record_by_values` succeeds on the view
columns that it owns, `insert_map_into_tables` returns; each base table is then
what its own `insert_record` has left of it, whatever the code of that call (a
refusal has neither stopped the insertions into the other base tables nor undone
them); and `Table::insert_record` on the view returns what the insertion into
the heap and the indexes of the view returns: its code does not depend on the
codes of the base tables. -/
theorem view_insert_drops_base_codes (junk : Nat → Byte) (fuel : Nat) (db : Db) (self : Nat)
    (t : Table) (record : Record) (data : List Byte)
    (ht : db.table self = some t) (hv : t.view_table_flag = true)
    (hp : db.project_oper t.name = some false)
    (hc1 : t.meta_.tables.length = t.table_meta_.fields.length)
    (hc2 : t.meta_.fields.length = t.table_meta_.fields.length)
    (hd : record.data = some data)
    (hb : ∀ k ∈ t.meta_.tables, ∃ base r, db.table k = some base ∧
      base.view_table_flag = false ∧
      base.make_record_by_values (t.owned_cells data k) {} junk = Outcome.ret RC.SUCCESS r) :
    ∃ db1, insert_map_into_tables (Table.insert_record junk fuel) junk db t record =
        Outcome.ret RC.SUCCESS db1 ∧
      (∀ k ∈ t.meta_.tables, ∃ base r rc base1 r1, db.table k = some base ∧
        base.make_record_by_values (t.owned_cells data k) {} junk = Outcome.ret RC.SUCCESS r ∧
        base.insert_record_own r = Outcome.ret rc (base1, r1) ∧ db1.table k = some base1) ∧
      (∀ k, k ∉ t.meta_.tables → db1.table k = db.table k) ∧
      Table.insert_record junk (fuel + 1) db self record =
        match t.insert_record_own record with
        | Outcome.ret rc (t2, record1) => Outcome.ret rc (db1.set_table self t2, record1)
        | Outcome.abort => Outcome.abort
        | Outcome.out_of_fuel => Outcome.out_of_fuel := by
  obtain ⟨db1, hm, hother, hbase⟩ :=
    insert_map_into_tables_returns junk fuel db t record data hc1 hc2 hd hb
  have hself : self ∉ t.meta_.tables := by
    intro hs
    obtain ⟨base, _, h1, h2, _⟩ := hb self hs
    rw [ht] at h1
    simp only [Option.some.injEq] at h1
    rw [← h1, hv] at h2
    cases h2
  have ht1 : db1.table self = some t := by rw [hother self hself, ht]
  refine ⟨db1, hm, hbase, hother, ?_⟩
  simp only [Table.insert_record, insert_record_body, ht, hv, hp, hm, ht1, if_true,
    Bool.false_eq_true, if_false]

theorem view_insert_drops_base_codes_witness :
    (scenario_table.insert_record_own ⟨⟨0, 0⟩, some [1, 0, 0, 0, 120, 122, 104, 115]⟩ =
        Outcome.ret RC.RECORD_DUPLICATE_KEY
          (scenario_table, ⟨⟨1, 2⟩, some [1, 0, 0, 0, 120, 122, 104, 115]⟩) ∧
      Table.insert_record (fun _ => 0) 1 view_db_taken 2 view_record_taken =
        Outcome.ret RC.SUCCESS
          ({ view_db_taken with
              tables :=
                [{ people_table with
                    record_handler_ :=
                      { records := [⟨⟨1, 1⟩,
                          some [5, 0, 0, 0, 120, 122, 104, 115, 101, 104, 0, 0, 66, 75, 29, 0]⟩],
                        next_rid := next_slot } },
                  scenario_table,
                  { view_table "v" with
                    record_handler_ :=
                      { records := [⟨⟨1, 1⟩, some [5, 0, 0, 0, 1, 0, 0, 0]⟩],
                        next_rid := next_slot } }] },
            ⟨⟨1, 1⟩, some [5, 0, 0, 0, 1, 0, 0, 0]⟩)) ∧
    ∃ db1, insert_map_into_tables (Table.insert_record (fun _ => 0) 0) (fun _ => 0)
        view_db_taken (view_table "v") view_record_taken = Outcome.ret RC.SUCCESS db1 ∧
      (∀ k ∈ (view_table "v").meta_.tables, ∃ base r rc base1 r1,
        view_db_taken.table k = some base ∧
        base.make_record_by_values
          ((view_table "v").owned_cells [5, 0, 0, 0, 1, 0, 0, 0] k) {} (fun _ => 0) =
          Outcome.ret RC.SUCCESS r ∧
        base.insert_record_own r = Outcome.ret rc (base1, r1) ∧ db1.table k = some base1) ∧
      (∀ k, k ∉ (view_table "v").meta_.tables → db1.table k = view_db_taken.table k) ∧
      Table.insert_record (fun _ => 0) (0 + 1) view_db_taken 2 view_record_taken =
        match (view_table "v").insert_record_own view_record_taken with
        | Outcome.ret rc (t2, record1) => Outcome.ret rc (db1.set_table 2 t2, record1)
        | Outcome.abort => Outcome.abort
        | Outcome.out_of_fuel => Outcome.out_of_fuel :=
  ⟨⟨rfl, rfl⟩,
    view_insert_drops_base_codes (fun _ => 0) 0 view_db_taken 2 (view_table "v")
      view_record_taken [5, 0, 0, 0, 1, 0, 0, 0] rfl rfl rfl rfl rfl rfl (by
        intro k hk
        have hk1 : k = 0 ∨ k = 1 := by
          simpa [view_table] using hk
        rcases hk1 with h | h
        · subst h
          exact ⟨people_table, _, rfl, rfl, rfl⟩
        · subst h
          exact ⟨scenario_table, _, rfl, rfl, rfl⟩)⟩

theorem length_assign_field (value : Value) (field_meta : FieldMeta) (data : List Byte) :
    (UpdatePhysicalOperator.assign_field value field_meta data).length = data.length := by
  unfold UpdatePhysicalOperator.assign_field
  simp only
  split_ifs <;> simp [length_copy_bytes]

theorem getD_assign_field (value : Value) (field_meta : FieldMeta) (data : List Byte) (p : Nat)
    (h : p < field_meta.offset ∨ field_meta.offset + value.length < p) :
    (UpdatePhysicalOperator.assign_field value field_meta data).getD p 0 = data.getD p 0 := by
  have hc : ∀ g : Byte → Byte,
      (copy_bytes g value.data field_meta.offset value.length data).getD p 0 = data.getD p 0 := by
    intro g
    rw [getD_copy_bytes, if_neg (by omega)]
  unfold UpdatePhysicalOperator.assign_field
  simp only
  split_ifs <;> first
    | exact hc _
    | (rw [getD_set_byte, if_neg (by omega), hc])

theorem assign_fields_ok (values : List Value) (field_metas : List FieldMeta) (data : List Byte)
    (hl : values.length ≤ field_metas.length)
    (h : ∀ vf ∈ values.zip field_metas, vf.1.length ≤ vf.2.len) :
    ∃ data1, UpdatePhysicalOperator.assign_fields values field_metas data =
        Outcome.ret RC.SUCCESS data1 ∧ data1.length = data.length ∧
      ∀ p, (∀ vf ∈ values.zip field_metas, p < vf.2.offset ∨ vf.2.offset + vf.1.length < p) →
        data1.getD p 0 = data.getD p 0 := by
  induction values generalizing field_metas data with
  | nil =>
    refine ⟨data, ?_, rfl, fun _ _ => rfl⟩
    cases field_metas <;> rfl
  | cons v vs ih =>
    cases field_metas with
    | nil => simp at hl
    | cons f fs =>
      simp only [List.length_cons, Nat.add_le_add_iff_right] at hl
      have hv : ¬ v.length > f.len := by
        have := h (v, f) (by simp)
        simp only at this
        omega
      obtain ⟨data1, h1, h2, h3⟩ := ih fs (UpdatePhysicalOperator.assign_field v f data) hl
        (fun vf hvf => h vf (by simp only [List.zip_cons_cons]; exact List.mem_cons_of_mem _ hvf))
      refine ⟨data1, ?_, ?_, ?_⟩
      · unfold UpdatePhysicalOperator.assign_fields
        rw [if_neg hv]
        exact h1
      · rw [h2, length_assign_field]
      · intro p hp
        rw [h3 p (fun vf hvf =>
          hp vf (by simp only [List.zip_cons_cons]; exact List.mem_cons_of_mem _ hvf))]
        exact getD_assign_field v f data p (hp (v, f) (by simp))

theorem assign_fields_too_long (pre_v post_v : List Value) (pre_f post_f : List FieldMeta)
    (v : Value) (f : FieldMeta) (data : List Byte) (hl : pre_v.length = pre_f.length)
    (h : ∀ vf ∈ pre_v.zip pre_f, vf.1.length ≤ vf.2.len) (hv : f.len < v.length) :
    ∃ data1, UpdatePhysicalOperator.assign_fields (pre_v ++ v :: post_v) (pre_f ++ f :: post_f)
      data = Outcome.ret RC.INVALID_ARGUMENT data1 := by
  induction pre_v generalizing pre_f data with
  | nil =>
    cases pre_f with
    | nil =>
      refine ⟨data, ?_⟩
      simp only [List.nil_append]
      unfold UpdatePhysicalOperator.assign_fields
      rw [if_pos hv]
    | cons _ _ => simp at hl
  | cons v0 vs ih =>
    cases pre_f with
    | nil => simp at hl
    | cons f0 fs =>
      simp only [List.length_cons, Nat.add_right_cancel_iff] at hl
      have hv0 : ¬ v0.length > f0.len := by
        have := h (v0, f0) (by simp)
        simp only at this
        omega
      obtain ⟨data1, h1⟩ := ih fs (UpdatePhysicalOperator.assign_field v0 f0 data) hl
        (fun vf hvf => h vf (by simp only [List.zip_cons_cons]; exact List.mem_cons_of_mem _ hvf))
      refine ⟨data1, ?_⟩
      simp only [List.cons_append]
      unfold UpdatePhysicalOperator.assign_fields
      rw [if_neg hv0]
      exact h1

/-- C40: for a row that `UpdatePhysicalOperator::next` processes, the record of
the current tuple of the child. When no value is longer than its field,
`Table::update_record` is called with the old record and a new record that has
the rid of the old record and `record_size` bytes, and each byte of the new
record outside the ranges `[offset_i, offset_i + length(value_i)]` of the
assigned fields is the byte of the old record at that place. When some value is
longer than its field, the values before it not longer than theirs, `next`
returns `RC::INVALID_ARGUMENT` and the database is as before the row, whatever
`Table::update_record` would have done: it is not called for that row. -/
theorem update_next_keeps_frame (op : UpdatePhysicalOperator) (record_size : Nat)
    (old_record : Record) (old_data : List Byte) (hd : old_record.data = some old_data) :
    (op.values_.length ≤ op.field_metas_.length →
      (∀ vf ∈ op.values_.zip op.field_metas_, vf.1.length ≤ vf.2.len) →
      ∃ data, data.length = record_size ∧
        (∀ p, p < record_size →
          (∀ vf ∈ op.values_.zip op.field_metas_,
            p < vf.2.offset ∨ vf.2.offset + vf.1.length < p) →
          data.getD p 0 = old_data.getD p 0) ∧
        (∀ (update : Db → Nat → Record → Record → Outcome Db) (rest : List (Option Record))
          (db : Db),
          UpdatePhysicalOperator.next_rows update op record_size (some old_record :: rest) db =
            match update db op.table_ old_record { rid := old_record.rid, data := some data } with
            | Outcome.ret rc1 db1 =>
              if rc1 ≠ RC.SUCCESS then Outcome.ret rc1 db1
              else UpdatePhysicalOperator.next_rows update op record_size rest db1
            | Outcome.abort => Outcome.abort
            | Outcome.out_of_fuel => Outcome.out_of_fuel) ∧
        ∀ (junk : Nat → Byte) (fuel : Nat) (rest : List (Option Record)) (db : Db) (t : Table),
          op.children_ = some (some old_record :: rest) → db.table op.table_ = some t →
          t.table_meta_.record_size = record_size →
          UpdatePhysicalOperator.next junk fuel op db =
            match Table.update_record junk fuel db op.table_ old_record
              { rid := old_record.rid, data := some data } with
            | Outcome.ret rc1 db1 =>
              if rc1 ≠ RC.SUCCESS then Outcome.ret rc1 db1
              else UpdatePhysicalOperator.next_rows (Table.update_record junk fuel) op
                record_size rest db1
            | Outcome.abort => Outcome.abort
            | Outcome.out_of_fuel => Outcome.out_of_fuel) ∧
    ∀ (pre_v post_v : List Value) (pre_f post_f : List FieldMeta) (v : Value) (f : FieldMeta),
      op.values_ = pre_v ++ v :: post_v → op.field_metas_ = pre_f ++ f :: post_f →
      pre_v.length = pre_f.length → (∀ vf ∈ pre_v.zip pre_f, vf.1.length ≤ vf.2.len) →
      f.len < v.length →
      (∀ (update : Db → Nat → Record → Record → Outcome Db) (rest : List (Option Record))
        (db : Db),
        UpdatePhysicalOperator.next_rows update op record_size (some old_record :: rest) db =
          Outcome.ret RC.INVALID_ARGUMENT db) ∧
      ∀ (junk : Nat → Byte) (fuel : Nat) (rest : List (Option Record)) (db : Db) (t : Table),
        op.children_ = some (some old_record :: rest) → db.table op.table_ = some t →
        t.table_meta_.record_size = record_size →
        UpdatePhysicalOperator.next junk fuel op db = Outcome.ret RC.INVALID_ARGUMENT db := by
  constructor
  · intro hl hlen
    obtain ⟨data, h1, h2, h3⟩ :=
      assign_fields_ok op.values_ op.field_metas_ (read_bytes old_data 0 record_size) hl hlen
    have hrows : ∀ (update : Db → Nat → Record → Record → Outcome Db)
        (rest : List (Option Record)) (db : Db),
        UpdatePhysicalOperator.next_rows update op record_size (some old_record :: rest) db =
          match update db op.table_ old_record { rid := old_record.rid, data := some data } with
          | Outcome.ret rc1 db1 =>
            if rc1 ≠ RC.SUCCESS then Outcome.ret rc1 db1
            else UpdatePhysicalOperator.next_rows update op record_size rest db1
          | Outcome.abort => Outcome.abort
          | Outcome.out_of_fuel => Outcome.out_of_fuel := by
      intro update rest db
      rw [UpdatePhysicalOperator.next_rows]
      simp only [hd, h1, ne_eq, not_true_eq_false, if_false]
    refine ⟨data, ?_, ?_, hrows, ?_⟩
    · rw [h2, length_read_bytes]
    · intro p hp hout
      rw [h3 p hout]
      have := getD_read_bytes old_data 0 record_size p hp
      rw [Nat.zero_add] at this
      exact this
    · intro junk fuel rest db t hc ht hs
      unfold UpdatePhysicalOperator.next
      rw [hc]
      simp only [ht, hs]
      exact hrows _ rest db
  · intro pre_v post_v pre_f post_f v f hv hf hl hpre hlong
    obtain ⟨data1, h1⟩ := assign_fields_too_long pre_v post_v pre_f post_f v f
      (read_bytes old_data 0 record_size) hl hpre hlong
    have hrows : ∀ (update : Db → Nat → Record → Record → Outcome Db)
        (rest : List (Option Record)) (db : Db),
        UpdatePhysicalOperator.next_rows update op record_size (some old_record :: rest) db =
          Outcome.ret RC.INVALID_ARGUMENT db := by
      intro update rest db
      rw [UpdatePhysicalOperator.next_rows]
      simp only [hd, hv, hf, h1]
      rfl
    refine ⟨hrows, ?_⟩
    intro junk fuel rest db t hc ht hs
    unfold UpdatePhysicalOperator.next
    rw [hc]
    simp only [ht, hs]
    exact hrows _ rest db

theorem update_next_keeps_frame_witness :
    (UpdatePhysicalOperator.next (fun _ => 0) 0 update_name { tables := [two_row_table] } =
        Outcome.ret RC.RECORD_EOF
          { tables :=
              [{ two_row_table with
                  record_handler_ :=
                    { records := [⟨⟨1, 1⟩, some [1, 0, 0, 0, 97, 98, 0, 0]⟩,
                        ⟨⟨1, 2⟩, some [2, 0, 0, 0, 120, 121, 0, 0]⟩],
                      next_rid := next_slot } }] } ∧
      ∃ data, data.length = 8 ∧
        (∀ p, p < 8 →
          (∀ vf ∈ update_name.values_.zip update_name.field_metas_,
            p < vf.2.offset ∨ vf.2.offset + vf.1.length < p) →
          data.getD p 0 = ([2, 0, 0, 0, 99, 100, 0, 0] : List Byte).getD p 0) ∧
        ∀ (update : Db → Nat → Record → Record → Outcome Db) (rest : List (Option Record))
          (db : Db),
          UpdatePhysicalOperator.next_rows update update_name 8 (some row_two :: rest) db =
            match update db update_name.table_ row_two { rid := row_two.rid, data := some data } with
            | Outcome.ret rc1 db1 =>
              if rc1 ≠ RC.SUCCESS then Outcome.ret rc1 db1
              else UpdatePhysicalOperator.next_rows update update_name 8 rest db1
            | Outcome.abort => Outcome.abort
            | Outcome.out_of_fuel => Outcome.out_of_fuel) ∧
    UpdatePhysicalOperator.next (fun _ => 0) 0 update_long_name { tables := [two_row_table] } =
      Outcome.ret RC.INVALID_ARGUMENT { tables := [two_row_table] } :=
  ⟨⟨rfl, by
      obtain ⟨data, h1, h2, h3, _⟩ :=
        (update_next_keeps_frame update_name 8 row_two [2, 0, 0, 0, 99, 100, 0, 0] rfl).1
          (by decide) (by decide)
      exact ⟨data, h1, h2, h3⟩⟩,
    ((update_next_keeps_frame update_long_name 8 row_two [2, 0, 0, 0, 99, 100, 0, 0] rfl).2
      [] [] [] []
      { attr_type_ := AttrType.CHARS, length_ := 5, str_value_ := [97, 98, 99, 100, 101] }
      ⟨"name", AttrType.CHARS, 4, 4⟩ rfl rfl rfl (by decide) (by decide)).2
      (fun _ => 0) 0 [] { tables := [two_row_table] } two_row_table rfl rfl rfl⟩

end Miniob
